import Mathlib

/-!
# Dovecot lib-settings: binary configuration blob and settings resolution

A shallow embedding of `src/lib-settings/settings.c`.

* The mmap()ed configuration file is a list of bytes.  Every byte access goes
  through `read_bytes` / `c_str_at`, which report a read outside the buffer as
  the fault `mmap_read idx` (undefined behaviour in C).
* A C function returning `-1` with `*error_r` set is `Res.error`.
* `size_t` / `uint64_t` are `Nat`; arithmetic that can exceed 64 bits on
  values taken from the file is reduced with `wrap64`.
-/

namespace Settings

/-! ## Bytes, C strings, results -/

abbrev Byte := Fin 256

/-- C string contents: the bytes before the terminating NUL. -/
abbrev CStr := List Byte

/-- ASCII text as the bytes of a C string (no terminator). -/
def cs (s : String) : CStr := s.toList.map (fun c => Fin.ofNat c.toNat)

/-- Arithmetic modulo 2^64 (`size_t` and `uint64_t`). -/
def wrap64 (n : Nat) : Nat := n % 18446744073709551616

/-- Ways in which the C code leaves defined behaviour or aborts. -/
inductive settings_fault where
  /-- read of the byte at `idx`, which is not inside the mmap()ed buffer -/
  | mmap_read (idx : Nat)
  /-- read of element `idx` behind the end of the named array -/
  | array_read (name : String) (idx : Nat)
  /-- a call of `i_panic()` or `i_unreached()`, or a failed `i_assert()` -/
  | panic (msg : String)
  /-- the loop bound of the model was exhausted (never reached) -/
  | out_of_fuel
  deriving DecidableEq

/-- The error strings of settings.c, one constructor per format string, with
the formatted arguments. -/
inductive settings_error where
  | area_too_small_uint (name : String) (offset end_offset file_size : Nat)
  | area_too_small_size (name : String) (offset end_offset file_size : Nat)
  | size_points_outside_area (name : String) (offset size end_offset file_size : Nat)
  | str_points_outside_area (name : String) (offset end_offset file_size : Nat)
  | invalid_filter (filter_string : CStr) (index : Nat) (error : CStr)
  | block_no_nul (offset : Nat)
  | duplicate_block_name (name : CStr) (offset : Nat)
  | filter_end_offset_mismatch (offset block_end_offset : Nat)
  | header_no_magic
  | unsupported_version (version : CStr)
  | full_size_mismatch (full_size_offset size_len full_size file_size : Nat)
  | key_index_too_high (key_idx settings_count : Nat)
  | key_value_points_outside_blob (offset end_offset file_size : Nat)
  | value_points_outside_blob (offset end_offset file_size : Nat)
  | invalid_setting_apply (key value error : CStr)
  | expand_failed (key error : CStr)
  | invalid_setting (pfx : String) (key value orig_value : CStr)
  | key_mismatch (info_name : CStr) (index : Nat) (info_key blob_key : CStr)
  | count_mismatch (info_name : CStr) (index_plus_one settings_count : Nat)
  | no_settings_struct (info_name : CStr)
  | block_error (error : CStr)
  | event_filter_idx_too_high (idx count : Nat)
  | filter_error (error : CStr)
  | append_not_string (key : CStr)
  | override_invalid (type_name : String) (key value : CStr)
  | override_apply_failed (type_name : String) (key value error : CStr)
  | failed_to_parse_configuration (inner : settings_error)
  | invalid_settings (info_name : CStr) (error : CStr)
  | filter_not_found (filter_key filter_value : Option CStr)
  deriving DecidableEq

/-- Outcome of a C function: a value, `-1` with an error, or a fault. -/
inductive Res (α : Type) where
  | ok (a : α)
  | error (e : settings_error)
  | fault (f : settings_fault)
  deriving DecidableEq

namespace Res

def bind {α β : Type} (x : Res α) (f : α → Res β) : Res β :=
  match x with
  | .ok a => f a
  | .error e => .error e
  | .fault t => .fault t

/-- The call returned a value (neither `-1` nor a fault). -/
def isOk {α : Type} : Res α → Bool
  | .ok _ => true
  | _ => false

/-- The call returned `-1` with an error string. -/
def isError {α : Type} : Res α → Bool
  | .error _ => true
  | _ => false

/-- The call left defined behaviour. -/
def isFault {α : Type} : Res α → Bool
  | .fault _ => true
  | _ => false

end Res

instance : Monad Res where
  pure := Res.ok
  bind := Res.bind

/-- Big-endian value of a byte sequence. -/
def be_value (bs : List Byte) : Nat := bs.foldl (fun acc b => acc * 256 + b.val) 0

/-- The `n` bytes at `offset`; a fault if any of them lies outside the buffer. -/
def read_bytes (base : List Byte) (offset n : Nat) : Res (List Byte) :=
  if offset + n ≤ base.length then .ok ((base.drop offset).take n)
  else .fault (.mmap_read (max offset base.length))

/-- The byte at `offset` (`((const char *)mmap_base)[offset]`). -/
def read_byte (base : List Byte) (offset : Nat) : Res Byte :=
  match base.drop offset with
  | b :: _ => .ok b
  | [] => .fault (.mmap_read offset)

/-- Source: `be32_to_cpu_unaligned(CONST_PTR_OFFSET(mmap_base, offset))`. -/
def be32_to_cpu_unaligned (base : List Byte) (offset : Nat) : Res Nat :=
  (read_bytes base offset 4).bind (fun bs => .ok (be_value bs))

/-- Source: `be64_to_cpu_unaligned(CONST_PTR_OFFSET(mmap_base, offset))`. -/
def be64_to_cpu_unaligned (base : List Byte) (offset : Nat) : Res Nat :=
  (read_bytes base offset 8).bind (fun bs => .ok (be_value bs))

/-- The bytes before the first NUL, if there is a NUL. -/
def c_str : List Byte → Option CStr
  | [] => none
  | b :: rest => if b = 0 then some [] else (c_str rest).map (fun s => b :: s)

/-- The C string starting at `offset`: what `strlen()` scans.  Without a NUL
before the end of the buffer the scan reads the byte behind the buffer. -/
def c_str_at (base : List Byte) (offset : Nat) : Res CStr :=
  match c_str (base.drop offset) with
  | some s => .ok s
  | none => .fault (.mmap_read (max offset base.length))

/-- Index of the first occurrence: `memchr(base, c, size)`. -/
def memchr (c : Byte) : List Byte → Option Nat
  | [] => none
  | b :: rest => if b = c then some 0 else (memchr c rest).map (fun i => i + 1)

/-- The suffix starting at the first `c`: `strchr(s, c)`. -/
def strchr (c : Byte) : CStr → Option CStr
  | [] => none
  | b :: rest => if b = c then some (b :: rest) else strchr c rest

/-! ## Event filters -/

/-- Modelled from the spec: a compiled event filter (lib/event-filter.c is not
among the sources): a boolean predicate over named event fields. -/
inductive event_filter where
  | field_eq (key value : CStr)
  | op_not (a : event_filter)
  | op_and (a b : event_filter)
  | op_or (a b : event_filter)
  deriving DecidableEq

/-- Modelled from the spec: `event_filter_find_field_exact(filter, key,
&op_not)`: the value of the first equality clause on `key`, and whether the
clause stands under a negation. -/
def event_filter_find_field_exact : event_filter → CStr → Bool → Option (CStr × Bool)
  | .field_eq k v, key, neg => if k = key then some (v, neg) else none
  | .op_not a, key, neg => event_filter_find_field_exact a key (!neg)
  | .op_and a b, key, neg =>
    match event_filter_find_field_exact a key neg with
    | some r => some r
    | none => event_filter_find_field_exact b key neg
  | .op_or a b, key, neg =>
    match event_filter_find_field_exact a key neg with
    | some r => some r
    | none => event_filter_find_field_exact b key neg

/-- An entry of `mmap->event_filters[]`: one of the two static sentinels or a
compiled filter. -/
inductive mmap_event_filter where
  | EVENT_FILTER_MATCH_ALWAYS
  | EVENT_FILTER_MATCH_NEVER
  | filter (f : event_filter)
  deriving DecidableEq

/-- The reserved field `SETTINGS_EVENT_FILTER_NAME`. -/
def SETTINGS_EVENT_FILTER_NAME : CStr := cs "settings_filter_name"

/-! ## The parsed blob -/

structure settings_mmap_block where
  name : CStr
  block_end_offset : Nat
  /-- if set, accessing the block must fail -/
  error : Option CStr := none
  base_start_offset : Nat := 0
  base_end_offset : Nat := 0
  filter_count : Nat := 0
  filter_indexes_start_offset : Nat := 0
  filter_offsets_start_offset : Nat := 0
  settings_count : Nat := 0
  settings_keys_offset : Nat := 0
  /-- TRUE if settings have been validated against setting_parser_info -/
  settings_validated : Bool := false
  deriving DecidableEq

structure settings_mmap where
  mmap_base : List Byte
  event_filters : List mmap_event_filter := []
  event_filters_count : Nat := 0
  /-- the hash table name -> block, in insertion order -/
  blocks : List settings_mmap_block := []
  deriving DecidableEq

/-- The size of the mapping, `mmap->mmap_size`. -/
def settings_mmap.mmap_size (mmap : settings_mmap) : Nat := mmap.mmap_base.length

/-- Source: `hash_table_lookup(mmap->blocks, name)`. -/
def settings_mmap.lookup (mmap : settings_mmap) (name : CStr) : Option settings_mmap_block :=
  mmap.blocks.find? (fun b => b.name = name)

/-! ## Binary blob parser -/

/-- Source: `settings_block_read_uint32` (settings.c:119).  Returns the number
and the advanced offset. -/
def settings_block_read_uint32 (base : List Byte) (offset end_offset : Nat)
    (name : String) : Res (Nat × Nat) :=
  if wrap64 (offset + 4) > end_offset then
    .error (.area_too_small_uint name offset end_offset base.length)
  else
    (be32_to_cpu_unaligned base offset).bind (fun num =>
      .ok (num, wrap64 (offset + 4)))

/-- Source: `settings_block_read_size` (settings.c:137).  Returns the size and
the advanced offset. -/
def settings_block_read_size (base : List Byte) (offset end_offset : Nat)
    (name : String) : Res (Nat × Nat) :=
  if wrap64 (offset + 8) > end_offset then
    .error (.area_too_small_size name offset end_offset base.length)
  else
    (be64_to_cpu_unaligned base offset).bind (fun size =>
      if size > end_offset - offset - 8 then
        .error (.size_points_outside_area name offset size end_offset base.length)
      else
        .ok (size, wrap64 (offset + 8)))

/-- Source: `settings_block_read_str` (settings.c:163).  `strlen()` runs before
the comparison with `end_offset`.  Returns the string and the advanced
offset. -/
def settings_block_read_str (base : List Byte) (offset end_offset : Nat)
    (name : String) : Res (CStr × Nat) :=
  (c_str_at base offset).bind (fun str =>
    let offset := wrap64 (offset + (str.length + 1))
    if offset > end_offset then
      .error (.str_points_outside_area name offset end_offset base.length)
    else
      .ok (str, offset))

/-- The parts of the process identity and of the read flags that
`settings_read_filters` consults, and the event-filter parser
(`event_filter_parse_case_sensitive()`, lib/event-filter-parser.y, not among
the sources), taken as a parameter. -/
structure settings_read_params where
  service_name : Option CStr := none
  /-- the value of `mmap->root->protocol_name` -/
  protocol_name : Option CStr := none
  /-- flag `SETTINGS_READ_NO_PROTOCOL_FILTER` -/
  no_protocol_filter : Bool := false
  event_filter_parse : CStr → Except CStr event_filter

/-- One iteration of the loop of `settings_read_filters` (settings.c:195-248)
on an already parsed non-empty filter: the entry stored in
`mmap->event_filters[i]` and the updated `protocols` array. -/
def settings_read_filter_entry (p : settings_read_params) (tmp_filter : event_filter)
    (protocols : List CStr) : mmap_event_filter × List CStr :=
  let service_check : mmap_event_filter :=
    match event_filter_find_field_exact tmp_filter (cs "service") false, p.service_name with
    | some (value, op_not), some service_name =>
      if (decide (value = service_name)) == op_not then
        .EVENT_FILTER_MATCH_NEVER
      else .filter tmp_filter
    | _, _ => .filter tmp_filter
  match event_filter_find_field_exact tmp_filter (cs "protocol") false with
  | some (value0, op_not) =>
    let value := if op_not then cs "!" ++ value0 else value0
    let protocols := if value ∈ protocols then protocols else protocols ++ [value]
    match p.protocol_name with
    | some protocol_name =>
      if ((decide (protocol_name = value)) == op_not) && !p.no_protocol_filter then
        (.EVENT_FILTER_MATCH_NEVER, protocols)
      else (service_check, protocols)
    | none => (service_check, protocols)
  | none => (service_check, protocols)

/-- The loop of `settings_read_filters` (settings.c:195-248): `n` filter strings
remain, `i` is the index of the next one. -/
def settings_read_filters_loop (p : settings_read_params) (base : List Byte) :
    Nat → Nat → Nat → List mmap_event_filter → List CStr →
    Res (List mmap_event_filter × Nat × List CStr)
  | 0, _, offset, filters, protocols => .ok (filters, offset, protocols)
  | n + 1, i, offset, filters, protocols =>
    (settings_block_read_str base offset base.length "filter string").bind (fun r =>
      let filter_string := r.1
      let offset := r.2
      if filter_string = [] then
        settings_read_filters_loop p base n (i + 1) offset
          (filters ++ [.EVENT_FILTER_MATCH_ALWAYS]) protocols
      else
        match p.event_filter_parse filter_string with
        | .error error => .error (.invalid_filter filter_string i error)
        | .ok tmp_filter =>
          let e := settings_read_filter_entry p tmp_filter protocols
          settings_read_filters_loop p base n (i + 1) offset (filters ++ [e.1]) e.2)

/-- Source: `settings_read_filters` (settings.c:179).  Returns the mmap with its
filter table, the advanced offset and the `protocols` array. -/
def settings_read_filters (p : settings_read_params) (mmap : settings_mmap)
    (offset : Nat) (protocols : List CStr) : Res (settings_mmap × Nat × List CStr) :=
  (settings_block_read_uint32 mmap.mmap_base offset mmap.mmap_size "filters count").bind
    (fun r =>
      (settings_read_filters_loop p mmap.mmap_base r.1 0 r.2 [] protocols).bind (fun l =>
        .ok ({ mmap with event_filters_count := r.1, event_filters := l.1 }, l.2.1, l.2.2)))

/-- The loop over the settings keys in `settings_block_read` (settings.c:304):
`n` keys remain. -/
def settings_block_read_keys (base : List Byte) (block_end_offset : Nat) :
    Nat → Nat → Res Nat
  | 0, offset => .ok offset
  | n + 1, offset =>
    (settings_block_read_str base offset block_end_offset "setting key").bind (fun r =>
      settings_block_read_keys base block_end_offset n r.2)

/-- The loop over the filters in `settings_block_read` (settings.c:339): `n`
filters remain. -/
def settings_block_read_filters (base : List Byte) (block_end_offset : Nat) :
    Nat → Nat → Res Nat
  | 0, offset => .ok offset
  | n + 1, offset =>
    (settings_block_read_size base offset block_end_offset "filter settings size").bind
      (fun r =>
        let filter_settings_size := r.1
        let offset := r.2
        let filter_end_offset := offset + filter_settings_size
        (settings_block_read_str base offset filter_end_offset "filter error string").bind
          (fun _ =>
            settings_block_read_filters base block_end_offset n
              (offset + filter_settings_size)))

/-- Source: `settings_block_read` (settings.c:252).  Returns the mmap with the
new block in its index and the offset behind the block. -/
def settings_block_read (mmap : settings_mmap) (offset0 : Nat) : Res (settings_mmap × Nat) :=
  let base := mmap.mmap_base
  let block_size_offset := offset0
  (settings_block_read_size base offset0 mmap.mmap_size "block size").bind (fun r =>
    let block_size := r.1
    let offset := r.2
    let block_end_offset := offset + block_size
    (read_byte base (block_end_offset - 1)).bind (fun last =>
      if last ≠ 0 then .error (.block_no_nul (block_end_offset - 1))
      else
      (settings_block_read_str base offset block_end_offset "block name").bind (fun r =>
        let block_name := r.1
        let offset := r.2
        if (mmap.lookup block_name).isSome then
          .error (.duplicate_block_name block_name block_size_offset)
        else
        (settings_block_read_uint32 base offset block_end_offset "settings count").bind
          (fun r =>
          let settings_count := r.1
          let settings_keys_offset := r.2
          (settings_block_read_keys base block_end_offset settings_count r.2).bind
            (fun offset =>
            (settings_block_read_size base offset block_end_offset
              "base settings size").bind (fun r =>
              let base_settings_size := r.1
              let offset := r.2
              let base_end_offset := offset + base_settings_size
              (settings_block_read_str base offset base_end_offset
                "base settings error").bind (fun r =>
                let error := r.1
                let base_start_offset := r.2
                let offset := base_end_offset
                (settings_block_read_uint32 base offset block_end_offset
                  "filter count").bind (fun r =>
                  let filter_count := r.1
                  (settings_block_read_filters base block_end_offset filter_count
                    r.2).bind (fun offset =>
                    let filter_indexes_start_offset := offset
                    let offset := wrap64 (offset + 4 * filter_count)
                    let filter_offsets_start_offset := offset
                    let offset := wrap64 (offset + 8 * filter_count)
                    let offset := wrap64 (offset + 1)
                    if offset ≠ block_end_offset then
                      .error (.filter_end_offset_mismatch offset block_end_offset)
                    else
                      let block : settings_mmap_block :=
                        { name := block_name,
                          block_end_offset := block_end_offset,
                          error := if error = [] then none else some error,
                          base_start_offset := base_start_offset,
                          base_end_offset := base_end_offset,
                          filter_count := filter_count,
                          filter_indexes_start_offset := filter_indexes_start_offset,
                          filter_offsets_start_offset := filter_offsets_start_offset,
                          settings_count := settings_count,
                          settings_keys_offset := settings_keys_offset,
                          settings_validated := false }
                      .ok ({ mmap with blocks := mmap.blocks ++ [block] },
                           offset))))))))))

/-- The `do { ... } while (offset < mmap_size)` loop of `settings_mmap_parse`
(settings.c:428). -/
def settings_mmap_parse_blocks : Nat → settings_mmap → Nat → Res settings_mmap
  | 0, _, _ => .fault .out_of_fuel
  | fuel + 1, mmap, offset =>
    (settings_block_read mmap offset).bind (fun r =>
      if r.2 < mmap.mmap_size then settings_mmap_parse_blocks fuel r.1 r.2
      else .ok r.1)

/-- The magic of the header line: `"DOVECOT-CONFIG\t"`. -/
def magic_header : CStr := cs "DOVECOT-CONFIG\t"

/-- Source: `settings_mmap_parse` (settings.c:375).  Returns the parsed mmap and
`*specific_services_r`. -/
def settings_mmap_parse (p : settings_read_params) (mmap : settings_mmap) :
    Res (settings_mmap × Option (List CStr)) :=
  let mmap_base := mmap.mmap_base
  let mmap_size := mmap.mmap_size
  let magic_len := magic_header.length
  match memchr 10 mmap_base with
  | none => .error .header_no_magic
  | some eol =>
    if mmap_size < magic_len || mmap_base.take magic_len ≠ magic_header then
      .error .header_no_magic
    else
    (read_byte mmap_base magic_len).bind (fun c1 =>
      let version := (mmap_base.drop magic_len).take (eol - magic_len)
      if c1 ≠ 49 then .error (.unsupported_version version)
      else
      (read_byte mmap_base (magic_len + 1)).bind (fun c2 =>
        if c2 ≠ 46 then .error (.unsupported_version version)
        else
        let full_size_offset := eol + 1
        (be64_to_cpu_unaligned mmap_base full_size_offset).bind (fun settings_full_size =>
          if wrap64 (full_size_offset + 8 + settings_full_size) ≠ mmap_size then
            .error (.full_size_mismatch full_size_offset 8 settings_full_size mmap_size)
          else
          let offset := wrap64 (full_size_offset + 8)
          (settings_read_filters p mmap offset []).bind (fun r =>
            (settings_mmap_parse_blocks (mmap_size + 1) r.1 r.2.1).bind (fun m =>
              .ok (m, if r.2.2 = [] then none else some r.2.2))))))

/-! ## Schemas and the settings parser -/

/-- The setting types (`enum setting_type` of settings-parser.h) used by the
schemas among the sources. -/
inductive setting_type where
  | SET_BOOL
  | SET_UINT
  | SET_IN_PORT
  | SET_STR
  | SET_ENUM
  | SET_STRLIST
  | SET_BOOLLIST
  | SET_FILTER_NAME
  | SET_FILTER_ARRAY
  deriving DecidableEq

structure setting_define where
  type : setting_type
  key : CStr
  deriving DecidableEq

/-- Modelled from the spec: the settings parser context of settings-parser.c
(not among the sources).  The settings struct holds, per key index, the text
last assigned to a scalar field; string-list entries and filter-array entries
accumulate.  `calls` records every `settings_parse_keyidx_value_nodup()` call
in order. -/
structure setting_parser_context where
  values : Nat → Option CStr
  strlists : List (Nat × CStr × CStr) := []
  arrays : List (Nat × CStr) := []
  calls : List (Nat × CStr × CStr) := []

/-- The schema: `struct setting_parser_info`.  `defaults k` is the text of the
compiled default of key `k` (`NULL` is `none`), `value_ok k v` tells whether
the type-specific parser of key `k` accepts the text `v`.  `setting_apply key
value override` is the optional callback called around every assignment: it
returns an error message or `none`; what it writes into the struct by itself
is not modelled.  `check_func` is the optional validation callback: an error
message, or the scalar fields of the struct as it leaves them. -/
structure setting_parser_info where
  name : CStr
  defines : List setting_define
  defaults : Nat → Option CStr
  value_ok : Nat → CStr → Bool
  setting_apply : Option (CStr → CStr → Bool → Option CStr) := none
  check_func : Option (setting_parser_context → Except CStr (Nat → Option CStr)) := none

/-- Modelled from the spec: the entry `SETTING_DEFINE_LIST_END` that ends every
`defines[]` array (pop3c-settings.c:29; the macro is in settings-parser.h, not
among the sources): the key `NULL`, at which the loops over the array stop
(settings.c:510, 637), is the empty text here, and the type is 0, which is
`SET_BOOL`. -/
def SETTING_DEFINE_LIST_END : setting_define := ⟨.SET_BOOL, []⟩

/-- The array entry `info->defines[i]`: a key of the schema, the end entry
`SETTING_DEFINE_LIST_END` at the index behind the last key, and `none` behind
the end entry, where the array is over. -/
def setting_parser_info.define_at (info : setting_parser_info) (i : Nat) :
    Option setting_define :=
  match info.defines[i]? with
  | some d => some d
  | none => if i = info.defines.length then some SETTING_DEFINE_LIST_END else none

/-- Modelled from the spec: `settings_parser_init()`: the struct starts as a
copy of the schema's defaults. -/
def settings_parser_init (info : setting_parser_info) : setting_parser_context :=
  { values := info.defaults }

/-- Modelled from the spec: `setting_parser_info_find_key()`: the index of the
key named `key`, or of the string-list key `L` when `key` is `L/sub`. -/
def setting_parser_info_find_key_from : List setting_define → CStr → Nat → Option Nat
  | [], _, _ => none
  | d :: ds, key, i =>
    if key = d.key then some i
    else if d.type = .SET_STRLIST ∧ (d.key ++ cs "/").isPrefixOf key then some i
    else setting_parser_info_find_key_from ds key (i + 1)

/-- Modelled from the spec: `setting_parser_info_find_key(info, key, &idx)`. -/
def setting_parser_info_find_key (info : setting_parser_info) (key : CStr) : Option Nat :=
  setting_parser_info_find_key_from info.defines key 0

/-- Modelled from the spec: `settings_parse_strlist_has_key()`. -/
def settings_parse_strlist_has_key (parser : setting_parser_context) (key_idx : Nat)
    (strlist_key : CStr) : Bool :=
  parser.strlists.any (fun e => e.1 = key_idx ∧ e.2.1 = strlist_key)

/-- Modelled from the spec: the assignment done by `settings_parse_keyidx_value()`
and its `_nodup` variant: a string is stored as it is, a string-list entry and
a filter-array entry are added, any other type goes through its parser.
Returns whether the value was accepted. -/
def settings_parse_assign (info : setting_parser_info) (parser : setting_parser_context)
    (key_idx : Nat) (key value : CStr) : Bool × setting_parser_context :=
  match info.defines[key_idx]? with
  | none => (false, parser)
  | some d =>
    match d.type with
    | .SET_STRLIST =>
      (true, { parser with
        strlists := parser.strlists ++ [(key_idx, key.drop (d.key.length + 1), value)] })
    | .SET_FILTER_ARRAY =>
      (true, { parser with arrays := parser.arrays ++ [(key_idx, value)] })
    | .SET_STR =>
      (true, { parser with values := fun j => if j = key_idx then some value else parser.values j })
    | _ =>
      if info.value_ok key_idx value then
        (true, { parser with
          values := fun j => if j = key_idx then some value else parser.values j })
      else (false, parser)

/-- Modelled from the spec: `settings_parse_keyidx_value_nodup(parser, key_idx,
key, value)`; the call is recorded in `calls`. -/
def settings_parse_keyidx_value_nodup (info : setting_parser_info)
    (parser : setting_parser_context) (key_idx : Nat) (key value : CStr) :
    Bool × setting_parser_context :=
  settings_parse_assign info { parser with calls := parser.calls ++ [(key_idx, key, value)] }
    key_idx key value

/-- Modelled from the spec: `settings_parse_keyidx_value(parser, key_idx, key,
value)`, the variant that duplicates the value. -/
def settings_parse_keyidx_value (info : setting_parser_info)
    (parser : setting_parser_context) (key_idx : Nat) (key value : CStr) :
    Bool × setting_parser_context :=
  settings_parse_assign info parser key_idx key value

/-! ## Overrides, roots, instances, events -/

/-- The precedence classes, `enum settings_override_type` (settings.h); the
order is that of `settings_override_type_names[]` (settings.c:109). -/
inductive settings_override_type where
  | SETTINGS_OVERRIDE_TYPE_USERDB
  | SETTINGS_OVERRIDE_TYPE_CLI_PARAM
  | SETTINGS_OVERRIDE_TYPE_CODE
  deriving DecidableEq

/-- The enum value. -/
def settings_override_type.toInt : settings_override_type → Int
  | .SETTINGS_OVERRIDE_TYPE_USERDB => 0
  | .SETTINGS_OVERRIDE_TYPE_CLI_PARAM => 1
  | .SETTINGS_OVERRIDE_TYPE_CODE => 2

/-- Source: `settings_override_type_names[]` (settings.c:109). -/
def settings_override_type_names : settings_override_type → String
  | .SETTINGS_OVERRIDE_TYPE_USERDB => "userdb"
  | .SETTINGS_OVERRIDE_TYPE_CLI_PARAM => "-o parameter"
  | .SETTINGS_OVERRIDE_TYPE_CODE => "hardcoded"

/-- Source: `struct settings_override` (settings.c:30). -/
structure settings_override where
  type : settings_override_type
  append : Bool := false
  key : CStr
  value : CStr
  filter : Option event_filter := none
  last_filter_key : Option CStr := none
  last_filter_value : Option CStr := none
  deriving DecidableEq

/-- Source: `struct settings_root` (settings.c:71). -/
structure settings_root where
  protocol_name : Option CStr := none
  mmap : Option settings_mmap := none
  overrides : List settings_override := []
  deriving DecidableEq

/-- Source: `struct settings_instance` (settings.c:80). -/
structure settings_instance where
  mmap : Option settings_mmap := none
  overrides : List settings_override := []
  deriving DecidableEq

/-- One event of the parent chain: its fields and the settings pointers
attached with `event_set_ptr()`. -/
structure event_node where
  fields : List (CStr × CStr) := []
  /-- pointer `SETTINGS_EVENT_ROOT` -/
  root : Option settings_root := none
  /-- pointer `SETTINGS_EVENT_INSTANCE` -/
  inst : Option settings_instance := none
  /-- pointer `SETTINGS_EVENT_FILTER_NAME` -/
  filter_name : Option CStr := none
  /-- pointer `SETTINGS_EVENT_FILTER_NAME_REQUIRED` -/
  filter_name_required : Option CStr := none
  /-- pointer `SETTINGS_EVENT_VAR_EXPAND_TABLE` -/
  var_expand_table : Option Nat := none
  /-- pointer `SETTINGS_EVENT_VAR_EXPAND_FUNC_TABLE` -/
  var_expand_func_table : Option Nat := none
  /-- pointer `SETTINGS_EVENT_VAR_EXPAND_FUNC_CONTEXT` -/
  var_expand_func_context : Option Nat := none
  /-- pointer `SETTINGS_EVENT_VAR_EXPAND_CALLBACK`: the tables the callback returns -/
  var_expand_callback : Option (Option Nat × Option Nat) := none
  deriving DecidableEq

/-- An event with its ancestors: the head is the event itself. -/
abbrev event := List event_node

/-- Modelled from the spec: `event_find_field_recursive()` of lib/lib-event.c
(not among the sources): the value of a named field, with parent-chain
fallback. -/
def event_find_field_recursive : event → CStr → Option CStr
  | [], _ => none
  | n :: parents, key =>
    match n.fields.find? (fun f => f.1 = key) with
    | some f => some f.2
    | none => event_find_field_recursive parents key

/-- Modelled from the spec: `event_add_str()`: set a field of the event itself. -/
def event_add_str (ev : event) (key value : CStr) : event :=
  match ev with
  | [] => [{ fields := [(key, value)] }]
  | n :: parents =>
    { n with fields := (key, value) :: n.fields.filter (fun f => f.1 ≠ key) } :: parents

/-- Modelled from the spec: `event_create(parent)`. -/
def event_create (parent : event) : event := ({} : event_node) :: parent

/-- Modelled from the spec: `event_filter_match()`: evaluate the predicate on
the fields of the event and its ancestors. -/
def event_filter_match : event_filter → event → Bool
  | .field_eq key value, ev => event_find_field_recursive ev key = some value
  | .op_not a, ev => !(event_filter_match a ev)
  | .op_and a b, ev => event_filter_match a ev && event_filter_match b ev
  | .op_or a b, ev => event_filter_match a ev || event_filter_match b ev


/-- The constant `SETTINGS_EVENT_MAILBOX_NAME_WITH_PREFIX` (settings.h). -/
def SETTINGS_EVENT_MAILBOX_NAME_WITH_PREFIX : CStr := cs "mailbox"

/-- The constant `SETTINGS_EVENT_MAILBOX_NAME_WITHOUT_PREFIX` (settings.h). -/
def SETTINGS_EVENT_MAILBOX_NAME_WITHOUT_PREFIX : CStr := cs "mailbox_subname"

/-- The constant `SETTINGS_SEPARATOR` (settings-parser.h). -/
def SETTINGS_SEPARATOR : Byte := 47

/-- The flags of `enum settings_get_flags` that settings.c tests. -/
structure settings_get_flags where
  SETTINGS_GET_FLAG_NO_CHECK : Bool := false
  SETTINGS_GET_FLAG_NO_EXPAND : Bool := false
  SETTINGS_GET_FLAG_FAKE_EXPAND : Bool := false
  SETTINGS_GET_NO_KEY_VALIDATION : Bool := false
  deriving DecidableEq

/-- A `const struct var_expand_table *`: NULL, the empty table allocated by
`settings_var_expand_init`, or a table registered on an event. -/
inductive var_expand_table_ref where
  | null
  | empty
  | table (id : Nat)
  deriving DecidableEq

/-- Library functions that settings.c calls and that are not among the
sources, taken as parameters: `var_expand_with_funcs()` (the expanded text and
the error, if any), the three escaping functions and the event filter
parser. -/
structure settings_env where
  var_expand_with_funcs :
    var_expand_table_ref → Option Nat → Option Nat → CStr → CStr × Option CStr
  settings_section_escape : CStr → CStr
  wildcard_str_escape : CStr → CStr
  str_escape : CStr → CStr
  event_filter_parse_case_sensitive : CStr → Except CStr event_filter

/-- The fields of `struct settings_apply_ctx` (settings.c:86) that stay fixed
during one resolution. -/
structure settings_apply_ctx where
  env : settings_env
  event : event
  root : settings_root
  inst : settings_instance
  info : setting_parser_info
  flags : settings_get_flags := {}
  filter_key : Option CStr := none
  filter_value : Option CStr := none
  filter_name : Option CStr := none
  filter_name_required : Bool := false
  table : var_expand_table_ref := .null
  func_table : Option Nat := none
  func_context : Option Nat := none

/-- The fields of `struct settings_apply_ctx` that a resolution changes: the
parser with the settings struct, the `set_seen` array, and the instance's mmap
(whose blocks carry the `settings_validated` flag). -/
structure settings_apply_state where
  parser : setting_parser_context
  set_seen : Nat → Bool := fun _ => false
  mmap : Option settings_mmap := none

/-- Set the `set_seen` entry of a key: `*setp = TRUE`. -/
def settings_apply_state.mark (st : settings_apply_state) (key_idx : Nat) :
    settings_apply_state :=
  { st with set_seen := fun j => if j = key_idx then true else st.set_seen j }

/-! ## Resolution: blob values -/

/-- The variable expansion step of `settings_mmap_apply_key` (settings.c:474-490):
the value handed to the parser for the key of definition `d`. -/
def settings_mmap_apply_key_expand (ctx : settings_apply_ctx) (d : setting_define)
    (strlist_key : Option CStr) (key value : CStr) : Res CStr :=
  if strlist_key.isNone && !ctx.flags.SETTINGS_GET_FLAG_NO_EXPAND && d.type = .SET_STR then
    let r := ctx.env.var_expand_with_funcs ctx.table ctx.func_table ctx.func_context value
    match r.2 with
    | some error =>
      if !ctx.flags.SETTINGS_GET_FLAG_FAKE_EXPAND then .error (.expand_failed key error)
      else .ok r.1
    | none => .ok r.1
  else .ok value

/-- The key name used by `settings_mmap_apply_key` (settings.c:460-463): the
schema's key, followed by `/` and the sub-key for a string list entry. -/
def settings_mmap_apply_key_name (d : setting_define) (strlist_key : Option CStr) : CStr :=
  match strlist_key with
  | some sk => d.key ++ cs "/" ++ sk
  | none => d.key

/-- Source: `settings_mmap_apply_key` (settings.c:455).  `key_idx` may be the
index of the end entry of `defines[]`, whose key is `NULL`. -/
def settings_mmap_apply_key (ctx : settings_apply_ctx) (key_idx : Nat)
    (strlist_key : Option CStr) (value : CStr) (st : settings_apply_state) :
    Res Unit × settings_apply_state :=
  match ctx.info.define_at key_idx with
  | none => (.fault (.array_read "defines" key_idx), st)
  | some d =>
    let orig_value := value
    let key := settings_mmap_apply_key_name d strlist_key
    match (match ctx.info.setting_apply with
           | some f => f key value false
           | none => none) with
    | some error => (.error (.invalid_setting_apply key orig_value error), st)
    | none =>
      match settings_mmap_apply_key_expand ctx d strlist_key key value with
      | .error e => (.error e, st)
      | .fault f => (.fault f, st)
      | .ok value =>
        let r := settings_parse_keyidx_value_nodup ctx.info st.parser key_idx key value
        if r.1 then (.ok (), { st with parser := r.2 })
        else (.error (.invalid_setting "Invalid setting" key value orig_value),
              { st with parser := r.2 })

/-- Source: `settings_mmap_apply_defaults` (settings.c:503); `ds` are the
definitions from index `key_idx` on. -/
def settings_mmap_apply_defaults_loop (ctx : settings_apply_ctx) :
    List setting_define → Nat → settings_apply_state → Res Unit × settings_apply_state
  | [], _, st => (.ok (), st)
  | d :: ds, key_idx, st =>
    if st.set_seen key_idx then settings_mmap_apply_defaults_loop ctx ds (key_idx + 1) st
    else if d.type ≠ .SET_STR then settings_mmap_apply_defaults_loop ctx ds (key_idx + 1) st
    else
      match ctx.info.defaults key_idx with
      | none => settings_mmap_apply_defaults_loop ctx ds (key_idx + 1) st
      | some valuep =>
        let key := d.key
        match (match ctx.info.setting_apply with
               | some f => f key valuep true
               | none => none) with
        | some _ => (.fault (.panic "BUG: Failed to apply default setting"), st)
        | none =>
          if !ctx.flags.SETTINGS_GET_FLAG_NO_EXPAND then
            let r := ctx.env.var_expand_with_funcs ctx.table ctx.func_table
              ctx.func_context valuep
            if r.2.isSome && !ctx.flags.SETTINGS_GET_FLAG_FAKE_EXPAND then
              (.fault (.panic "BUG: Failed to expand default setting"), st)
            else if valuep ≠ r.1 then
              let a := settings_parse_keyidx_value ctx.info st.parser key_idx key r.1
              if a.1 then
                settings_mmap_apply_defaults_loop ctx ds (key_idx + 1) { st with parser := a.2 }
              else
                (.error (.invalid_setting "Invalid default setting" key r.1 valuep),
                 { st with parser := a.2 })
            else settings_mmap_apply_defaults_loop ctx ds (key_idx + 1) st
          else settings_mmap_apply_defaults_loop ctx ds (key_idx + 1) st

/-- Source: `settings_mmap_apply_defaults` (settings.c:503). -/
def settings_mmap_apply_defaults (ctx : settings_apply_ctx) (st : settings_apply_state) :
    Res Unit × settings_apply_state :=
  settings_mmap_apply_defaults_loop ctx ctx.info.defines 0 st

/-- Source: the first half of an iteration of `settings_mmap_apply_blob`
(settings.c:579-596) for a pair whose key has definition `d`: the sub-key of a
string list entry, the offset of the value, `set_apply`, and the update of the
`set_seen` array. -/
def settings_mmap_apply_blob_gate (base : List Byte) (d : setting_define)
    (key_idx offset : Nat) (st : settings_apply_state) :
    Res (Option CStr × Nat × Bool) × settings_apply_state :=
  if d.type = .SET_STRLIST then
    match c_str_at base offset with
    | .error e => (.error e, st)
    | .fault f => (.fault f, st)
    | .ok strlist_key =>
      (.ok (some strlist_key, offset + (strlist_key.length + 1),
            !settings_parse_strlist_has_key st.parser key_idx strlist_key), st)
  else if d.type = .SET_FILTER_ARRAY then (.ok (none, offset, true), st)
  else if st.set_seen key_idx then (.ok (none, offset, false), st)
  else (.ok (none, offset, true), st.mark key_idx)

/-- Source: the second half of an iteration of `settings_mmap_apply_blob`
(settings.c:598-623): the value is read and, if `set_apply`, applied.  Returns
the offset behind the value. -/
def settings_mmap_apply_blob_value (ctx : settings_apply_ctx) (base : List Byte)
    (end_offset key_idx : Nat) (strlist_key : Option CStr) (offset : Nat) (set_apply : Bool)
    (st : settings_apply_state) : Res Nat × settings_apply_state :=
  if offset ≥ end_offset then
    (.error (.key_value_points_outside_blob offset end_offset base.length), st)
  else
    match c_str_at base offset with
    | .error e => (.error e, st)
    | .fault f => (.fault f, st)
    | .ok value =>
      let offset := offset + (value.length + 1)
      if offset > end_offset then
        (.error (.value_points_outside_blob offset end_offset base.length), st)
      else if !set_apply then (.ok offset, st)
      else
        match settings_mmap_apply_key ctx key_idx strlist_key value st with
        | (.ok _, st) => (.ok offset, st)
        | (.error e, st) => (.error e, st)
        | (.fault f, st) => (.fault f, st)

/-- Source: one iteration of the loop of `settings_mmap_apply_blob`
(settings.c:569-623), entered with `offset < end_offset`.  Returns the offset
behind the pair. -/
def settings_mmap_apply_blob_pair (ctx : settings_apply_ctx) (base : List Byte)
    (block : settings_mmap_block) (end_offset offset : Nat) (st : settings_apply_state) :
    Res Nat × settings_apply_state :=
  match be32_to_cpu_unaligned base offset with
  | .error e => (.error e, st)
  | .fault f => (.fault f, st)
  | .ok key_idx =>
    if key_idx ≥ block.settings_count then
      (.error (.key_index_too_high key_idx block.settings_count), st)
    else
      let offset := offset + 4
      match ctx.info.define_at key_idx with
      | none => (.fault (.array_read "defines" key_idx), st)
      | some d =>
        match settings_mmap_apply_blob_gate base d key_idx offset st with
        | (.error e, st) => (.error e, st)
        | (.fault f, st) => (.fault f, st)
        | (.ok (strlist_key, offset, set_apply), st) =>
          settings_mmap_apply_blob_value ctx base end_offset key_idx strlist_key offset
            set_apply st

/-- Source: the loop of `settings_mmap_apply_blob` (settings.c:566-624).  Every
iteration advances `offset` by at least 5, so `fuel` iterations with
`fuel > end_offset - offset` are never used up. -/
def settings_mmap_apply_blob_loop (ctx : settings_apply_ctx) (base : List Byte)
    (block : settings_mmap_block) (end_offset : Nat) :
    Nat → Nat → settings_apply_state → Res Unit × settings_apply_state
  | 0, _, st => (.fault .out_of_fuel, st)
  | fuel + 1, offset, st =>
    if ¬ offset < end_offset then (.ok (), st)
    else
      match settings_mmap_apply_blob_pair ctx base block end_offset offset st with
      | (.ok offset, st) => settings_mmap_apply_blob_loop ctx base block end_offset fuel offset st
      | (.error e, st) => (.error e, st)
      | (.fault f, st) => (.fault f, st)

/-- Source: `settings_mmap_apply_blob` (settings.c:556). -/
def settings_mmap_apply_blob (ctx : settings_apply_ctx) (base : List Byte)
    (block : settings_mmap_block) (start_offset end_offset : Nat)
    (st : settings_apply_state) : Res Unit × settings_apply_state :=
  settings_mmap_apply_blob_loop ctx base block end_offset (end_offset - start_offset + 1)
    start_offset st

/-- The loop of `settings_mmap_validate` (settings.c:637-652); returns the final
value of `i`. -/
def settings_mmap_validate_loop (base : List Byte) (block : settings_mmap_block)
    (info_name : CStr) : List setting_define → Nat → Nat → Res Nat
  | [], i, _ => .ok i
  | d :: ds, i, offset =>
    if i ≥ block.settings_count then .ok i
    else
      (settings_block_read_str base offset block.block_end_offset "setting key").bind
        (fun r =>
          if d.key ≠ r.1 then .error (.key_mismatch info_name i d.key r.1)
          else settings_mmap_validate_loop base block info_name ds (i + 1) r.2)

/-- Source: `settings_mmap_validate` (settings.c:628). -/
def settings_mmap_validate (mmap : settings_mmap) (block : settings_mmap_block)
    (info : setting_parser_info) : Res Unit :=
  (settings_mmap_validate_loop mmap.mmap_base block info.name info.defines 0
    block.settings_keys_offset).bind (fun i =>
      if i ≠ block.settings_count then
        .error (.count_mismatch info.name (i + 1) block.settings_count)
      else .ok ())

/-- Whether the filter names the requested named filter
(settings.c:729-741): the sentinel has no fields. -/
def settings_filter_names (filter_name : Option CStr) (event_filter : mmap_event_filter) :
    Bool :=
  match filter_name, event_filter with
  | some name, .filter f =>
    match event_filter_find_field_exact f SETTINGS_EVENT_FILTER_NAME false with
    | some (value, op_not) => !op_not && decide (name = value)
    | none => false
  | _, _ => false

/-- Whether an entry of the filter table applies to the event
(settings.c:706-709): never for the NEVER sentinel, always for the ALWAYS
sentinel, else `event_filter_match()`. -/
def settings_event_filter_matches (ctx : settings_apply_ctx)
    (event_filter : mmap_event_filter) : Bool :=
  match event_filter with
  | .EVENT_FILTER_MATCH_NEVER => false
  | .EVENT_FILTER_MATCH_ALWAYS => true
  | .filter f => event_filter_match f ctx.event

/-- Source: the start of an iteration of the filter loop of
`settings_mmap_apply` (settings.c:695-705): the entry of the filter table that
the filter assignment with index `i` refers to. -/
def settings_mmap_filter_lookup (mmap : settings_mmap) (block : settings_mmap_block)
    (i : Nat) : Res mmap_event_filter :=
  (be32_to_cpu_unaligned mmap.mmap_base (block.filter_indexes_start_offset + 4 * i)).bind
    (fun event_filter_idx =>
      if event_filter_idx ≥ mmap.event_filters_count then
        .error (.event_filter_idx_too_high event_filter_idx mmap.event_filters_count)
      else
        match mmap.event_filters[event_filter_idx]? with
        | none => .fault (.array_read "event_filters" event_filter_idx)
        | some event_filter => .ok event_filter)

/-- Source: the middle of an iteration of the filter loop of
`settings_mmap_apply` (settings.c:710-727): the offsets where the key/value
pairs of the filter assignment with index `i` start (behind the empty error
string) and end. -/
def settings_mmap_filter_region (base : List Byte) (block : settings_mmap_block)
    (i : Nat) : Res (Nat × Nat) :=
  (be64_to_cpu_unaligned base (block.filter_offsets_start_offset + 8 * i)).bind
    (fun filter_offset =>
      (be64_to_cpu_unaligned base filter_offset).bind (fun filter_set_size =>
        let filter_offset := wrap64 (filter_offset + 8)
        let filter_end_offset := wrap64 (filter_offset + filter_set_size)
        (read_byte base filter_offset).bind (fun c =>
          if c ≠ 0 then
            .error (.filter_error ((base.drop filter_offset).takeWhile (· ≠ 0)))
          else .ok (wrap64 (filter_offset + 1), filter_end_offset))))

/-- Source: one iteration of the filter loop of `settings_mmap_apply`
(settings.c:694-746) for the filter assignment with index `i`.  Returns the
updated `seen_filter`. -/
def settings_mmap_apply_filter (ctx : settings_apply_ctx) (mmap : settings_mmap)
    (block : settings_mmap_block) (i : Nat) (seen_filter : Bool)
    (st : settings_apply_state) : Res Bool × settings_apply_state :=
  match settings_mmap_filter_lookup mmap block i with
  | .error e => (.error e, st)
  | .fault f => (.fault f, st)
  | .ok event_filter =>
    if !settings_event_filter_matches ctx event_filter then (.ok seen_filter, st)
    else
      match settings_mmap_filter_region mmap.mmap_base block i with
      | .error e => (.error e, st)
      | .fault f => (.fault f, st)
      | .ok (filter_offset, filter_end_offset) =>
        let seen_filter :=
          if ctx.filter_name.isSome && !seen_filter then
            settings_filter_names ctx.filter_name event_filter
          else seen_filter
        match settings_mmap_apply_blob ctx mmap.mmap_base block filter_offset
            filter_end_offset st with
        | (.ok _, st) => (.ok seen_filter, st)
        | (.error e, st) => (.error e, st)
        | (.fault f, st) => (.fault f, st)

/-- Source: the filter loop of `settings_mmap_apply` (settings.c:693-747); the
filters with index below `i` remain, the highest index goes first. -/
def settings_mmap_apply_filters (ctx : settings_apply_ctx) (mmap : settings_mmap)
    (block : settings_mmap_block) :
    Nat → Bool → settings_apply_state → Res Bool × settings_apply_state
  | 0, seen_filter, st => (.ok seen_filter, st)
  | i + 1, seen_filter, st =>
    match settings_mmap_apply_filter ctx mmap block i seen_filter st with
    | (.ok seen_filter, st) => settings_mmap_apply_filters ctx mmap block i seen_filter st
    | (.error e, st) => (.error e, st)
    | (.fault f, st) => (.fault f, st)

/-- Mark a block of the index as validated (`block->settings_validated = TRUE`). -/
def settings_mmap.set_validated (mmap : settings_mmap) (name : CStr) : settings_mmap :=
  { mmap with blocks := mmap.blocks.map (fun b =>
      if b.name = name then { b with settings_validated := true } else b) }

/-- Source: `settings_mmap_apply` (settings.c:662).  Returns whether the
requested named filter was seen. -/
def settings_mmap_apply (ctx : settings_apply_ctx) (mmap : settings_mmap)
    (st : settings_apply_state) : Res Bool × settings_apply_state :=
  match mmap.lookup ctx.info.name with
  | none => (.error (.no_settings_struct ctx.info.name), st)
  | some block =>
    match block.error with
    | some error => (.error (.block_error error), st)
    | none =>
      let validated : Res settings_apply_state :=
        if !block.settings_validated && !ctx.flags.SETTINGS_GET_NO_KEY_VALIDATION then
          (settings_mmap_validate mmap block ctx.info).bind (fun _ =>
            .ok { st with mmap := some (mmap.set_validated block.name) })
        else .ok st
      match validated with
      | .error e => (.error e, st)
      | .fault f => (.fault f, st)
      | .ok st =>
        match settings_mmap_apply_filters ctx mmap block block.filter_count false st with
        | (.error e, st) => (.error e, st)
        | (.fault f, st) => (.fault f, st)
        | (.ok seen_filter, st) =>
          match settings_mmap_apply_blob ctx mmap.mmap_base block block.base_start_offset
              block.base_end_offset st with
          | (.ok _, st) => (.ok seen_filter, st)
          | (.error e, st) => (.error e, st)
          | (.fault f, st) => (.fault f, st)

/-! ## Resolution: overrides -/

/-- Source: `settings_override_cmp` (settings.c:960). -/
def settings_override_cmp (set1 set2 : settings_override) : Int :=
  set2.type.toInt - set1.type.toInt

/-- Modelled from the spec: one insertion of the stable sort: `x` goes before
the first element that does not have to precede it. -/
def array_sort_insert {α : Type} (cmp : α → α → Int) (x : α) : List α → List α
  | [] => [x]
  | y :: ys => if cmp x y ≤ 0 then x :: y :: ys else y :: array_sort_insert cmp x ys

/-- Modelled from the spec: `array_sort()` of lib/array.h (not among the
sources; it calls the C library's `qsort()`), as the stable sort that the spec
states: elements that compare equal keep their order. -/
def array_sort {α : Type} (cmp : α → α → Int) : List α → List α
  | [] => []
  | x :: xs => array_sort_insert cmp x (array_sort cmp xs)

/-- Source: `settings_key_part_find` (settings.c:967).  Returns the key index
and the possibly replaced key. -/
def settings_key_part_find (ctx : settings_apply_ctx) (key : CStr)
    (last_filter_key last_filter_value : Option CStr) : Res (Option (Nat × CStr)) :=
  let plain : Option (Nat × CStr) :=
    (setting_parser_info_find_key ctx.info key).map (fun i => (i, key))
  match last_filter_value with
  | some _ =>
    match last_filter_key with
    | none => .fault (.panic "i_assert(last_filter_key != NULL)")
    | some last_filter_key =>
      let key_start :=
        if last_filter_key = SETTINGS_EVENT_MAILBOX_NAME_WITHOUT_PREFIX then
          SETTINGS_EVENT_MAILBOX_NAME_WITH_PREFIX
        else last_filter_key
      let prefixed_key := key_start ++ cs "_" ++ key
      match setting_parser_info_find_key ctx.info prefixed_key with
      | some i => .ok (some (i, prefixed_key))
      | none => .ok plain
  | none => .ok plain

/-- Source: `settings_override_get_value` (settings.c:992).  Returns `none` for
return value 0 (the setting does not exist in this schema), else the key, the
key index and the value. -/
def settings_override_get_value (ctx : settings_apply_ctx) (set : settings_override)
    (st : settings_apply_state) : Res (Option (CStr × Nat × CStr)) :=
  (settings_key_part_find ctx set.key set.last_filter_key set.last_filter_value).bind
    (fun found =>
      let key : CStr := match found with
        | some r => r.2
        | none => set.key
      let key_idx : Option Nat := found.map (fun r => r.1)
      let plugin : Option Nat :=
        if key_idx.isNone && (strchr 47 key).isNone &&
            set.type = .SETTINGS_OVERRIDE_TYPE_USERDB then
          setting_parser_info_find_key ctx.info (cs "plugin")
        else none
      let key2 : CStr := if plugin.isSome then cs "plugin/" ++ key else key
      let key_idx2 : Option Nat := if plugin.isSome then plugin else key_idx
      match key_idx2 with
      | none => .ok none
      | some key_idx =>
        match ctx.info.defines[key_idx]? with
        | none => .fault (.array_read "defines" key_idx)
        | some d =>
          -- remove alias
          let key3 : CStr := match strchr SETTINGS_SEPARATOR key2 with
            | none => d.key
            | some strlist => d.key ++ strlist
          if !set.append then .ok (some (key3, key_idx, set.value))
          else if d.type ≠ .SET_STR then .error (.append_not_string key3)
          else
            match st.parser.values key_idx with
            | none => .fault (.panic "t_strconcat(NULL)")
            | some str => .ok (some (key3, key_idx, str ++ set.value)))

/-- The scoping filter of the override is absent or matches the event
(settings.c:1072): `set->filter == NULL || event_filter_match(...)`. -/
def settings_override_matches (ctx : settings_apply_ctx) (set : settings_override) : Bool :=
  match set.filter with
  | some f => event_filter_match f ctx.event
  | none => true

/-- Source: one iteration of the `array_foreach` loop of
`settings_instance_override` (settings.c:1069-1140).  Returns the updated
`seen_filter`. -/
def settings_instance_override_one (ctx : settings_apply_ctx) (set : settings_override)
    (seen_filter : Bool) (st : settings_apply_state) : Res Bool × settings_apply_state :=
  if !settings_override_matches ctx set then (.ok seen_filter, st)
  else
    let seen_filter := seen_filter ||
      (match ctx.filter_key, set.last_filter_key with
       | some fk, some lk => decide (fk = lk) && decide (ctx.filter_value = set.last_filter_value)
       | _, _ => false)
    match settings_override_get_value ctx set st with
    | .error e => (.error e, st)
    | .fault f => (.fault f, st)
    | .ok none => (.ok seen_filter, st)
    | .ok (some (key, key_idx, value)) =>
      match ctx.info.defines[key_idx]? with
      | none => (.fault (.array_read "defines" key_idx), st)
      | some d =>
        let gate : Res (Option settings_apply_state) :=
          if d.type = .SET_STRLIST then
            if !(d.key ++ cs "/").isPrefixOf key then .fault (.panic "i_unreached()")
            else if settings_parse_strlist_has_key st.parser key_idx
                (key.drop (d.key.length + 1)) then .ok none
            else .ok (some st)
          else if d.type ≠ .SET_FILTER_ARRAY then
            if st.set_seen key_idx then .ok none
            else .ok (some (st.mark key_idx))
          else .ok (some st)
        match gate with
        | .error e => (.error e, st)
        | .fault f => (.fault f, st)
        | .ok none => (.ok seen_filter, st)
        | .ok (some st) =>
          let r := settings_parse_keyidx_value_nodup ctx.info st.parser key_idx key value
          let st := { st with parser := r.2 }
          if !r.1 then
            (.error (.override_invalid (settings_override_type_names set.type) key value), st)
          else
            match (match ctx.info.setting_apply with
                   | some f => f key value true
                   | none => none) with
            | some error =>
              (.error (.override_apply_failed (settings_override_type_names set.type)
                key value error), st)
            | none => (.ok seen_filter, st)

/-- Source: the `array_foreach` loop of `settings_instance_override`
(settings.c:1068-1141) over the sorted overrides. -/
def settings_instance_override_loop (ctx : settings_apply_ctx) :
    List settings_override → Bool → settings_apply_state →
    Res Bool × settings_apply_state
  | [], seen_filter, st => (.ok seen_filter, st)
  | set :: rest, seen_filter, st =>
    match settings_instance_override_one ctx set seen_filter st with
    | (.ok seen_filter, st) => settings_instance_override_loop ctx rest seen_filter st
    | (.error e, st) => (.error e, st)
    | (.fault f, st) => (.fault f, st)

/-- Source: `settings_instance_override` (settings.c:1048). -/
def settings_instance_override (ctx : settings_apply_ctx) (st : settings_apply_state) :
    Res Bool × settings_apply_state :=
  let overrides := array_sort settings_override_cmp (ctx.inst.overrides ++ ctx.root.overrides)
  settings_instance_override_loop ctx overrides false st

/-- Source: `settings_var_expand_init` (settings.c:931): the table, the function
table and the function context. -/
def settings_var_expand_init : event → var_expand_table_ref × Option Nat × Option Nat
  | [] => (.empty, none, none)
  | n :: parents =>
    match n.var_expand_callback with
    | some (tab, func_tab) =>
      ((match tab with
        | some t => .table t
        | none => .empty), func_tab, n.var_expand_func_context)
    | none =>
      if n.var_expand_table.isSome || n.var_expand_func_table.isSome then
        ((match n.var_expand_table with
          | some t => .table t
          | none => .empty), n.var_expand_func_table, n.var_expand_func_context)
      else settings_var_expand_init parents

/-- Modelled from the spec: `settings_check()` of settings-parser.c: run the
schema's validation callback. -/
def settings_check (info : setting_parser_info) (set_struct : setting_parser_context) :
    Except CStr setting_parser_context :=
  match info.check_func with
  | some f =>
    match f set_struct with
    | .ok values => .ok { set_struct with values := values }
    | .error error => .error error
  | none => .ok set_struct

/-- The start of `settings_instance_get` (settings.c:1159-1181): the event
gets its `protocol` field and the expansion tables are looked up. -/
def settings_instance_get_ctx (ctx0 : settings_apply_ctx) : settings_apply_ctx :=
  let event :=
    match event_find_field_recursive ctx0.event (cs "protocol"), ctx0.root.protocol_name with
    | none, some protocol_name => event_add_str ctx0.event (cs "protocol") protocol_name
    | _, _ => ctx0.event
  let tabs : var_expand_table_ref × Option Nat × Option Nat :=
    if !ctx0.flags.SETTINGS_GET_FLAG_NO_EXPAND && !ctx0.flags.SETTINGS_GET_FLAG_FAKE_EXPAND then
      settings_var_expand_init event
    else (ctx0.table, ctx0.func_table, ctx0.func_context)
  { ctx0 with event := event, table := tabs.1, func_table := tabs.2.1,
              func_context := tabs.2.2 }

/-- The state at the start of a resolution: a fresh parser and an empty
`set_seen` array. -/
def settings_apply_state_init (ctx : settings_apply_ctx) : settings_apply_state :=
  { parser := settings_parser_init ctx.info, mmap := ctx.inst.mmap }

/-- The merge of `settings_instance_get` (settings.c:1183-1201): overrides, then
the blob, then the defaults.  Returns whether the requested named filter was
seen. -/
def settings_instance_get_merge (ctx : settings_apply_ctx) (st : settings_apply_state) :
    Res Bool × settings_apply_state :=
  match settings_instance_override ctx st with
  | (.error e, st) => (.error e, st)
  | (.fault f, st) => (.fault f, st)
  | (.ok seen1, st) =>
    let applied : Res Bool × settings_apply_state :=
      match ctx.inst.mmap with
      | some mmap =>
        match settings_mmap_apply ctx mmap st with
        | (.error e, st) => (.error (.failed_to_parse_configuration e), st)
        | (.fault f, st) => (.fault f, st)
        | (.ok seen2, st) => (.ok (seen1 || seen2), st)
      | none => (.ok seen1, st)
    match applied with
    | (.error e, st) => (.error e, st)
    | (.fault f, st) => (.fault f, st)
    | (.ok seen_filter, st) =>
      match settings_mmap_apply_defaults ctx st with
      | (.error e, st) => (.error e, st)
      | (.fault f, st) => (.fault f, st)
      | (.ok _, st) => (.ok seen_filter, st)

/-- Source: `settings_instance_get` (settings.c:1145).  The value is the
settings struct for return value 1 and `none` for return value 0. -/
def settings_instance_get (ctx0 : settings_apply_ctx) :
    Res (Option setting_parser_context) × settings_apply_state :=
  let ctx := settings_instance_get_ctx ctx0
  match settings_instance_get_merge ctx (settings_apply_state_init ctx) with
  | (.error e, st) => (.error e, st)
  | (.fault f, st) => (.fault f, st)
  | (.ok seen_filter, st) =>
    if ctx.filter_key.isSome && !seen_filter && ctx.filter_name_required then
      (.ok none, st)
    else if !ctx.flags.SETTINGS_GET_FLAG_NO_CHECK then
      match settings_check ctx.info st.parser with
      | .error error => (.error (.invalid_settings ctx.info.name error), st)
      | .ok set_struct => (.ok (some set_struct), { st with parser := set_struct })
    else (.ok (some st.parser), st)

/-- The scan of the event and its ancestors in `settings_get_full`
(settings.c:1240-1260): root, instance, filter key and whether the filter
name is required. -/
def settings_get_full_scan :
    event → Option settings_root → Option settings_instance → Option CStr → Bool →
    Option settings_root × Option settings_instance × Option CStr × Bool
  | [], root, inst, filter_key, required => (root, inst, filter_key, required)
  | n :: parents, root, inst, filter_key, required =>
    let root := if root.isNone then n.root else root
    let inst := if inst.isNone then n.inst else inst
    let filter_key := if filter_key.isNone then n.filter_name else filter_key
    let required := if filter_key.isNone && n.filter_name_required.isSome then true
                    else required
    let filter_key := if filter_key.isNone then n.filter_name_required else filter_key
    if root.isSome && inst.isSome && filter_key.isSome then (root, inst, filter_key, required)
    else settings_get_full_scan parents root inst filter_key required

/-- The `struct settings_apply_ctx` that `settings_get_full` builds
(settings.c:1240-1299); `none` if no event of the chain has a
`SETTINGS_EVENT_ROOT` pointer. -/
def settings_get_full_ctx (env : settings_env) (event : event)
    (filter_key filter_value : Option CStr) (info : setting_parser_info)
    (flags : settings_get_flags) : Option settings_apply_ctx :=
  let scan := settings_get_full_scan event none none filter_key false
  match scan.1 with
  | none => none
  | some root =>
    let mmap := match scan.2.1 with
      | some inst => inst.mmap
      | none => root.mmap
    let inst : settings_instance := match scan.2.1 with
      | some inst => inst
      | none => { mmap := mmap }
    let filter_key := scan.2.2.1
    let filter_name : Option CStr :=
      match filter_value, filter_key with
      | some v, some k => some (k ++ cs "/" ++ env.settings_section_escape v)
      | _, k => k
    let ctx_event := event_create event
    let ctx_event := match filter_name with
      | some name => event_add_str ctx_event SETTINGS_EVENT_FILTER_NAME name
      | none => ctx_event
    some { env := env, event := ctx_event, root := root, inst := inst, info := info,
           flags := flags, filter_key := filter_key, filter_value := filter_value,
           filter_name := filter_name,
           filter_name_required := scan.2.2.2 || filter_value.isSome }

/-- Source: `settings_get_full` (settings.c:1223).  `event` has at least one
node (the pointer is not NULL).  The second component is the final state of
the resolution, if one was started. -/
def settings_get_full (env : settings_env) (event : event)
    (filter_key filter_value : Option CStr) (info : setting_parser_info)
    (flags : settings_get_flags) :
    Res (Option setting_parser_context) × Option settings_apply_state :=
  if filter_key.isNone ≠ filter_value.isNone then
    (.fault (.panic "i_assert((filter_key == NULL) == (filter_value == NULL))"), none)
  else
    match settings_get_full_ctx env event filter_key filter_value info flags with
    | none => (.fault (.panic "settings_get() - event has no SETTINGS_EVENT_ROOT"), none)
    | some ctx =>
      let r := settings_instance_get ctx
      (r.1, some r.2)

/-! ## Installing overrides -/

/-- The text before the first `/` and the text after it (`strchr(key, '/')`). -/
def split_slash : CStr → Option (CStr × CStr)
  | [] => none
  | b :: rest =>
    if b = 47 then some ([], rest)
    else (split_slash rest).map (fun r => (b :: r.1, r.2))

/-- State of the loop of `settings_override_get_filter`. -/
structure override_filter_state where
  key : CStr
  filter : Option CStr := none
  last_filter_key : Option CStr := none
  last_filter_value : Option CStr := none
  last_filter_key_pos : Nat := 0
  /-- the last `strchr(key, '/')`: the segment before the slash and the rest -/
  value : Option (CStr × CStr) := none
  deriving DecidableEq

/-- Source: the `while` loop of `settings_override_get_filter`
(settings.c:1402-1418); every iteration shortens the key. -/
def settings_override_get_filter_loop (env : settings_env) :
    Nat → override_filter_state → override_filter_state
  | 0, s => s
  | fuel + 1, s =>
    match split_slash s.key with
    | none => { s with value := none }
    | some (seg, rest) =>
      match split_slash rest with
      | none => { s with value := some (seg, rest) }
      | some (val, next) =>
        let filter : CStr := match s.filter with
          | none => []
          | some f => f ++ cs " AND "
        let last_filter_key :=
          if seg = SETTINGS_EVENT_MAILBOX_NAME_WITH_PREFIX then
            SETTINGS_EVENT_MAILBOX_NAME_WITHOUT_PREFIX
          else seg
        let pos := filter.length
        let filter := filter ++ cs "\"" ++ env.wildcard_str_escape last_filter_key ++
          cs "\"=\"" ++ env.str_escape val ++ cs "\""
        settings_override_get_filter_loop env fuel
          { key := next, filter := some filter, last_filter_key := some last_filter_key,
            last_filter_value := some val, last_filter_key_pos := pos,
            value := some (seg, rest) }

/-- Source: `settings_override_get_filter` (settings.c:1380): fills in the key,
the scoping filter and the last filter key and value of the override. -/
def settings_override_get_filter (env : settings_env) (set : settings_override)
    (key0 : CStr) : Res settings_override :=
  let s := settings_override_get_filter_loop env (key0.length + 1) { key := key0 }
  let named : Option (CStr × CStr) :=
    match s.value with
    | some v => if (cs "plugin").isPrefixOf s.key then none else some v
    | none => none
  let r : settings_override × Option CStr :=
    match named with
    | some (seg, rest) =>
      let filter : CStr := match s.filter with
        | none => []
        | some f => f ++ cs " AND "
      let filter := filter ++ SETTINGS_EVENT_FILTER_NAME ++ cs "=\"" ++
        env.wildcard_str_escape seg ++ cs "\""
      ({ set with last_filter_key := some seg, last_filter_value := none, key := rest },
       some filter)
    | none =>
      match s.last_filter_key, s.last_filter_value, s.filter with
      | some lk, some lv, some f =>
        let filter := f.take s.last_filter_key_pos ++ cs "(" ++ f.drop s.last_filter_key_pos ++
          cs " OR " ++ SETTINGS_EVENT_FILTER_NAME ++ cs "=\"" ++ lk ++ cs "/" ++
          env.wildcard_str_escape (env.settings_section_escape lv) ++ cs "\")"
        ({ set with last_filter_key := some lk, last_filter_value := some lv, key := s.key },
         some filter)
      | _, _, _ => ({ set with key := s.key }, s.filter)
  match r.2 with
  | none => .ok r.1
  | some filter =>
    match env.event_filter_parse_case_sensitive filter with
    | .ok f => .ok { r.1 with filter := some f }
    | .error _ => .fault (.panic "BUG: Failed to create event filter filter")

/-- Source: `settings_override` (settings.c:1453): append an override to the
instance's list. -/
def settings_override_install (env : settings_env) (inst : settings_instance)
    (key value : CStr) (type : settings_override_type) : Res settings_instance :=
  let append : Bool := key.getLast? = some 43
  let key := if append then key.dropLast else key
  let set : settings_override := { type := type, append := append, key := [], value := value }
  (settings_override_get_filter env set key).bind (fun set =>
    .ok { inst with overrides := inst.overrides ++ [set] })

/-- Source: `settings_root_override` (settings.c:1474): append an override to
the root's list. -/
def settings_root_override (env : settings_env) (root : settings_root)
    (key value : CStr) (type : settings_override_type) : Res settings_root :=
  let set : settings_override := { type := type, key := [], value := value }
  (settings_override_get_filter env set key).bind (fun set =>
    .ok { root with overrides := root.overrides ++ [set] })

/-! ## Ghost definitions and example inputs -/

/-- The size of a mapped file fits an `off_t`. -/
def valid_mmap_size (base : List Byte) : Prop := base.length < 9223372036854775808

/-- The `n` size-prefixed filter regions that start at `offset` all end inside
the block: what the filter loop of `settings_block_read` checks. -/
def filters_fit (base : List Byte) (block_end_offset : Nat) : Nat → Nat → Prop
  | 0, _ => True
  | n + 1, offset =>
    ∃ size, be64_to_cpu_unaligned base offset = .ok size ∧
      offset + 8 + size ≤ block_end_offset ∧
      filters_fit base block_end_offset n (offset + 8 + size)

/-- An event filter parser for the examples: it knows `service=lda`. -/
def example_filter_parse (s : CStr) : Except CStr event_filter :=
  if s = cs "service=lda" then .ok (.field_eq (cs "service") (cs "lda"))
  else .error (cs "syntax error")

/-- Read parameters of the examples. -/
def example_read_params : settings_read_params := { event_filter_parse := example_filter_parse }

/-- A file that consists of the header line only. -/
def header_only_blob : List Byte := cs "DOVECOT-CONFIG\t1.0\n"

/-- A well-formed file (59 bytes): the header line, the total size, an empty
filter table and one block named `a` with no keys, an empty base region and
no filters. -/
def minimal_blob : List Byte :=
  [68, 79, 86, 69, 67, 79, 84, 45, 67, 79, 78, 70, 73, 71, 9, 49,
   46, 48, 10, 0, 0, 0, 0, 0, 0, 0, 32, 0, 0, 0, 0, 0,
   0, 0, 0, 0, 0, 0, 20, 97, 0, 0, 0, 0, 0, 0, 0, 0,
   0, 0, 0, 0, 1, 0, 0, 0, 0, 0, 0]

/-- A well-formed file for Scenario A: filter table `[service=lda]`; one block
`fs` with the keys `fs_name`, `fs_driver`, `fs`, the base pair
`fs_driver=posix` and one filter assignment (filter 0) with the pair
`fs_driver=sis`. -/
def fs_blob : List Byte :=
  [68, 79, 86, 69, 67, 79, 84, 45, 67, 79, 78, 70, 73, 71, 9, 49,
   46, 48, 10, 0, 0, 0, 0, 0, 0, 0, 105, 0, 0, 0, 1, 115,
   101, 114, 118, 105, 99, 101, 61, 108, 100, 97, 0, 0, 0, 0, 0, 0,
   0, 0, 81, 102, 115, 0, 0, 0, 0, 3, 102, 115, 95, 110, 97, 109,
   101, 0, 102, 115, 95, 100, 114, 105, 118, 101, 114, 0, 102, 115, 0, 0,
   0, 0, 0, 0, 0, 0, 11, 0, 0, 0, 0, 1, 112, 111, 115, 105,
   120, 0, 0, 0, 0, 1, 0, 0, 0, 0, 0, 0, 0, 9, 0, 0,
   0, 0, 1, 115, 105, 115, 0, 0, 0, 0, 0, 0, 0, 0, 0, 0,
   0, 0, 102, 0]

/-- A well-formed file whose block `fs` lists the single key `fs_name`. -/
def short_keys_blob : List Byte :=
  [68, 79, 86, 69, 67, 79, 84, 45, 67, 79, 78, 70, 73, 71, 9, 49,
   46, 48, 10, 0, 0, 0, 0, 0, 0, 0, 41, 0, 0, 0, 0, 0,
   0, 0, 0, 0, 0, 0, 29, 102, 115, 0, 0, 0, 0, 1, 102, 115,
   95, 110, 97, 109, 101, 0, 0, 0, 0, 0, 0, 0, 0, 1, 0, 0,
   0, 0, 0, 0]

/-- Source: `fs_settings_check` (lib-fs/fs-api.c:187): an empty `fs_driver`
defaults to `fs_name`. -/
def fs_settings_check (set : setting_parser_context) : Except CStr (Nat → Option CStr) :=
  if set.values 1 = some [] ∧ set.values 0 ≠ some [] then
    .ok (fun j => if j = 1 then set.values 0 else set.values j)
  else .ok set.values

/-- Source: `fs_setting_parser_info` (lib-fs/fs-api.c:23-47). -/
def fs_setting_parser_info : setting_parser_info :=
  { name := cs "fs",
    defines := [⟨.SET_STR, cs "fs_name"⟩, ⟨.SET_STR, cs "fs_driver"⟩,
                ⟨.SET_FILTER_ARRAY, cs "fs"⟩],
    defaults := fun k => if k < 2 then some [] else none,
    value_ok := fun _ _ => true,
    check_func := some fs_settings_check }

/-- The size fields recorded for a block stay inside their enclosing regions:
the block inside the buffer, the base region inside the block, and every
size-prefixed filter region inside the block. -/
def block_sizes_fit (base : List Byte) (b : settings_mmap_block) : Prop :=
  b.block_end_offset ≤ base.length ∧ b.base_start_offset ≤ b.base_end_offset ∧
    b.base_end_offset ≤ b.block_end_offset ∧
    filters_fit base b.block_end_offset b.filter_count (b.base_end_offset + 4)

/-- The key index belongs to the schema and its type is neither string list
nor filter array: the keys that the `set_seen` array gates. -/
def scalar_key (info : setting_parser_info) (k : Nat) : Prop :=
  ∃ d, info.defines[k]? = some d ∧ d.type ≠ .SET_STRLIST ∧ d.type ≠ .SET_FILTER_ARRAY

/-- The state changes that a resolution is made of: a key is marked as seen; a
key is marked and assigned through `settings_parse_keyidx_value_nodup`; an
entry is added to a string list or filter array; an unseen string key gets its
expanded default; the block's `settings_validated` flag is stored.  The index
that is marked is that of a gated key of the schema or, for a pair of the blob
that names it, that of the end entry of `defines[]`. -/
inductive apply_step (info : setting_parser_info) :
    settings_apply_state → settings_apply_state → Prop where
  | mark (st : settings_apply_state) (k : Nat) :
    scalar_key info k ∨ k = info.defines.length → st.set_seen k = false →
    apply_step info st (st.mark k)
  | mark_assign (st : settings_apply_state) (k : Nat) (key value : CStr) :
    scalar_key info k ∨ k = info.defines.length → st.set_seen k = false →
    apply_step info st
      { st.mark k with parser := (settings_parse_keyidx_value_nodup info st.parser k key value).2 }
  | accum (st : settings_apply_state) (k : Nat) (d : setting_define) (key value : CStr) :
    info.defines[k]? = some d → (d.type = .SET_STRLIST ∨ d.type = .SET_FILTER_ARRAY) →
    apply_step info st
      { st with parser := (settings_parse_keyidx_value_nodup info st.parser k key value).2 }
  | default (st : settings_apply_state) (k : Nat) (d : setting_define) (key value : CStr) :
    info.defines[k]? = some d → d.type = .SET_STR → st.set_seen k = false →
    apply_step info st
      { st with parser := (settings_parse_keyidx_value info st.parser k key value).2 }
  | set_mmap (st : settings_apply_state) (m : Option settings_mmap) :
    apply_step info st { st with mmap := m }

/-- A sequence of state changes. -/
def apply_steps (info : setting_parser_info) :
    settings_apply_state → settings_apply_state → Prop :=
  Relation.ReflTransGen (apply_step info)

/-- Library functions for the examples: no variable expands, nothing needs
escaping. -/
def example_env : settings_env :=
  { var_expand_with_funcs := fun _ _ _ v => (v, none),
    settings_section_escape := id,
    wildcard_str_escape := id,
    str_escape := id,
    event_filter_parse_case_sensitive := example_filter_parse }

/-- The mmap that `settings_mmap_parse` makes of a buffer (the bare buffer if
the parse fails). -/
def example_mmap (blob : List Byte) : settings_mmap :=
  match settings_mmap_parse example_read_params { mmap_base := blob } with
  | .ok r => r.1
  | _ => { mmap_base := blob }

/-- The block with the given name in the index of `example_mmap blob` (an empty
block if there is none). -/
def example_block (blob : List Byte) (name : CStr) : settings_mmap_block :=
  ((example_mmap blob).lookup name).getD { name := [], block_end_offset := 0 }

/-- The blob `fs_blob` as `settings_mmap_parse` indexes it. -/
def fs_mmap : Option settings_mmap := some (example_mmap fs_blob)

/-- A resolution of the schema `fs` against `fs_blob` for an event with the field
`service`, with the given instance and root overrides. -/
def fs_example_ctx (service : CStr) (instance_overrides root_overrides : List settings_override) :
    settings_apply_ctx :=
  { env := example_env,
    event := [{ fields := [(cs "service", service)] }],
    root := { mmap := fs_mmap, overrides := root_overrides },
    inst := { mmap := fs_mmap, overrides := instance_overrides },
    info := fs_setting_parser_info }

/-- The override is in scope and `settings_override_get_value` resolves it to
the key index `k` with the override's own value (it is not an append). -/
def override_targets (ctx : settings_apply_ctx) (o : settings_override) (k : Nat) : Prop :=
  settings_override_matches ctx o = true ∧
    ∀ st, ∃ key, settings_override_get_value ctx o st = .ok (some (key, k, o.value))

/-- The override does not touch the key index `k`: it is out of scope, or its key
is unknown to the schema, or it resolves to another key index. -/
def override_misses (ctx : settings_apply_ctx) (o : settings_override) (k : Nat) : Prop :=
  settings_override_matches ctx o = false ∨
    ∀ st, settings_override_get_value ctx o st = .ok none ∨
      ∃ key k' v, settings_override_get_value ctx o st = .ok (some (key, k', v)) ∧ k' ≠ k

/-- The validation callback of the schema leaves the value `v` of field `k` as
it is. -/
def check_keeps (info : setting_parser_info) (k : Nat) (v : CStr) : Prop :=
  ∀ p s, settings_check info p = .ok s → p.values k = some v → s.values k = some v

/-- The value of field `k` of the settings struct that a resolution returned. -/
def resolved_value (r : Res (Option setting_parser_context)) (k : Nat) : Option CStr :=
  match r with
  | .ok (some s) => s.values k
  | _ => none

/-- An event that carries the root and instance pointers for a resolution of
the schema `fs` against `fs_blob`: the field `service` and the given instance
and root overrides. -/
def fs_example_event (service : CStr)
    (instance_overrides root_overrides : List settings_override) : event :=
  [{ fields := [(cs "service", service)],
     root := some { mmap := fs_mmap, overrides := root_overrides },
     inst := some { mmap := fs_mmap, overrides := instance_overrides } }]

/-- An example schema `dict` with the string keys `dict_name` and `dict_driver`. -/
def dict_example_info : setting_parser_info :=
  { name := cs "dict",
    defines := [⟨.SET_STR, cs "dict_name"⟩, ⟨.SET_STR, cs "dict_driver"⟩],
    defaults := fun k => if k < 2 then some [] else none,
    value_ok := fun _ _ => true }

/-- The key/value pair at `offset` as an iteration of the loop of
`settings_mmap_apply_blob` decodes it: key index, sub-key (for a string list),
value, and the offset behind the pair; `none` if the iteration fails. -/
def settings_blob_pair_decode (info : setting_parser_info) (base : List Byte)
    (block : settings_mmap_block) (end_offset offset : Nat) :
    Option (Nat × Option CStr × CStr × Nat) :=
  match be32_to_cpu_unaligned base offset with
  | .ok key_idx =>
    if key_idx ≥ block.settings_count then none
    else
      match info.define_at key_idx with
      | none => none
      | some d =>
        let sub : Option (Option CStr × Nat) :=
          if d.type = .SET_STRLIST then
            match c_str_at base (offset + 4) with
            | .ok s => some (some s, offset + 4 + (s.length + 1))
            | _ => none
          else some (none, offset + 4)
        match sub with
        | none => none
        | some (strlist_key, off) =>
          if off ≥ end_offset then none
          else
            match c_str_at base off with
            | .ok value =>
              if off + (value.length + 1) > end_offset then none
              else some (key_idx, strlist_key, value, off + (value.length + 1))
            | _ => none
  | _ => none

/-- The value of the first pair with key index `k` among the pairs that the
loop of `settings_mmap_apply_blob` decodes from `offset` up to `end_offset`. -/
def settings_blob_first_value (info : setting_parser_info) (base : List Byte)
    (block : settings_mmap_block) (end_offset : Nat) : Nat → Nat → Nat → Option CStr
  | 0, _, _ => none
  | fuel + 1, offset, k =>
    if ¬ offset < end_offset then none
    else
      match settings_blob_pair_decode info base block end_offset offset with
      | none => none
      | some (key_idx, _, value, next) =>
        if key_idx = k then some value
        else settings_blob_first_value info base block end_offset fuel next k

/-- The value that the region from `start_offset` to `end_offset` gives to the
key index `k`, if it sets the key. -/
def settings_region_value (info : setting_parser_info) (base : List Byte)
    (block : settings_mmap_block) (start_offset end_offset k : Nat) : Option CStr :=
  settings_blob_first_value info base block end_offset (end_offset - start_offset + 1)
    start_offset k

/-- The value that the filter assignment with index `i` gives to the key index
`k` for the event of the context: `none` if its filter does not match the
event or if it does not set the key. -/
def settings_filter_value (ctx : settings_apply_ctx) (mmap : settings_mmap)
    (block : settings_mmap_block) (i k : Nat) : Option CStr :=
  match settings_mmap_filter_lookup mmap block i with
  | .ok event_filter =>
    if settings_event_filter_matches ctx event_filter then
      match settings_mmap_filter_region mmap.mmap_base block i with
      | .ok (s, e) => settings_region_value ctx.info mmap.mmap_base block s e k
      | _ => none
    else none
  | _ => none

/-- The value that the filter assignments with index below `n` give to the key
index `k`: that of the highest index whose filter matches and that sets the
key. -/
def settings_filters_value (ctx : settings_apply_ctx) (mmap : settings_mmap)
    (block : settings_mmap_block) : Nat → Nat → Option CStr
  | 0, _ => none
  | i + 1, k =>
    match settings_filter_value ctx mmap block i k with
    | some v => some v
    | none => settings_filters_value ctx mmap block i k

/-- The key `k` is marked as seen and holds the value that
`settings_mmap_apply_key` makes of the raw value `v` (its variable expansion
for a string key). -/
def key_applied (ctx : settings_apply_ctx) (st : settings_apply_state) (k : Nat) (v : CStr) :
    Prop :=
  st.set_seen k = true ∧
    ∃ d v', ctx.info.defines[k]? = some d ∧
      settings_mmap_apply_key_expand ctx d none d.key v = .ok v' ∧
      st.parser.values k = some v'

/-- The value that the block gives to the key index `k` for the event of the
context: that of the highest-index matching filter assignment that sets the
key, else that of the base region. -/
def settings_block_value (ctx : settings_apply_ctx) (mmap : settings_mmap)
    (block : settings_mmap_block) (k : Nat) : Option CStr :=
  match settings_filters_value ctx mmap block block.filter_count k with
  | some v => some v
  | none =>
    settings_region_value ctx.info mmap.mmap_base block block.base_start_offset
      block.base_end_offset k

/-- A file that ends three bytes after the header line: the total-size field is
cut short. -/
def truncated_size_blob : List Byte := cs "DOVECOT-CONFIG\t1.0\n" ++ [0, 0, 0]

/-- The file `minimal_blob` with its last byte, the safety NUL of the block,
replaced by 1. -/
def no_nul_blob : List Byte := minimal_blob.dropLast ++ [1]

/-- A file with two well-formed blocks that are both named `a`. -/
def duplicate_name_blob : List Byte :=
  [68, 79, 86, 69, 67, 79, 84, 45, 67, 79, 78, 70, 73, 71, 9, 49,
   46, 48, 10, 0, 0, 0, 0, 0, 0, 0, 60, 0, 0, 0, 0, 0,
   0, 0, 0, 0, 0, 0, 20, 97, 0, 0, 0, 0, 0, 0, 0, 0,
   0, 0, 0, 0, 1, 0, 0, 0, 0, 0, 0, 0, 0, 0, 0, 0,
   0, 0, 20, 97, 0, 0, 0, 0, 0, 0, 0, 0, 0, 0, 0, 0,
   1, 0, 0, 0, 0, 0, 0]

/-- The part of `settings_block_read` before its final offset check
(settings.c:256-362): the sizes, the name, the key list, the base region and
the filter regions are read and the fields of the block are recorded;
`filter_indexes_start_offset` is the offset reached after the last filter's
size-prefixed region. -/
def settings_block_read_fields (mmap : settings_mmap) (offset0 : Nat) :
    Res settings_mmap_block :=
  let base := mmap.mmap_base
  let block_size_offset := offset0
  (settings_block_read_size base offset0 mmap.mmap_size "block size").bind (fun r =>
    let block_end_offset := r.2 + r.1
    (read_byte base (block_end_offset - 1)).bind (fun last =>
      if last ≠ 0 then .error (.block_no_nul (block_end_offset - 1))
      else
      (settings_block_read_str base r.2 block_end_offset "block name").bind (fun rn =>
        if (mmap.lookup rn.1).isSome then
          .error (.duplicate_block_name rn.1 block_size_offset)
        else
        (settings_block_read_uint32 base rn.2 block_end_offset "settings count").bind
          (fun rc =>
          (settings_block_read_keys base block_end_offset rc.1 rc.2).bind (fun offset =>
            (settings_block_read_size base offset block_end_offset
              "base settings size").bind (fun rb =>
              (settings_block_read_str base rb.2 (rb.2 + rb.1)
                "base settings error").bind (fun re =>
                (settings_block_read_uint32 base (rb.2 + rb.1) block_end_offset
                  "filter count").bind (fun rf =>
                  (settings_block_read_filters base block_end_offset rf.1 rf.2).bind
                    (fun offset =>
                    .ok { name := rn.1,
                          block_end_offset := block_end_offset,
                          error := if re.1 = [] then none else some re.1,
                          base_start_offset := re.2,
                          base_end_offset := rb.2 + rb.1,
                          filter_count := rf.1,
                          filter_indexes_start_offset := offset,
                          filter_offsets_start_offset := wrap64 (offset + 4 * rf.1),
                          settings_count := rc.1,
                          settings_keys_offset := rc.2,
                          settings_validated := false })))))))))

/-- The end of `settings_block_read` (settings.c:359-372) for the block fields
`b`: the index and offset arrays and the safety NUL are skipped and the offset
reached is compared with the end of the block. -/
def settings_block_read_end (mmap : settings_mmap) (b : settings_mmap_block) :
    Res (settings_mmap × Nat) :=
  let offset := wrap64 (b.filter_indexes_start_offset + 4 * b.filter_count)
  let offset := wrap64 (offset + 8 * b.filter_count)
  let offset := wrap64 (offset + 1)
  if offset ≠ b.block_end_offset then
    .error (.filter_end_offset_mismatch offset b.block_end_offset)
  else .ok ({ mmap with blocks := mmap.blocks ++ [b] }, offset)

/-- A file like `minimal_blob` whose block `a` is one byte longer than its
contents: a second NUL follows the safety NUL. -/
def trailing_byte_blob : List Byte :=
  [68, 79, 86, 69, 67, 79, 84, 45, 67, 79, 78, 70, 73, 71, 9, 49,
   46, 48, 10, 0, 0, 0, 0, 0, 0, 0, 33, 0, 0, 0, 0, 0,
   0, 0, 0, 0, 0, 0, 21, 97, 0, 0, 0, 0, 0, 0, 0, 0,
   0, 0, 0, 0, 1, 0, 0, 0, 0, 0, 0, 0]

/-- An event filter parser for the examples with `protocol` and `service`
clauses. -/
def identity_filter_parse (s : CStr) : Except CStr event_filter :=
  if s = cs "NOT protocol=imap" then .ok (.op_not (.field_eq (cs "protocol") (cs "imap")))
  else if s = cs "protocol=pop3" then .ok (.field_eq (cs "protocol") (cs "pop3"))
  else if s = cs "service=lda" then .ok (.field_eq (cs "service") (cs "lda"))
  else if s = cs "NOT service=imap" then .ok (.op_not (.field_eq (cs "service") (cs "imap")))
  else .error (cs "syntax error")

/-- Read parameters of a process with service name `imap` and protocol name
`imap`. -/
def imap_read_params : settings_read_params :=
  { service_name := some (cs "imap"), protocol_name := some (cs "imap"),
    event_filter_parse := identity_filter_parse }

/-- A well-formed file with the filter table `[NOT protocol=imap,
protocol=pop3, service=lda, NOT service=imap, (empty)]` and one block `a`. -/
def identity_filters_blob : List Byte :=
  [68, 79, 86, 69, 67, 79, 84, 45, 67, 79, 78, 70, 73, 71, 9, 49,
   46, 48, 10, 0, 0, 0, 0, 0, 0, 0, 94, 0, 0, 0, 5, 78,
   79, 84, 32, 112, 114, 111, 116, 111, 99, 111, 108, 61, 105, 109, 97, 112,
   0, 112, 114, 111, 116, 111, 99, 111, 108, 61, 112, 111, 112, 51, 0, 115,
   101, 114, 118, 105, 99, 101, 61, 108, 100, 97, 0, 78, 79, 84, 32, 115,
   101, 114, 118, 105, 99, 101, 61, 105, 109, 97, 112, 0, 0, 0, 0, 0,
   0, 0, 0, 0, 20, 97, 0, 0, 0, 0, 0, 0, 0, 0, 0, 0,
   0, 0, 1, 0, 0, 0, 0, 0, 0]

/-- The protocol clause of a parsed filter demotes the entry to the NEVER
sentinel (settings.c:215-232). -/
def settings_protocol_demotes (p : settings_read_params) (tmp_filter : event_filter) : Bool :=
  match event_filter_find_field_exact tmp_filter (cs "protocol") false, p.protocol_name with
  | some (value0, op_not), some protocol_name =>
    ((decide (protocol_name = (if op_not then cs "!" ++ value0 else value0))) == op_not) &&
      !p.no_protocol_filter
  | _, _ => false

/-- The `n` filter strings of the filter table that starts at `offset`, as the
loop of `settings_read_filters` reads them. -/
def settings_filter_strings (base : List Byte) : Nat → Nat → List CStr
  | 0, _ => []
  | n + 1, offset =>
    match settings_block_read_str base offset base.length "filter string" with
    | .ok (s, next) => s :: settings_filter_strings base n next
    | _ => []

/-- Read parameters of a process with service name `lda` and no protocol
name. -/
def lda_read_params : settings_read_params :=
  { service_name := some (cs "lda"), event_filter_parse := identity_filter_parse }

/-- The loop of `settings_mmap_apply_blob` reaches, over pairs that decode, a
pair whose key index is not below the block's schema-key count. -/
def settings_blob_has_high_key (info : setting_parser_info) (base : List Byte)
    (block : settings_mmap_block) (end_offset : Nat) : Nat → Nat → Bool
  | 0, _ => false
  | fuel + 1, offset =>
    if ¬ offset < end_offset then false
    else
      match be32_to_cpu_unaligned base offset with
      | .ok key_idx =>
        if key_idx ≥ block.settings_count then true
        else
          match settings_blob_pair_decode info base block end_offset offset with
          | some (_, _, _, next) => settings_blob_has_high_key info base block end_offset fuel next
          | none => false
      | _ => false

/-- The key/value region from `start_offset` to `end_offset` contains a pair
whose key index is not below the block's schema-key count. -/
def settings_region_has_high_key (info : setting_parser_info) (base : List Byte)
    (block : settings_mmap_block) (start_offset end_offset : Nat) : Bool :=
  settings_blob_has_high_key info base block end_offset (end_offset - start_offset + 1)
    start_offset

/-- A schema named `fs` that knows only the key `fs_name`. -/
def fs_name_only_info : setting_parser_info :=
  { name := cs "fs",
    defines := [⟨.SET_STR, cs "fs_name"⟩],
    defaults := fun k => if k < 1 then some [] else none,
    value_ok := fun _ _ => true }

/-- A resolution of the one-key schema `fs_name_only_info` against `fs_blob`
(whose block `fs` lists three keys) with the flag
`SETTINGS_GET_NO_KEY_VALIDATION`. -/
def fs_name_only_ctx : settings_apply_ctx :=
  { fs_example_ctx (cs "imap") [] [] with
    info := fs_name_only_info,
    flags := { SETTINGS_GET_NO_KEY_VALIDATION := true } }

/-- A file whose block `fs` lists the single key `fs_name` and whose base
region holds one pair with the key index 5. -/
def high_key_blob : List Byte :=
  [68, 79, 86, 69, 67, 79, 84, 45, 67, 79, 78, 70, 73, 71, 9, 49,
   46, 48, 10, 0, 0, 0, 0, 0, 0, 0, 47, 0, 0, 0, 0, 0,
   0, 0, 0, 0, 0, 0, 35, 102, 115, 0, 0, 0, 0, 1, 102, 115,
   95, 110, 97, 109, 101, 0, 0, 0, 0, 0, 0, 0, 0, 7, 0, 0,
   0, 0, 5, 120, 0, 0, 0, 0, 0, 0]

/-- A file like `fs_blob` whose block `fs` carries the base-region error string
`bad config`. -/
def error_block_blob : List Byte :=
  [68, 79, 86, 69, 67, 79, 84, 45, 67, 79, 78, 70, 73, 71, 9, 49,
   46, 48, 10, 0, 0, 0, 0, 0, 0, 0, 115, 0, 0, 0, 1, 115,
   101, 114, 118, 105, 99, 101, 61, 108, 100, 97, 0, 0, 0, 0, 0, 0,
   0, 0, 91, 102, 115, 0, 0, 0, 0, 3, 102, 115, 95, 110, 97, 109,
   101, 0, 102, 115, 95, 100, 114, 105, 118, 101, 114, 0, 102, 115, 0, 0,
   0, 0, 0, 0, 0, 0, 21, 98, 97, 100, 32, 99, 111, 110, 102, 105,
   103, 0, 0, 0, 0, 1, 112, 111, 115, 105, 120, 0, 0, 0, 0, 1,
   0, 0, 0, 0, 0, 0, 0, 9, 0, 0, 0, 0, 1, 115, 105, 115,
   0, 0, 0, 0, 0, 0, 0, 0, 0, 0, 0, 0, 112, 0]

/-- An event that carries the root and instance pointers for a resolution
against `error_block_blob`, with the given instance overrides. -/
def error_block_event (instance_overrides : List settings_override) : event :=
  [{ fields := [(cs "service", cs "imap")],
     root := some { mmap := some (example_mmap error_block_blob) },
     inst := some { mmap := some (example_mmap error_block_blob),
                    overrides := instance_overrides } }]

/-- A resolution of the schema `fs` against `error_block_blob`, without
overrides. -/
def error_block_ctx : settings_apply_ctx :=
  { env := example_env,
    event := [{ fields := [(cs "service", cs "imap")] }],
    root := { mmap := some (example_mmap error_block_blob) },
    inst := { mmap := some (example_mmap error_block_blob) },
    info := fs_setting_parser_info }

/-- Source: `settings_try_get_filter` (settings.c:1350): the result of
`settings_get_full` is passed on. -/
def settings_try_get_filter (env : settings_env) (event : event)
    (filter_key filter_value : Option CStr) (info : setting_parser_info)
    (flags : settings_get_flags) :
    Res (Option setting_parser_context) × Option settings_apply_state :=
  settings_get_full env event filter_key filter_value info flags

/-- Source: `settings_get_filter` (settings.c:1325): return value 0 of
`settings_get_full` becomes `-1` with the error "Filter ... unexpectedly not
found". -/
def settings_get_filter (env : settings_env) (event : event)
    (filter_key filter_value : Option CStr) (info : setting_parser_info)
    (flags : settings_get_flags) :
    Res setting_parser_context × Option settings_apply_state :=
  match settings_get_full env event filter_key filter_value info flags with
  | (.error e, st) => (.error e, st)
  | (.fault f, st) => (.fault f, st)
  | (.ok none, st) => (.error (.filter_not_found filter_key filter_value), st)
  | (.ok (some set), st) => (.ok set, st)

/-- The override is in scope and its last filter key and value are the
requested ones: the test of settings.c:1072-1079 that sets `seen_filter`. -/
def settings_override_names_filter (ctx : settings_apply_ctx) (set : settings_override) :
    Bool :=
  settings_override_matches ctx set &&
    (match ctx.filter_key, set.last_filter_key with
     | some fk, some lk => decide (fk = lk) && decide (ctx.filter_value = set.last_filter_value)
     | _, _ => false)

/-- The filter of the filter assignment with index `i` applies to the event and
names the requested named filter: the test of settings.c:706-741 that sets
`seen_filter`. -/
def settings_filter_assignment_names (ctx : settings_apply_ctx) (mmap : settings_mmap)
    (block : settings_mmap_block) (i : Nat) : Bool :=
  match settings_mmap_filter_lookup mmap block i with
  | .ok event_filter =>
    settings_event_filter_matches ctx event_filter &&
      settings_filter_names ctx.filter_name event_filter
  | _ => false

/-- Some override of the instance or the root, or some filter assignment of
the schema's block, matched the requested named filter. -/
def settings_named_filter_seen (ctx : settings_apply_ctx) : Bool :=
  (ctx.inst.overrides ++ ctx.root.overrides).any (settings_override_names_filter ctx) ||
    (match ctx.inst.mmap with
     | some mmap =>
       match mmap.lookup ctx.info.name with
       | some block =>
         (List.range block.filter_count).any (settings_filter_assignment_names ctx mmap block)
       | none => false
     | none => false)

/-- The resolution returned 0 (NotFound). -/
def is_not_found {α : Type} : Res (Option α) → Bool
  | .ok none => true
  | _ => false

/-- The resolution returned 1 with a settings struct. -/
def is_found {α : Type} : Res (Option α) → Bool
  | .ok (some _) => true
  | _ => false

/-- An event filter parser for the examples: it knows the scoping filter that
`settings_override_get_filter` generates for the key prefix `namespace/inbox/`. -/
def namespace_filter_parse (s : CStr) : Except CStr event_filter :=
  if s = cs "(\"namespace\"=\"inbox\" OR settings_filter_name=\"namespace/inbox\")" then
    .ok (.op_or (.field_eq (cs "namespace") (cs "inbox"))
      (.field_eq SETTINGS_EVENT_FILTER_NAME (cs "namespace/inbox")))
  else .error (cs "syntax error")

/-- Library functions for the examples with named filters. -/
def namespace_env : settings_env :=
  { example_env with event_filter_parse_case_sensitive := namespace_filter_parse }

/-- An event that carries a root without blob and an instance with the given
overrides. -/
def namespace_event (instance_overrides : List settings_override) : event :=
  [{ root := some {}, inst := some { overrides := instance_overrides } }]

/-- The example schema `dict` with a validation callback that rejects every
struct. -/
def dict_strict_info : setting_parser_info :=
  { dict_example_info with check_func := some (fun _ => .error (cs "rejected")) }
/-- The override record that `settings_override(instance,
"namespace/inbox/unknown_key", "x", SETTINGS_OVERRIDE_TYPE_USERDB)` appends:
scoped to the named filter `namespace=inbox`, with a key that the schema `dict`
does not know. -/
def unknown_key_override : settings_override :=
  { type := .SETTINGS_OVERRIDE_TYPE_USERDB,
    key := cs "unknown_key",
    value := cs "x",
    filter := some (.op_or (.field_eq (cs "namespace") (cs "inbox"))
      (.field_eq SETTINGS_EVENT_FILTER_NAME (cs "namespace/inbox"))),
    last_filter_key := some (cs "namespace"),
    last_filter_value := some (cs "inbox") }

/-- The context of a lookup of the named filter `namespace=inbox` of the schema
`dict`, without blob, with the given instance overrides. -/
def namespace_ctx (instance_overrides : List settings_override) : settings_apply_ctx :=
  { env := namespace_env,
    event := [{ fields := [(SETTINGS_EVENT_FILTER_NAME, cs "namespace/inbox")] }],
    root := {},
    inst := { overrides := instance_overrides },
    info := dict_example_info,
    filter_key := some (cs "namespace"),
    filter_value := some (cs "inbox"),
    filter_name := some (cs "namespace/inbox"),
    filter_name_required := true }

/-- The `/`-separated segments of a key: a key with `n` slashes has `n + 1`
segments. -/
def key_segments : CStr → List CStr
  | [] => [[]]
  | b :: rest =>
    if b = 47 then [] :: key_segments rest
    else
      match key_segments rest with
      | s :: ss => (b :: s) :: ss
      | [] => [[b]]

/-- The leading `segment/value/` pairs that are peeled while at least two more
slashes remain, and the segments that are left (one or two). -/
def peel_pairs : List CStr → List (CStr × CStr) × List CStr
  | a :: b :: rest =>
    match rest with
    | [] => ([], [a, b])
    | _ :: _ => ((a, b) :: (peel_pairs rest).1, (peel_pairs rest).2)
  | l => ([], l)

/-- The pairs peeled from an override key. -/
def override_key_pairs (key : CStr) : List (CStr × CStr) := (peel_pairs (key_segments key)).1

/-- The segments of an override key that follow the peeled pairs. -/
def override_key_rest (key : CStr) : List CStr := (peel_pairs (key_segments key)).2

/-- The segments joined with `/`. -/
def join_segments : List CStr → CStr
  | [] => []
  | [s] => s
  | s :: ss => s ++ 47 :: join_segments ss

/-- The filter key recorded for a segment: `mailbox` is recorded as
`mailbox_subname` (settings.c:1409-1411). -/
def override_filter_key (seg : CStr) : CStr :=
  if seg = SETTINGS_EVENT_MAILBOX_NAME_WITH_PREFIX then SETTINGS_EVENT_MAILBOX_NAME_WITHOUT_PREFIX
  else seg

/-- The text of the equality clause of a peeled pair (settings.c:1414). -/
def override_clause_text (env : settings_env) (p : CStr × CStr) : CStr :=
  cs "\"" ++ env.wildcard_str_escape (override_filter_key p.1) ++ cs "\"=\"" ++
    env.str_escape p.2 ++ cs "\""

/-- The filter text after the clauses of `pairs` were appended to `filter`,
joined with ` AND `. -/
def override_clauses_text (env : settings_env) (filter : Option CStr) :
    List (CStr × CStr) → Option CStr
  | [] => filter
  | p :: ps =>
    override_clauses_text env
      (some ((match filter with
              | none => []
              | some f => f ++ cs " AND ") ++ override_clause_text env p)) ps

/-- The state in which the loop of `settings_override_get_filter` ends, written
in terms of the peeled pairs and the remaining segments of the key. -/
def override_filter_loop_end (env : settings_env) (s : override_filter_state) :
    override_filter_state :=
  { key := join_segments (override_key_rest s.key),
    filter := override_clauses_text env s.filter (override_key_pairs s.key),
    last_filter_key :=
      match (override_key_pairs s.key).getLast? with
      | some p => some (override_filter_key p.1)
      | none => s.last_filter_key,
    last_filter_value :=
      match (override_key_pairs s.key).getLast? with
      | some p => some p.2
      | none => s.last_filter_value,
    last_filter_key_pos :=
      match (override_key_pairs s.key).getLast? with
      | some _ =>
        (match override_clauses_text env s.filter (override_key_pairs s.key).dropLast with
         | none => 0
         | some f => (f ++ cs " AND ").length)
      | none => s.last_filter_key_pos,
    value :=
      match override_key_rest s.key with
      | [a, b] => some (a, b)
      | _ => none }

/-- The trailing `name/` segment of an override key that is treated as a
reference to a named filter, with the key that follows it: one slash is left
after the peeled pairs and the remaining text does not start with `plugin`
(settings.c:1419). -/
def override_named_filter (key : CStr) : Option (CStr × CStr) :=
  match override_key_rest key with
  | [name, k] =>
    if (cs "plugin").isPrefixOf (join_segments [name, k]) then none else some (name, k)
  | _ => none

/-- The text in front of the clause that is appended to the filter text
`filter`: nothing, or the text so far and ` AND `. -/
def override_filter_text_and (filter : Option CStr) : CStr :=
  match filter with
  | none => []
  | some f => f ++ cs " AND "

/-- The scoping filter text for a key with a trailing named-filter segment
`name` (settings.c:1424-1429): the clauses of the peeled pairs and the clause
on the filter-name field, joined with ` AND `. -/
def override_named_filter_text (env : settings_env) (key name : CStr) : CStr :=
  override_filter_text_and (override_clauses_text env none (override_key_pairs key)) ++
    SETTINGS_EVENT_FILTER_NAME ++ cs "=\"" ++ env.wildcard_str_escape name ++ cs "\""

/-- The scoping filter text for a key without trailing named-filter segment
whose last peeled pair is `p` (settings.c:1432-1435): the clause of the last
pair is put in parentheses together with an ` OR ` clause on the filter-name
field. -/
def override_pair_filter_text (env : settings_env) (key : CStr) (p : CStr × CStr) : CStr :=
  override_filter_text_and
      (override_clauses_text env none (override_key_pairs key).dropLast) ++
    cs "(" ++ override_clause_text env p ++ cs " OR " ++ SETTINGS_EVENT_FILTER_NAME ++
    cs "=\"" ++ override_filter_key p.1 ++ cs "/" ++
    env.wildcard_str_escape (env.settings_section_escape p.2) ++ cs "\")"

/-- The end of `settings_override_get_filter` (settings.c:1439-1450): without a
filter text the override is stored as it is, else the text goes through
`event_filter_parse_case_sensitive()` and a rejected text aborts the process. -/
def override_parse_filter (env : settings_env) (r : settings_override)
    (filter : Option CStr) : Res settings_override :=
  match filter with
  | none => .ok r
  | some text =>
    match env.event_filter_parse_case_sensitive text with
    | .ok f => .ok { r with filter := some f }
    | .error _ => .fault (.panic "BUG: Failed to create event filter filter")

/-- The override record and the filter text that `settings_override_get_filter`
arrives at for a key, read off the key's segments: a named filter, else the
last peeled pair, else the key alone. -/
def override_compiled (env : settings_env) (set : settings_override) (key : CStr) :
    settings_override × Option CStr :=
  match override_named_filter key with
  | some (name, k) =>
    ({ set with last_filter_key := some name, last_filter_value := none, key := k },
     some (override_named_filter_text env key name))
  | none =>
    match (override_key_pairs key).getLast? with
    | some p =>
      ({ set with last_filter_key := some (override_filter_key p.1),
                  last_filter_value := some p.2,
                  key := join_segments (override_key_rest key) },
       some (override_pair_filter_text env key p))
    | none => ({ set with key := join_segments (override_key_rest key) }, none)

/-- The scoping filter texts of the override examples, with the filter that
each of them denotes. -/
def override_example_filters : List (CStr × event_filter) :=
  [(cs "\"dict_map\"=\"1\" AND (\"dict_map_key_field\"=\"a\" OR settings_filter_name=\"dict_map_key_field/a\")",
    .op_and (.field_eq (cs "dict_map") (cs "1"))
      (.op_or (.field_eq (cs "dict_map_key_field") (cs "a"))
        (.field_eq SETTINGS_EVENT_FILTER_NAME (cs "dict_map_key_field/a")))),
   (cs "(\"mailbox_subname\"=\"Trash\" OR settings_filter_name=\"mailbox_subname/Trash\")",
    .op_or (.field_eq (cs "mailbox_subname") (cs "Trash"))
      (.field_eq SETTINGS_EVENT_FILTER_NAME (cs "mailbox_subname/Trash"))),
   (cs "\"namespace\"=\"inbox\" AND settings_filter_name=\"mail_attribute_dict\"",
    .op_and (.field_eq (cs "namespace") (cs "inbox"))
      (.field_eq SETTINGS_EVENT_FILTER_NAME (cs "mail_attribute_dict"))),
   (cs "(\"namespace\"=\"inbox\" OR settings_filter_name=\"namespace/inbox\")",
    .op_or (.field_eq (cs "namespace") (cs "inbox"))
      (.field_eq SETTINGS_EVENT_FILTER_NAME (cs "namespace/inbox"))),
   (cs "settings_filter_name=\"inet_listener\"",
    .field_eq SETTINGS_EVENT_FILTER_NAME (cs "inet_listener")),
   (cs "(\"inet_listener\"=\"imap\" OR settings_filter_name=\"inet_listener/imap\")",
    .op_or (.field_eq (cs "inet_listener") (cs "imap"))
      (.field_eq SETTINGS_EVENT_FILTER_NAME (cs "inet_listener/imap"))),
   (cs "settings_filter_name=\"imap_capability\"",
    .field_eq SETTINGS_EVENT_FILTER_NAME (cs "imap_capability")),
   (cs "settings_filter_name=\"mail_attribute_dict\"",
    .field_eq SETTINGS_EVENT_FILTER_NAME (cs "mail_attribute_dict"))]

/-- An event filter parser for the override examples: it knows the texts of
`override_example_filters`. -/
def override_example_parse (s : CStr) : Except CStr event_filter :=
  match override_example_filters.lookup s with
  | some f => .ok f
  | none => .error (cs "syntax error")

/-- Library functions for the override examples. -/
def override_example_env : settings_env :=
  { example_env with event_filter_parse_case_sensitive := override_example_parse }

/-- The override that `settings_override()` starts from for a hard-coded
`dict_driver=file`: the key and the filter are not filled in yet. -/
def override_example_set : settings_override :=
  { type := .SETTINGS_OVERRIDE_TYPE_CODE, key := [], value := cs "file" }

/-- The override record that `settings_override(instance,
"namespace/inbox/mail_attribute_dict/dict_driver", "file",
SETTINGS_OVERRIDE_TYPE_CODE)` appends: one peeled pair and the named filter
`mail_attribute_dict`. -/
def named_dict_override : settings_override :=
  { override_example_set with
    key := cs "dict_driver",
    filter := some (.op_and (.field_eq (cs "namespace") (cs "inbox"))
      (.field_eq SETTINGS_EVENT_FILTER_NAME (cs "mail_attribute_dict"))),
    last_filter_key := some (cs "mail_attribute_dict"),
    last_filter_value := none }

/-- A resolution of the schema `dict` without blob for an event with the given
fields. -/
def dict_fields_ctx (fields : List (CStr × CStr)) : settings_apply_ctx :=
  { env := override_example_env,
    event := [{ fields := fields }],
    root := {},
    inst := {},
    info := dict_example_info }


/-- The prefix that `settings_key_part_find` puts before the key of an override
compiled from a last pair with the segment `seg`: the segment itself, and
`mailbox` for the segment `mailbox_subname`. -/
def override_key_start (seg : CStr) : CStr :=
  if seg = SETTINGS_EVENT_MAILBOX_NAME_WITHOUT_PREFIX then SETTINGS_EVENT_MAILBOX_NAME_WITH_PREFIX
  else seg

/-- An example schema `listener` with the string keys `ssl` and
`inet_listener_ssl`, both `no` by default. -/
def listener_info : setting_parser_info :=
  { name := cs "listener",
    defines := [⟨.SET_STR, cs "ssl"⟩, ⟨.SET_STR, cs "inet_listener_ssl"⟩],
    defaults := fun k => if k < 2 then some (cs "no") else none,
    value_ok := fun _ _ => true }

/-- The override record that `settings_override(instance, "inet_listener/ssl",
"required", SETTINGS_OVERRIDE_TYPE_CODE)` appends: the named filter
`inet_listener` without a value. -/
def listener_segment_override : settings_override :=
  { type := .SETTINGS_OVERRIDE_TYPE_CODE,
    key := cs "ssl",
    value := cs "required",
    filter := some (.field_eq SETTINGS_EVENT_FILTER_NAME (cs "inet_listener")),
    last_filter_key := some (cs "inet_listener"),
    last_filter_value := none }

/-- The override record that `settings_override(instance,
"inet_listener/imap/ssl", "required", SETTINGS_OVERRIDE_TYPE_CODE)` appends: the
pair `inet_listener` with `imap`. -/
def listener_pair_override : settings_override :=
  { type := .SETTINGS_OVERRIDE_TYPE_CODE,
    key := cs "ssl",
    value := cs "required",
    filter := some (.op_or (.field_eq (cs "inet_listener") (cs "imap"))
      (.field_eq SETTINGS_EVENT_FILTER_NAME (cs "inet_listener/imap"))),
    last_filter_key := some (cs "inet_listener"),
    last_filter_value := some (cs "imap") }

/-- A context of the schema `listener` without blob and without overrides. -/
def listener_ctx : settings_apply_ctx :=
  { env := override_example_env, event := [{}], root := {}, inst := {}, info := listener_info }

/-- An event with the given fields and, if given, the filter name pointer, that
carries a root without blob and an instance with the given overrides. -/
def override_example_event (fields : List (CStr × CStr)) (filter_name : Option CStr)
    (instance_overrides : List settings_override) : event :=
  [{ fields := fields, root := some {}, inst := some { overrides := instance_overrides },
     filter_name := filter_name }]

/-- An example schema `imap_login` with the string list `imap_capability`. -/
def capability_info : setting_parser_info :=
  { name := cs "imap_login",
    defines := [⟨.SET_STRLIST, cs "imap_capability"⟩],
    defaults := fun _ => none,
    value_ok := fun _ _ => true }

/-- The override record that `settings_override(set_instance,
"imap_capability/IMAP4rev2", "no", SETTINGS_OVERRIDE_TYPE_CODE)` of
imap-login-client.c appends. -/
def capability_override : settings_override :=
  { type := .SETTINGS_OVERRIDE_TYPE_CODE,
    key := cs "IMAP4rev2",
    value := cs "no",
    filter := some (.field_eq SETTINGS_EVENT_FILTER_NAME (cs "imap_capability")),
    last_filter_key := some (cs "imap_capability"),
    last_filter_value := none }

/-- The string-list entries of the settings struct that a resolution returned:
key index, sub-key and value. -/
def resolved_strlists (r : Res (Option setting_parser_context)) : List (Nat × CStr × CStr) :=
  match r with
  | .ok (some s) => s.strlists
  | _ => []


/-- An example schema `pop3c` with the string key `pop3c_host`, `mail` by
default, and the port key `pop3c_port`, `110` by default. -/
def pop3c_example_info : setting_parser_info :=
  { name := cs "pop3c",
    defines := [⟨.SET_STR, cs "pop3c_host"⟩, ⟨.SET_IN_PORT, cs "pop3c_port"⟩],
    defaults := fun k => if k = 0 then some (cs "mail") else if k = 1 then some (cs "110") else none,
    value_ok := fun _ _ => true }

/-- A resolution of the schema `pop3c` without blob with the given instance
overrides. -/
def pop3c_example_ctx (instance_overrides : List settings_override) : settings_apply_ctx :=
  { env := override_example_env,
    event := [{}],
    root := {},
    inst := { overrides := instance_overrides },
    info := pop3c_example_info }

/-- The override record that `settings_override(instance, "pop3c_port+", "0",
SETTINGS_OVERRIDE_TYPE_CODE)` appends. -/
def port_append_override : settings_override :=
  { type := .SETTINGS_OVERRIDE_TYPE_CODE, append := true, key := cs "pop3c_port", value := cs "0" }

/-- The override record that `settings_override(instance, "pop3c_host+",
".example.com", SETTINGS_OVERRIDE_TYPE_CODE)` appends. -/
def host_append_override : settings_override :=
  { type := .SETTINGS_OVERRIDE_TYPE_CODE, append := true, key := cs "pop3c_host",
    value := cs ".example.com" }

/-- The value of `*set_r` after `settings_instance_get`: the pointer is set to
NULL at the start (settings.c:1157) and assigned only before `return 1`
(settings.c:1218). -/
def settings_get_set_r (r : Res (Option setting_parser_context)) :
    Option setting_parser_context :=
  match r with
  | .ok (some set_struct) => some set_struct
  | _ => none

/-- A resolution without blob and overrides of the schema `dict` whose
validation callback rejects every struct. -/
def dict_strict_ctx : settings_apply_ctx :=
  { env := override_example_env, event := [{}], root := {}, inst := {}, info := dict_strict_info }


/-- The start of `settings_mmap_parse` (settings.c:375-426): the header line,
the total size and the filter table.  Returns the mmap with its filter table,
the offset of the first block and the `protocols` array. -/
def settings_mmap_parse_head (p : settings_read_params) (mmap : settings_mmap) :
    Res (settings_mmap × Nat × List CStr) :=
  let mmap_base := mmap.mmap_base
  let mmap_size := mmap.mmap_size
  let magic_len := magic_header.length
  match memchr 10 mmap_base with
  | none => .error .header_no_magic
  | some eol =>
    if mmap_size < magic_len || mmap_base.take magic_len ≠ magic_header then
      .error .header_no_magic
    else
    (read_byte mmap_base magic_len).bind (fun c1 =>
      let version := (mmap_base.drop magic_len).take (eol - magic_len)
      if c1 ≠ 49 then .error (.unsupported_version version)
      else
      (read_byte mmap_base (magic_len + 1)).bind (fun c2 =>
        if c2 ≠ 46 then .error (.unsupported_version version)
        else
        let full_size_offset := eol + 1
        (be64_to_cpu_unaligned mmap_base full_size_offset).bind (fun settings_full_size =>
          if wrap64 (full_size_offset + 8 + settings_full_size) ≠ mmap_size then
            .error (.full_size_mismatch full_size_offset 8 settings_full_size mmap_size)
          else
          let offset := wrap64 (full_size_offset + 8)
          settings_read_filters p mmap offset [])))

/-- The blocks `bs` fill the buffer from `offset` to its end: at `offset` the
block reader accepts, on an empty index, the first block, which ends where the
next one starts, and the last block ends at the end of the buffer. -/
def blocks_tile (base : List Byte) : Nat → List settings_mmap_block → Prop
  | offset, [] => offset = base.length
  | offset, b :: bs =>
    settings_block_read { mmap_base := base } offset =
        .ok ({ mmap_base := base, blocks := [b] }, b.block_end_offset) ∧
      blocks_tile base b.block_end_offset bs

/-- A file (31 bytes) that consists of the header line, the total size 4 and an
empty filter table: no block follows. -/
def no_block_blob : List Byte :=
  [68, 79, 86, 69, 67, 79, 84, 45, 67, 79, 78, 70, 73, 71, 9, 49,
   46, 48, 10, 0, 0, 0, 0, 0, 0, 0, 4, 0, 0, 0, 0]
/-- A well-formed file (87 bytes) with an empty filter table and the two blocks
`a` and `b`, both without keys, base pairs and filters. -/
def two_blocks_blob : List Byte :=
  [68, 79, 86, 69, 67, 79, 84, 45, 67, 79, 78, 70, 73, 71, 9, 49,
   46, 48, 10, 0, 0, 0, 0, 0, 0, 0, 60, 0, 0, 0, 0, 0,
   0, 0, 0, 0, 0, 0, 20, 97, 0, 0, 0, 0, 0, 0, 0, 0,
   0, 0, 0, 0, 1, 0, 0, 0, 0, 0, 0, 0, 0, 0, 0, 0,
   0, 0, 20, 98, 0, 0, 0, 0, 0, 0, 0, 0, 0, 0, 0, 0,
   1, 0, 0, 0, 0, 0, 0]


/-- The index entries of the two blocks of `two_blocks_blob`. -/
def two_blocks : List settings_mmap_block :=
  [{ name := cs "a", block_end_offset := 59, base_start_offset := 54, base_end_offset := 54,
     filter_indexes_start_offset := 58, filter_offsets_start_offset := 58,
     settings_keys_offset := 45 },
   { name := cs "b", block_end_offset := 87, base_start_offset := 82, base_end_offset := 82,
     filter_indexes_start_offset := 86, filter_offsets_start_offset := 86,
     settings_keys_offset := 73 }]


/-- The blob `mmap'` is the blob `mmap` as a later resolution of the schema
`info` finds it: the same bytes and filter table, and the block of the schema
either unchanged or with its `settings_validated` flag set after a successful
(or waived) key validation. -/
def settings_mmap_revalidated (info : setting_parser_info) (flags : settings_get_flags)
    (mmap mmap' : settings_mmap) : Prop :=
  mmap'.mmap_base = mmap.mmap_base ∧ mmap'.event_filters = mmap.event_filters ∧
    mmap'.event_filters_count = mmap.event_filters_count ∧
    match mmap.lookup info.name with
    | none => mmap'.lookup info.name = none
    | some block =>
      ∃ v, mmap'.lookup info.name = some { block with settings_validated := v } ∧
        (v = block.settings_validated ∨
          (v = true ∧ (flags.SETTINGS_GET_NO_KEY_VALIDATION = true ∨
            settings_mmap_validate mmap block info = .ok ())))

/-- The blob of a later resolution (`m'`) against that of an earlier one (`m`):
both absent, or `settings_mmap_revalidated`. -/
def settings_mmap_revalidated_opt (info : setting_parser_info) (flags : settings_get_flags) :
    Option settings_mmap → Option settings_mmap → Prop
  | none, none => True
  | some m, some m' => settings_mmap_revalidated info flags m m'
  | _, _ => False

/-- The override record that `settings_override(instance,
"mail_attribute_dict/dict_driver", "file", SETTINGS_OVERRIDE_TYPE_CODE)`
appends: the named filter `mail_attribute_dict` and the key `dict_driver`. -/
def mail_attribute_override : settings_override :=
  { override_example_set with
    key := cs "dict_driver",
    filter := some (.field_eq SETTINGS_EVENT_FILTER_NAME (cs "mail_attribute_dict")),
    last_filter_key := some (cs "mail_attribute_dict"),
    last_filter_value := none }


/-- The context that `settings_get_full` builds for the schema `fs` from the
event `fs_example_event` with service `imap` and no overrides. -/
def fs_example_full_ctx : settings_apply_ctx :=
  (settings_get_full_ctx example_env (fs_example_event (cs "imap") [] []) none none
    fs_setting_parser_info {}).getD (fs_example_ctx (cs "imap") [] [])


/-- Modelled from the spec: a key/value pair of a region (§4.1): the key index,
the sub-key when the key is list-typed, and the value. -/
structure blob_pair where
  key_idx : Nat
  strlist_key : Option CStr := none
  value : CStr
  deriving DecidableEq

/-- Modelled from the spec: a filter assignment of a block (§3): the index into
the filter table, the error string and the pairs. -/
structure blob_filter where
  filter_idx : Nat
  error : CStr := []
  pairs : List blob_pair := []
  deriving DecidableEq

/-- Modelled from the spec: a block of the in-memory model (§3): name, schema
keys, the error string and the pairs of the base region, and the filter
assignments. -/
structure blob_block where
  name : CStr
  keys : List CStr := []
  error : CStr := []
  pairs : List blob_pair := []
  filters : List blob_filter := []
  deriving DecidableEq

/-- Modelled from the spec: the in-memory model `{filters, blocks}` (§3). -/
structure blob_model where
  filters : List CStr := []
  blocks : List blob_block := []
  deriving DecidableEq

/-- The `n` bytes of the big-endian representation of `v` (modulo `256 ^ n`). -/
def be_bytes : Nat → Nat → List Byte
  | 0, _ => []
  | n + 1, v => be_bytes n (v / 256) ++ [Fin.ofNat (v % 256)]

/-- Modelled from the spec: a NUL-terminated string. -/
def encode_str (s : CStr) : List Byte := s ++ [0]

/-- Modelled from the spec: a key/value pair (§4.1): 4-byte key index, the
sub-key of a list-typed key, the value. -/
def encode_pair (p : blob_pair) : List Byte :=
  be_bytes 4 p.key_idx ++
    (match p.strlist_key with
     | some k => encode_str k
     | none => []) ++ encode_str p.value

/-- Modelled from the spec: the contents of a base or filter region (§4.1): the
error string and the key/value pairs. -/
def encode_region (error : CStr) (pairs : List blob_pair) : List Byte :=
  encode_str error ++ pairs.flatMap encode_pair

/-- Modelled from the spec: a region with its 8-byte size in front. -/
def encode_sized (r : List Byte) : List Byte := be_bytes 8 r.length ++ r

/-- Modelled from the spec: the size-prefixed filter regions of a block, in
declaration order. -/
def encode_filters : List blob_filter → List Byte
  | [] => []
  | f :: fs => encode_sized (encode_region f.error f.pairs) ++ encode_filters fs

/-- Modelled from the spec: the absolute offsets of the size-prefixed filter
regions that start at `start`. -/
def filter_offsets : Nat → List blob_filter → List Nat
  | _, [] => []
  | start, f :: fs =>
    start :: filter_offsets (start + (encode_sized (encode_region f.error f.pairs)).length) fs

/-- Modelled from the spec: the NUL-terminated schema keys of a block. -/
def encode_keys : List CStr → List Byte
  | [] => []
  | k :: ks => encode_str k ++ encode_keys ks

/-- Modelled from the spec: the contents of a block whose size field is at the
absolute offset `start` (§4.1): name, key count and keys, the size-prefixed base
region, the filter count and the size-prefixed filter regions, the filter-index
array, the filter-offset array and the safety NUL. -/
def encode_block_body (start : Nat) (b : blob_block) : List Byte :=
  encode_str b.name ++
    (be_bytes 4 b.keys.length ++
      (encode_keys b.keys ++
        (encode_sized (encode_region b.error b.pairs) ++
          (be_bytes 4 b.filters.length ++
            (encode_filters b.filters ++
              ((b.filters.flatMap (fun f => be_bytes 4 f.filter_idx) ++
                  (filter_offsets
                    (start + 8 + (b.name.length + 1) + 4 + (encode_keys b.keys).length +
                      (8 + (encode_region b.error b.pairs).length) + 4)
                    b.filters).flatMap (be_bytes 8)) ++ [0]))))))

/-- Modelled from the spec: a block with its 8-byte size in front. -/
def encode_block (start : Nat) (b : blob_block) : List Byte :=
  encode_sized (encode_block_body start b)

/-- Modelled from the spec: the blocks one after the other, the first one at the
absolute offset `start`. -/
def encode_blocks : Nat → List blob_block → List Byte
  | _, [] => []
  | start, b :: bs =>
    encode_block start b ++ encode_blocks (start + (encode_block start b).length) bs

/-- Modelled from the spec: the filter table (§4.1): the 4-byte count and the
NUL-terminated filter strings. -/
def encode_filter_table (fs : List CStr) : List Byte :=
  be_bytes 4 fs.length ++ encode_keys fs

/-- Modelled from the spec: the whole file (§4.1): the header line, the 8-byte
total size, the filter table and the blocks. -/
def encode_model (m : blob_model) : List Byte :=
  header_only_blob ++
    encode_sized (encode_filter_table m.filters ++
      encode_blocks (27 + (encode_filter_table m.filters).length) m.blocks)

/-- The index entry that `settings_block_read` is to record for the block `b`
encoded at the absolute offset `start`. -/
def block_index (start : Nat) (b : blob_block) : settings_mmap_block :=
  { name := b.name,
    block_end_offset := start + 8 + (encode_block_body start b).length,
    error := if b.error = [] then none else some b.error,
    base_start_offset :=
      start + 8 + (b.name.length + 1) + 4 + (encode_keys b.keys).length + 8 +
        (b.error.length + 1),
    base_end_offset :=
      start + 8 + (b.name.length + 1) + 4 + (encode_keys b.keys).length + 8 +
        (encode_region b.error b.pairs).length,
    filter_count := b.filters.length,
    filter_indexes_start_offset :=
      start + 8 + (b.name.length + 1) + 4 + (encode_keys b.keys).length + 8 +
        (encode_region b.error b.pairs).length + 4 + (encode_filters b.filters).length,
    filter_offsets_start_offset :=
      start + 8 + (b.name.length + 1) + 4 + (encode_keys b.keys).length + 8 +
        (encode_region b.error b.pairs).length + 4 + (encode_filters b.filters).length +
        4 * b.filters.length,
    settings_count := b.keys.length,
    settings_keys_offset := start + 8 + (b.name.length + 1) + 4,
    settings_validated := false }

/-- The index entries of the blocks encoded one after the other from `start`. -/
def blocks_index : Nat → List blob_block → List settings_mmap_block
  | _, [] => []
  | start, b :: bs =>
    block_index start b :: blocks_index (start + (encode_block start b).length) bs

/-- The entries of the filter table that `settings_read_filters` is to store
for the filter strings `fs`, and the `protocols` array: an empty string gives
the ALWAYS sentinel, any other string its parsed filter as
`settings_read_filter_entry` stores it.  `none` if a string does not parse. -/
def filter_entries (p : settings_read_params) :
    List CStr → List CStr → Option (List mmap_event_filter × List CStr)
  | [], protocols => some ([], protocols)
  | s :: fs, protocols =>
    if s = [] then
      (filter_entries p fs protocols).map (fun r => (.EVENT_FILTER_MATCH_ALWAYS :: r.1, r.2))
    else
      match p.event_filter_parse s with
      | .error _ => none
      | .ok tmp_filter =>
        (filter_entries p fs (settings_read_filter_entry p tmp_filter protocols).2).map
          (fun r => ((settings_read_filter_entry p tmp_filter protocols).1 :: r.1, r.2))

/-- The bytes `x` stand in the buffer at the absolute offset `offset`. -/
def bytes_at (base : List Byte) (offset : Nat) (x : List Byte) : Prop :=
  List.IsPrefix x (base.drop offset)

/-- No byte of the string is NUL. -/
def nul_free (s : CStr) : Prop := (0 : Byte) ∉ s

/-- The strings that the block reader scans are NUL-free and the counts fit
their 4-byte fields. -/
def valid_block (b : blob_block) : Prop :=
  nul_free b.name ∧ (∀ k ∈ b.keys, nul_free k) ∧ nul_free b.error ∧
    (∀ f ∈ b.filters, nul_free f.error) ∧
    b.keys.length < 4294967296 ∧ b.filters.length < 4294967296

/-- A valid model: at least one block, distinct block names, valid blocks,
NUL-free filter strings that the event filter parser accepts, a filter count
that fits its field, and an encoding whose size fits an `off_t`. -/
def valid_model (p : settings_read_params) (m : blob_model) : Prop :=
  m.blocks ≠ [] ∧ (m.blocks.map (fun b => b.name)).Nodup ∧
    (∀ b ∈ m.blocks, valid_block b) ∧ (∀ s ∈ m.filters, nul_free s) ∧
    (filter_entries p m.filters []).isSome = true ∧ m.filters.length < 4294967296 ∧
    valid_mmap_size (encode_model m)

/-- The regions that the index entry of the block `b`, encoded at `start`,
points to hold the model's data: the schema keys, the pairs of the base region
(which ends where the index entry says), the filter regions, the filter-index
array and the filter-offset array with the absolute offsets of the filter
regions. -/
def block_regions (base : List Byte) (start : Nat) (b : blob_block) : Prop :=
  (block_index start b).name = b.name ∧
  (block_index start b).settings_count = b.keys.length ∧
  (block_index start b).filter_count = b.filters.length ∧
  bytes_at base (block_index start b).settings_keys_offset (encode_keys b.keys) ∧
  bytes_at base (block_index start b).base_start_offset (b.pairs.flatMap encode_pair) ∧
  (block_index start b).base_end_offset =
    (block_index start b).base_start_offset + (b.pairs.flatMap encode_pair).length ∧
  bytes_at base ((block_index start b).base_end_offset + 4) (encode_filters b.filters) ∧
  bytes_at base (block_index start b).filter_indexes_start_offset
    (b.filters.flatMap (fun f => be_bytes 4 f.filter_idx)) ∧
  bytes_at base (block_index start b).filter_offsets_start_offset
    ((filter_offsets ((block_index start b).base_end_offset + 4) b.filters).flatMap
      (be_bytes 8))

/-- The statement `block_regions` for the blocks encoded one after the other
from `start`. -/
def blocks_regions (base : List Byte) : Nat → List blob_block → Prop
  | _, [] => True
  | start, b :: bs =>
    block_regions base start b ∧ blocks_regions base (start + (encode_block start b).length) bs

/-- The model of Scenario A: filter table `[service=lda]`; one block `fs` with
the keys `fs_name`, `fs_driver`, `fs`, the base pair `fs_driver=posix` and one
filter assignment (filter 0) with the pair `fs_driver=sis`. -/
def fs_model : blob_model :=
  { filters := [cs "service=lda"],
    blocks := [{ name := cs "fs",
                 keys := [cs "fs_name", cs "fs_driver", cs "fs"],
                 error := [],
                 pairs := [{ key_idx := 1, strlist_key := none, value := cs "posix" }],
                 filters := [{ filter_idx := 0, error := [],
                               pairs := [{ key_idx := 1, strlist_key := none,
                                           value := cs "sis" }] }] }] }


/-- The file `fs_blob` with the one entry of the filter-offset array of the
block `fs` (bytes 123 to 130) replaced by the offset 65536, which lies behind
the end of the 132-byte buffer. -/
def far_filter_offset_blob : List Byte :=
  fs_blob.take 123 ++ [0, 0, 0, 0, 0, 1, 0, 0] ++ [0]

/-- A resolution of the schema `fs` against `far_filter_offset_blob` for an
event with the field `service`. -/
def far_filter_offset_ctx (service : CStr) : settings_apply_ctx :=
  { env := example_env,
    event := [{ fields := [(cs "service", service)] }],
    root := { mmap := some (example_mmap far_filter_offset_blob) },
    inst := { mmap := some (example_mmap far_filter_offset_blob) },
    info := fs_setting_parser_info }

/-- Source: `settings_mmap_unref` (settings.c:768) on a pointer that is not
NULL, for an object with the given reference count: the assertion on the
count, and the count that is left (`none` when the object is destroyed). -/
def settings_mmap_unref (refcount : Nat) : Res (Option Nat) :=
  if refcount = 0 then .fault (.panic "i_assert(mmap->refcount > 0)")
  else if refcount - 1 > 0 then .ok (some (refcount - 1))
  else .ok none

/-- What a call of `settings_read` leaves behind: the root, the reference count
of the blob that the root pointed to before the call (`none` when there was no
such blob or it was destroyed), and the return value with the specific services
or the error. -/
structure settings_read_outcome where
  root : settings_root
  old_refcount : Option Nat
  ret : Except settings_error (Option (List CStr))

/-- Source: `settings_read` (settings.c:786).  `file` is the result of
`mmap_ro_file()` (`none` for `MAP_FAILED`), `old_refcount` the reference count
of the blob that `root->mmap` points to, if any; the protocol name is that of
`p`.  An `i_fatal()` exit is a fault.  After a failed parse `root->mmap` is the
new mmap; the part of its index that was filled in before the error is not
kept here. -/
def settings_read (p : settings_read_params) (root : settings_root) (old_refcount : Nat)
    (file : Option (List Byte)) : Res settings_read_outcome :=
  match file with
  | none => .fault (.panic "Failed to read config: mmap() failed")
  | some mmap_base =>
    if mmap_base.length = 0 then .fault (.panic "Failed to read config: file size is empty")
    else
      let root : settings_root := { root with protocol_name := p.protocol_name }
      let unref : Res (Option Nat) :=
        match root.mmap with
        | none => .ok none
        | some _ => settings_mmap_unref old_refcount
      unref.bind (fun old =>
        let mmap : settings_mmap := { mmap_base := mmap_base }
        let root : settings_root := { root with mmap := some mmap }
        match settings_mmap_parse p mmap with
        | .ok r => .ok { root := { root with mmap := some r.1 }, old_refcount := old,
                         ret := .ok r.2 }
        | .error e => .ok { root := root, old_refcount := old, ret := .error e }
        | .fault f => .fault f)

/-- A buffer that is not a configuration file. -/
def not_a_config_blob : List Byte := cs "hello\n"

/-- Source: `settings_instance_dup` (settings.c:1507): the new instance shares
the mmap; of every override the type, the append flag, the key and the value
are copied, the other fields of the new record stay zero. -/
def settings_instance_dup (src : settings_instance) : settings_instance :=
  { mmap := src.mmap,
    overrides := src.overrides.map (fun src_set =>
      { type := src_set.type, append := src_set.append, key := src_set.key,
        value := src_set.value }) }

/-- An event without fields and filter name that carries a root without blob
and the given instance. -/
def instance_example_event (inst : settings_instance) : event :=
  [{ root := some {}, inst := some inst }]

/-- Source: `settings_get` (settings.c:1311): `settings_get_full` without filter
key and value; return value 0 fails the assertion `ret != 0`. -/
def settings_get (env : settings_env) (event : event) (info : setting_parser_info)
    (flags : settings_get_flags) :
    Res setting_parser_context × Option settings_apply_state :=
  match settings_get_full env event none none info flags with
  | (.error e, st) => (.error e, st)
  | (.fault f, st) => (.fault f, st)
  | (.ok none, st) => (.fault (.panic "i_assert(ret != 0)"), st)
  | (.ok (some set), st) => (.ok set, st)

/-- An event whose parent carries a root without blob, an instance without
overrides and the required filter name `mail_attribute_dict`
(`SETTINGS_EVENT_FILTER_NAME_REQUIRED`). -/
def required_filter_event : event :=
  [{}, { root := some {}, inst := some {},
         filter_name_required := some (cs "mail_attribute_dict") }]

/-- The call does not abort the model for lack of loop fuel: every fault is an
out-of-bounds read of the buffer. -/
def fault_is_read {α : Type} (x : Res α) : Prop := ∀ f, x = .fault f → ∃ idx, f = .mmap_read idx


/-- The text with a backslash in front of every byte that is in `chars`. -/
def escape_chars (chars : List Byte) : CStr → CStr
  | [] => []
  | b :: rest =>
    if b ∈ chars then 92 :: b :: escape_chars chars rest else b :: escape_chars chars rest

/-- Where a scan of a filter text stands: outside a quoted string, inside one,
or inside one right behind a backslash. -/
inductive quote_state where
  | outside
  | inside
  | escaped
  deriving DecidableEq

/-- Scan of the quoted strings of a filter text: `"` opens a string, inside a
string a backslash takes the next byte with it and `"` closes the string. -/
def quote_scan : quote_state → CStr → quote_state
  | s, [] => s
  | .outside, b :: rest => quote_scan (if b = 34 then .inside else .outside) rest
  | .inside, b :: rest =>
    quote_scan (if b = 92 then .escaped else if b = 34 then .outside else .inside) rest
  | .escaped, _ :: rest => quote_scan .inside rest

/-- An event filter parser for the quoting example: a text with a quoted string
that is not closed is a syntax error, any other text is looked up in
`override_example_filters`. -/
def quoting_example_parse (s : CStr) : Except CStr event_filter :=
  if quote_scan .outside s = .outside then override_example_parse s
  else .error (cs "syntax error")

/-- Library functions for the quoting example: `wildcard_str_escape` puts a
backslash before `"`, `\`, `*` and `?`, `str_escape` before `"`, `\` and the
single quote; `settings_section_escape` leaves a text without separators as it
is. -/
def quoting_example_env : settings_env :=
  { example_env with
    wildcard_str_escape := escape_chars [34, 92, 42, 63],
    str_escape := escape_chars [34, 92, 39],
    event_filter_parse_case_sensitive := quoting_example_parse }

/-- The text that the defaults pass leaves in an unset string key whose compiled
default is `v` (settings.c:527-547): `v` itself with
`SETTINGS_GET_FLAG_NO_EXPAND`, else the text that `var_expand_with_funcs()`
makes of `v`. -/
def settings_default_value (ctx : settings_apply_ctx) (v : CStr) : CStr :=
  if ctx.flags.SETTINGS_GET_FLAG_NO_EXPAND then v
  else (ctx.env.var_expand_with_funcs ctx.table ctx.func_table ctx.func_context v).1

/-- Library functions for the expansion example: `var_expand_with_funcs()` makes
`alice` of the text `%u` and leaves every other text as it is. -/
def expand_example_env : settings_env :=
  { example_env with
    var_expand_with_funcs := fun _ _ _ v => (if v = cs "%u" then cs "alice" else v, none) }

/-- An example schema `user` with the string keys `user_name`, `%u` by default,
and `user_shell`, `sh` by default. -/
def expand_example_info : setting_parser_info :=
  { name := cs "user",
    defines := [⟨.SET_STR, cs "user_name"⟩, ⟨.SET_STR, cs "user_shell"⟩],
    defaults := fun k => if k = 0 then some (cs "%u") else if k = 1 then some (cs "sh") else none,
    value_ok := fun _ _ => true }

/-- The model of a file with the block `user` whose base region holds the pair
`user_shell=%u`. -/
def expand_example_model : blob_model :=
  { filters := [],
    blocks := [{ name := cs "user",
                 keys := [cs "user_name", cs "user_shell"],
                 error := [],
                 pairs := [{ key_idx := 1, strlist_key := none, value := cs "%u" }],
                 filters := [] }] }

/-- A resolution of the schema `user` against the file of `expand_example_model`
with the given instance overrides. -/
def expand_example_ctx (instance_overrides : List settings_override) : settings_apply_ctx :=
  { env := expand_example_env,
    event := [{}],
    root := { mmap := some (example_mmap (encode_model expand_example_model)) },
    inst := { mmap := some (example_mmap (encode_model expand_example_model)),
              overrides := instance_overrides },
    info := expand_example_info }

/-- The override that `settings_override(instance, "user_name", "%u",
SETTINGS_OVERRIDE_TYPE_CLI_PARAM)` appends. -/
def expand_example_override : settings_override :=
  { type := .SETTINGS_OVERRIDE_TYPE_CLI_PARAM, key := cs "user_name", value := cs "%u" }

/-- The key indexes with which the loop of `settings_mmap_apply_blob`
(settings.c:566-624) indexes `ctx->info->defines[]`, in the order of the
iterations: every key index that has passed the check against
`block->settings_count` (settings.c:572-577). -/
def settings_mmap_apply_blob_lookups (ctx : settings_apply_ctx) (base : List Byte)
    (block : settings_mmap_block) (end_offset : Nat) :
    Nat → Nat → settings_apply_state → List Nat
  | 0, _, _ => []
  | fuel + 1, offset, st =>
    if ¬ offset < end_offset then []
    else
      match be32_to_cpu_unaligned base offset with
      | .ok key_idx =>
        if key_idx ≥ block.settings_count then []
        else
          key_idx ::
            (match settings_mmap_apply_blob_pair ctx base block end_offset offset st with
             | (.ok offset, st) =>
               settings_mmap_apply_blob_lookups ctx base block end_offset fuel offset st
             | _ => [])
      | _ => []

/-- The key indexes with which `settings_mmap_apply_blob` indexes
`ctx->info->defines[]` on the region from `start_offset` to `end_offset`. -/
def settings_mmap_apply_blob_key_lookups (ctx : settings_apply_ctx) (base : List Byte)
    (block : settings_mmap_block) (start_offset end_offset : Nat)
    (st : settings_apply_state) : List Nat :=
  settings_mmap_apply_blob_lookups ctx base block end_offset (end_offset - start_offset + 1)
    start_offset st

/-- The file `fs_blob` with the key index of the base pair of the block `fs`
(byte 91) changed from 1 to 2: the pair names the third of the block's three
keys. -/
def third_key_blob : List Byte :=
  fs_blob.take 91 ++ [2] ++ fs_blob.drop 92

/-- A resolution of the one-key schema `fs_name_only_info` against
`third_key_blob` with the flag `SETTINGS_GET_NO_KEY_VALIDATION`. -/
def third_key_ctx : settings_apply_ctx :=
  { env := example_env,
    event := [{ fields := [(cs "service", cs "imap")] }],
    root := { mmap := some (example_mmap third_key_blob) },
    inst := { mmap := some (example_mmap third_key_blob) },
    info := fs_name_only_info,
    flags := { SETTINGS_GET_NO_KEY_VALIDATION := true } }

/-- An event that carries the root and instance pointers for a resolution
against `third_key_blob`. -/
def third_key_event : event :=
  [{ fields := [(cs "service", cs "imap")],
     root := some { mmap := some (example_mmap third_key_blob) },
     inst := some { mmap := some (example_mmap third_key_blob) } }]

/-- The model of a file whose block `imap_login` lists the key
`imap_capability` and carries the base-region error string `bad config`. -/
def error_capability_model : blob_model :=
  { filters := [],
    blocks := [{ name := cs "imap_login",
                 keys := [cs "imap_capability"],
                 error := cs "bad config",
                 pairs := [],
                 filters := [] }] }

/-- The override record that `settings_override(instance, "imap_capability",
"IMAP4rev1", SETTINGS_OVERRIDE_TYPE_CLI_PARAM)` appends: its key is the bare
name of the string list. -/
def bare_list_override : settings_override :=
  { type := .SETTINGS_OVERRIDE_TYPE_CLI_PARAM, key := cs "imap_capability",
    value := cs "IMAP4rev1" }

/-- An event that carries the root and instance pointers for a resolution
against the file of `error_capability_model`, with the given instance
overrides. -/
def error_capability_event (instance_overrides : List settings_override) : event :=
  [{ fields := [],
     root := some { mmap := some (example_mmap (encode_model error_capability_model)) },
     inst := some { mmap := some (example_mmap (encode_model error_capability_model)),
                    overrides := instance_overrides } }]

/-- An example schema `imap_login` with the string list `imap_capability` and
the boolean `imap_literal_minus`, `no` by default (the fields that
imap-login-client.c:102 and 394 read). -/
def login_example_info : setting_parser_info :=
  { name := cs "imap_login",
    defines := [⟨.SET_STRLIST, cs "imap_capability"⟩, ⟨.SET_BOOL, cs "imap_literal_minus"⟩],
    defaults := fun k => if k = 1 then some (cs "no") else none,
    value_ok := fun _ _ => true }

/-- The override record that `settings_override(instance,
"imap_literal_minus+", "yes", SETTINGS_OVERRIDE_TYPE_USERDB)` appends. -/
def literal_append_override : settings_override :=
  { type := .SETTINGS_OVERRIDE_TYPE_USERDB, append := true, key := cs "imap_literal_minus",
    value := cs "yes" }

/-- Modelled from the spec: the memory that `mmap_ro_file()` (lib/mmap-util.c,
not among the sources) makes readable for a file, with the page size 4096: the
bytes of the file, followed by the zero fill of the rest of its last page.  A
file that fills its last page has no zero fill. -/
def mmap_ro_file_pages (file : List Byte) : List Byte :=
  file ++ List.replicate ((4096 - file.length % 4096) % 4096) 0

/-- Source: the start of `settings_mmap_parse` (settings.c:387-421), with the
readable memory `pages` at `mmap_base` kept apart from the file size
`mmap_size`: `memchr()` scans the first `mmap_size` bytes, the other reads go
to `pages`.  Returns the total size that the size field holds.
`settings_mmap_parse` itself takes the bytes of the file as the readable
memory, which is exact for a file that fills its last page; a read of the zero
fill is a read behind the buffer there. -/
def settings_mmap_parse_full_size (pages : List Byte) (mmap_size : Nat) : Res Nat :=
  let magic_len := magic_header.length
  match memchr 10 (pages.take mmap_size) with
  | none => .error .header_no_magic
  | some eol =>
    if mmap_size < magic_len || pages.take magic_len ≠ magic_header then
      .error .header_no_magic
    else
    (read_byte pages magic_len).bind (fun c1 =>
      let version := (pages.drop magic_len).take (eol - magic_len)
      if c1 ≠ 49 then .error (.unsupported_version version)
      else
      (read_byte pages (magic_len + 1)).bind (fun c2 =>
        if c2 ≠ 46 then .error (.unsupported_version version)
        else
        let full_size_offset := eol + 1
        (be64_to_cpu_unaligned pages full_size_offset).bind (fun settings_full_size =>
          if wrap64 (full_size_offset + 8 + settings_full_size) ≠ mmap_size then
            .error (.full_size_mismatch full_size_offset 8 settings_full_size mmap_size)
          else .ok settings_full_size)))

/-- A file of 4096 bytes that consists of a header line only: the tag
`DOVECOT-CONFIG`, the version `1.0` followed by 4077 letters `x`, and the
newline as the last byte of the page. -/
def page_header_blob : List Byte :=
  cs "DOVECOT-CONFIG\t1.0" ++ List.replicate 4077 120 ++ [10]

/-! ## Theorems -/

/-- A key of the schema is the array entry at its index. -/
theorem define_at_of_defines {info : setting_parser_info} {i : Nat} {d : setting_define}
    (h : info.defines[i]? = some d) : info.define_at i = some d := by
  unfold setting_parser_info.define_at
  rw [h]

/-- An array entry is a key of the schema, or the end entry at the index behind
the last key. -/
theorem define_at_cases {info : setting_parser_info} {i : Nat} {d : setting_define}
    (h : info.define_at i = some d) :
    info.defines[i]? = some d ∨
      (info.defines[i]? = none ∧ i = info.defines.length ∧ d = SETTING_DEFINE_LIST_END) := by
  unfold setting_parser_info.define_at at h
  split at h
  · rename_i d' hd
    left
    rw [hd]
    exact h
  · rename_i hn
    split at h
    · rename_i hi
      exact Or.inr ⟨hn, hi, (Option.some.inj h).symm⟩
    · simp at h

/-- The parser accepts a value only for a key of the schema. -/
theorem settings_parse_assign_accepts {info : setting_parser_info}
    {parser : setting_parser_context} {key_idx : Nat} {key value : CStr}
    (h : (settings_parse_assign info parser key_idx key value).1 = true) :
    ∃ d, info.defines[key_idx]? = some d := by
  unfold settings_parse_assign at h
  split at h
  · simp at h
  · rename_i d hd
    exact ⟨d, hd⟩

/-- An array entry for which the parser accepts a value is a key of the
schema. -/
theorem define_at_accepted {info : setting_parser_info}
    {parser : setting_parser_context} {key_idx : Nat} {key value : CStr}
    {d : setting_define} (hd : info.define_at key_idx = some d)
    (h : (settings_parse_keyidx_value_nodup info parser key_idx key value).1 = true) :
    info.defines[key_idx]? = some d := by
  rcases define_at_cases hd with h1 | ⟨hn, _, _⟩
  · exact h1
  · unfold settings_parse_keyidx_value_nodup at h
    obtain ⟨d', hd'⟩ := settings_parse_assign_accepts h
    rw [hn] at hd'
    simp at hd'


theorem magic_header_eq : magic_header = [68, 79, 86, 69, 67, 79, 84, 45, 67, 79, 78, 70, 73, 71, 9] := by
  decide

theorem memchr_none_iff (c : Byte) (l : List Byte) : memchr c l = none ↔ c ∉ l := by
  induction l with
  | nil => simp [memchr]
  | cons b rest ih =>
    by_cases h : b = c
    · simp [memchr, h]
    · have h2 : ¬ c = b := fun e => h e.symm
      simp [memchr, h, h2, ih]

theorem parse_header_bad (p : settings_read_params) (mmap : settings_mmap)
    (h : memchr 10 mmap.mmap_base = none ∨ ¬ magic_header <+: mmap.mmap_base) :
    settings_mmap_parse p mmap = .error .header_no_magic := by
  cases hm : memchr 10 mmap.mmap_base with
  | none => simp only [settings_mmap_parse, hm]
  | some eol =>
    rcases h with h | h
    · simp [hm] at h
    · have : (mmap.mmap_size < magic_header.length || decide (List.take magic_header.length mmap.mmap_base ≠ magic_header)) = true := by
        by_contra hc
        simp at hc
        apply h
        rw [← hc.2]
        exact List.take_prefix _ _
      simp only [settings_mmap_parse, hm, this]
      simp

theorem parse_version_bad (p : settings_read_params) (mmap : settings_mmap) (eol : Nat)
    (hm : memchr 10 mmap.mmap_base = some eol) (hp : magic_header <+: mmap.mmap_base)
    (hv : ¬ (magic_header ++ cs "1.") <+: mmap.mmap_base) :
    settings_mmap_parse p mmap = .error (.unsupported_version
      ((mmap.mmap_base.drop magic_header.length).take (eol - magic_header.length))) := by
  obtain ⟨rest, hrest⟩ := hp
  obtain ⟨base, ef, efc, blocks⟩ := mmap
  simp only at hrest hm hv
  subst hrest
  simp only [settings_mmap_parse, hm, settings_mmap.mmap_size]
  rw [magic_header_eq] at hm hv ⊢
  cases rest with
  | nil => simp [memchr] at hm
  | cons c1 rest1 =>
    by_cases h1 : c1 = 49
    · subst h1
      cases rest1 with
      | nil => simp [memchr] at hm
      | cons c2 rest2 =>
        have h2 : c2 ≠ 46 := by
          intro e
          subst e
          apply hv
          simp [cs]
          decide
        simp [read_byte, Res.bind, h2]
    · simp [read_byte, Res.bind, h1]

/-- C8 (code at the failing input): on a file that ends with the header line,
`settings_mmap_parse` reads the 8-byte total size behind the end of the
buffer (index 19 of a 19-byte buffer). -/
theorem settings_mmap_parse_reads_past_end :
    header_only_blob.length = 19 ∧
    settings_mmap_parse example_read_params { mmap_base := header_only_blob } =
      .fault (.mmap_read 19) := by
  constructor <;> rfl

set_option maxRecDepth 100000 in
/-- C7 (code at the failing input): the block `fs` of `short_keys_blob` lists one
key, the schema `fs_setting_parser_info` has three, and
`settings_mmap_validate` returns success. -/
theorem settings_mmap_validate_accepts_missing_keys :
    ∃ m sv b, settings_mmap_parse example_read_params { mmap_base := short_keys_blob } = .ok (m, sv) ∧
      m.lookup (cs "fs") = some b ∧ b.settings_count = 1 ∧
      fs_setting_parser_info.defines.length = 3 ∧
      settings_mmap_validate m b fs_setting_parser_info = .ok () :=
  ⟨_, _, _, rfl, rfl, rfl, rfl, rfl⟩

/-- C10: `settings_mmap_parse` rejects a buffer that has no newline or does not
begin with the tag `DOVECOT-CONFIG\t` ("File header doesn't begin with
DOVECOT-CONFIG line"), rejects a buffer with tag and newline whose text after
the tag does not begin with `1.` as an unsupported version (the version text
runs up to the first newline), and so succeeds only on buffers that begin with
`DOVECOT-CONFIG\t1.` and contain a newline. -/
theorem settings_mmap_parse_header_checked (p : settings_read_params) (mmap : settings_mmap) :
    (((10 : Byte) ∉ mmap.mmap_base ∨ ¬ magic_header <+: mmap.mmap_base) →
      settings_mmap_parse p mmap = .error .header_no_magic) ∧
    ((10 : Byte) ∈ mmap.mmap_base → magic_header <+: mmap.mmap_base →
      ¬ (magic_header ++ cs "1.") <+: mmap.mmap_base →
      ∃ eol, memchr 10 mmap.mmap_base = some eol ∧
        settings_mmap_parse p mmap = .error (.unsupported_version
          ((mmap.mmap_base.drop magic_header.length).take (eol - magic_header.length)))) ∧
    ((settings_mmap_parse p mmap).isOk = true →
      (magic_header ++ cs "1.") <+: mmap.mmap_base ∧ (10 : Byte) ∈ mmap.mmap_base) := by
  have h1 : ((10 : Byte) ∉ mmap.mmap_base ∨ ¬ magic_header <+: mmap.mmap_base) →
      settings_mmap_parse p mmap = .error .header_no_magic := by
    intro h
    apply parse_header_bad
    rcases h with h | h
    · exact Or.inl ((memchr_none_iff _ _).2 h)
    · exact Or.inr h
  have h2 : (10 : Byte) ∈ mmap.mmap_base → magic_header <+: mmap.mmap_base →
      ¬ (magic_header ++ cs "1.") <+: mmap.mmap_base →
      ∃ eol, memchr 10 mmap.mmap_base = some eol ∧
        settings_mmap_parse p mmap = .error (.unsupported_version
          ((mmap.mmap_base.drop magic_header.length).take (eol - magic_header.length))) := by
    intro hn hp hv
    cases hm : memchr 10 mmap.mmap_base with
    | none => exact absurd hn ((memchr_none_iff _ _).1 hm)
    | some eol => exact ⟨eol, rfl, parse_version_bad p mmap eol hm hp hv⟩
  refine ⟨h1, h2, ?_⟩
  intro hok
  by_cases hn : (10 : Byte) ∈ mmap.mmap_base
  · by_cases hp : magic_header <+: mmap.mmap_base
    · by_cases hv : (magic_header ++ cs "1.") <+: mmap.mmap_base
      · exact ⟨hv, hn⟩
      · obtain ⟨eol, _, he⟩ := h2 hn hp hv
        rw [he] at hok
        simp [Res.isOk] at hok
    · rw [h1 (Or.inr hp)] at hok
      simp [Res.isOk] at hok
  · rw [h1 (Or.inl hn)] at hok
    simp [Res.isOk] at hok

set_option maxRecDepth 100000 in
/-- Witness for C10: a buffer without newline, a buffer of version 2.0, and the
accepted file `minimal_blob`. -/
theorem settings_mmap_parse_header_checked_witness :
    settings_mmap_parse example_read_params { mmap_base := cs "DOVECOT-CONFIG\t1.0" } =
      .error .header_no_magic ∧
    (∃ eol, memchr 10 (cs "DOVECOT-CONFIG\t2.0\n") = some eol ∧
      settings_mmap_parse example_read_params { mmap_base := cs "DOVECOT-CONFIG\t2.0\n" } =
        .error (.unsupported_version
          (((cs "DOVECOT-CONFIG\t2.0\n").drop magic_header.length).take
            (eol - magic_header.length)))) ∧
    ((magic_header ++ cs "1.") <+: minimal_blob ∧ (10 : Byte) ∈ minimal_blob) :=
  ⟨(settings_mmap_parse_header_checked example_read_params
      { mmap_base := cs "DOVECOT-CONFIG\t1.0" }).1 (Or.inl (by decide)),
   (settings_mmap_parse_header_checked example_read_params
      { mmap_base := cs "DOVECOT-CONFIG\t2.0\n" }).2.1 (by decide) (by decide) (by decide),
   (settings_mmap_parse_header_checked example_read_params
      { mmap_base := minimal_blob }).2.2 (by rfl)⟩

theorem Res.bind_eq_ok {α β : Type} (x : Res α) (f : α → Res β) (b : β) :
    x.bind f = .ok b ↔ ∃ a, x = .ok a ∧ f a = .ok b := by
  cases x <;> simp [Res.bind]

theorem wrap64_of_lt {n : Nat} (h : n < 18446744073709551616) : wrap64 n = n := by
  unfold wrap64
  omega

theorem read_bytes_ok {base : List Byte} {offset n : Nat} {bs : List Byte}
    (h : read_bytes base offset n = .ok bs) :
    offset + n ≤ base.length ∧ bs = (base.drop offset).take n := by
  unfold read_bytes at h
  split at h
  · simp at h
    exact ⟨by assumption, h.symm⟩
  · simp at h

theorem be32_ok {base : List Byte} {offset v : Nat}
    (h : be32_to_cpu_unaligned base offset = .ok v) : offset + 4 ≤ base.length := by
  unfold be32_to_cpu_unaligned at h
  rw [Res.bind_eq_ok] at h
  obtain ⟨bs, hb, _⟩ := h
  exact (read_bytes_ok hb).1

theorem be64_ok {base : List Byte} {offset v : Nat}
    (h : be64_to_cpu_unaligned base offset = .ok v) : offset + 8 ≤ base.length := by
  unfold be64_to_cpu_unaligned at h
  rw [Res.bind_eq_ok] at h
  obtain ⟨bs, hb, _⟩ := h
  exact (read_bytes_ok hb).1

theorem c_str_length {l : List Byte} {s : CStr} (h : c_str l = some s) :
    s.length + 1 ≤ l.length ∧ (∀ b ∈ s, b ≠ 0) ∧ ∃ rest, l = s ++ 0 :: rest := by
  induction l generalizing s with
  | nil => simp [c_str] at h
  | cons b rest ih =>
    unfold c_str at h
    split at h
    · simp at h
      subst h
      rename_i hb
      subst hb
      simp
    · rename_i hb
      cases hr : c_str rest with
      | none => simp [hr] at h
      | some s' =>
        simp [hr] at h
        subst h
        obtain ⟨h1, h2, r, h3⟩ := ih hr
        refine ⟨by simp; omega, ?_, r, by simp [h3]⟩
        intro x hx
        simp at hx
        rcases hx with hx | hx
        · subst hx; exact hb
        · exact h2 x hx

theorem c_str_at_ok {base : List Byte} {offset : Nat} {s : CStr}
    (h : c_str_at base offset = .ok s) : offset + s.length + 1 ≤ base.length := by
  unfold c_str_at at h
  cases hc : c_str (base.drop offset) with
  | none => simp [hc] at h
  | some s' =>
    simp [hc] at h
    subst h
    have := (c_str_length hc).1
    simp at this
    omega

theorem settings_block_read_uint32_ok {base : List Byte} {offset end_offset : Nat}
    {name : String} {num offset' : Nat} (hv : valid_mmap_size base)
    (h : settings_block_read_uint32 base offset end_offset name = .ok (num, offset')) :
    be32_to_cpu_unaligned base offset = .ok num ∧ offset + 4 ≤ end_offset ∧
      offset' = offset + 4 := by
  unfold settings_block_read_uint32 at h
  unfold valid_mmap_size at hv
  split at h
  · simp at h
  · rw [Res.bind_eq_ok] at h
    obtain ⟨n, hn, he⟩ := h
    have hb := be32_ok hn
    have hw : wrap64 (offset + 4) = offset + 4 := wrap64_of_lt (by omega)
    rw [hw] at he
    simp at he
    rename_i hc
    rw [hw] at hc
    exact ⟨by rw [hn, he.1], by omega, he.2.symm⟩

theorem settings_block_read_size_ok {base : List Byte} {offset end_offset : Nat}
    {name : String} {size offset' : Nat} (hv : valid_mmap_size base)
    (h : settings_block_read_size base offset end_offset name = .ok (size, offset')) :
    be64_to_cpu_unaligned base offset = .ok size ∧ offset + 8 + size ≤ end_offset ∧
      offset' = offset + 8 := by
  unfold settings_block_read_size at h
  unfold valid_mmap_size at hv
  split at h
  · simp at h
  · rw [Res.bind_eq_ok] at h
    obtain ⟨n, hn, he⟩ := h
    have hb := be64_ok hn
    have hw : wrap64 (offset + 8) = offset + 8 := wrap64_of_lt (by omega)
    rw [hw] at he
    rename_i hc
    rw [hw] at hc
    split at he
    · simp at he
    · simp at he
      rename_i hs
      exact ⟨by rw [hn, he.1], by omega, he.2.symm⟩

theorem settings_block_read_str_ok {base : List Byte} {offset end_offset : Nat}
    {name : String} {str : CStr} {offset' : Nat} (hv : valid_mmap_size base)
    (h : settings_block_read_str base offset end_offset name = .ok (str, offset')) :
    c_str_at base offset = .ok str ∧ offset' = offset + (str.length + 1) ∧
      offset' ≤ end_offset ∧ offset' ≤ base.length := by
  unfold settings_block_read_str at h
  unfold valid_mmap_size at hv
  rw [Res.bind_eq_ok] at h
  obtain ⟨s, hs, he⟩ := h
  have hb := c_str_at_ok hs
  have hw : wrap64 (offset + (s.length + 1)) = offset + (s.length + 1) :=
    wrap64_of_lt (by omega)
  simp only [hw] at he
  split at he
  · simp at he
  · simp at he
    obtain ⟨h1, h2⟩ := he
    subst h1
    subst h2
    exact ⟨hs, rfl, by omega, by omega⟩

theorem be_value_foldl_lt (bs : List Byte) :
    ∀ acc : Nat, bs.foldl (fun acc b => acc * 256 + b.val) acc < (acc + 1) * 256 ^ bs.length := by
  induction bs with
  | nil => intro acc; simp
  | cons b rest ih =>
    intro acc
    simp only [List.foldl_cons, List.length_cons]
    have h1 := ih (acc * 256 + b.val)
    have hb : b.val < 256 := b.isLt
    have h2 : (acc * 256 + b.val + 1) * 256 ^ rest.length ≤ ((acc + 1) * 256) * 256 ^ rest.length :=
      Nat.mul_le_mul_right _ (by omega)
    calc List.foldl (fun acc b => acc * 256 + b.val) (acc * 256 + b.val) rest
        < (acc * 256 + b.val + 1) * 256 ^ rest.length := h1
      _ ≤ ((acc + 1) * 256) * 256 ^ rest.length := h2
      _ = (acc + 1) * 256 ^ (rest.length + 1) := by rw [Nat.mul_assoc, Nat.pow_succ']

theorem be_value_lt (bs : List Byte) : be_value bs < 256 ^ bs.length := by
  have := be_value_foldl_lt bs 0
  simpa [be_value] using this

theorem be32_lt {base : List Byte} {offset v : Nat}
    (h : be32_to_cpu_unaligned base offset = .ok v) : v < 4294967296 := by
  unfold be32_to_cpu_unaligned at h
  rw [Res.bind_eq_ok] at h
  obtain ⟨bs, hb, he⟩ := h
  obtain ⟨h1, h2⟩ := read_bytes_ok hb
  simp at he
  subst he
  have hl : bs.length = 4 := by
    subst h2
    simp
    omega
  have := be_value_lt bs
  rw [hl] at this
  simpa using this

theorem be64_lt {base : List Byte} {offset v : Nat}
    (h : be64_to_cpu_unaligned base offset = .ok v) : v < 18446744073709551616 := by
  unfold be64_to_cpu_unaligned at h
  rw [Res.bind_eq_ok] at h
  obtain ⟨bs, hb, he⟩ := h
  obtain ⟨h1, h2⟩ := read_bytes_ok hb
  simp at he
  subst he
  have hl : bs.length = 8 := by
    subst h2
    simp
    omega
  have := be_value_lt bs
  rw [hl] at this
  simpa using this

theorem Res.ite_error_eq_ok {α : Type} (c : Prop) [Decidable c] (e : settings_error)
    (x : Res α) (b : α) :
    (if c then Res.error e else x) = .ok b ↔ ¬ c ∧ x = .ok b := by
  by_cases h : c <;> simp [h]

theorem settings_block_read_keys_ok {base : List Byte} {block_end_offset : Nat}
    (hv : valid_mmap_size base) :
    ∀ (n offset offset' : Nat),
      settings_block_read_keys base block_end_offset n offset = .ok offset' →
      offset ≤ offset' ∧ (n = 0 ∨ offset' ≤ block_end_offset) := by
  intro n
  induction n with
  | zero =>
    intro offset offset' h
    simp [settings_block_read_keys] at h
    simp [h]
  | succ n ih =>
    intro offset offset' h
    simp only [settings_block_read_keys, Res.bind_eq_ok] at h
    obtain ⟨⟨str, o1⟩, h1, h3⟩ := h
    obtain ⟨_, hs2, hs3, _⟩ := settings_block_read_str_ok hv h1
    simp only at h3
    obtain ⟨hle, hor⟩ := ih _ _ h3
    refine ⟨by omega, Or.inr ?_⟩
    rcases hor with hor | hor
    · subst hor
      simp [settings_block_read_keys] at h3
      omega
    · exact hor

theorem settings_block_read_filters_ok {base : List Byte} {block_end_offset : Nat}
    (hv : valid_mmap_size base) :
    ∀ (n offset offset' : Nat),
      settings_block_read_filters base block_end_offset n offset = .ok offset' →
      filters_fit base block_end_offset n offset ∧ offset ≤ offset' ∧
        (n = 0 ∨ offset' ≤ block_end_offset) := by
  intro n
  induction n with
  | zero =>
    intro offset offset' h
    simp [settings_block_read_filters] at h
    simp [filters_fit, h]
  | succ n ih =>
    intro offset offset' h
    simp only [settings_block_read_filters, Res.bind_eq_ok] at h
    obtain ⟨⟨size, o1⟩, h1, _, _, h3⟩ := h
    obtain ⟨hs1, hs2, hs3⟩ := settings_block_read_size_ok hv h1
    simp only at h3
    subst hs3
    obtain ⟨hf, hle, hor⟩ := ih _ _ h3
    refine ⟨⟨size, hs1, hs2, hf⟩, by omega, Or.inr ?_⟩
    rcases hor with hor | hor
    · subst hor
      simp [settings_block_read_filters] at h3
      omega
    · exact hor

theorem settings_block_read_ok {mmap m : settings_mmap} {offset0 offset' : Nat}
    (hv : valid_mmap_size mmap.mmap_base)
    (h : settings_block_read mmap offset0 = .ok (m, offset')) :
    ∃ b, m = { mmap with blocks := mmap.blocks ++ [b] } ∧
      block_sizes_fit mmap.mmap_base b ∧ offset' = b.block_end_offset ∧
      offset0 + 8 ≤ b.block_end_offset ∧ mmap.lookup b.name = none ∧
      read_byte mmap.mmap_base (b.block_end_offset - 1) = .ok 0 ∧
      b.settings_keys_offset ≤ b.base_start_offset ∧
      b.base_end_offset + 4 ≤ b.filter_indexes_start_offset ∧
      b.filter_offsets_start_offset = b.filter_indexes_start_offset + 4 * b.filter_count ∧
      b.block_end_offset = b.filter_offsets_start_offset + 8 * b.filter_count + 1 := by
  simp only [settings_block_read, Res.bind_eq_ok, Res.ite_error_eq_ok] at h
  obtain ⟨⟨block_size, o1⟩, h1, last, h2, hlast, ⟨name, o2⟩, h3, hdup, ⟨count, o3⟩, h4,
    o4, h5, ⟨base_size, o5⟩, h6, ⟨err, o6⟩, h7, ⟨fcount, o7⟩, h8, o8, h9, hend, hres⟩ := h
  simp only at h2 h3 hdup h4 h5 h6 h7 h8 h9 hend hres
  obtain ⟨a1, a2, a3⟩ := settings_block_read_size_ok hv h1
  obtain ⟨b1, b2, b3, b4⟩ := settings_block_read_str_ok hv h3
  obtain ⟨c1, c2, c3⟩ := settings_block_read_uint32_ok hv h4
  obtain ⟨d1, d2⟩ := settings_block_read_keys_ok hv _ _ _ h5
  obtain ⟨e1, e2, e3⟩ := settings_block_read_size_ok hv h6
  obtain ⟨f1, f2, f3, f4⟩ := settings_block_read_str_ok hv h7
  obtain ⟨g1, g2, g3⟩ := settings_block_read_uint32_ok hv h8
  obtain ⟨i1, i2, i3⟩ := settings_block_read_filters_ok hv _ _ _ h9
  simp only [settings_mmap.mmap_size] at a2
  have hv' := hv
  unfold valid_mmap_size at hv'
  have hfin : o8 ≤ o1 + block_size := by
    rcases i3 with i3 | i3
    · subst i3
      simp [settings_block_read_filters] at h9
      omega
    · exact i3
  have hfc := be32_lt g1
  have w1 : wrap64 (o8 + 4 * fcount) = o8 + 4 * fcount := wrap64_of_lt (by omega)
  have w2 : wrap64 (o8 + 4 * fcount + 8 * fcount) = o8 + 4 * fcount + 8 * fcount :=
    wrap64_of_lt (by omega)
  have w3 : wrap64 (o8 + 4 * fcount + 8 * fcount + 1) = o8 + 4 * fcount + 8 * fcount + 1 :=
    wrap64_of_lt (by omega)
  rw [w1, w2, w3] at hend hres
  simp only [Res.ok.injEq, Prod.mk.injEq] at hres
  obtain ⟨hm, ho⟩ := hres
  refine ⟨_, hm.symm, ⟨?_, ?_, ?_, ?_⟩, ?_, ?_, ?_, ?_, ?_, ?_, ?_, ?_⟩
  · simp only; omega
  · simp only; omega
  · simp only; omega
  · simp only
    rw [← g3]
    exact i1
  · simp only; omega
  · simp only; omega
  · simp only
    cases hl : mmap.lookup name with
    | none => rfl
    | some x => simp [hl] at hdup
  · simp only
    have : last = 0 := by
      by_contra hc
      exact hlast hc
    rw [← this]
    exact h2
  · simp only; omega
  · simp only; omega
  · simp only
  · simp only
    omega

theorem settings_read_filters_loop_ok (p : settings_read_params) (base : List Byte) :
    ∀ (n i offset : Nat) (filters : List mmap_event_filter) (protocols : List CStr)
      (r : List mmap_event_filter × Nat × List CStr),
      settings_read_filters_loop p base n i offset filters protocols = .ok r →
      r.1.length = filters.length + n := by
  intro n
  induction n with
  | zero =>
    intro i offset filters protocols r h
    simp [settings_read_filters_loop] at h
    subst h
    simp
  | succ n ih =>
    intro i offset filters protocols r h
    simp only [settings_read_filters_loop, Res.bind_eq_ok] at h
    obtain ⟨⟨str, o1⟩, _, h2⟩ := h
    simp only at h2
    split at h2
    · have := ih _ _ _ _ _ h2
      simp at this
      omega
    · split at h2
      · simp at h2
      · have := ih _ _ _ _ _ h2
        simp at this
        omega

theorem settings_read_filters_ok {p : settings_read_params} {mmap m : settings_mmap}
    {offset offset' : Nat} {protocols pr : List CStr}
    (h : settings_read_filters p mmap offset protocols = .ok (m, offset', pr)) :
    m.mmap_base = mmap.mmap_base ∧ m.blocks = mmap.blocks ∧
      m.event_filters.length = m.event_filters_count := by
  simp only [settings_read_filters, Res.bind_eq_ok] at h
  obtain ⟨⟨count, o1⟩, _, l, hl, hres⟩ := h
  simp only [Res.ok.injEq, Prod.mk.injEq] at hres
  obtain ⟨hm, _, _⟩ := hres
  subst hm
  have := settings_read_filters_loop_ok p _ _ _ _ _ _ _ hl
  simp at this
  simp [this]

theorem settings_mmap_parse_blocks_ok (P : settings_mmap_block → Prop) (base : List Byte)
    (hv : valid_mmap_size base)
    (hP : ∀ (mmap m : settings_mmap) (b : settings_mmap_block) (o o' : Nat),
      mmap.mmap_base = base → settings_block_read mmap o = .ok (m, o') →
      m = { mmap with blocks := mmap.blocks ++ [b] } → P b) :
    ∀ (fuel : Nat) (mmap m : settings_mmap) (offset : Nat),
      mmap.mmap_base = base → (∀ b ∈ mmap.blocks, P b) →
      settings_mmap_parse_blocks fuel mmap offset = .ok m →
      m.mmap_base = base ∧ (∀ b ∈ m.blocks, P b) ∧
        m.event_filters = mmap.event_filters ∧
        m.event_filters_count = mmap.event_filters_count := by
  intro fuel
  induction fuel with
  | zero =>
    intro mmap m offset _ _ h
    simp [settings_mmap_parse_blocks] at h
  | succ fuel ih =>
    intro mmap m offset hb hall h
    simp only [settings_mmap_parse_blocks, Res.bind_eq_ok] at h
    obtain ⟨⟨m1, o1⟩, h1, h2⟩ := h
    simp only at h2
    obtain ⟨b, hm1, _⟩ := settings_block_read_ok (hb ▸ hv) h1
    have hPb := hP mmap m1 b offset o1 hb h1 hm1
    have hb1 : m1.mmap_base = base := by rw [hm1]; exact hb
    have hall1 : ∀ b ∈ m1.blocks, P b := by
      rw [hm1]
      intro x hx
      simp at hx
      rcases hx with hx | hx
      · exact hall x hx
      · subst hx; exact hPb
    split at h2
    · obtain ⟨r1, r2, r3, r4⟩ := ih m1 m o1 hb1 hall1 h2
      refine ⟨r1, r2, ?_, ?_⟩
      · rw [r3, hm1]
      · rw [r4, hm1]
    · simp at h2
      subst h2
      exact ⟨hb1, hall1, by rw [hm1], by rw [hm1]⟩

theorem settings_mmap_parse_ok (P : settings_mmap_block → Prop) (base : List Byte)
    (hv : valid_mmap_size base)
    (hP : ∀ (mmap m : settings_mmap) (b : settings_mmap_block) (o o' : Nat),
      mmap.mmap_base = base → settings_block_read mmap o = .ok (m, o') →
      m = { mmap with blocks := mmap.blocks ++ [b] } → P b)
    {p : settings_read_params} {m : settings_mmap} {sv : Option (List CStr)}
    (h : settings_mmap_parse p { mmap_base := base } = .ok (m, sv)) :
    m.mmap_base = base ∧ (∀ b ∈ m.blocks, P b) ∧
      m.event_filters.length = m.event_filters_count := by
  unfold settings_mmap_parse at h
  simp only [] at h
  split at h
  · simp at h
  · split at h
    · simp at h
    · simp only [Res.bind_eq_ok, Res.ite_error_eq_ok] at h
      obtain ⟨c1, _, _, c2, _, _, size, _, _, ⟨m1, o1, pr⟩, hf, m2, hb, hres⟩ := h
      simp only [Res.ok.injEq, Prod.mk.injEq] at hres
      obtain ⟨hm, _⟩ := hres
      subst hm
      obtain ⟨f1, f2, f3⟩ := settings_read_filters_ok hf
      simp only at f1 f2 hb
      have := settings_mmap_parse_blocks_ok P base hv hP _ m1 m2 o1 f1
        (by rw [f2]; simp) hb
      obtain ⟨r1, r2, r3, r4⟩ := this
      exact ⟨r1, r2, by rw [r3, r4]; exact f3⟩

/-- C9: `settings_block_read_size` succeeds only if `offset + 8 + size <=
end_offset` (sums of natural numbers, no wrap-around) and then advances the
offset by 8; when the size field at `offset` points past `end_offset` (the
field itself does not fit, or `offset + 8 + size > end_offset`) the call
returns an error; consequently in every blob that `settings_mmap_parse`
accepts, every block ends inside the buffer, its base region ends inside the
block, and each of its size-prefixed filter regions ends inside the block. -/
theorem settings_block_read_size_bounds (base : List Byte) (hv : valid_mmap_size base) :
    (∀ (offset end_offset : Nat) (name : String) (size offset' : Nat),
      settings_block_read_size base offset end_offset name = .ok (size, offset') →
      be64_to_cpu_unaligned base offset = .ok size ∧ offset + 8 + size ≤ end_offset ∧
        offset' = offset + 8) ∧
    (∀ (offset end_offset : Nat) (name : String),
      offset ≤ end_offset → end_offset ≤ base.length →
      (offset + 8 > end_offset ∨
        ∃ size, be64_to_cpu_unaligned base offset = .ok size ∧
          offset + 8 + size > end_offset) →
      (settings_block_read_size base offset end_offset name).isError = true) ∧
    (∀ (p : settings_read_params) (m : settings_mmap) (sv : Option (List CStr)),
      settings_mmap_parse p { mmap_base := base } = .ok (m, sv) →
      ∀ b ∈ m.blocks, block_sizes_fit base b) := by
  refine ⟨?_, ?_, ?_⟩
  · intro offset end_offset name size offset' h
    exact settings_block_read_size_ok hv h
  · intro offset end_offset name h1 h2 h3
    have hv' := hv
    unfold valid_mmap_size at hv'
    have hw : wrap64 (offset + 8) = offset + 8 := wrap64_of_lt (by omega)
    unfold settings_block_read_size
    rw [hw]
    by_cases hc : offset + 8 > end_offset
    · simp [hc, Res.isError]
    · rcases h3 with h3 | ⟨size, hs, h3⟩
      · exact absurd h3 hc
      · have : size > end_offset - offset - 8 := by omega
        simp [hc, hs, Res.bind, this, Res.isError]
  · intro p m sv h
    refine (settings_mmap_parse_ok (block_sizes_fit base) base hv ?_ h).2.1
    intro mmap m' b o o' hb hr hm
    obtain ⟨b', hm', hfit, _⟩ := settings_block_read_ok (hb ▸ hv) hr
    rw [hm'] at hm
    simp at hm
    subst hm
    rw [← hb]
    exact hfit

set_option maxRecDepth 100000 in
/-- Witness for C9 on `minimal_blob`: the block size field at offset 31 holds 20
and fits the buffer of 59 bytes, it does not fit an area that ends at 50, and
the accepted file has well-bounded blocks. -/
theorem settings_block_read_size_bounds_witness :
    valid_mmap_size minimal_blob ∧
    (be64_to_cpu_unaligned minimal_blob 31 = .ok 20 ∧ 31 + 8 + 20 ≤ 59 ∧ 39 = 31 + 8) ∧
    (settings_block_read_size minimal_blob 31 50 "block size").isError = true ∧
    (∃ m sv, settings_mmap_parse example_read_params { mmap_base := minimal_blob } = .ok (m, sv) ∧
      ∀ b ∈ m.blocks, block_sizes_fit minimal_blob b) :=
  ⟨by unfold valid_mmap_size; decide,
   (settings_block_read_size_bounds minimal_blob (by unfold valid_mmap_size; decide)).1
     31 59 "block size" 20 39 rfl,
   (settings_block_read_size_bounds minimal_blob (by unfold valid_mmap_size; decide)).2.1
     31 50 "block size" (by decide) (by decide) (Or.inr ⟨20, rfl, by decide⟩),
   ⟨_, _, rfl,
    (settings_block_read_size_bounds minimal_blob (by unfold valid_mmap_size; decide)).2.2
      example_read_params _ _ rfl⟩⟩

theorem settings_mmap_apply_key_ok {ctx : settings_apply_ctx} {key_idx : Nat}
    {strlist_key : Option CStr} {value : CStr} {st st' : settings_apply_state} {u : Unit}
    (h : settings_mmap_apply_key ctx key_idx strlist_key value st = (.ok u, st')) :
    ∃ d value', ctx.info.defines[key_idx]? = some d ∧
      settings_mmap_apply_key_expand ctx d strlist_key (settings_mmap_apply_key_name d strlist_key) value = .ok value' ∧
      (settings_parse_keyidx_value_nodup ctx.info st.parser key_idx (settings_mmap_apply_key_name d strlist_key) value').1 = true ∧
      st' = { st with parser := (settings_parse_keyidx_value_nodup ctx.info st.parser key_idx (settings_mmap_apply_key_name d strlist_key) value').2 } := by
  unfold settings_mmap_apply_key at h
  split at h
  · simp at h
  · rename_i d hd
    simp only [] at h
    split at h
    · simp at h
    · split at h
      · simp at h
      · simp at h
      · rename_i v hv
        split at h
        · rename_i hr
          simp only [Prod.mk.injEq] at h
          exact ⟨d, v, define_at_accepted hd hr, hv, hr, h.2.symm⟩
        · simp at h

theorem settings_mmap_apply_key_state {ctx : settings_apply_ctx} {key_idx : Nat}
    {strlist_key : Option CStr} {value : CStr} {st st' : settings_apply_state} {r : Res Unit}
    (h : settings_mmap_apply_key ctx key_idx strlist_key value st = (r, st')) :
    st' = st ∨ ∃ key value', st' = { st with parser :=
      (settings_parse_keyidx_value_nodup ctx.info st.parser key_idx key value').2 } := by
  unfold settings_mmap_apply_key at h
  split at h
  · simp at h; exact Or.inl h.2.symm
  · simp only [] at h
    split at h
    · simp at h; exact Or.inl h.2.symm
    · split at h
      · simp at h; exact Or.inl h.2.symm
      · simp at h; exact Or.inl h.2.symm
      · split at h
        · simp only [Prod.mk.injEq] at h
          exact Or.inr ⟨_, _, h.2.symm⟩
        · simp only [Prod.mk.injEq] at h
          exact Or.inr ⟨_, _, h.2.symm⟩

theorem settings_mmap_apply_blob_gate_cases {base : List Byte} {d : setting_define}
    {key_idx offset : Nat} {st st1 : settings_apply_state}
    {r : Res (Option CStr × Nat × Bool)}
    (h : settings_mmap_apply_blob_gate base d key_idx offset st = (r, st1)) :
    (st1 = st ∧ ∀ sk off, r = .ok (sk, off, true) →
        (d.type = .SET_STRLIST ∨ d.type = .SET_FILTER_ARRAY)) ∨
    (d.type ≠ .SET_STRLIST ∧ d.type ≠ .SET_FILTER_ARRAY ∧ st.set_seen key_idx = false ∧
      st1 = st.mark key_idx ∧ r = .ok (none, offset, true)) := by
  unfold settings_mmap_apply_blob_gate at h
  split at h
  · rename_i ht
    left
    split at h <;> simp only [Prod.mk.injEq] at h <;>
      exact ⟨h.2.symm, fun _ _ _ => Or.inl ht⟩
  · split at h
    · rename_i ht
      simp only [Prod.mk.injEq] at h
      exact Or.inl ⟨h.2.symm, fun _ _ _ => Or.inr ht⟩
    · split at h
      · simp only [Prod.mk.injEq] at h
        left
        refine ⟨h.2.symm, ?_⟩
        intro sk off hr
        rw [← h.1] at hr
        simp at hr
      · rename_i h1 h2 h3
        simp only [Prod.mk.injEq] at h
        right
        exact ⟨h1, h2, by simpa using h3, h.2.symm, h.1.symm⟩

theorem settings_mmap_apply_blob_value_cases {ctx : settings_apply_ctx} {base : List Byte}
    {end_offset key_idx : Nat} {strlist_key : Option CStr} {offset : Nat} {set_apply : Bool}
    {st st2 : settings_apply_state} {r : Res Nat}
    (h : settings_mmap_apply_blob_value ctx base end_offset key_idx strlist_key offset
      set_apply st = (r, st2)) :
    st2 = st ∨ (set_apply = true ∧ ∃ key v, st2 = { st with parser :=
      (settings_parse_keyidx_value_nodup ctx.info st.parser key_idx key v).2 }) := by
  unfold settings_mmap_apply_blob_value at h
  split at h
  · simp only [Prod.mk.injEq] at h; exact Or.inl h.2.symm
  · split at h
    · simp only [Prod.mk.injEq] at h; exact Or.inl h.2.symm
    · simp only [Prod.mk.injEq] at h; exact Or.inl h.2.symm
    · simp only [] at h
      split at h
      · simp only [Prod.mk.injEq] at h; exact Or.inl h.2.symm
      · split at h
        · simp only [Prod.mk.injEq] at h; exact Or.inl h.2.symm
        · rename_i hsa
          have hsa' : set_apply = true := by simpa using hsa
          split at h <;> rename_i hk <;> simp only [Prod.mk.injEq] at h <;>
            rcases settings_mmap_apply_key_state hk with hs | ⟨key, v, hs⟩
          all_goals first
            | (left; rw [← h.2, hs]; done)
            | (right; refine ⟨hsa', key, v, ?_⟩; rw [← h.2, hs])

theorem settings_mmap_apply_blob_pair_steps {ctx : settings_apply_ctx} {base : List Byte}
    {block : settings_mmap_block} {end_offset offset : Nat}
    {st st' : settings_apply_state} {r : Res Nat}
    (h : settings_mmap_apply_blob_pair ctx base block end_offset offset st = (r, st')) :
    apply_steps ctx.info st st' := by
  unfold settings_mmap_apply_blob_pair at h
  split at h
  · simp at h; rw [h.2]; exact Relation.ReflTransGen.refl
  · simp at h; rw [h.2]; exact Relation.ReflTransGen.refl
  · split at h
    · simp at h; rw [h.2]; exact Relation.ReflTransGen.refl
    · simp only [] at h
      split at h
      · simp at h; rw [h.2]; exact Relation.ReflTransGen.refl
      · rename_i key_idx _ _ _ d hd
        have hgate : ∀ rg stg, settings_mmap_apply_blob_gate base d key_idx (offset + 4) st = (rg, stg) →
            (stg = st ∨ ((scalar_key ctx.info key_idx ∨ key_idx = ctx.info.defines.length) ∧
              st.set_seen key_idx = false ∧ stg = st.mark key_idx)) := by
          intro rg stg hg
          rcases settings_mmap_apply_blob_gate_cases hg with ⟨h1, _⟩ | ⟨h1, h2, h3, h4, _⟩
          · exact Or.inl h1
          · rcases define_at_cases hd with hd' | ⟨_, hn, _⟩
            · exact Or.inr ⟨Or.inl ⟨d, hd', h1, h2⟩, h3, h4⟩
            · exact Or.inr ⟨Or.inr hn, h3, h4⟩
        have hmark : ∀ rg stg, settings_mmap_apply_blob_gate base d key_idx (offset + 4) st = (rg, stg) →
            apply_steps ctx.info st stg := by
          intro rg stg hg
          rcases hgate rg stg hg with h1 | ⟨h1, h2, h3⟩
          · rw [h1]; exact Relation.ReflTransGen.refl
          · rw [h3]; exact Relation.ReflTransGen.single (apply_step.mark st key_idx h1 h2)
        split at h
        · rename_i hg
          simp only [Prod.mk.injEq] at h
          rw [← h.2]; exact hmark _ _ hg
        · rename_i hg
          simp only [Prod.mk.injEq] at h
          rw [← h.2]; exact hmark _ _ hg
        · rename_i sk off sa stg hg
          rcases settings_mmap_apply_blob_value_cases h with hv | ⟨hsa, key, v, hv⟩
          · rw [hv]; exact hmark _ _ hg
          · subst hsa
            rcases settings_mmap_apply_blob_gate_cases hg with ⟨h1, h2⟩ | ⟨h1, h2, h3, h4, _⟩
            · rw [hv, h1]
              have hd' : ctx.info.defines[key_idx]? = some d := by
                rcases define_at_cases hd with hd' | ⟨_, _, he⟩
                · exact hd'
                · have ht := h2 sk off rfl
                  rw [he] at ht
                  simp [SETTING_DEFINE_LIST_END] at ht
              exact Relation.ReflTransGen.single
                (apply_step.accum st key_idx d key v hd' (h2 sk off rfl))
            · rw [hv, h4]
              have hk : scalar_key ctx.info key_idx ∨ key_idx = ctx.info.defines.length := by
                rcases define_at_cases hd with hd' | ⟨_, hn, _⟩
                · exact Or.inl ⟨d, hd', h1, h2⟩
                · exact Or.inr hn
              exact Relation.ReflTransGen.single
                (apply_step.mark_assign st key_idx key v hk h3)

theorem settings_mmap_apply_blob_loop_steps {ctx : settings_apply_ctx} {base : List Byte}
    {block : settings_mmap_block} {end_offset : Nat} :
    ∀ (fuel offset : Nat) (st st' : settings_apply_state) (r : Res Unit),
      settings_mmap_apply_blob_loop ctx base block end_offset fuel offset st = (r, st') →
      apply_steps ctx.info st st' := by
  intro fuel
  induction fuel with
  | zero =>
    intro offset st st' r h
    simp [settings_mmap_apply_blob_loop] at h
    rw [h.2]; exact Relation.ReflTransGen.refl
  | succ fuel ih =>
    intro offset st st' r h
    unfold settings_mmap_apply_blob_loop at h
    split at h
    · simp at h; rw [h.2]; exact Relation.ReflTransGen.refl
    · split at h
      · rename_i hp
        exact Relation.ReflTransGen.trans (settings_mmap_apply_blob_pair_steps hp)
          (ih _ _ _ _ h)
      · rename_i hp
        simp only [Prod.mk.injEq] at h
        rw [← h.2]; exact settings_mmap_apply_blob_pair_steps hp
      · rename_i hp
        simp only [Prod.mk.injEq] at h
        rw [← h.2]; exact settings_mmap_apply_blob_pair_steps hp

theorem settings_mmap_apply_blob_steps {ctx : settings_apply_ctx} {base : List Byte}
    {block : settings_mmap_block} {start_offset end_offset : Nat}
    {st st' : settings_apply_state} {r : Res Unit}
    (h : settings_mmap_apply_blob ctx base block start_offset end_offset st = (r, st')) :
    apply_steps ctx.info st st' :=
  settings_mmap_apply_blob_loop_steps _ _ _ _ _ h

theorem settings_mmap_apply_filter_steps {ctx : settings_apply_ctx} {mmap : settings_mmap}
    {block : settings_mmap_block} {i : Nat} {seen_filter : Bool}
    {st st' : settings_apply_state} {r : Res Bool}
    (h : settings_mmap_apply_filter ctx mmap block i seen_filter st = (r, st')) :
    apply_steps ctx.info st st' := by
  unfold settings_mmap_apply_filter at h
  simp only [] at h
  repeat' split at h
  all_goals first
    | (simp only [Prod.mk.injEq] at h; rw [← h.2]; exact Relation.ReflTransGen.refl)
    | (simp only [Prod.mk.injEq] at h; rw [← h.2];
       apply settings_mmap_apply_blob_steps; assumption)

theorem settings_mmap_apply_filters_steps {ctx : settings_apply_ctx} {mmap : settings_mmap}
    {block : settings_mmap_block} :
    ∀ (i : Nat) (seen_filter : Bool) (st st' : settings_apply_state) (r : Res Bool),
      settings_mmap_apply_filters ctx mmap block i seen_filter st = (r, st') →
      apply_steps ctx.info st st' := by
  intro i
  induction i with
  | zero =>
    intro seen_filter st st' r h
    simp [settings_mmap_apply_filters] at h
    rw [h.2]; exact Relation.ReflTransGen.refl
  | succ i ih =>
    intro seen_filter st st' r h
    unfold settings_mmap_apply_filters at h
    split at h
    · rename_i hp
      exact Relation.ReflTransGen.trans (settings_mmap_apply_filter_steps hp) (ih _ _ _ _ h)
    · rename_i hp
      simp only [Prod.mk.injEq] at h
      rw [← h.2]; exact settings_mmap_apply_filter_steps hp
    · rename_i hp
      simp only [Prod.mk.injEq] at h
      rw [← h.2]; exact settings_mmap_apply_filter_steps hp

theorem settings_mmap_apply_steps {ctx : settings_apply_ctx} {mmap : settings_mmap}
    {st st' : settings_apply_state} {r : Res Bool}
    (h : settings_mmap_apply ctx mmap st = (r, st')) :
    apply_steps ctx.info st st' := by
  unfold settings_mmap_apply at h
  split at h
  · simp only [Prod.mk.injEq] at h; rw [← h.2]; exact Relation.ReflTransGen.refl
  · split at h
    · simp only [Prod.mk.injEq] at h; rw [← h.2]; exact Relation.ReflTransGen.refl
    · simp only [] at h
      split at h
      · simp only [Prod.mk.injEq] at h; rw [← h.2]; exact Relation.ReflTransGen.refl
      · simp only [Prod.mk.injEq] at h; rw [← h.2]; exact Relation.ReflTransGen.refl
      · rename_i st1 hval
        have hs1 : apply_steps ctx.info st st1 := by
          split at hval
          · rw [Res.bind_eq_ok] at hval
            obtain ⟨_, _, hv⟩ := hval
            simp only [Res.ok.injEq] at hv
            rw [← hv]
            exact Relation.ReflTransGen.single (apply_step.set_mmap st _)
          · simp only [Res.ok.injEq] at hval
            rw [← hval]; exact Relation.ReflTransGen.refl
        split at h
        · rename_i hf
          simp only [Prod.mk.injEq] at h
          rw [← h.2]
          exact Relation.ReflTransGen.trans hs1 (settings_mmap_apply_filters_steps _ _ _ _ _ hf)
        · rename_i hf
          simp only [Prod.mk.injEq] at h
          rw [← h.2]
          exact Relation.ReflTransGen.trans hs1 (settings_mmap_apply_filters_steps _ _ _ _ _ hf)
        · rename_i hf
          have hs2 := Relation.ReflTransGen.trans hs1
            (settings_mmap_apply_filters_steps _ _ _ _ _ hf)
          split at h <;> rename_i hb <;> simp only [Prod.mk.injEq] at h <;> rw [← h.2] <;>
            exact Relation.ReflTransGen.trans hs2 (settings_mmap_apply_blob_steps hb)

theorem settings_instance_override_one_steps {ctx : settings_apply_ctx}
    {set : settings_override} {seen_filter : Bool}
    {st st' : settings_apply_state} {r : Res Bool}
    (h : settings_instance_override_one ctx set seen_filter st = (r, st')) :
    apply_steps ctx.info st st' := by
  unfold settings_instance_override_one at h
  split at h
  · simp only [Prod.mk.injEq] at h; rw [← h.2]; exact Relation.ReflTransGen.refl
  · simp only [] at h
    split at h
    · simp only [Prod.mk.injEq] at h; rw [← h.2]; exact Relation.ReflTransGen.refl
    · simp only [Prod.mk.injEq] at h; rw [← h.2]; exact Relation.ReflTransGen.refl
    · simp only [Prod.mk.injEq] at h; rw [← h.2]; exact Relation.ReflTransGen.refl
    · rename_i key key_idx value hget
      split at h
      · simp only [Prod.mk.injEq] at h; rw [← h.2]; exact Relation.ReflTransGen.refl
      · rename_i d hd
        split at h
        · simp only [Prod.mk.injEq] at h; rw [← h.2]; exact Relation.ReflTransGen.refl
        · simp only [Prod.mk.injEq] at h; rw [← h.2]; exact Relation.ReflTransGen.refl
        · simp only [Prod.mk.injEq] at h; rw [← h.2]; exact Relation.ReflTransGen.refl
        · rename_i stg hgate
          have hstep : apply_steps ctx.info st
              { stg with parser :=
                (settings_parse_keyidx_value_nodup ctx.info stg.parser key_idx key value).2 } := by
            split at hgate
            · rename_i ht
              have : stg = st := by
                split at hgate
                · simp at hgate
                · split at hgate
                  · simp at hgate
                  · simp at hgate; exact hgate.symm
              rw [this]
              exact Relation.ReflTransGen.single
                (apply_step.accum st key_idx d key value hd (Or.inl ht))
            · rename_i ht
              split at hgate
              · rename_i ht2
                split at hgate
                · simp at hgate
                · rename_i hs
                  simp only [Res.ok.injEq, Option.some.injEq] at hgate
                  rw [← hgate]
                  exact Relation.ReflTransGen.single
                    (apply_step.mark_assign st key_idx key value (Or.inl ⟨d, hd, ht, ht2⟩)
                      (by simpa using hs))
              · rename_i ht2
                simp only [Res.ok.injEq, Option.some.injEq] at hgate
                rw [← hgate]
                exact Relation.ReflTransGen.single
                  (apply_step.accum st key_idx d key value hd
                    (Or.inr (by simpa using ht2)))
          repeat' split at h
          all_goals (simp only [Prod.mk.injEq] at h; rw [← h.2]; exact hstep)

theorem settings_instance_override_loop_steps {ctx : settings_apply_ctx} :
    ∀ (l : List settings_override) (seen_filter : Bool) (st st' : settings_apply_state)
      (r : Res Bool),
      settings_instance_override_loop ctx l seen_filter st = (r, st') →
      apply_steps ctx.info st st' := by
  intro l
  induction l with
  | nil =>
    intro seen_filter st st' r h
    simp [settings_instance_override_loop] at h
    rw [h.2]; exact Relation.ReflTransGen.refl
  | cons set rest ih =>
    intro seen_filter st st' r h
    unfold settings_instance_override_loop at h
    split at h
    · rename_i hp
      exact Relation.ReflTransGen.trans (settings_instance_override_one_steps hp) (ih _ _ _ _ h)
    · rename_i hp
      simp only [Prod.mk.injEq] at h
      rw [← h.2]; exact settings_instance_override_one_steps hp
    · rename_i hp
      simp only [Prod.mk.injEq] at h
      rw [← h.2]; exact settings_instance_override_one_steps hp

theorem settings_mmap_apply_defaults_loop_steps {ctx : settings_apply_ctx} :
    ∀ (ds : List setting_define) (key_idx : Nat) (st st' : settings_apply_state)
      (r : Res Unit),
      (∀ j d, ds[j]? = some d → ctx.info.defines[key_idx + j]? = some d) →
      settings_mmap_apply_defaults_loop ctx ds key_idx st = (r, st') →
      apply_steps ctx.info st st' := by
  intro ds
  induction ds with
  | nil =>
    intro key_idx st st' r _ h
    simp [settings_mmap_apply_defaults_loop] at h
    rw [h.2]; exact Relation.ReflTransGen.refl
  | cons d ds ih =>
    intro key_idx st st' r hds h
    have hd : ctx.info.defines[key_idx]? = some d := by
      have := hds 0 d (by simp)
      simpa using this
    have hds' : ∀ j d', ds[j]? = some d' → ctx.info.defines[key_idx + 1 + j]? = some d' := by
      intro j d' hj
      have := hds (j + 1) d' (by simpa using hj)
      rw [← this]
      congr 1
      omega
    unfold settings_mmap_apply_defaults_loop at h
    split at h
    · exact ih _ _ _ _ hds' h
    · rename_i hseen
      split at h
      · exact ih _ _ _ _ hds' h
      · rename_i htype
        split at h
        · exact ih _ _ _ _ hds' h
        · simp only [] at h
          split at h
          · simp only [Prod.mk.injEq] at h; rw [← h.2]; exact Relation.ReflTransGen.refl
          · split at h
            · split at h
              · simp only [Prod.mk.injEq] at h; rw [← h.2]; exact Relation.ReflTransGen.refl
              · split at h
                · have hstep := apply_step.default st key_idx d d.key
                    (ctx.env.var_expand_with_funcs ctx.table ctx.func_table ctx.func_context
                      (by assumption)).1 hd (by simpa using htype) (by simpa using hseen)
                  split at h
                  · exact Relation.ReflTransGen.trans (Relation.ReflTransGen.single hstep)
                      (ih _ _ _ _ hds' h)
                  · simp only [Prod.mk.injEq] at h
                    rw [← h.2]
                    exact Relation.ReflTransGen.single hstep
                · exact ih _ _ _ _ hds' h
            · exact ih _ _ _ _ hds' h

theorem settings_parse_assign_calls (info : setting_parser_info) (p : setting_parser_context)
    (k : Nat) (key v : CStr) : (settings_parse_assign info p k key v).2.calls = p.calls := by
  unfold settings_parse_assign
  repeat' split
  all_goals rfl

theorem settings_parse_assign_values_ne (info : setting_parser_info)
    (p : setting_parser_context) (k j : Nat) (key v : CStr) (h : j ≠ k) :
    (settings_parse_assign info p k key v).2.values j = p.values j := by
  unfold settings_parse_assign
  repeat' split
  all_goals simp [h]

theorem settings_parse_assign_values_accum (info : setting_parser_info)
    (p : setting_parser_context) (k : Nat) (d : setting_define) (key v : CStr)
    (hd : info.defines[k]? = some d)
    (ht : d.type = .SET_STRLIST ∨ d.type = .SET_FILTER_ARRAY) :
    (settings_parse_assign info p k key v).2.values = p.values := by
  unfold settings_parse_assign
  rw [hd]
  rcases ht with ht | ht <;> simp [ht]

theorem settings_parse_assign_values_ok (info : setting_parser_info)
    (p : setting_parser_context) (k : Nat) (d : setting_define) (key v : CStr)
    (hd : info.defines[k]? = some d)
    (h1 : d.type ≠ .SET_STRLIST) (h2 : d.type ≠ .SET_FILTER_ARRAY)
    (hok : (settings_parse_assign info p k key v).1 = true) :
    (settings_parse_assign info p k key v).2.values k = some v := by
  unfold settings_parse_assign at hok ⊢
  rw [hd] at hok ⊢
  simp only [] at hok ⊢
  split
  · rename_i ht; exact absurd ht h1
  · rename_i ht; exact absurd ht h2
  · simp
  · rename_i ht1 ht2 ht3
    split
    · simp
    · rename_i hv
      split at hok
      · exact absurd (by assumption) h1
      · exact absurd (by assumption) h2
      · exact absurd (by assumption) ht3
      · simp [hv] at hok

theorem nodup_calls (info : setting_parser_info) (p : setting_parser_context)
    (k : Nat) (key v : CStr) :
    (settings_parse_keyidx_value_nodup info p k key v).2.calls = p.calls ++ [(k, key, v)] := by
  unfold settings_parse_keyidx_value_nodup
  rw [settings_parse_assign_calls]

theorem nodup_values_ne (info : setting_parser_info)
    (p : setting_parser_context) (k j : Nat) (key v : CStr) (h : j ≠ k) :
    (settings_parse_keyidx_value_nodup info p k key v).2.values j = p.values j := by
  unfold settings_parse_keyidx_value_nodup
  rw [settings_parse_assign_values_ne _ _ _ _ _ _ h]

theorem nodup_values_accum (info : setting_parser_info)
    (p : setting_parser_context) (k : Nat) (d : setting_define) (key v : CStr)
    (hd : info.defines[k]? = some d)
    (ht : d.type = .SET_STRLIST ∨ d.type = .SET_FILTER_ARRAY) :
    (settings_parse_keyidx_value_nodup info p k key v).2.values = p.values := by
  unfold settings_parse_keyidx_value_nodup
  rw [settings_parse_assign_values_accum _ _ _ _ _ _ hd ht]

theorem nodup_values_ok (info : setting_parser_info)
    (p : setting_parser_context) (k : Nat) (key v : CStr)
    (hs : scalar_key info k)
    (hok : (settings_parse_keyidx_value_nodup info p k key v).1 = true) :
    (settings_parse_keyidx_value_nodup info p k key v).2.values k = some v := by
  obtain ⟨d, hd, h1, h2⟩ := hs
  unfold settings_parse_keyidx_value_nodup at hok ⊢
  exact settings_parse_assign_values_ok _ _ _ _ _ _ hd h1 h2 hok

theorem scalar_key_ne_accum {info : setting_parser_info} {k k' : Nat} {d : setting_define}
    (hs : scalar_key info k) (hd : info.defines[k']? = some d)
    (ht : d.type = .SET_STRLIST ∨ d.type = .SET_FILTER_ARRAY) : k ≠ k' := by
  intro e
  subst e
  obtain ⟨d', hd', h1, h2⟩ := hs
  rw [hd] at hd'
  simp at hd'
  subst hd'
  rcases ht with ht | ht
  · exact h1 ht
  · exact h2 ht

/-- A key that is seen keeps its mark and its value. -/
theorem apply_steps_seen_fixed {info : setting_parser_info} {st st' : settings_apply_state}
    (h : apply_steps info st st') (k : Nat)
    (hseen : st.set_seen k = true) :
    st'.set_seen k = true ∧ st'.parser.values k = st.parser.values k := by
  induction h with
  | refl => exact ⟨hseen, rfl⟩
  | tail _ hstep ih =>
    obtain ⟨ih1, ih2⟩ := ih
    cases hstep with
    | mark k' hk' hu =>
      refine ⟨?_, ih2⟩
      simp [settings_apply_state.mark, ih1]
    | mark_assign k' key value hk' hu =>
      have hne : k ≠ k' := by
        intro e; subst e; rw [ih1] at hu; simp at hu
      refine ⟨?_, ?_⟩
      · simp [settings_apply_state.mark, ih1]
      · simp only []
        rw [nodup_values_ne _ _ _ _ _ _ hne]
        exact ih2
    | accum k' d key value hd ht =>
      refine ⟨ih1, ?_⟩
      simp only []
      rw [nodup_values_accum _ _ _ _ _ _ hd ht]
      exact ih2
    | default k' d key value hd ht hu =>
      have hne : k ≠ k' := by
        intro e; subst e; rw [ih1] at hu; simp at hu
      refine ⟨ih1, ?_⟩
      simp only [settings_parse_keyidx_value]
      rw [settings_parse_assign_values_ne _ _ _ _ _ _ hne]
      exact ih2
    | set_mmap m => exact ⟨ih1, ih2⟩

/-- The number of `settings_parse_keyidx_value_nodup` calls for a key index. -/
theorem apply_steps_calls_once {info : setting_parser_info} {st st' : settings_apply_state}
    (h : apply_steps info st st')
    (hinv : ∀ k, scalar_key info k →
      (st.parser.calls.filter (fun c => c.1 = k)).length ≤ (if st.set_seen k then 1 else 0)) :
    ∀ k, scalar_key info k →
      (st'.parser.calls.filter (fun c => c.1 = k)).length ≤
        (if st'.set_seen k then 1 else 0) := by
  induction h with
  | refl => exact hinv
  | tail _ hstep ih =>
    intro k hs
    have ihk := ih k hs
    cases hstep with
    | mark k' hk' hu =>
      simp only [settings_apply_state.mark]
      by_cases e : k = k'
      · subst e
        rw [hu] at ihk
        simp only [Bool.false_eq_true, if_false, if_true] at ihk ⊢
        omega
      · simp only [e, if_false]
        exact ihk
    | mark_assign k' key value hk' hu =>
      simp only [settings_apply_state.mark, nodup_calls]
      by_cases e : k = k'
      · subst e
        rw [hu] at ihk
        simp only [Bool.false_eq_true, if_false, if_true] at ihk ⊢
        rw [List.filter_append, List.length_append]
        simp only [List.filter_cons, List.filter_nil, decide_True, if_true, List.length_singleton]
        omega
      · simp only [e, if_false]
        have : ¬ k' = k := fun x => e x.symm
        rw [List.filter_append, List.length_append]
        simp only [List.filter_cons, List.filter_nil, this, decide_False, List.length_nil]
        simpa using ihk
    | accum k' d key value hd ht =>
      have e := scalar_key_ne_accum hs hd ht
      have : ¬ k' = k := fun x => e x.symm
      simp only [nodup_calls]
      rw [List.filter_append, List.length_append]
      simp only [List.filter_cons, List.filter_nil, this, decide_False, List.length_nil]
      simpa using ihk
    | default k' d key value hd ht hu =>
      simp only [settings_parse_keyidx_value, settings_parse_assign_calls]
      exact ihk
    | set_mmap m => exact ihk

theorem settings_instance_get_merge_steps {ctx : settings_apply_ctx}
    {st st' : settings_apply_state} {r : Res Bool}
    (h : settings_instance_get_merge ctx st = (r, st')) :
    apply_steps ctx.info st st' := by
  unfold settings_instance_get_merge at h
  split at h
  · rename_i ho
    simp only [Prod.mk.injEq] at h; rw [← h.2]
    exact settings_instance_override_loop_steps _ _ _ _ _ ho
  · rename_i ho
    simp only [Prod.mk.injEq] at h; rw [← h.2]
    exact settings_instance_override_loop_steps _ _ _ _ _ ho
  · rename_i seen1 st1 ho
    have hs1 : apply_steps ctx.info st st1 := settings_instance_override_loop_steps _ _ _ _ _ ho
    simp only [] at h
    have happ : ∀ ra sta, (match ctx.inst.mmap with
        | some mmap =>
          match settings_mmap_apply ctx mmap st1 with
          | (.error e, st) => ((Res.error (.failed_to_parse_configuration e) : Res Bool), st)
          | (.fault f, st) => (.fault f, st)
          | (.ok seen2, st) => (.ok (seen1 || seen2), st)
        | none => (.ok seen1, st1)) = (ra, sta) → apply_steps ctx.info st1 sta := by
      intro ra sta ha
      split at ha
      · split at ha <;> rename_i hm <;> simp only [Prod.mk.injEq] at ha <;> rw [← ha.2] <;>
          exact settings_mmap_apply_steps hm
      · simp only [Prod.mk.injEq] at ha; rw [← ha.2]; exact Relation.ReflTransGen.refl
    split at h
    · rename_i ha
      simp only [Prod.mk.injEq] at h; rw [← h.2]
      exact Relation.ReflTransGen.trans hs1 (happ _ _ ha)
    · rename_i ha
      simp only [Prod.mk.injEq] at h; rw [← h.2]
      exact Relation.ReflTransGen.trans hs1 (happ _ _ ha)
    · rename_i ha
      have hs2 := Relation.ReflTransGen.trans hs1 (happ _ _ ha)
      split at h <;> rename_i hd <;> simp only [Prod.mk.injEq] at h <;> rw [← h.2] <;>
        exact Relation.ReflTransGen.trans hs2
          (settings_mmap_apply_defaults_loop_steps _ _ _ _ _ (by intro j d hj; simpa using hj) hd)

/-- C6: in every resolution (successful or not) the value-assigning parser call
`settings_parse_keyidx_value_nodup` is made at most once for every key index
whose type is neither string list nor filter array, counted over the override
pass, all matching filter assignments and the base region. -/
theorem settings_instance_get_assigns_once (ctx0 : settings_apply_ctx) (k : Nat)
    (hs : scalar_key ctx0.info k) :
    ((settings_instance_get ctx0).2.parser.calls.filter (fun c => c.1 = k)).length ≤ 1 := by
  have key : ∀ r st', settings_instance_get_merge (settings_instance_get_ctx ctx0)
      (settings_apply_state_init (settings_instance_get_ctx ctx0)) = (r, st') →
      (st'.parser.calls.filter (fun c => c.1 = k)).length ≤ 1 := by
    intro r st' hm
    have hsteps := settings_instance_get_merge_steps hm
    have := apply_steps_calls_once hsteps (by
      intro k' _
      simp [settings_apply_state_init, settings_parser_init]) k hs
    split at this <;> omega
  unfold settings_instance_get
  simp only []
  split
  · rename_i hm; exact key _ _ hm
  · rename_i hm; exact key _ _ hm
  · rename_i hm
    have := key _ _ hm
    split
    · exact this
    · split
      · split
        · exact this
        · rename_i s hc
          simp only []
          unfold settings_check at hc
          split at hc
          · split at hc
            · simp only [Except.ok.injEq] at hc
              rw [← hc]
              exact this
            · simp at hc
          · simp only [Except.ok.injEq] at hc
            rw [← hc]
            exact this
      · exact this

set_option maxRecDepth 100000 in
/-- Witness for C6: key 1 (`fs_driver`) of the schema `fs`, resolved against
`fs_blob` for service `lda` with an instance override of `fs_driver`: the
override, the filter assignment and the base region all name the key, one call
is made. -/
theorem settings_instance_get_assigns_once_witness :
    scalar_key fs_setting_parser_info 1 ∧
    (((settings_instance_get (fs_example_ctx (cs "lda")
        [{ type := .SETTINGS_OVERRIDE_TYPE_USERDB, key := cs "fs_driver", value := cs "x" }]
        [])).2.parser.calls.filter (fun c => c.1 = 1)).length ≤ 1) :=
  ⟨⟨_, rfl, by decide, by decide⟩,
   settings_instance_get_assigns_once _ 1 ⟨_, rfl, by decide, by decide⟩⟩

theorem settings_instance_override_one_ok {ctx : settings_apply_ctx}
    {o : settings_override} {sf sf' : Bool} {st st' : settings_apply_state}
    (h : settings_instance_override_one ctx o sf st = (.ok sf', st')) :
    (settings_override_matches ctx o = false ∧ st' = st) ∨
    (settings_override_matches ctx o = true ∧
      ((settings_override_get_value ctx o st = .ok none ∧ st' = st) ∨
       ∃ key k' v d, settings_override_get_value ctx o st = .ok (some (key, k', v)) ∧
        ctx.info.defines[k']? = some d ∧
        ((d.type = .SET_STRLIST ∧ st' = st) ∨
         (d.type ≠ .SET_STRLIST ∧ d.type ≠ .SET_FILTER_ARRAY ∧ st.set_seen k' = true ∧
           st' = st) ∨
         (d.type ≠ .SET_STRLIST ∧ d.type ≠ .SET_FILTER_ARRAY ∧ st.set_seen k' = false ∧
           (settings_parse_keyidx_value_nodup ctx.info st.parser k' key v).1 = true ∧
           st' = { st.mark k' with parser :=
             (settings_parse_keyidx_value_nodup ctx.info st.parser k' key v).2 }) ∨
         ((d.type = .SET_STRLIST ∨ d.type = .SET_FILTER_ARRAY) ∧
           (settings_parse_keyidx_value_nodup ctx.info st.parser k' key v).1 = true ∧
           st' = { st with parser :=
             (settings_parse_keyidx_value_nodup ctx.info st.parser k' key v).2 })))) := by
  unfold settings_instance_override_one at h
  split at h
  · rename_i hm
    simp only [Prod.mk.injEq] at h
    exact Or.inl ⟨by simpa using hm, h.2.symm⟩
  · rename_i hm
    have hm' : settings_override_matches ctx o = true := by simpa using hm
    right
    refine ⟨hm', ?_⟩
    simp only [] at h
    split at h
    · simp at h
    · simp at h
    · rename_i hget
      simp only [Prod.mk.injEq] at h
      exact Or.inl ⟨hget, h.2.symm⟩
    · rename_i key k' v hget
      right
      split at h
      · simp at h
      · rename_i d hd
        refine ⟨key, k', v, d, hget, hd, ?_⟩
        split at h
        · simp at h
        · simp at h
        · rename_i hgate
          simp only [Prod.mk.injEq] at h
          split at hgate
          · rename_i ht
            exact Or.inl ⟨ht, h.2.symm⟩
          · rename_i ht
            split at hgate
            · rename_i ht2
              split at hgate
              · rename_i hs
                exact Or.inr (Or.inl ⟨ht, ht2, hs, h.2.symm⟩)
              · simp at hgate
            · simp at hgate
        · rename_i stg hgate
          have hr1 : (settings_parse_keyidx_value_nodup ctx.info stg.parser k' key v).1 = true ∧
              st' = { stg with parser :=
                (settings_parse_keyidx_value_nodup ctx.info stg.parser k' key v).2 } := by
            split at h
            · simp at h
            · rename_i hr
              split at h
              · simp at h
              · simp only [Prod.mk.injEq] at h
                exact ⟨by simpa using hr, h.2.symm⟩
          split at hgate
          · rename_i ht
            have : stg = st := by
              split at hgate
              · simp at hgate
              · split at hgate
                · simp at hgate
                · simp at hgate; exact hgate.symm
            subst this
            exact Or.inr (Or.inr (Or.inr ⟨Or.inl ht, hr1.1, hr1.2⟩))
          · rename_i ht
            split at hgate
            · rename_i ht2
              split at hgate
              · simp at hgate
              · rename_i hs
                simp only [Res.ok.injEq, Option.some.injEq] at hgate
                subst hgate
                exact Or.inr (Or.inr (Or.inl ⟨ht, ht2, by simpa using hs, hr1.1, hr1.2⟩))
            · rename_i ht2
              simp only [Res.ok.injEq, Option.some.injEq] at hgate
              subst hgate
              exact Or.inr (Or.inr (Or.inr ⟨Or.inr (by simpa using ht2), hr1.1, hr1.2⟩))

theorem settings_instance_override_one_targets {ctx : settings_apply_ctx}
    {o : settings_override} {k : Nat} {sf sf' : Bool} {st st' : settings_apply_state}
    (ht : override_targets ctx o k) (hs : scalar_key ctx.info k)
    (hu : st.set_seen k = false)
    (h : settings_instance_override_one ctx o sf st = (.ok sf', st')) :
    st'.set_seen k = true ∧ st'.parser.values k = some o.value := by
  obtain ⟨hm, hg⟩ := ht
  obtain ⟨key0, hg0⟩ := hg st
  obtain ⟨d0, hd0, h1, h2⟩ := hs
  rcases settings_instance_override_one_ok h with ⟨hm', _⟩ | ⟨_, hc⟩
  · rw [hm] at hm'; simp at hm'
  · rcases hc with ⟨hn, _⟩ | ⟨key, k', v, d, hget, hd, hc⟩
    · rw [hg0] at hn; simp at hn
    · rw [hg0] at hget
      simp only [Res.ok.injEq, Option.some.injEq, Prod.mk.injEq] at hget
      obtain ⟨e1, e2, e3⟩ := hget
      subst e1 e2 e3
      rw [hd0] at hd
      simp only [Option.some.injEq] at hd
      subst hd
      rcases hc with ⟨c1, _⟩ | ⟨_, _, c3, _⟩ | ⟨_, _, _, c4, c5⟩ | ⟨c1, _⟩
      · exact absurd c1 h1
      · rw [hu] at c3; simp at c3
      · subst c5
        refine ⟨by simp [settings_apply_state.mark], ?_⟩
        simp only []
        exact nodup_values_ok _ _ _ _ _ ⟨d0, hd0, h1, h2⟩ c4
      · rcases c1 with c1 | c1
        · exact absurd c1 h1
        · exact absurd c1 h2

theorem settings_instance_override_one_misses {ctx : settings_apply_ctx}
    {o : settings_override} {k : Nat} {sf sf' : Bool} {st st' : settings_apply_state}
    (ht : override_misses ctx o k)
    (h : settings_instance_override_one ctx o sf st = (.ok sf', st')) :
    st'.set_seen k = st.set_seen k ∧ st'.parser.values k = st.parser.values k := by
  rcases settings_instance_override_one_ok h with ⟨_, hc⟩ | ⟨hm, hc⟩
  · subst hc; exact ⟨rfl, rfl⟩
  · rcases hc with ⟨_, hc⟩ | ⟨key, k', v, d, hget, hd, hc⟩
    · subst hc; exact ⟨rfl, rfl⟩
    · have hne : k ≠ k' := by
        rcases ht with ht | ht
        · rw [hm] at ht; simp at ht
        · rcases ht st with ht | ⟨key1, k1, v1, ht, hne⟩
          · rw [hget] at ht; simp at ht
          · rw [hget] at ht
            simp only [Res.ok.injEq, Option.some.injEq, Prod.mk.injEq] at ht
            obtain ⟨_, e2, _⟩ := ht
            subst e2
            exact fun e => hne e.symm
      rcases hc with ⟨_, c⟩ | ⟨_, _, _, c⟩ | ⟨_, _, _, _, c⟩ | ⟨_, _, c⟩
      · subst c; exact ⟨rfl, rfl⟩
      · subst c; exact ⟨rfl, rfl⟩
      · subst c
        refine ⟨by simp [settings_apply_state.mark, hne], ?_⟩
        simp only []
        exact nodup_values_ne _ _ _ _ _ _ hne
      · subst c
        refine ⟨rfl, ?_⟩
        simp only []
        exact nodup_values_ne _ _ _ _ _ _ hne

/-- The first override of the merge list that resolves to the key wins. -/
theorem settings_instance_override_loop_first {ctx : settings_apply_ctx} {k : Nat}
    {o : settings_override} (hs : scalar_key ctx.info k) (ht : override_targets ctx o k) :
    ∀ (pre post : List settings_override) (sf sf' : Bool) (st st' : settings_apply_state),
      (∀ o' ∈ pre, override_misses ctx o' k) → st.set_seen k = false →
      settings_instance_override_loop ctx (pre ++ o :: post) sf st = (.ok sf', st') →
      st'.set_seen k = true ∧ st'.parser.values k = some o.value := by
  intro pre
  induction pre with
  | nil =>
    intro post sf sf' st st' _ hu h
    simp only [List.nil_append] at h
    unfold settings_instance_override_loop at h
    split at h
    · rename_i hone
      obtain ⟨a1, a2⟩ := settings_instance_override_one_targets ht hs hu hone
      have := apply_steps_seen_fixed (settings_instance_override_loop_steps _ _ _ _ _ h) k a1
      exact ⟨this.1, by rw [this.2, a2]⟩
    · simp at h
    · simp at h
  | cons o' pre ih =>
    intro post sf sf' st st' hpre hu h
    simp only [List.cons_append] at h
    unfold settings_instance_override_loop at h
    split at h
    · rename_i hone
      obtain ⟨a1, a2⟩ := settings_instance_override_one_misses
        (hpre o' (by simp)) hone
      exact ih post _ _ _ _ (fun x hx => hpre x (by simp [hx])) (by rw [a1, hu]) h
    · simp at h
    · simp at h

theorem settings_instance_get_merge_ok {ctx : settings_apply_ctx}
    {st st' : settings_apply_state} {sf : Bool}
    (h : settings_instance_get_merge ctx st = (.ok sf, st')) :
    ∃ sf1 st1, settings_instance_override ctx st = (.ok sf1, st1) ∧
      apply_steps ctx.info st1 st' := by
  unfold settings_instance_get_merge at h
  split at h
  · simp at h
  · simp at h
  · rename_i seen1 st1 ho
    refine ⟨seen1, st1, ho, ?_⟩
    simp only [] at h
    have happ : ∀ ra sta, (match ctx.inst.mmap with
        | some mmap =>
          match settings_mmap_apply ctx mmap st1 with
          | (.error e, st) => ((Res.error (.failed_to_parse_configuration e) : Res Bool), st)
          | (.fault f, st) => (.fault f, st)
          | (.ok seen2, st) => (.ok (seen1 || seen2), st)
        | none => (.ok seen1, st1)) = (ra, sta) → apply_steps ctx.info st1 sta := by
      intro ra sta ha
      split at ha
      · split at ha <;> rename_i hm <;> simp only [Prod.mk.injEq] at ha <;> rw [← ha.2] <;>
          exact settings_mmap_apply_steps hm
      · simp only [Prod.mk.injEq] at ha; rw [← ha.2]; exact Relation.ReflTransGen.refl
    split at h
    · simp at h
    · simp at h
    · rename_i ha
      have hs2 := happ _ _ ha
      split at h
      · simp at h
      · simp at h
      · rename_i hd
        simp only [Prod.mk.injEq] at h
        rw [← h.2]
        exact Relation.ReflTransGen.trans hs2
          (settings_mmap_apply_defaults_loop_steps _ _ _ _ _ (by intro j d hj; simpa using hj) hd)

theorem settings_instance_get_ok {ctx0 : settings_apply_ctx}
    {s : setting_parser_context} {st : settings_apply_state}
    (h : settings_instance_get ctx0 = (.ok (some s), st)) :
    ∃ sf st1, settings_instance_get_merge (settings_instance_get_ctx ctx0)
        (settings_apply_state_init (settings_instance_get_ctx ctx0)) = (.ok sf, st1) ∧
      (s = st1.parser ∨ settings_check ctx0.info st1.parser = .ok s) := by
  unfold settings_instance_get at h
  simp only [] at h
  split at h
  · simp at h
  · simp at h
  · rename_i sf st1 hm
    refine ⟨sf, st1, hm, ?_⟩
    split at h
    · simp at h
    · split at h
      · split at h
        · simp at h
        · rename_i s' hc
          simp only [Prod.mk.injEq, Res.ok.injEq, Option.some.injEq] at h
          right
          rw [← h.1]
          exact hc
      · simp only [Prod.mk.injEq, Res.ok.injEq, Option.some.injEq] at h
        exact Or.inl h.1.symm

/-- The value that the override pass leaves in a gated key is the resolved
value, if the validation callback keeps it. -/
theorem settings_instance_get_override_value {ctx0 : settings_apply_ctx} {k : Nat} {v : CStr}
    {s : setting_parser_context} {st : settings_apply_state}
    (hcheck : check_keeps ctx0.info k v)
    (hover : ∀ sf1 st1, settings_instance_override (settings_instance_get_ctx ctx0)
        (settings_apply_state_init (settings_instance_get_ctx ctx0)) = (.ok sf1, st1) →
        st1.set_seen k = true ∧ st1.parser.values k = some v)
    (h : settings_instance_get ctx0 = (.ok (some s), st)) :
    s.values k = some v := by
  obtain ⟨sf, st1, hm, hs⟩ := settings_instance_get_ok h
  obtain ⟨sf1, st0, ho, hsteps⟩ := settings_instance_get_merge_ok hm
  obtain ⟨a1, a2⟩ := hover sf1 st0 ho
  have hfix := apply_steps_seen_fixed hsteps k a1
  have hv : st1.parser.values k = some v := by rw [hfix.2, a2]
  rcases hs with hs | hs
  · rw [hs]; exact hv
  · exact hcheck _ _ hs hv

theorem array_sort_insert_skip {α : Type} (cmp : α → α → Int) (x : α) :
    ∀ (A B : List α), (∀ c ∈ A, 0 < cmp x c) →
      array_sort_insert cmp x (A ++ B) = A ++ array_sort_insert cmp x B := by
  intro A
  induction A with
  | nil => intro B _; rfl
  | cons a A ih =>
    intro B h
    have ha : ¬ cmp x a ≤ 0 := by
      have := h a (by simp)
      omega
    have := ih B (fun c hc => h c (by simp [hc]))
    show array_sort_insert cmp x (a :: (A ++ B)) = a :: (A ++ array_sort_insert cmp x B)
    rw [array_sort_insert]
    simp only [ha, if_false]
    rw [this]

theorem array_sort_insert_front {α : Type} (cmp : α → α → Int) (x : α) (B : List α)
    (h : ∀ b ∈ B, cmp x b ≤ 0) : array_sort_insert cmp x B = x :: B := by
  cases B with
  | nil => rfl
  | cons b B => simp [array_sort_insert, h b (by simp)]

/-- The stable sort by descending class lists the hardcoded overrides, then
the `-o` parameters, then the userdb overrides, each class in its original
order. -/
theorem array_sort_overrides (l : List settings_override) :
    array_sort settings_override_cmp l =
      l.filter (fun o => o.type = .SETTINGS_OVERRIDE_TYPE_CODE) ++
      l.filter (fun o => o.type = .SETTINGS_OVERRIDE_TYPE_CLI_PARAM) ++
      l.filter (fun o => o.type = .SETTINGS_OVERRIDE_TYPE_USERDB) := by
  induction l with
  | nil => rfl
  | cons x xs ih =>
    simp only [array_sort, ih]
    cases hx : x.type with
    | SETTINGS_OVERRIDE_TYPE_USERDB =>
      rw [array_sort_insert_skip, array_sort_insert_front]
      · simp [List.filter_cons, hx]
      · intro b hb
        simp at hb
        simp [settings_override_cmp, hx, hb.2, settings_override_type.toInt]
      · intro c hc
        simp at hc
        rcases hc with hc | hc <;>
          simp [settings_override_cmp, hx, hc.2, settings_override_type.toInt]
    | SETTINGS_OVERRIDE_TYPE_CLI_PARAM =>
      rw [List.append_assoc, array_sort_insert_skip, array_sort_insert_front]
      · simp [List.filter_cons, hx]
      · intro b hb
        simp at hb
        rcases hb with hb | hb <;>
          simp [settings_override_cmp, hx, hb.2, settings_override_type.toInt]
      · intro c hc
        simp at hc
        simp [settings_override_cmp, hx, hc.2, settings_override_type.toInt]
    | SETTINGS_OVERRIDE_TYPE_CODE =>
      rw [array_sort_insert_front]
      · simp [List.filter_cons, hx]
      · intro b hb
        simp at hb
        rcases hb with hb | hb | hb <;>
          simp [settings_override_cmp, hx, hb.2, settings_override_type.toInt]

theorem check_keeps_none (info : setting_parser_info) (k : Nat) (v : CStr)
    (h : info.check_func = none) : check_keeps info k v := by
  intro p s hc hp
  simp only [settings_check, h, Except.ok.injEq] at hc
  rw [← hc]
  exact hp

/-- The first override of the sorted merge list that is in scope and resolves
to the gated key `k` supplies the resolved value of `k`. -/
theorem settings_instance_get_first_override (ctx0 : settings_apply_ctx)
    (k : Nat) (o : settings_override) (pre post : List settings_override)
    (s : setting_parser_context) (st : settings_apply_state)
    (hk : scalar_key ctx0.info k)
    (hsort : array_sort settings_override_cmp (ctx0.inst.overrides ++ ctx0.root.overrides) =
      pre ++ o :: post)
    (hpre : ∀ o' ∈ pre, override_misses (settings_instance_get_ctx ctx0) o' k)
    (ht : override_targets (settings_instance_get_ctx ctx0) o k)
    (hcheck : check_keeps ctx0.info k o.value)
    (hres : settings_instance_get ctx0 = (.ok (some s), st)) :
    s.values k = some o.value := by
  apply settings_instance_get_override_value hcheck _ hres
  intro sf1 st1 ho
  unfold settings_instance_override at ho
  simp only [] at ho
  have hsort' : array_sort settings_override_cmp
      ((settings_instance_get_ctx ctx0).inst.overrides ++
        (settings_instance_get_ctx ctx0).root.overrides) = pre ++ o :: post := hsort
  rw [hsort'] at ho
  exact @settings_instance_override_loop_first (settings_instance_get_ctx ctx0) k o hk ht
    pre post _ _ _ _ hpre rfl ho

set_option maxRecDepth 100000 in
/-- C2 (code at the failing input): the base region of `fs_blob` sets
`fs_driver=posix` (service `imap`, the filter assignment is out of scope), the
compiled default is empty, and the append override installed with
`settings_override(instance, "fs_driver+", "sis", userdb)` resolves to `sis`:
the override is concatenated onto the default, the base value is dropped. -/
theorem settings_override_append_ignores_base :
    ∃ inst, settings_override_install example_env { mmap := fs_mmap } (cs "fs_driver+")
        (cs "sis") .SETTINGS_OVERRIDE_TYPE_USERDB = .ok inst ∧
      resolved_value (settings_instance_get
        { fs_example_ctx (cs "imap") [] [] with inst := inst }).1 1 = some (cs "sis") ∧
      resolved_value (settings_instance_get (fs_example_ctx (cs "imap") [] [])).1 1 =
        some (cs "posix") :=
  ⟨_, rfl, rfl, rfl⟩

theorem settings_mmap_apply_blob_gate_ok {base : List Byte} {d : setting_define}
    {key_idx offset : Nat} {st st1 : settings_apply_state}
    {sk : Option CStr} {off : Nat} {sa : Bool}
    (h : settings_mmap_apply_blob_gate base d key_idx offset st = (.ok (sk, off, sa), st1)) :
    (if d.type = .SET_STRLIST then
        match c_str_at base offset with
        | .ok s => some (some s, offset + (s.length + 1))
        | _ => none
      else some (none, offset)) = some (sk, off) ∧
    ((st1 = st ∧ (sa = true → d.type = .SET_STRLIST ∨ d.type = .SET_FILTER_ARRAY)) ∨
     (d.type ≠ .SET_STRLIST ∧ d.type ≠ .SET_FILTER_ARRAY ∧ st.set_seen key_idx = false ∧
       st1 = st.mark key_idx ∧ sa = true ∧ sk = none)) ∧
    (d.type ≠ .SET_STRLIST → d.type ≠ .SET_FILTER_ARRAY → st.set_seen key_idx = false →
      st1 = st.mark key_idx ∧ sa = true ∧ sk = none) := by
  unfold settings_mmap_apply_blob_gate at h
  by_cases ht : d.type = .SET_STRLIST
  · rw [if_pos ht] at h ⊢
    cases hs : c_str_at base offset with
    | error e => rw [hs] at h; simp at h
    | fault f => rw [hs] at h; simp at h
    | ok s =>
      rw [hs] at h
      simp only [Prod.mk.injEq, Res.ok.injEq] at h
      obtain ⟨⟨h1, h2, h3⟩, h4⟩ := h
      subst h1 h2 h4
      exact ⟨rfl, Or.inl ⟨rfl, fun _ => Or.inl ht⟩, fun hn => absurd ht hn⟩
  · rw [if_neg ht] at h ⊢
    by_cases ht2 : d.type = .SET_FILTER_ARRAY
    · rw [if_pos ht2] at h
      simp only [Prod.mk.injEq, Res.ok.injEq] at h
      obtain ⟨⟨h1, h2, h3⟩, h4⟩ := h
      subst h1 h2 h4
      exact ⟨rfl, Or.inl ⟨rfl, fun _ => Or.inr ht2⟩, fun _ hn => absurd ht2 hn⟩
    · rw [if_neg ht2] at h
      by_cases hs : st.set_seen key_idx = true
      · rw [if_pos hs] at h
        simp only [Prod.mk.injEq, Res.ok.injEq] at h
        obtain ⟨⟨h1, h2, h3⟩, h4⟩ := h
        subst h1 h2 h3 h4
        refine ⟨rfl, Or.inl ⟨rfl, fun hc => by simp at hc⟩, fun _ _ hu => ?_⟩
        rw [hs] at hu; simp at hu
      · rw [if_neg hs] at h
        simp only [Prod.mk.injEq, Res.ok.injEq] at h
        obtain ⟨⟨h1, h2, h3⟩, h4⟩ := h
        subst h1 h2 h3 h4
        have hs' : st.set_seen key_idx = false := by simpa using hs
        exact ⟨rfl, Or.inr ⟨ht, ht2, hs', rfl, rfl, rfl⟩, fun _ _ _ => ⟨rfl, rfl, rfl⟩⟩

theorem settings_mmap_apply_blob_value_ok {ctx : settings_apply_ctx} {base : List Byte}
    {end_offset key_idx : Nat} {strlist_key : Option CStr} {offset : Nat} {set_apply : Bool}
    {st st2 : settings_apply_state} {next : Nat}
    (h : settings_mmap_apply_blob_value ctx base end_offset key_idx strlist_key offset
      set_apply st = (.ok next, st2)) :
    ∃ value, c_str_at base offset = .ok value ∧ ¬ offset ≥ end_offset ∧
      ¬ offset + (value.length + 1) > end_offset ∧ next = offset + (value.length + 1) ∧
      (set_apply = false → st2 = st) ∧
      (set_apply = true →
        settings_mmap_apply_key ctx key_idx strlist_key value st = (.ok (), st2)) := by
  unfold settings_mmap_apply_blob_value at h
  split at h
  · simp at h
  · rename_i h1
    split at h
    · simp at h
    · simp at h
    · rename_i value hv
      simp only [] at h
      split at h
      · simp at h
      · rename_i h2
        refine ⟨value, hv, h1, h2, ?_⟩
        split at h
        · rename_i hsa
          simp only [Prod.mk.injEq, Res.ok.injEq] at h
          refine ⟨h.1.symm, fun _ => h.2.symm, fun hc => ?_⟩
          rw [hc] at hsa; simp at hsa
        · rename_i hsa
          split at h
          · rename_i u stk hk
            simp only [Prod.mk.injEq, Res.ok.injEq] at h
            refine ⟨h.1.symm, fun hc => ?_, fun _ => ?_⟩
            · rw [hc] at hsa; simp at hsa
            · rw [hk, h.2]
          · simp at h
          · simp at h

theorem settings_mmap_apply_blob_pair_ok {ctx : settings_apply_ctx} {base : List Byte}
    {block : settings_mmap_block} {end_offset offset : Nat}
    {st st' : settings_apply_state} {next : Nat}
    (h : settings_mmap_apply_blob_pair ctx base block end_offset offset st = (.ok next, st'))
    (k : Nat) (hk : scalar_key ctx.info k) (hu : st.set_seen k = false) :
    ∃ ki sk v, settings_blob_pair_decode ctx.info base block end_offset offset =
        some (ki, sk, v, next) ∧
      (ki = k → key_applied ctx st' k v) ∧
      (ki ≠ k → st'.set_seen k = false ∧ st'.parser.values k = st.parser.values k) := by
  unfold settings_mmap_apply_blob_pair at h
  unfold settings_blob_pair_decode
  split at h
  · simp at h
  · simp at h
  · rename_i ki hki
    simp only [hki]
    split at h
    · simp at h
    · rename_i hcount
      simp only [hcount, if_false]
      simp only [] at h
      split at h
      · simp at h
      · rename_i d hd
        split at h
        · simp at h
        · simp at h
        · rename_i sk off sa stg hg
          obtain ⟨g1, g2, g3⟩ := settings_mmap_apply_blob_gate_ok hg
          obtain ⟨v, hv, v1, v2, v3, v4, v5⟩ := settings_mmap_apply_blob_value_ok h
          simp only [g1, v1, if_false, hv, v2]
          refine ⟨ki, sk, v, by rw [v3], ?_, ?_⟩
          · intro e
            subst e
            obtain ⟨d0, hd0, t1, t2⟩ := hk
            have hd1 := define_at_of_defines hd0
            rw [hd] at hd1
            simp only [Option.some.injEq] at hd1
            subst hd1
            have hd := hd0
            obtain ⟨a1, a2, a3⟩ := g3 t1 t2 hu
            subst a1 a2 a3
            obtain ⟨d', v', b1, b2, b3, b4⟩ := settings_mmap_apply_key_ok (v5 rfl)
            rw [hd] at b1
            simp only [Option.some.injEq] at b1
            subst b1
            subst b4
            refine ⟨by simp [settings_apply_state.mark], d, v', hd, b2, ?_⟩
            simp only []
            exact nodup_values_ok _ _ _ _ _ ⟨d, hd, t1, t2⟩ b3
          · intro hne
            have hne' : k ≠ ki := fun e => hne e.symm
            have hst : stg.set_seen k = false ∧ stg.parser.values k = st.parser.values k := by
              rcases g2 with ⟨c1, _⟩ | ⟨_, _, _, c4, _⟩
              · subst c1; exact ⟨hu, rfl⟩
              · subst c4
                exact ⟨by simp [settings_apply_state.mark, hne', hu], rfl⟩
            cases hsa : sa with
            | false =>
              rw [v4 hsa]; exact hst
            | true =>
              rcases settings_mmap_apply_key_state (v5 hsa) with c | ⟨key, v', c⟩
              · rw [c]; exact hst
              · rw [c]
                refine ⟨hst.1, ?_⟩
                simp only []
                rw [nodup_values_ne _ _ _ _ _ _ hne']
                exact hst.2

theorem key_applied_of_steps {ctx : settings_apply_ctx} {st st' : settings_apply_state}
    {k : Nat} {v : CStr} (h : key_applied ctx st k v) (hs : apply_steps ctx.info st st') :
    key_applied ctx st' k v := by
  obtain ⟨h1, d, v', h2, h3, h4⟩ := h
  have := apply_steps_seen_fixed hs k h1
  exact ⟨this.1, d, v', h2, h3, by rw [this.2, h4]⟩

theorem settings_mmap_apply_blob_loop_value {ctx : settings_apply_ctx} {base : List Byte}
    {block : settings_mmap_block} {end_offset : Nat} (k : Nat) (hk : scalar_key ctx.info k) :
    ∀ (fuel offset : Nat) (st st' : settings_apply_state) (u : Unit),
      st.set_seen k = false →
      settings_mmap_apply_blob_loop ctx base block end_offset fuel offset st = (.ok u, st') →
      match settings_blob_first_value ctx.info base block end_offset fuel offset k with
      | some v => key_applied ctx st' k v
      | none => st'.set_seen k = false ∧ st'.parser.values k = st.parser.values k := by
  intro fuel
  induction fuel with
  | zero =>
    intro offset st st' u _ h
    simp [settings_mmap_apply_blob_loop] at h
  | succ fuel ih =>
    intro offset st st' u hu h
    unfold settings_mmap_apply_blob_loop at h
    unfold settings_blob_first_value
    by_cases hlt : offset < end_offset
    · simp only [hlt, not_true_eq_false, if_false] at h ⊢
      split at h
      · rename_i next st1 hp
        obtain ⟨ki, sk, v, hdec, a1, a2⟩ := settings_mmap_apply_blob_pair_ok hp k hk hu
        simp only [hdec]
        by_cases e : ki = k
        · simp only [e, if_true]
          exact key_applied_of_steps (a1 e) (settings_mmap_apply_blob_loop_steps _ _ _ _ _ h)
        · simp only [e, if_false]
          obtain ⟨b1, b2⟩ := a2 e
          have := ih next st1 st' u b1 h
          split at this
          · exact this
          · exact ⟨this.1, by rw [this.2, b2]⟩
      · simp at h
      · simp at h
    · simp only [hlt, not_false_eq_true, if_true] at h ⊢
      simp only [Prod.mk.injEq] at h
      rw [← h.2]
      exact ⟨hu, rfl⟩

theorem settings_mmap_apply_blob_value_of_region {ctx : settings_apply_ctx}
    {base : List Byte} {block : settings_mmap_block} {s e : Nat} (k : Nat)
    (hk : scalar_key ctx.info k) {st st' : settings_apply_state} {u : Unit}
    (hu : st.set_seen k = false)
    (h : settings_mmap_apply_blob ctx base block s e st = (.ok u, st')) :
    match settings_region_value ctx.info base block s e k with
    | some v => key_applied ctx st' k v
    | none => st'.set_seen k = false ∧ st'.parser.values k = st.parser.values k :=
  settings_mmap_apply_blob_loop_value k hk _ _ _ _ _ hu h

theorem settings_mmap_apply_filter_value {ctx : settings_apply_ctx} {mmap : settings_mmap}
    {block : settings_mmap_block} {i : Nat} {sf sf' : Bool}
    {st st' : settings_apply_state} (k : Nat) (hk : scalar_key ctx.info k)
    (hu : st.set_seen k = false)
    (h : settings_mmap_apply_filter ctx mmap block i sf st = (.ok sf', st')) :
    match settings_filter_value ctx mmap block i k with
    | some v => key_applied ctx st' k v
    | none => st'.set_seen k = false ∧ st'.parser.values k = st.parser.values k := by
  unfold settings_mmap_apply_filter at h
  unfold settings_filter_value
  cases hl : settings_mmap_filter_lookup mmap block i with
  | error e => rw [hl] at h; simp at h
  | fault f => rw [hl] at h; simp at h
  | ok ef =>
    rw [hl] at h
    simp only [] at h ⊢
    by_cases hm : settings_event_filter_matches ctx ef = true
    · simp only [hm, Bool.not_true, Bool.false_eq_true, if_false, if_true] at h ⊢
      cases hr : settings_mmap_filter_region mmap.mmap_base block i with
      | error e => rw [hr] at h; simp at h
      | fault f => rw [hr] at h; simp at h
      | ok r =>
        obtain ⟨s, e⟩ := r
        rw [hr] at h
        simp only [] at h ⊢
        split at h
        · rename_i u stb hb
          simp only [Prod.mk.injEq] at h
          rw [← h.2]
          exact settings_mmap_apply_blob_value_of_region k hk hu hb
        · simp at h
        · simp at h
    · have hm' : settings_event_filter_matches ctx ef = false := by simpa using hm
      simp only [hm', Bool.not_false, if_true, Bool.false_eq_true, if_false] at h ⊢
      simp only [Prod.mk.injEq] at h
      rw [← h.2]
      exact ⟨hu, rfl⟩

theorem settings_mmap_apply_filters_value {ctx : settings_apply_ctx} {mmap : settings_mmap}
    {block : settings_mmap_block} (k : Nat) (hk : scalar_key ctx.info k) :
    ∀ (n : Nat) (sf sf' : Bool) (st st' : settings_apply_state),
      st.set_seen k = false →
      settings_mmap_apply_filters ctx mmap block n sf st = (.ok sf', st') →
      match settings_filters_value ctx mmap block n k with
      | some v => key_applied ctx st' k v
      | none => st'.set_seen k = false ∧ st'.parser.values k = st.parser.values k := by
  intro n
  induction n with
  | zero =>
    intro sf sf' st st' hu h
    simp only [settings_mmap_apply_filters, Prod.mk.injEq] at h
    simp only [settings_filters_value]
    rw [← h.2]
    exact ⟨hu, rfl⟩
  | succ n ih =>
    intro sf sf' st st' hu h
    unfold settings_mmap_apply_filters at h
    unfold settings_filters_value
    split at h
    · rename_i sf1 st1 hf
      have h1 := settings_mmap_apply_filter_value k hk hu hf
      split at h1
      · exact key_applied_of_steps h1 (settings_mmap_apply_filters_steps _ _ _ _ _ h)
      · have h2 := ih _ _ _ _ h1.1 h
        split at h2
        · exact h2
        · exact ⟨h2.1, by rw [h2.2, h1.2]⟩
    · simp at h
    · simp at h

theorem settings_mmap_apply_value {ctx : settings_apply_ctx} {mmap : settings_mmap}
    {st st' : settings_apply_state} {sf : Bool} (k : Nat) (hk : scalar_key ctx.info k)
    (hu : st.set_seen k = false)
    (h : settings_mmap_apply ctx mmap st = (.ok sf, st')) :
    ∃ block, mmap.lookup ctx.info.name = some block ∧
      match settings_block_value ctx mmap block k with
      | some v => key_applied ctx st' k v
      | none => st'.set_seen k = false ∧ st'.parser.values k = st.parser.values k := by
  unfold settings_mmap_apply at h
  split at h
  · simp at h
  · rename_i block hb
    refine ⟨block, hb, ?_⟩
    split at h
    · simp at h
    · simp only [] at h
      split at h
      · simp at h
      · simp at h
      · rename_i st1 hval
        have hs1 : st1.set_seen k = false ∧ st1.parser.values k = st.parser.values k := by
          split at hval
          · rw [Res.bind_eq_ok] at hval
            obtain ⟨_, _, hv⟩ := hval
            simp only [Res.ok.injEq] at hv
            rw [← hv]
            exact ⟨hu, rfl⟩
          · simp only [Res.ok.injEq] at hval
            rw [← hval]; exact ⟨hu, rfl⟩
        split at h
        · simp at h
        · simp at h
        · rename_i sf2 st2 hf
          have h1 := settings_mmap_apply_filters_value k hk _ _ _ _ _ hs1.1 hf
          unfold settings_block_value
          split at h
          · rename_i u st3 hbase
            simp only [Prod.mk.injEq] at h
            rw [← h.2]
            split at h1
            · exact key_applied_of_steps h1 (settings_mmap_apply_blob_steps hbase)
            · have h2 := settings_mmap_apply_blob_value_of_region k hk h1.1 hbase
              split at h2
              · exact h2
              · exact ⟨h2.1, by rw [h2.2, h1.2, hs1.2]⟩
          · simp at h
          · simp at h

theorem array_sort_mem {l : List settings_override} {o : settings_override}
    (h : o ∈ array_sort settings_override_cmp l) : o ∈ l := by
  rw [array_sort_overrides] at h
  simp only [List.mem_append, List.mem_filter] at h
  rcases h with (h | h) | h <;> exact h.1

theorem settings_instance_override_loop_misses {ctx : settings_apply_ctx} {k : Nat} :
    ∀ (l : List settings_override) (sf sf' : Bool) (st st' : settings_apply_state),
      (∀ o ∈ l, override_misses ctx o k) →
      settings_instance_override_loop ctx l sf st = (.ok sf', st') →
      st'.set_seen k = st.set_seen k ∧ st'.parser.values k = st.parser.values k := by
  intro l
  induction l with
  | nil =>
    intro sf sf' st st' _ h
    simp only [settings_instance_override_loop, Prod.mk.injEq] at h
    rw [← h.2]
    exact ⟨rfl, rfl⟩
  | cons o l ih =>
    intro sf sf' st st' hl h
    unfold settings_instance_override_loop at h
    split at h
    · rename_i sf1 st1 hone
      obtain ⟨a1, a2⟩ := settings_instance_override_one_misses (hl o (by simp)) hone
      obtain ⟨b1, b2⟩ := ih _ _ _ _ (fun x hx => hl x (by simp [hx])) h
      exact ⟨by rw [b1, a1], by rw [b2, a2]⟩
    · simp at h
    · simp at h

theorem settings_instance_get_merge_mmap_ok {ctx : settings_apply_ctx} {mmap : settings_mmap}
    {st st' : settings_apply_state} {sf : Bool} (hm : ctx.inst.mmap = some mmap)
    (h : settings_instance_get_merge ctx st = (.ok sf, st')) :
    ∃ sf1 st1 sf2 st2, settings_instance_override ctx st = (.ok sf1, st1) ∧
      settings_mmap_apply ctx mmap st1 = (.ok sf2, st2) ∧
      apply_steps ctx.info st2 st' := by
  unfold settings_instance_get_merge at h
  split at h
  · simp at h
  · simp at h
  · rename_i seen1 st1 ho
    simp only [hm] at h
    cases ha : settings_mmap_apply ctx mmap st1 with
    | mk ra sta =>
      rw [ha] at h
      cases ra with
      | error e => simp at h
      | fault f => simp at h
      | ok sf2 =>
        simp only [] at h
        refine ⟨seen1, st1, sf2, sta, ho, ha, ?_⟩
        split at h
        · simp at h
        · simp at h
        · rename_i hd
          simp only [Prod.mk.injEq] at h
          rw [← h.2]
          exact settings_mmap_apply_defaults_loop_steps _ _ _ _ _
            (by intro j d hj; simpa using hj) hd

/-- Without an override that touches the gated key `k`, the value that the
block gives to `k` is the resolved value. -/
theorem settings_instance_get_block_value {ctx0 : settings_apply_ctx} {mmap : settings_mmap}
    {block : settings_mmap_block} {k : Nat} {v : CStr}
    {s : setting_parser_context} {st : settings_apply_state}
    (hmmap : ctx0.inst.mmap = some mmap)
    (hblock : mmap.lookup ctx0.info.name = some block)
    (hk : scalar_key ctx0.info k)
    (hover : ∀ o ∈ ctx0.inst.overrides ++ ctx0.root.overrides,
      override_misses (settings_instance_get_ctx ctx0) o k)
    (hv : settings_block_value (settings_instance_get_ctx ctx0) mmap block k = some v)
    (h : settings_instance_get ctx0 = (.ok (some s), st)) :
    ∃ d v', ctx0.info.defines[k]? = some d ∧
      settings_mmap_apply_key_expand (settings_instance_get_ctx ctx0) d none d.key v = .ok v' ∧
      (check_keeps ctx0.info k v' → s.values k = some v') := by
  obtain ⟨sf, st3, hm, hs⟩ := settings_instance_get_ok h
  obtain ⟨sf1, st1, sf2, st2, ho, ha, hsteps⟩ :=
    @settings_instance_get_merge_mmap_ok (settings_instance_get_ctx ctx0) mmap _ _ _ hmmap hm
  unfold settings_instance_override at ho
  simp only [] at ho
  obtain ⟨a1, a2⟩ := @settings_instance_override_loop_misses (settings_instance_get_ctx ctx0) k
    _ _ _ _ _ (fun o ho' => hover o (array_sort_mem ho')) ho
  have hu : st1.set_seen k = false := by rw [a1]; rfl
  obtain ⟨block', hb', hval⟩ :=
    @settings_mmap_apply_value (settings_instance_get_ctx ctx0) mmap st1 st2 sf2 k hk hu ha
  have hbe : block' = block := by
    have : mmap.lookup ctx0.info.name = some block' := hb'
    rw [hblock] at this
    simp only [Option.some.injEq] at this
    exact this.symm
  subst hbe
  rw [hv] at hval
  simp only [] at hval
  obtain ⟨c1, d, v', c2, c3, c4⟩ :=
    @key_applied_of_steps (settings_instance_get_ctx ctx0) _ _ _ _ hval hsteps
  refine ⟨d, v', c2, c3, ?_⟩
  intro hcheck
  rcases hs with hs | hs
  · rw [hs]; exact c4
  · exact hcheck _ _ hs c4

theorem settings_mmap_apply_key_expand_str {ctx : settings_apply_ctx} {d : setting_define}
    {key v v' : CStr} (ht : d.type = .SET_STR)
    (hflag : ctx.flags.SETTINGS_GET_FLAG_NO_EXPAND = false)
    (h : settings_mmap_apply_key_expand ctx d none key v = .ok v') :
    v' = (ctx.env.var_expand_with_funcs ctx.table ctx.func_table ctx.func_context v).1 := by
  unfold settings_mmap_apply_key_expand at h
  simp only [Option.isNone_none, hflag, Bool.not_false, Bool.and_self, ht, decide_True,
    Bool.true_and, if_true] at h
  split at h
  · split at h
    · cases h
    · simp only [Res.ok.injEq] at h; exact h.symm
  · simp only [Res.ok.injEq] at h; exact h.symm

theorem settings_block_read_append {mmap m : settings_mmap} {offset0 offset' : Nat}
    (h : settings_block_read mmap offset0 = .ok (m, offset')) :
    ∃ b, m = { mmap with blocks := mmap.blocks ++ [b] } ∧ mmap.lookup b.name = none ∧
      read_byte mmap.mmap_base (b.block_end_offset - 1) = .ok 0 := by
  simp only [settings_block_read, Res.bind_eq_ok, Res.ite_error_eq_ok] at h
  obtain ⟨⟨block_size, o1⟩, h1, last, h2, hlast, ⟨name, o2⟩, h3, hdup, ⟨count, o3⟩, h4,
    o4, h5, ⟨base_size, o5⟩, h6, ⟨err, o6⟩, h7, ⟨fcount, o7⟩, h8, o8, h9, hend, hres⟩ := h
  simp only at h2 h3 hdup h4 h5 h6 h7 h8 h9 hend hres
  simp only [Res.ok.injEq, Prod.mk.injEq] at hres
  obtain ⟨hm, ho⟩ := hres
  refine ⟨_, hm.symm, ?_, ?_⟩
  · simp only
    cases hl : mmap.lookup name with
    | none => rfl
    | some x => simp [hl] at hdup
  · simp only
    have : last = 0 := by
      by_contra hc
      exact hlast hc
    rw [← this]
    exact h2

theorem settings_mmap_parse_blocks_inv (J : List settings_mmap_block → Prop) (base : List Byte)
    (hJ : ∀ (mmap m : settings_mmap) (o o' : Nat),
      mmap.mmap_base = base → J mmap.blocks → settings_block_read mmap o = .ok (m, o') →
      J m.blocks) :
    ∀ (fuel : Nat) (mmap m : settings_mmap) (offset : Nat),
      mmap.mmap_base = base → J mmap.blocks →
      settings_mmap_parse_blocks fuel mmap offset = .ok m → J m.blocks := by
  intro fuel
  induction fuel with
  | zero =>
    intro mmap m offset _ _ h
    simp [settings_mmap_parse_blocks] at h
  | succ fuel ih =>
    intro mmap m offset hb hall h
    simp only [settings_mmap_parse_blocks, Res.bind_eq_ok] at h
    obtain ⟨⟨m1, o1⟩, h1, h2⟩ := h
    simp only at h2
    have hJ1 := hJ mmap m1 offset o1 hb hall h1
    obtain ⟨b, hm1, _⟩ := settings_block_read_append h1
    have hb1 : m1.mmap_base = base := by rw [hm1]; exact hb
    split at h2
    · exact ih m1 m o1 hb1 hJ1 h2
    · simp at h2
      subst h2
      exact hJ1

theorem settings_mmap_parse_inv (J : List settings_mmap_block → Prop) (base : List Byte)
    (hJ : ∀ (mmap m : settings_mmap) (o o' : Nat),
      mmap.mmap_base = base → J mmap.blocks → settings_block_read mmap o = .ok (m, o') →
      J m.blocks)
    (h0 : J [])
    {p : settings_read_params} {m : settings_mmap} {sv : Option (List CStr)}
    (h : settings_mmap_parse p { mmap_base := base } = .ok (m, sv)) : J m.blocks := by
  unfold settings_mmap_parse at h
  simp only [] at h
  split at h
  · simp at h
  · split at h
    · simp at h
    · simp only [Res.bind_eq_ok, Res.ite_error_eq_ok] at h
      obtain ⟨c1, _, _, c2, _, _, size, _, _, ⟨m1, o1, pr⟩, hf, m2, hb, hres⟩ := h
      simp only [Res.ok.injEq, Prod.mk.injEq] at hres
      obtain ⟨hm, _⟩ := hres
      subst hm
      obtain ⟨f1, f2, f3⟩ := settings_read_filters_ok hf
      simp only at f1 f2 hb
      exact settings_mmap_parse_blocks_inv J base hJ _ m1 m2 o1 f1 (by rw [f2]; exact h0) hb

theorem settings_block_read_no_nul {mmap : settings_mmap} {offset size o1 : Nat} {c : Byte}
    (h1 : settings_block_read_size mmap.mmap_base offset mmap.mmap_size "block size" =
      .ok (size, o1))
    (h2 : read_byte mmap.mmap_base (o1 + size - 1) = .ok c) (hc : c ≠ 0) :
    settings_block_read mmap offset = .error (.block_no_nul (o1 + size - 1)) := by
  simp only [settings_block_read, h1, Res.bind, h2]
  simp [hc]

/-- C12: in every blob that `settings_mmap_parse` accepts, the byte at
`block_end_offset - 1` of every block of the index is NUL; and whenever
`settings_block_read` finds a non-NUL byte there, the block read fails with
the error "Settings block doesn't end with NUL", and with it the block loop of
the parse. -/
theorem settings_mmap_parse_block_ends_with_nul (p : settings_read_params) (base : List Byte) :
    (∀ (m : settings_mmap) (sv : Option (List CStr)),
      settings_mmap_parse p { mmap_base := base } = .ok (m, sv) →
      ∀ b ∈ m.blocks, read_byte base (b.block_end_offset - 1) = .ok 0) ∧
    (∀ (mmap : settings_mmap) (offset size o1 : Nat) (c : Byte),
      mmap.mmap_base = base →
      settings_block_read_size base offset base.length "block size" = .ok (size, o1) →
      read_byte base (o1 + size - 1) = .ok c → c ≠ 0 →
      settings_block_read mmap offset = .error (.block_no_nul (o1 + size - 1)) ∧
      ∀ fuel, settings_mmap_parse_blocks (fuel + 1) mmap offset =
        .error (.block_no_nul (o1 + size - 1))) := by
  constructor
  · intro m sv h
    refine settings_mmap_parse_inv
      (fun bs => ∀ b ∈ bs, read_byte base (b.block_end_offset - 1) = .ok 0) base ?_ ?_ h
    · intro mmap m1 o o' hb hall hr
      obtain ⟨b, hm1, _, hnul⟩ := settings_block_read_append hr
      rw [hm1]
      intro x hx
      simp at hx
      rcases hx with hx | hx
      · exact hall x hx
      · subst hx
        rw [← hb]
        exact hnul
    · intro b hb
      simp at hb
  · intro mmap offset size o1 c hb h1 h2 hc
    subst hb
    have hr := @settings_block_read_no_nul mmap offset size o1 c h1 h2 hc
    refine ⟨hr, ?_⟩
    intro fuel
    simp only [settings_mmap_parse_blocks, hr, Res.bind]

set_option maxRecDepth 100000 in
/-- Witness for C12: the block of `minimal_blob` ends with NUL, and the same
file with the last byte set to 1 is refused. -/
theorem settings_mmap_parse_block_ends_with_nul_witness :
    (∃ m sv, settings_mmap_parse example_read_params { mmap_base := minimal_blob } = .ok (m, sv) ∧
      ∀ b ∈ m.blocks, read_byte minimal_blob (b.block_end_offset - 1) = .ok 0) ∧
    settings_block_read { mmap_base := no_nul_blob } 31 = .error (.block_no_nul 58) ∧
    settings_mmap_parse example_read_params { mmap_base := no_nul_blob } =
      .error (.block_no_nul 58) :=
  ⟨⟨_, _, rfl,
    (settings_mmap_parse_block_ends_with_nul example_read_params minimal_blob).1 _ _ rfl⟩,
   ((settings_mmap_parse_block_ends_with_nul example_read_params no_nul_blob).2
      { mmap_base := no_nul_blob } 31 20 39 1 rfl rfl rfl (by decide)).1,
   by decide⟩

theorem lookup_of_nodup_names :
    ∀ (bs : List settings_mmap_block) (b : settings_mmap_block),
      (bs.map (fun x => x.name)).Nodup → b ∈ bs →
      bs.find? (fun x => x.name = b.name) = some b := by
  intro bs
  induction bs with
  | nil => intro b _ hb; simp at hb
  | cons x xs ih =>
    intro b hnd hb
    simp only [List.map_cons, List.nodup_cons] at hnd
    obtain ⟨hx, hnd⟩ := hnd
    simp only [List.mem_cons] at hb
    rcases hb with hb | hb
    · subst hb
      simp [List.find?]
    · have hne : x.name ≠ b.name := by
        intro he
        apply hx
        rw [he]
        exact List.mem_map_of_mem (fun x => x.name) hb
      simp only [List.find?, hne, decide_False]
      exact ih b hnd hb

theorem settings_block_read_duplicate {mmap : settings_mmap} {offset size o1 o2 : Nat}
    {name : CStr} {b0 : settings_mmap_block}
    (h1 : settings_block_read_size mmap.mmap_base offset mmap.mmap_size "block size" =
      .ok (size, o1))
    (h2 : read_byte mmap.mmap_base (o1 + size - 1) = .ok 0)
    (h3 : settings_block_read_str mmap.mmap_base o1 (o1 + size) "block name" = .ok (name, o2))
    (h4 : mmap.lookup name = some b0) :
    settings_block_read mmap offset = .error (.duplicate_block_name name offset) := by
  simp only [settings_block_read, h1, Res.bind, h2, h3, h4]
  simp

/-- C13: in every blob that `settings_mmap_parse` accepts, the names of the
blocks of the index are pairwise distinct and looking a block's name up in the
index gives that block; and whenever `settings_block_read` reads a block name
that the index already holds, the block read fails with the error "Duplicate
block name", and with it the block loop of the parse. -/
theorem settings_mmap_parse_block_names_distinct (p : settings_read_params)
    (base : List Byte) :
    (∀ (m : settings_mmap) (sv : Option (List CStr)),
      settings_mmap_parse p { mmap_base := base } = .ok (m, sv) →
      (m.blocks.map (fun b => b.name)).Nodup ∧ ∀ b ∈ m.blocks, m.lookup b.name = some b) ∧
    (∀ (mmap : settings_mmap) (offset size o1 o2 : Nat) (name : CStr)
      (b0 : settings_mmap_block),
      mmap.mmap_base = base →
      settings_block_read_size base offset base.length "block size" = .ok (size, o1) →
      read_byte base (o1 + size - 1) = .ok 0 →
      settings_block_read_str base o1 (o1 + size) "block name" = .ok (name, o2) →
      mmap.lookup name = some b0 →
      settings_block_read mmap offset = .error (.duplicate_block_name name offset) ∧
      ∀ fuel, settings_mmap_parse_blocks (fuel + 1) mmap offset =
        .error (.duplicate_block_name name offset)) := by
  constructor
  · intro m sv h
    have hnd : (m.blocks.map (fun b => b.name)).Nodup := by
      refine settings_mmap_parse_inv
        (fun bs => (bs.map (fun b => b.name)).Nodup) base ?_ ?_ h
      · intro mmap m1 o o' hb hall hr
        obtain ⟨b, hm1, hnone, _⟩ := settings_block_read_append hr
        rw [hm1]
        simp only [List.map_append, List.map_cons, List.map_nil]
        rw [List.nodup_append]
        refine ⟨hall, by simp, ?_⟩
        intro a ha1 ha2
        simp only [List.mem_map] at ha1
        obtain ⟨x, hx, hxa⟩ := ha1
        simp only [List.mem_singleton] at ha2
        simp only [settings_mmap.lookup, List.find?_eq_none] at hnone
        have := hnone x hx
        simp only [decide_eq_true_eq] at this
        apply this
        rw [hxa, ha2]
      · simp
    refine ⟨hnd, ?_⟩
    intro b hb
    exact lookup_of_nodup_names m.blocks b hnd hb
  · intro mmap offset size o1 o2 name b0 hb h1 h2 h3 h4
    subst hb
    have hr := @settings_block_read_duplicate mmap offset size o1 o2 name b0 h1 h2 h3 h4
    refine ⟨hr, ?_⟩
    intro fuel
    simp only [settings_mmap_parse_blocks, hr, Res.bind]

set_option maxRecDepth 100000 in
/-- Witness for C13: the index of `minimal_blob` has distinct names, and a file
with two blocks named `a` is refused at the second block (offset 59). -/
theorem settings_mmap_parse_block_names_distinct_witness :
    (∃ m sv, settings_mmap_parse example_read_params { mmap_base := minimal_blob } = .ok (m, sv) ∧
      (m.blocks.map (fun b => b.name)).Nodup ∧ ∀ b ∈ m.blocks, m.lookup b.name = some b) ∧
    settings_mmap_parse_blocks 1
      { mmap_base := duplicate_name_blob,
        blocks := [{ name := cs "a", block_end_offset := 59 }] } 59 =
      .error (.duplicate_block_name (cs "a") 59) ∧
    settings_mmap_parse example_read_params { mmap_base := duplicate_name_blob } =
      .error (.duplicate_block_name (cs "a") 59) :=
  ⟨⟨_, _, rfl,
    (settings_mmap_parse_block_names_distinct example_read_params minimal_blob).1 _ _ rfl⟩,
   ((settings_mmap_parse_block_names_distinct example_read_params duplicate_name_blob).2
      { mmap_base := duplicate_name_blob,
        blocks := [{ name := cs "a", block_end_offset := 59 }] }
      59 20 67 69 (cs "a") { name := cs "a", block_end_offset := 59 } rfl rfl rfl rfl rfl).2 0,
   by decide⟩

theorem Res.bind_assoc {α β γ : Type} (x : Res α) (f : α → Res β) (g : β → Res γ) :
    (x.bind f).bind g = x.bind (fun a => (f a).bind g) := by
  cases x <;> rfl

theorem Res.bind_ite_error {α β : Type} (c : Prop) [Decidable c] (e : settings_error)
    (x : Res α) (g : α → Res β) :
    (if c then Res.error e else x).bind g = if c then Res.error e else x.bind g := by
  split <;> rfl

theorem settings_block_read_eq (mmap : settings_mmap) (offset0 : Nat) :
    settings_block_read mmap offset0 =
      (settings_block_read_fields mmap offset0).bind (settings_block_read_end mmap) := by
  simp only [settings_block_read, settings_block_read_fields, Res.bind_assoc,
    Res.bind_ite_error]
  rfl

theorem settings_block_read_fields_ok {mmap : settings_mmap} {offset0 : Nat}
    {b : settings_mmap_block} (hv : valid_mmap_size mmap.mmap_base)
    (h : settings_block_read_fields mmap offset0 = .ok b) :
    b.filter_indexes_start_offset ≤ b.block_end_offset ∧
      b.block_end_offset ≤ mmap.mmap_base.length ∧ b.filter_count < 4294967296 ∧
      b.filter_offsets_start_offset = b.filter_indexes_start_offset + 4 * b.filter_count := by
  simp only [settings_block_read_fields, Res.bind_eq_ok, Res.ite_error_eq_ok] at h
  obtain ⟨⟨block_size, o1⟩, h1, last, h2, hlast, ⟨name, o2⟩, h3, hdup, ⟨count, o3⟩, h4,
    o4, h5, ⟨base_size, o5⟩, h6, ⟨err, o6⟩, h7, ⟨fcount, o7⟩, h8, o8, h9, hres⟩ := h
  simp only at h2 h3 hdup h4 h5 h6 h7 h8 h9 hres
  obtain ⟨a1, a2, a3⟩ := settings_block_read_size_ok hv h1
  obtain ⟨e1, e2, e3⟩ := settings_block_read_size_ok hv h6
  obtain ⟨g1, g2, g3⟩ := settings_block_read_uint32_ok hv h8
  obtain ⟨i1, i2, i3⟩ := settings_block_read_filters_ok hv _ _ _ h9
  simp only [settings_mmap.mmap_size] at a2
  have hv' := hv
  unfold valid_mmap_size at hv'
  have hfin : o8 ≤ o1 + block_size := by
    rcases i3 with i3 | i3
    · subst i3
      simp [settings_block_read_filters] at h9
      omega
    · exact i3
  have hfc := be32_lt g1
  have w1 : wrap64 (o8 + 4 * fcount) = o8 + 4 * fcount := wrap64_of_lt (by omega)
  simp only [Res.ok.injEq] at hres
  subst hres
  simp only
  refine ⟨hfin, by omega, hfc, w1⟩

/-- C14: `settings_block_read` succeeds only if the offset reached after the
last filter's size-prefixed region, plus `4 * filter_count` for the index
array, `8 * filter_count` for the offset array and 1 for the safety NUL, is
exactly the block's end offset (and it then returns that offset); when all
parts of the block were read and the sum is anything else, the call returns
the error "Filter end offset mismatch". -/
theorem settings_block_read_filter_end_offset (mmap : settings_mmap) (offset0 : Nat)
    (hv : valid_mmap_size mmap.mmap_base) :
    (∀ (m : settings_mmap) (offset : Nat),
      settings_block_read mmap offset0 = .ok (m, offset) →
      ∃ b, settings_block_read_fields mmap offset0 = .ok b ∧
        m = { mmap with blocks := mmap.blocks ++ [b] } ∧
        b.filter_indexes_start_offset + 4 * b.filter_count + 8 * b.filter_count + 1 =
          b.block_end_offset ∧
        offset = b.block_end_offset) ∧
    (∀ b, settings_block_read_fields mmap offset0 = .ok b →
      b.filter_indexes_start_offset + 4 * b.filter_count + 8 * b.filter_count + 1 ≠
        b.block_end_offset →
      settings_block_read mmap offset0 =
        .error (.filter_end_offset_mismatch
          (b.filter_indexes_start_offset + 4 * b.filter_count + 8 * b.filter_count + 1)
          b.block_end_offset)) := by
  have hv' := hv
  unfold valid_mmap_size at hv'
  have key : ∀ b, settings_block_read_fields mmap offset0 = .ok b →
      wrap64 (wrap64 (wrap64 (b.filter_indexes_start_offset + 4 * b.filter_count) +
        8 * b.filter_count) + 1) =
      b.filter_indexes_start_offset + 4 * b.filter_count + 8 * b.filter_count + 1 := by
    intro b hb
    obtain ⟨k1, k2, k3, _⟩ := settings_block_read_fields_ok hv hb
    rw [wrap64_of_lt (by omega : b.filter_indexes_start_offset + 4 * b.filter_count <
      18446744073709551616)]
    rw [wrap64_of_lt (by omega : b.filter_indexes_start_offset + 4 * b.filter_count +
      8 * b.filter_count < 18446744073709551616)]
    rw [wrap64_of_lt (by omega)]
  constructor
  · intro m offset h
    rw [settings_block_read_eq, Res.bind_eq_ok] at h
    obtain ⟨b, hb, hend⟩ := h
    refine ⟨b, hb, ?_⟩
    simp only [settings_block_read_end, key b hb, Res.ite_error_eq_ok, Res.ok.injEq,
      Prod.mk.injEq] at hend
    obtain ⟨hne, hm, ho⟩ := hend
    have heq : b.filter_indexes_start_offset + 4 * b.filter_count + 8 * b.filter_count + 1 =
        b.block_end_offset := by
      by_contra hc
      exact hne hc
    exact ⟨hm.symm, heq, by omega⟩
  · intro b hb hne
    rw [settings_block_read_eq, hb]
    simp only [Res.bind, settings_block_read_end, key b hb]
    simp [hne]

set_option maxRecDepth 100000 in
/-- Witness for C14: in `minimal_blob` the filter regions of block `a` end at
offset 58 and 58 + 0 + 0 + 1 is the block's end 59; in `trailing_byte_blob` the
block ends at 60 and the read fails. -/
theorem settings_block_read_filter_end_offset_witness :
    (∃ b, settings_block_read_fields { mmap_base := minimal_blob } 31 = .ok b ∧
      b.filter_indexes_start_offset + 4 * b.filter_count + 8 * b.filter_count + 1 =
        b.block_end_offset ∧ b.block_end_offset = 59) ∧
    settings_block_read { mmap_base := trailing_byte_blob } 31 =
      .error (.filter_end_offset_mismatch 59 60) :=
  ⟨by
    obtain ⟨b, h1, _, h3, h4⟩ :=
      (settings_block_read_filter_end_offset { mmap_base := minimal_blob } 31
        (by unfold valid_mmap_size; decide)).1 _ 59 rfl
    exact ⟨b, h1, h3, h4.symm⟩,
   (settings_block_read_filter_end_offset { mmap_base := trailing_byte_blob } 31
      (by unfold valid_mmap_size; decide)).2
      { name := cs "a", block_end_offset := 60, base_start_offset := 54,
        base_end_offset := 54, filter_indexes_start_offset := 58,
        filter_offsets_start_offset := 58, settings_keys_offset := 45 }
      rfl (by decide)⟩

set_option maxRecDepth 100000 in
/-- C15 (code at the failing input): for a process with protocol name `imap`
and without the flag `SETTINGS_READ_NO_PROTOCOL_FILTER`, `settings_read_filters`
stores the filter `NOT protocol=imap` as a compiled filter, not as the NEVER
sentinel: the protocol name is compared with the text `!imap`.  The filter
`protocol=pop3` is stored as NEVER. -/
theorem settings_read_filters_keeps_negated_protocol :
    ∃ m sv, settings_mmap_parse imap_read_params { mmap_base := identity_filters_blob } =
        .ok (m, sv) ∧
      m.event_filters[0]? =
        some (.filter (.op_not (.field_eq (cs "protocol") (cs "imap")))) ∧
      m.event_filters[1]? = some .EVENT_FILTER_MATCH_NEVER ∧
      sv = some [cs "!imap", cs "pop3"] :=
  ⟨_, _, rfl, by decide, by decide, by decide⟩

theorem Res.bind_ok {α β : Type} (a : α) (f : α → Res β) : (Res.ok a).bind f = f a := rfl

theorem settings_read_filter_entry_fst (p : settings_read_params) (tmp : event_filter)
    (protocols : List CStr) :
    (settings_read_filter_entry p tmp protocols).1 =
      if settings_protocol_demotes p tmp then .EVENT_FILTER_MATCH_NEVER
      else
        match event_filter_find_field_exact tmp (cs "service") false, p.service_name with
        | some (value, op_not), some service_name =>
          if (decide (value = service_name)) == op_not then .EVENT_FILTER_MATCH_NEVER
          else .filter tmp
        | _, _ => .filter tmp := by
  unfold settings_read_filter_entry settings_protocol_demotes
  cases hp : event_filter_find_field_exact tmp (cs "protocol") false with
  | none => rfl
  | some r =>
    obtain ⟨value0, op_not⟩ := r
    cases hn : p.protocol_name with
    | none => rfl
    | some protocol_name =>
      simp only
      cases op_not <;> simp only [if_true, if_false, Bool.false_eq_true] <;> split <;> rfl

theorem settings_read_filters_loop_prefix (p : settings_read_params) (base : List Byte) :
    ∀ (n i offset : Nat) (filters : List mmap_event_filter) (protocols : List CStr)
      (r : List mmap_event_filter × Nat × List CStr),
      settings_read_filters_loop p base n i offset filters protocols = .ok r →
      ∃ rest, r.1 = filters ++ rest := by
  intro n
  induction n with
  | zero =>
    intro i offset filters protocols r h
    simp [settings_read_filters_loop] at h
    subst h
    exact ⟨[], by simp⟩
  | succ n ih =>
    intro i offset filters protocols r h
    simp only [settings_read_filters_loop, Res.bind_eq_ok] at h
    obtain ⟨⟨str, o1⟩, _, h2⟩ := h
    simp only at h2
    split at h2
    · obtain ⟨rest, hr⟩ := ih _ _ _ _ _ h2
      exact ⟨.EVENT_FILTER_MATCH_ALWAYS :: rest, by rw [hr]; simp⟩
    · split at h2
      · simp at h2
      · rename_i tmp _
        obtain ⟨rest, hr⟩ := ih _ _ _ _ _ h2
        exact ⟨(settings_read_filter_entry p tmp protocols).1 :: rest, by rw [hr]; simp⟩

theorem getElem?_append_cons_length {α : Type} (l : List α) (a : α) (rest : List α) :
    (l ++ [a] ++ rest)[l.length + 0]? = some a := by
  induction l with
  | nil => simp
  | cons x xs ih => simpa using ih

theorem settings_read_filters_loop_stored (p : settings_read_params) (base : List Byte) :
    ∀ (n i offset : Nat) (filters : List mmap_event_filter) (protocols : List CStr)
      (r : List mmap_event_filter × Nat × List CStr),
      settings_read_filters_loop p base n i offset filters protocols = .ok r →
      ∀ (j : Nat) (s : CStr), (settings_filter_strings base n offset)[j]? = some s →
        (s = [] → r.1[filters.length + j]? = some .EVENT_FILTER_MATCH_ALWAYS) ∧
        (s ≠ [] → ∃ tmp, p.event_filter_parse s = .ok tmp ∧
          ∀ protocols', r.1[filters.length + j]? =
            some (settings_read_filter_entry p tmp protocols').1) := by
  intro n
  induction n with
  | zero =>
    intro i offset filters protocols r _ j s hs
    simp [settings_filter_strings] at hs
  | succ n ih =>
    intro i offset filters protocols r h j s hs
    simp only [settings_read_filters_loop, Res.bind_eq_ok] at h
    obtain ⟨⟨str, o1⟩, h1, h2⟩ := h
    simp only at h2
    simp only [settings_filter_strings, h1] at hs
    have hlen := settings_read_filters_loop_ok p base
    cases j with
    | zero =>
      simp only [List.getElem?_cons_zero, Option.some.injEq] at hs
      subst hs
      split at h2
      · rename_i hempty
        obtain ⟨rest, hr⟩ := settings_read_filters_loop_prefix p base _ _ _ _ _ _ h2
        refine ⟨fun _ => ?_, fun hne => absurd hempty hne⟩
        rw [hr]
        exact getElem?_append_cons_length _ _ _
      · rename_i hne
        split at h2
        · simp at h2
        · rename_i tmp htmp
          obtain ⟨rest, hr⟩ := settings_read_filters_loop_prefix p base _ _ _ _ _ _ h2
          refine ⟨fun he => absurd he hne, fun _ => ⟨tmp, htmp, ?_⟩⟩
          intro protocols'
          rw [hr, getElem?_append_cons_length]
          simp only [settings_read_filter_entry_fst]
    | succ j =>
      simp only [List.getElem?_cons_succ] at hs
      split at h2
      · have := ih _ _ _ _ _ h2 j s hs
        simpa [Nat.add_assoc, Nat.add_comm 1 j] using this
      · split at h2
        · simp at h2
        · have := ih _ _ _ _ _ h2 j s hs
          simpa [Nat.add_assoc, Nat.add_comm 1 j] using this

theorem settings_read_filters_loop_strings (p : settings_read_params) (base : List Byte) :
    ∀ (n i offset : Nat) (filters : List mmap_event_filter) (protocols : List CStr)
      (r : List mmap_event_filter × Nat × List CStr),
      settings_read_filters_loop p base n i offset filters protocols = .ok r →
      (settings_filter_strings base n offset).length = n := by
  intro n
  induction n with
  | zero =>
    intro i offset filters protocols r _
    simp [settings_filter_strings]
  | succ n ih =>
    intro i offset filters protocols r h
    simp only [settings_read_filters_loop, Res.bind_eq_ok] at h
    obtain ⟨⟨str, o1⟩, h1, h2⟩ := h
    simp only at h2
    simp only [settings_filter_strings, h1, List.length_cons, Nat.add_right_cancel_iff]
    split at h2
    · exact ih _ _ _ _ _ h2
    · split at h2
      · simp at h2
      · exact ih _ _ _ _ _ h2

/-- C16: with a service name `S`, a parsed non-empty filter whose `service`
clause contradicts `S` (`service = Y` with `Y` different from `S`, or `NOT
service = S`) is stored as the NEVER sentinel; one whose clause is `service =
S` or `NOT service = Y` is stored as the compiled filter unless its protocol
clause has demoted it; and in the table that `settings_read_filters` returns,
entry `i` is the ALWAYS sentinel when the `i`-th filter string is empty and is
the entry computed from the parsed filter otherwise. -/
theorem settings_read_filters_service_demotion (p : settings_read_params) :
    (∀ (tmp : event_filter) (protocols : List CStr) (S value : CStr) (op_not : Bool),
      p.service_name = some S →
      event_filter_find_field_exact tmp (cs "service") false = some (value, op_not) →
      (((op_not = false ∧ value ≠ S) ∨ (op_not = true ∧ value = S)) →
        (settings_read_filter_entry p tmp protocols).1 = .EVENT_FILTER_MATCH_NEVER) ∧
      (((op_not = false ∧ value = S) ∨ (op_not = true ∧ value ≠ S)) →
        (settings_read_filter_entry p tmp protocols).1 =
          if settings_protocol_demotes p tmp then .EVENT_FILTER_MATCH_NEVER
          else .filter tmp)) ∧
    (∀ (mmap m : settings_mmap) (offset offset' : Nat) (protocols pr : List CStr)
      (count first : Nat),
      settings_read_filters p mmap offset protocols = .ok (m, offset', pr) →
      settings_block_read_uint32 mmap.mmap_base offset mmap.mmap_size "filters count" =
        .ok (count, first) →
      m.event_filters_count = count ∧
        (settings_filter_strings mmap.mmap_base count first).length = count ∧
        ∀ (i : Nat) (s : CStr),
          (settings_filter_strings mmap.mmap_base count first)[i]? = some s →
          (s = [] → m.event_filters[i]? = some .EVENT_FILTER_MATCH_ALWAYS) ∧
          (s ≠ [] → ∃ tmp, p.event_filter_parse s = .ok tmp ∧
            ∀ protocols', m.event_filters[i]? =
              some (settings_read_filter_entry p tmp protocols').1)) := by
  constructor
  · intro tmp protocols S value op_not hS hf
    rw [settings_read_filter_entry_fst]
    simp only [hS, hf]
    constructor
    · intro hc
      rcases hc with ⟨h1, h2⟩ | ⟨h1, h2⟩
      · subst h1
        simp [h2]
      · subst h1
        simp [h2]
    · intro hc
      rcases hc with ⟨h1, h2⟩ | ⟨h1, h2⟩
      · subst h1
        simp [h2]
      · subst h1
        simp [h2]
  · intro mmap m offset offset' protocols pr count first h hu
    simp only [settings_read_filters, hu, Res.bind_ok, Res.bind_eq_ok] at h
    obtain ⟨l, hl, hres⟩ := h
    simp only [Res.ok.injEq, Prod.mk.injEq] at hres
    obtain ⟨hm, _, _⟩ := hres
    subst hm
    simp only at hl ⊢
    refine ⟨trivial, settings_read_filters_loop_strings p _ _ _ _ _ _ _ hl, ?_⟩
    intro i s hs
    have := settings_read_filters_loop_stored p _ _ _ _ _ _ _ hl i s hs
    simpa using this

set_option maxRecDepth 100000 in
/-- Witness for C16: for the service `imap` the filter `service=lda` is stored
as NEVER, for the service `lda` it is kept; and in the table read from
`identity_filters_blob` the fifth filter string is empty and its entry is the
ALWAYS sentinel, while the third string `service=lda` has the entry computed
from its parsed filter. -/
theorem settings_read_filters_service_demotion_witness :
    (settings_read_filter_entry imap_read_params (.field_eq (cs "service") (cs "lda")) []).1 =
      .EVENT_FILTER_MATCH_NEVER ∧
    (settings_read_filter_entry lda_read_params (.field_eq (cs "service") (cs "lda")) []).1 =
      .filter (.field_eq (cs "service") (cs "lda")) ∧
    (∃ m offset pr, settings_read_filters imap_read_params
        { mmap_base := identity_filters_blob } 27 [] = .ok (m, offset, pr) ∧
      m.event_filters[4]? = some .EVENT_FILTER_MATCH_ALWAYS ∧
      m.event_filters[2]? = some .EVENT_FILTER_MATCH_NEVER) :=
  ⟨((settings_read_filters_service_demotion imap_read_params).1
      (.field_eq (cs "service") (cs "lda")) [] (cs "imap") (cs "lda") false rfl rfl).1
      (Or.inl ⟨rfl, by decide⟩),
   ((settings_read_filters_service_demotion lda_read_params).1
      (.field_eq (cs "service") (cs "lda")) [] (cs "lda") (cs "lda") false rfl rfl).2
      (Or.inl ⟨rfl, rfl⟩),
   ⟨_, _, _, rfl,
    (((settings_read_filters_service_demotion imap_read_params).2
      { mmap_base := identity_filters_blob } _ 27 _ [] _ 5 31 rfl rfl).2.2 4 [] rfl).1 rfl,
    by decide⟩⟩

theorem settings_mmap_apply_key_expand_no_fault (ctx : settings_apply_ctx) (d : setting_define)
    (sk : Option CStr) (key value : CStr) (f : settings_fault) :
    settings_mmap_apply_key_expand ctx d sk key value ≠ .fault f := by
  unfold settings_mmap_apply_key_expand
  split
  · simp only
    split
    · split <;> simp
    · simp
  · simp

theorem settings_mmap_apply_key_no_fault {ctx : settings_apply_ctx} {key_idx : Nat}
    {sk : Option CStr} {value : CStr} {st : settings_apply_state} {d : setting_define}
    (hd : ctx.info.define_at key_idx = some d) (f : settings_fault) :
    (settings_mmap_apply_key ctx key_idx sk value st).1 ≠ .fault f := by
  unfold settings_mmap_apply_key
  rw [hd]
  simp only
  split
  · intro hc; cases hc
  · split
    · intro hc; cases hc
    · rename_i hx
      exact absurd hx (settings_mmap_apply_key_expand_no_fault _ _ _ _ _ _)
    · split <;> (intro hc; cases hc)

theorem settings_mmap_apply_key_ok_or_error {ctx : settings_apply_ctx} {key_idx : Nat}
    {sk : Option CStr} {value : CStr} {st : settings_apply_state} {d : setting_define}
    (hd : ctx.info.define_at key_idx = some d) :
    (settings_mmap_apply_key ctx key_idx sk value st).1 = .ok () ∨
      (settings_mmap_apply_key ctx key_idx sk value st).1.isError = true := by
  cases h : (settings_mmap_apply_key ctx key_idx sk value st).1 with
  | ok u => exact Or.inl rfl
  | error e => exact Or.inr rfl
  | fault f => exact absurd h (settings_mmap_apply_key_no_fault hd f)

theorem c_str_at_not_error (base : List Byte) (offset : Nat) (e : settings_error) :
    c_str_at base offset ≠ .error e := by
  unfold c_str_at
  split <;> simp

theorem c_str_at_fault {base : List Byte} {offset : Nat} {f : settings_fault}
    (h : c_str_at base offset = .fault f) : ∃ idx, f = .mmap_read idx := by
  unfold c_str_at at h
  split at h
  · simp at h
  · simp only [Res.fault.injEq] at h
    exact ⟨_, h.symm⟩

theorem be32_fault {base : List Byte} {offset : Nat} {f : settings_fault}
    (h : be32_to_cpu_unaligned base offset = .fault f) : ∃ idx, f = .mmap_read idx := by
  unfold be32_to_cpu_unaligned read_bytes at h
  split at h
  · simp [Res.bind] at h
  · simp only [Res.bind, Res.fault.injEq] at h
    exact ⟨_, h.symm⟩

theorem be32_not_error (base : List Byte) (offset : Nat) (e : settings_error) :
    be32_to_cpu_unaligned base offset ≠ .error e := by
  unfold be32_to_cpu_unaligned read_bytes
  split <;> simp [Res.bind]

theorem settings_mmap_apply_blob_pair_high {ctx : settings_apply_ctx} {base : List Byte}
    {block : settings_mmap_block} {end_offset offset key_idx : Nat}
    {st : settings_apply_state}
    (h : be32_to_cpu_unaligned base offset = .ok key_idx)
    (hk : key_idx ≥ block.settings_count) :
    settings_mmap_apply_blob_pair ctx base block end_offset offset st =
      (.error (.key_index_too_high key_idx block.settings_count), st) := by
  unfold settings_mmap_apply_blob_pair
  rw [h]
  simp only [hk, if_true]

theorem settings_mmap_apply_blob_gate_fault {base : List Byte} {d : setting_define}
    {key_idx offset : Nat} {st : settings_apply_state} {f : settings_fault}
    (h : (settings_mmap_apply_blob_gate base d key_idx offset st).1 = .fault f) :
    ∃ idx, f = .mmap_read idx := by
  unfold settings_mmap_apply_blob_gate at h
  split at h
  · split at h
    · cases h
    · rename_i hc
      simp only [Res.fault.injEq] at h
      subst h
      exact c_str_at_fault hc
    · cases h
  · split at h
    · cases h
    · split at h <;> cases h

theorem settings_mmap_apply_blob_value_fault {ctx : settings_apply_ctx} {base : List Byte}
    {end_offset key_idx : Nat} {strlist_key : Option CStr} {offset : Nat} {set_apply : Bool}
    {st : settings_apply_state} {d : setting_define} {f : settings_fault}
    (hd : ctx.info.define_at key_idx = some d)
    (h : (settings_mmap_apply_blob_value ctx base end_offset key_idx strlist_key offset
      set_apply st).1 = .fault f) :
    ∃ idx, f = .mmap_read idx := by
  unfold settings_mmap_apply_blob_value at h
  split at h
  · cases h
  · split at h
    · cases h
    · rename_i hc
      simp only [Res.fault.injEq] at h
      subst h
      exact c_str_at_fault hc
    · simp only [] at h
      split at h
      · cases h
      · split at h
        · cases h
        · split at h
          · cases h
          · cases h
          · rename_i hk
            simp only [Res.fault.injEq] at h
            subst h
            exact absurd (by rw [hk]) (settings_mmap_apply_key_no_fault hd _)

theorem settings_mmap_apply_blob_pair_fault {ctx : settings_apply_ctx} {base : List Byte}
    {block : settings_mmap_block} {end_offset offset : Nat}
    {st : settings_apply_state} {f : settings_fault}
    (hc : block.settings_count ≤ ctx.info.defines.length)
    (h : (settings_mmap_apply_blob_pair ctx base block end_offset offset st).1 = .fault f) :
    ∃ idx, f = .mmap_read idx := by
  unfold settings_mmap_apply_blob_pair at h
  split at h
  · cases h
  · rename_i hb
    simp only [Res.fault.injEq] at h
    subst h
    exact be32_fault hb
  · split at h
    · cases h
    · simp only [] at h
      split at h
      · rename_i key_idx _ hlt hnone
        unfold setting_parser_info.define_at at hnone
        split at hnone
        · cases hnone
        · rename_i hn
          rw [List.getElem?_eq_none_iff] at hn
          omega
      · rename_i d hd
        split at h
        · cases h
        · rename_i hg
          simp only [Res.fault.injEq] at h
          subst h
          exact settings_mmap_apply_blob_gate_fault (by rw [hg])
        · exact settings_mmap_apply_blob_value_fault hd h

theorem settings_mmap_apply_blob_loop_fault {ctx : settings_apply_ctx} {base : List Byte}
    {block : settings_mmap_block} {end_offset : Nat}
    (hc : block.settings_count ≤ ctx.info.defines.length) :
    ∀ (fuel offset : Nat) (st : settings_apply_state) (f : settings_fault),
      (settings_mmap_apply_blob_loop ctx base block end_offset fuel offset st).1 = .fault f →
      (∃ idx, f = .mmap_read idx) ∨ f = .out_of_fuel := by
  intro fuel
  induction fuel with
  | zero =>
    intro offset st f h
    simp only [settings_mmap_apply_blob_loop, Res.fault.injEq] at h
    exact Or.inr h.symm
  | succ fuel ih =>
    intro offset st f h
    unfold settings_mmap_apply_blob_loop at h
    split at h
    · cases h
    · split at h
      · exact ih _ _ _ h
      · cases h
      · rename_i hp
        simp only [Res.fault.injEq] at h
        subst h
        exact Or.inl (settings_mmap_apply_blob_pair_fault hc (by rw [hp]))

theorem settings_mmap_apply_blob_value_of_decode {ctx : settings_apply_ctx}
    {base : List Byte} {end_offset key_idx : Nat} {strlist_key : Option CStr} {offset : Nat}
    {set_apply : Bool} {st : settings_apply_state} {d : setting_define} {value : CStr}
    (hd : ctx.info.define_at key_idx = some d)
    (h1 : ¬ offset ≥ end_offset) (h2 : c_str_at base offset = .ok value)
    (h3 : ¬ offset + (value.length + 1) > end_offset) :
    (settings_mmap_apply_blob_value ctx base end_offset key_idx strlist_key offset
        set_apply st).1 = .ok (offset + (value.length + 1)) ∨
      (settings_mmap_apply_blob_value ctx base end_offset key_idx strlist_key offset
        set_apply st).1.isError = true := by
  unfold settings_mmap_apply_blob_value
  simp only [h1, if_false, h2, h3]
  cases set_apply with
  | false => left; rfl
  | true =>
    simp only [Bool.not_true, Bool.false_eq_true, if_false]
    rcases @settings_mmap_apply_key_ok_or_error ctx key_idx strlist_key value st d hd with
      hk | hk
    · left
      split
      · rfl
      · rename_i hx; rw [hx] at hk; cases hk
      · rename_i hx; rw [hx] at hk; cases hk
    · right
      split
      · rename_i hx; rw [hx] at hk; cases hk
      · rfl
      · rename_i hx; rw [hx] at hk; cases hk

theorem settings_mmap_apply_blob_pair_of_decode {ctx : settings_apply_ctx} {base : List Byte}
    {block : settings_mmap_block} {end_offset offset : Nat} {st : settings_apply_state}
    {ki : Nat} {sk : Option CStr} {v : CStr} {next : Nat}
    (h : settings_blob_pair_decode ctx.info base block end_offset offset =
      some (ki, sk, v, next)) :
    (settings_mmap_apply_blob_pair ctx base block end_offset offset st).1 = .ok next ∨
      (settings_mmap_apply_blob_pair ctx base block end_offset offset st).1.isError = true := by
  unfold settings_blob_pair_decode at h
  unfold settings_mmap_apply_blob_pair
  cases hb : be32_to_cpu_unaligned base offset with
  | error e => simp [hb] at h
  | fault f => simp [hb] at h
  | ok key_idx =>
    rw [hb] at h
    simp only at h ⊢
    by_cases hk : key_idx ≥ block.settings_count
    · simp [hk] at h
    · simp only [hk, if_false] at h ⊢
      cases hd : ctx.info.define_at key_idx with
      | none => simp [hd] at h
      | some d =>
        rw [hd] at h
        simp only at h ⊢
        unfold settings_mmap_apply_blob_gate
        by_cases ht : d.type = .SET_STRLIST
        · simp only [ht, if_true] at h ⊢
          cases hs : c_str_at base (offset + 4) with
          | error e => simp [hs] at h
          | fault f => simp [hs] at h
          | ok s =>
            rw [hs] at h
            simp only at h ⊢
            by_cases h1 : offset + 4 + (s.length + 1) ≥ end_offset
            · simp [h1] at h
            · simp only [h1, if_false] at h
              cases hv : c_str_at base (offset + 4 + (s.length + 1)) with
              | error e => simp [hv] at h
              | fault f => simp [hv] at h
              | ok value =>
                rw [hv] at h
                simp only at h
                by_cases h3 : offset + 4 + (s.length + 1) + (value.length + 1) > end_offset
                · simp [h3] at h
                · simp only [h3, if_false, Option.some.injEq, Prod.mk.injEq] at h
                  rw [← h.2.2.2]
                  exact settings_mmap_apply_blob_value_of_decode hd h1 hv h3
        · simp only [ht, if_false] at h ⊢
          by_cases h1 : offset + 4 ≥ end_offset
          · simp [h1] at h
          · simp only [h1, if_false] at h
            cases hv : c_str_at base (offset + 4) with
            | error e => simp [hv] at h
            | fault f => simp [hv] at h
            | ok value =>
              rw [hv] at h
              simp only at h
              by_cases h3 : offset + 4 + (value.length + 1) > end_offset
              · simp [h3] at h
              · simp only [h3, if_false, Option.some.injEq, Prod.mk.injEq] at h
                rw [← h.2.2.2]
                by_cases hf : d.type = .SET_FILTER_ARRAY
                · simp only [hf, if_true]
                  exact settings_mmap_apply_blob_value_of_decode hd h1 hv h3
                · simp only [hf, if_false]
                  by_cases hs : st.set_seen key_idx = true
                  · simp only [hs, if_true]
                    exact settings_mmap_apply_blob_value_of_decode hd h1 hv h3
                  · simp only [hs, if_false]
                    exact settings_mmap_apply_blob_value_of_decode hd h1 hv h3

theorem settings_mmap_apply_blob_loop_high_key {ctx : settings_apply_ctx} {base : List Byte}
    {block : settings_mmap_block} {end_offset : Nat} :
    ∀ (fuel offset : Nat) (st : settings_apply_state),
      settings_blob_has_high_key ctx.info base block end_offset fuel offset = true →
      (settings_mmap_apply_blob_loop ctx base block end_offset fuel offset st).1.isError =
        true := by
  intro fuel
  induction fuel with
  | zero =>
    intro offset st h
    simp [settings_blob_has_high_key] at h
  | succ fuel ih =>
    intro offset st h
    unfold settings_blob_has_high_key at h
    unfold settings_mmap_apply_blob_loop
    by_cases hlt : offset < end_offset
    · simp only [hlt, not_true_eq_false, if_false] at h ⊢
      cases hb : be32_to_cpu_unaligned base offset with
      | error e => simp [hb] at h
      | fault f => simp [hb] at h
      | ok key_idx =>
        rw [hb] at h
        simp only at h
        by_cases hk : key_idx ≥ block.settings_count
        · rw [@settings_mmap_apply_blob_pair_high ctx base block end_offset offset key_idx st
            hb hk]
          rfl
        · simp only [hk, if_false] at h
          cases hd : settings_blob_pair_decode ctx.info base block end_offset offset with
          | none => simp [hd] at h
          | some r =>
            obtain ⟨ki, sk, v, next⟩ := r
            rw [hd] at h
            simp only at h
            rcases @settings_mmap_apply_blob_pair_of_decode ctx base block end_offset offset
              st ki sk v next hd with hp | hp
            · split
              · rename_i hx
                rw [hx] at hp
                simp only [Res.ok.injEq] at hp
                subst hp
                exact ih _ _ h
              · rfl
              · rename_i hx
                rw [hx] at hp
                cases hp
            · split
              · rename_i hx
                rw [hx] at hp
                cases hp
              · rfl
              · rename_i hx
                rw [hx] at hp
                cases hp
    · simp [hlt] at h

theorem settings_mmap_validate_loop_le (base : List Byte) (block : settings_mmap_block)
    (info_name : CStr) :
    ∀ (ds : List setting_define) (i offset i' : Nat),
      settings_mmap_validate_loop base block info_name ds i offset = .ok i' →
      i' ≤ i + ds.length := by
  intro ds
  induction ds with
  | nil =>
    intro i offset i' h
    simp only [settings_mmap_validate_loop, Res.ok.injEq] at h
    omega
  | cons d ds ih =>
    intro i offset i' h
    unfold settings_mmap_validate_loop at h
    split at h
    · simp only [Res.ok.injEq] at h
      omega
    · simp only [Res.bind_eq_ok, Res.ite_error_eq_ok] at h
      obtain ⟨r, _, _, h2⟩ := h
      have := ih _ _ _ h2
      simp only [List.length_cons]
      omega

theorem settings_mmap_validate_count_le {mmap : settings_mmap} {block : settings_mmap_block}
    {info : setting_parser_info} (h : settings_mmap_validate mmap block info = .ok ()) :
    block.settings_count ≤ info.defines.length := by
  simp only [settings_mmap_validate, Res.bind_eq_ok, Res.ite_error_eq_ok] at h
  obtain ⟨i, h1, h2, _⟩ := h
  have := settings_mmap_validate_loop_le _ _ _ _ _ _ _ h1
  have : i = block.settings_count := by
    by_contra hc
    exact h2 hc
  omega

theorem read_bytes_fault {base : List Byte} {offset n : Nat} {f : settings_fault}
    (h : read_bytes base offset n = .fault f) : ∃ idx, f = .mmap_read idx := by
  unfold read_bytes at h
  split at h
  · cases h
  · simp only [Res.fault.injEq] at h
    exact ⟨_, h.symm⟩

theorem be64_fault {base : List Byte} {offset : Nat} {f : settings_fault}
    (h : be64_to_cpu_unaligned base offset = .fault f) : ∃ idx, f = .mmap_read idx := by
  unfold be64_to_cpu_unaligned at h
  cases hr : read_bytes base offset 8 with
  | ok bs => rw [hr] at h; cases h
  | error e => rw [hr] at h; cases h
  | fault f' =>
    rw [hr] at h
    simp only [Res.bind, Res.fault.injEq] at h
    subst h
    exact read_bytes_fault hr

theorem read_byte_fault {base : List Byte} {offset : Nat} {f : settings_fault}
    (h : read_byte base offset = .fault f) : ∃ idx, f = .mmap_read idx := by
  unfold read_byte at h
  split at h
  · cases h
  · simp only [Res.fault.injEq] at h
    exact ⟨_, h.symm⟩

theorem settings_mmap_filter_lookup_fault {mmap : settings_mmap} {block : settings_mmap_block}
    {j : Nat} {f : settings_fault}
    (h : settings_mmap_filter_lookup mmap block j = .fault f) :
    (∃ idx, f = .mmap_read idx) ∨ ∃ idx, f = .array_read "event_filters" idx := by
  unfold settings_mmap_filter_lookup at h
  cases hb : be32_to_cpu_unaligned mmap.mmap_base (block.filter_indexes_start_offset + 4 * j) with
  | error e => rw [hb] at h; cases h
  | fault f' =>
    rw [hb] at h
    simp only [Res.bind, Res.fault.injEq] at h
    subst h
    exact Or.inl (be32_fault hb)
  | ok idx =>
    rw [hb] at h
    simp only [Res.bind] at h
    split at h
    · cases h
    · split at h
      · simp only [Res.fault.injEq] at h
        exact Or.inr ⟨_, h.symm⟩
      · cases h

theorem settings_mmap_filter_region_fault {base : List Byte} {block : settings_mmap_block}
    {j : Nat} {f : settings_fault}
    (h : settings_mmap_filter_region base block j = .fault f) : ∃ idx, f = .mmap_read idx := by
  unfold settings_mmap_filter_region at h
  cases h1 : be64_to_cpu_unaligned base (block.filter_offsets_start_offset + 8 * j) with
  | error e => rw [h1] at h; cases h
  | fault f' =>
    rw [h1] at h
    simp only [Res.bind, Res.fault.injEq] at h
    subst h
    exact be64_fault h1
  | ok fo =>
    rw [h1] at h
    simp only [Res.bind_ok] at h
    cases h2 : be64_to_cpu_unaligned base fo with
    | error e => rw [h2] at h; cases h
    | fault f' =>
      rw [h2] at h
      simp only [Res.bind, Res.fault.injEq] at h
      subst h
      exact be64_fault h2
    | ok sz =>
      rw [h2] at h
      simp only [Res.bind_ok] at h
      cases h3 : read_byte base (wrap64 (fo + 8)) with
      | error e => rw [h3] at h; cases h
      | fault f' =>
        rw [h3] at h
        simp only [Res.bind, Res.fault.injEq] at h
        subst h
        exact read_byte_fault h3
      | ok c =>
        rw [h3] at h
        simp only [Res.bind_ok] at h
        split at h <;> cases h

theorem settings_mmap_apply_blob_defines {ctx : settings_apply_ctx} {base : List Byte}
    {block : settings_mmap_block} {start_offset end_offset : Nat} {st : settings_apply_state}
    (hc : block.settings_count ≤ ctx.info.defines.length) (name : String) (i : Nat) :
    (settings_mmap_apply_blob ctx base block start_offset end_offset st).1 ≠
      .fault (.array_read name i) := by
  intro h
  rcases settings_mmap_apply_blob_loop_fault hc _ _ _ _ h with ⟨idx, hf⟩ | hf <;> cases hf

theorem settings_mmap_apply_filter_defines {ctx : settings_apply_ctx} {mmap : settings_mmap}
    {block : settings_mmap_block} {j : Nat} {sf : Bool} {st : settings_apply_state}
    (hc : block.settings_count ≤ ctx.info.defines.length) (i : Nat) :
    (settings_mmap_apply_filter ctx mmap block j sf st).1 ≠
      .fault (.array_read "defines" i) := by
  intro h
  unfold settings_mmap_apply_filter at h
  split at h
  · cases h
  · rename_i hl
    simp only [Res.fault.injEq] at h
    subst h
    rcases settings_mmap_filter_lookup_fault hl with ⟨idx, hf⟩ | ⟨idx, hf⟩
    · cases hf
    · simp only [settings_fault.array_read.injEq] at hf
      exact absurd hf.1 (by decide)
  · split at h
    · cases h
    · split at h
      · cases h
      · rename_i hr
        simp only [Res.fault.injEq] at h
        subst h
        obtain ⟨idx, hf⟩ := settings_mmap_filter_region_fault hr
        cases hf
      · simp only [] at h
        split at h
        · cases h
        · cases h
        · rename_i hb
          simp only [Res.fault.injEq] at h
          subst h
          exact settings_mmap_apply_blob_defines hc "defines" i (by rw [hb])

theorem settings_mmap_apply_filters_defines {ctx : settings_apply_ctx} {mmap : settings_mmap}
    {block : settings_mmap_block}
    (hc : block.settings_count ≤ ctx.info.defines.length) (i : Nat) :
    ∀ (n : Nat) (sf : Bool) (st : settings_apply_state),
      (settings_mmap_apply_filters ctx mmap block n sf st).1 ≠
        .fault (.array_read "defines" i) := by
  intro n
  induction n with
  | zero =>
    intro sf st h
    simp [settings_mmap_apply_filters] at h
  | succ n ih =>
    intro sf st h
    unfold settings_mmap_apply_filters at h
    split at h
    · exact ih _ _ h
    · cases h
    · rename_i hf
      simp only [Res.fault.injEq] at h
      subst h
      exact settings_mmap_apply_filter_defines hc i (by rw [hf])

theorem settings_block_read_str_fault {base : List Byte} {offset end_offset : Nat}
    {name : String} {f : settings_fault}
    (h : settings_block_read_str base offset end_offset name = .fault f) :
    ∃ idx, f = .mmap_read idx := by
  unfold settings_block_read_str at h
  cases hc : c_str_at base offset with
  | error e => rw [hc] at h; cases h
  | fault f' =>
    rw [hc] at h
    simp only [Res.bind, Res.fault.injEq] at h
    subst h
    exact c_str_at_fault hc
  | ok s =>
    rw [hc] at h
    simp only [Res.bind_ok] at h
    split at h <;> cases h

theorem settings_mmap_validate_loop_fault (base : List Byte) (block : settings_mmap_block)
    (info_name : CStr) :
    ∀ (ds : List setting_define) (i offset : Nat) (f : settings_fault),
      settings_mmap_validate_loop base block info_name ds i offset = .fault f →
      ∃ idx, f = .mmap_read idx := by
  intro ds
  induction ds with
  | nil =>
    intro i offset f h
    simp [settings_mmap_validate_loop] at h
  | cons d ds ih =>
    intro i offset f h
    unfold settings_mmap_validate_loop at h
    split at h
    · cases h
    · cases hs : settings_block_read_str base offset block.block_end_offset "setting key" with
      | error e => rw [hs] at h; cases h
      | fault f' =>
        rw [hs] at h
        simp only [Res.bind, Res.fault.injEq] at h
        subst h
        exact settings_block_read_str_fault hs
      | ok r =>
        rw [hs] at h
        simp only [Res.bind_ok] at h
        split at h
        · cases h
        · exact ih _ _ _ h

theorem settings_mmap_validate_fault {mmap : settings_mmap} {block : settings_mmap_block}
    {info : setting_parser_info} {f : settings_fault}
    (h : settings_mmap_validate mmap block info = .fault f) : ∃ idx, f = .mmap_read idx := by
  unfold settings_mmap_validate at h
  cases hl : settings_mmap_validate_loop mmap.mmap_base block info.name info.defines 0
      block.settings_keys_offset with
  | error e => rw [hl] at h; cases h
  | fault f' =>
    rw [hl] at h
    simp only [Res.bind, Res.fault.injEq] at h
    subst h
    exact settings_mmap_validate_loop_fault _ _ _ _ _ _ _ hl
  | ok i =>
    rw [hl] at h
    simp only [Res.bind_ok] at h
    split at h <;> cases h

theorem settings_mmap_apply_defines {ctx : settings_apply_ctx} {mmap : settings_mmap}
    {block : settings_mmap_block} {st : settings_apply_state}
    (hflag : ctx.flags.SETTINGS_GET_NO_KEY_VALIDATION = false)
    (hl : mmap.lookup ctx.info.name = some block)
    (hv : block.settings_validated = false) (i : Nat) :
    (settings_mmap_apply ctx mmap st).1 ≠ .fault (.array_read "defines" i) := by
  intro h
  unfold settings_mmap_apply at h
  rw [hl] at h
  simp only at h
  cases he : block.error with
  | some e => rw [he] at h; cases h
  | none =>
    rw [he] at h
    simp only [hv, hflag, Bool.not_false, Bool.and_self, if_true] at h
    cases hval : settings_mmap_validate mmap block ctx.info with
    | error e => rw [hval] at h; cases h
    | fault f =>
      rw [hval] at h
      simp only [Res.bind, Res.fault.injEq] at h
      obtain ⟨idx, hf⟩ := settings_mmap_validate_fault hval
      rw [hf] at h
      cases h
    | ok u =>
      have hc := settings_mmap_validate_count_le (by rw [hval])
      rw [hval] at h
      simp only [Res.bind_ok] at h
      split at h
      · cases h
      · rename_i hf
        simp only [Res.fault.injEq] at h
        subst h
        exact settings_mmap_apply_filters_defines hc i _ _ _ (by rw [hf])
      · split at h
        · cases h
        · cases h
        · rename_i hb
          simp only [Res.fault.injEq] at h
          subst h
          exact settings_mmap_apply_blob_defines hc "defines" i (by rw [hb])

theorem settings_mmap_apply_blob_lookups_lt {ctx : settings_apply_ctx} {base : List Byte}
    {block : settings_mmap_block} {end_offset : Nat} :
    ∀ (fuel offset : Nat) (st : settings_apply_state),
      ∀ i ∈ settings_mmap_apply_blob_lookups ctx base block end_offset fuel offset st,
        i < block.settings_count := by
  intro fuel
  induction fuel with
  | zero =>
    intro offset st i hi
    simp [settings_mmap_apply_blob_lookups] at hi
  | succ fuel ih =>
    intro offset st i hi
    unfold settings_mmap_apply_blob_lookups at hi
    split at hi
    · simp at hi
    · split at hi
      · split at hi
        · simp at hi
        · rename_i hlt
          rcases List.mem_cons.mp hi with h1 | h1
          · omega
          · split at h1
            · exact ih _ _ i h1
            · simp at h1
      · simp at hi

set_option maxRecDepth 100000 in
/-- C17 (counterexample): with the flag `SETTINGS_GET_NO_KEY_VALIDATION` the
block `fs` (three schema keys) is resolved for a schema with one key.  In
`fs_blob` the base pair has the key index 1, which is below the block's count:
`settings_mmap_apply_blob` indexes the schema's definitions with it although
the schema has no key 1, reads the end entry of the array there, and the
resolution ends in an error when the parser rejects the index.  In
`third_key_blob` the base pair has the key index 2, also below the block's
count, and the definitions are read behind the end entry. -/
theorem settings_mmap_apply_blob_reads_undefined_key :
    (example_block fs_blob (cs "fs")).settings_count = 3 ∧
    fs_name_only_ctx.info.defines.length = 1 ∧
    settings_mmap_apply_blob_key_lookups fs_name_only_ctx fs_blob
      (example_block fs_blob (cs "fs"))
      (example_block fs_blob (cs "fs")).base_start_offset
      (example_block fs_blob (cs "fs")).base_end_offset
      (settings_apply_state_init fs_name_only_ctx) = [1] ∧
    (settings_mmap_apply_blob fs_name_only_ctx fs_blob (example_block fs_blob (cs "fs"))
      (example_block fs_blob (cs "fs")).base_start_offset
      (example_block fs_blob (cs "fs")).base_end_offset
      (settings_apply_state_init fs_name_only_ctx)).1 =
        .error (.invalid_setting "Invalid setting" [] (cs "posix") (cs "posix")) ∧
    (settings_get_full example_env (fs_example_event (cs "imap") [] []) none none
      fs_name_only_info { SETTINGS_GET_NO_KEY_VALIDATION := true }).1.isError = true ∧
    (example_block third_key_blob (cs "fs")).settings_count = 3 ∧
    settings_mmap_apply_blob_key_lookups third_key_ctx third_key_blob
      (example_block third_key_blob (cs "fs"))
      (example_block third_key_blob (cs "fs")).base_start_offset
      (example_block third_key_blob (cs "fs")).base_end_offset
      (settings_apply_state_init third_key_ctx) = [2] ∧
    (settings_mmap_apply_blob third_key_ctx third_key_blob
      (example_block third_key_blob (cs "fs"))
      (example_block third_key_blob (cs "fs")).base_start_offset
      (example_block third_key_blob (cs "fs")).base_end_offset
      (settings_apply_state_init third_key_ctx)).1 = .fault (.array_read "defines" 2) ∧
    (settings_get_full example_env third_key_event none none
      fs_name_only_info { SETTINGS_GET_NO_KEY_VALIDATION := true }).1 =
      .fault (.array_read "defines" 2) := by
  refine ⟨by decide, by decide, by rfl, by rfl, by rfl, by decide, by rfl, by rfl, by rfl⟩

/-- C17 (amended): `settings_mmap_apply_blob` returns an error for every
key/value region in which its loop reaches a pair whose key index is not below
the block's schema-key count; and when the block's schema-key count is at most
the number of keys of the caller's schema, every key index with which it
indexes the schema's definitions is the index of a key of the schema, and it
never reads behind the array.  `settings_mmap_validate` accepts a block only
if that bound holds, so `settings_mmap_apply`, run without
`SETTINGS_GET_NO_KEY_VALIDATION` on a block not yet marked validated, never
reads behind the array. -/
theorem settings_mmap_apply_blob_key_index (ctx : settings_apply_ctx) (mmap : settings_mmap)
    (block : settings_mmap_block) (start_offset end_offset : Nat)
    (st : settings_apply_state) :
    (settings_region_has_high_key ctx.info mmap.mmap_base block start_offset end_offset =
        true →
      (settings_mmap_apply_blob ctx mmap.mmap_base block start_offset end_offset
        st).1.isError = true) ∧
    (block.settings_count ≤ ctx.info.defines.length →
      (∀ i ∈ settings_mmap_apply_blob_key_lookups ctx mmap.mmap_base block start_offset
          end_offset st, i < ctx.info.defines.length) ∧
      ∀ i, (settings_mmap_apply_blob ctx mmap.mmap_base block start_offset end_offset st).1 ≠
        .fault (.array_read "defines" i)) ∧
    (settings_mmap_validate mmap block ctx.info = .ok () →
      block.settings_count ≤ ctx.info.defines.length) ∧
    (ctx.flags.SETTINGS_GET_NO_KEY_VALIDATION = false →
      mmap.lookup ctx.info.name = some block → block.settings_validated = false →
      ∀ i, (settings_mmap_apply ctx mmap st).1 ≠ .fault (.array_read "defines" i)) :=
  ⟨fun h => settings_mmap_apply_blob_loop_high_key _ _ _ h,
   fun hc => ⟨fun i hi => Nat.lt_of_lt_of_le (settings_mmap_apply_blob_lookups_lt _ _ _ i hi) hc,
     fun i => settings_mmap_apply_blob_defines hc "defines" i⟩,
   fun h => settings_mmap_validate_count_le h,
   fun hflag hl hv i => settings_mmap_apply_defines hflag hl hv i⟩

set_option maxRecDepth 100000 in
/-- Witness for C17: the base region of `high_key_blob` holds a pair with key
index 5 for a block of one key, and applying it fails with an error; the block
`fs` of `fs_blob` has as many keys as the schema `fs`, passes the validation,
and is applied with the one lookup of the key index 1 and without any read
behind the array of definitions. -/
theorem settings_mmap_apply_blob_key_index_witness :
    (settings_mmap_apply_blob (fs_example_ctx (cs "imap") [] [])
      (example_mmap high_key_blob).mmap_base (example_block high_key_blob (cs "fs"))
      (example_block high_key_blob (cs "fs")).base_start_offset
      (example_block high_key_blob (cs "fs")).base_end_offset
      (settings_apply_state_init (fs_example_ctx (cs "imap") [] []))).1.isError = true ∧
    settings_mmap_apply_blob_key_lookups (fs_example_ctx (cs "imap") [] [])
      (example_mmap fs_blob).mmap_base (example_block fs_blob (cs "fs"))
      (example_block fs_blob (cs "fs")).base_start_offset
      (example_block fs_blob (cs "fs")).base_end_offset
      (settings_apply_state_init (fs_example_ctx (cs "imap") [] [])) = [1] ∧
    ((∀ i ∈ settings_mmap_apply_blob_key_lookups (fs_example_ctx (cs "imap") [] [])
        (example_mmap fs_blob).mmap_base (example_block fs_blob (cs "fs"))
        (example_block fs_blob (cs "fs")).base_start_offset
        (example_block fs_blob (cs "fs")).base_end_offset
        (settings_apply_state_init (fs_example_ctx (cs "imap") [] [])),
        i < (fs_example_ctx (cs "imap") [] []).info.defines.length) ∧
     ∀ i, (settings_mmap_apply_blob (fs_example_ctx (cs "imap") [] [])
      (example_mmap fs_blob).mmap_base (example_block fs_blob (cs "fs"))
      (example_block fs_blob (cs "fs")).base_start_offset
      (example_block fs_blob (cs "fs")).base_end_offset
      (settings_apply_state_init (fs_example_ctx (cs "imap") [] []))).1 ≠
        .fault (.array_read "defines" i)) ∧
    (example_block fs_blob (cs "fs")).settings_count ≤
      (fs_example_ctx (cs "imap") [] []).info.defines.length ∧
    (∀ i, (settings_mmap_apply (fs_example_ctx (cs "imap") [] []) (example_mmap fs_blob)
      (settings_apply_state_init (fs_example_ctx (cs "imap") [] []))).1 ≠
        .fault (.array_read "defines" i)) :=
  ⟨(settings_mmap_apply_blob_key_index (fs_example_ctx (cs "imap") [] [])
      (example_mmap high_key_blob) (example_block high_key_blob (cs "fs"))
      (example_block high_key_blob (cs "fs")).base_start_offset
      (example_block high_key_blob (cs "fs")).base_end_offset
      (settings_apply_state_init (fs_example_ctx (cs "imap") [] []))).1 (by rfl),
   by rfl,
   (settings_mmap_apply_blob_key_index (fs_example_ctx (cs "imap") [] [])
      (example_mmap fs_blob) (example_block fs_blob (cs "fs"))
      (example_block fs_blob (cs "fs")).base_start_offset
      (example_block fs_blob (cs "fs")).base_end_offset
      (settings_apply_state_init (fs_example_ctx (cs "imap") [] []))).2.1 (by decide),
   (settings_mmap_apply_blob_key_index (fs_example_ctx (cs "imap") [] [])
      (example_mmap fs_blob) (example_block fs_blob (cs "fs")) 0 0
      (settings_apply_state_init (fs_example_ctx (cs "imap") [] []))).2.2.1 (by rfl),
   (settings_mmap_apply_blob_key_index (fs_example_ctx (cs "imap") [] [])
      (example_mmap fs_blob) (example_block fs_blob (cs "fs")) 0 0
      (settings_apply_state_init (fs_example_ctx (cs "imap") [] []))).2.2.2
      (by rfl) (by rfl) (by rfl)⟩

theorem settings_block_read_fields_error {mmap : settings_mmap} {offset0 : Nat}
    {b : settings_mmap_block} (h : settings_block_read_fields mmap offset0 = .ok b) :
    ∃ err start, settings_block_read_str mmap.mmap_base start b.base_end_offset
        "base settings error" = .ok (err, b.base_start_offset) ∧
      b.error = if err = [] then none else some err := by
  simp only [settings_block_read_fields, Res.bind_eq_ok, Res.ite_error_eq_ok] at h
  obtain ⟨⟨block_size, o1⟩, h1, last, h2, hlast, ⟨name, o2⟩, h3, hdup, ⟨count, o3⟩, h4,
    o4, h5, ⟨base_size, o5⟩, h6, ⟨err, o6⟩, h7, ⟨fcount, o7⟩, h8, o8, h9, hres⟩ := h
  simp only at h7 hres
  simp only [Res.ok.injEq] at hres
  subst hres
  exact ⟨err, o5, h7, rfl⟩

theorem settings_mmap_apply_block_error {ctx : settings_apply_ctx} {mmap : settings_mmap}
    {block : settings_mmap_block} {e : CStr}
    (hl : mmap.lookup ctx.info.name = some block) (he : block.error = some e)
    (st : settings_apply_state) :
    settings_mmap_apply ctx mmap st = (.error (.block_error e), st) := by
  unfold settings_mmap_apply
  rw [hl]
  simp only [he]

theorem settings_instance_get_ctx_inst (ctx0 : settings_apply_ctx) :
    (settings_instance_get_ctx ctx0).inst = ctx0.inst ∧
      (settings_instance_get_ctx ctx0).info = ctx0.info := ⟨rfl, rfl⟩

theorem settings_instance_get_block_error_result {ctx0 : settings_apply_ctx}
    {mmap : settings_mmap} {block : settings_mmap_block} {e : CStr}
    (hm : ctx0.inst.mmap = some mmap) (hl : mmap.lookup ctx0.info.name = some block)
    (he : block.error = some e) :
    (settings_instance_get ctx0).1 =
      (match (settings_instance_override (settings_instance_get_ctx ctx0)
          (settings_apply_state_init (settings_instance_get_ctx ctx0))).1 with
       | .ok _ => .error (.failed_to_parse_configuration (.block_error e))
       | .error e' => .error e'
       | .fault f => .fault f) := by
  have hm' : (settings_instance_get_ctx ctx0).inst.mmap = some mmap := hm
  have hl' : mmap.lookup (settings_instance_get_ctx ctx0).info.name = some block := hl
  unfold settings_instance_get settings_instance_get_merge
  simp only [hm']
  cases ho : settings_instance_override (settings_instance_get_ctx ctx0)
      (settings_apply_state_init (settings_instance_get_ctx ctx0)) with
  | mk r st1 =>
    cases r with
    | error e' => rfl
    | fault f => rfl
    | ok seen1 =>
      simp only [settings_mmap_apply_block_error hl' he]

/-- The error string of a block: the block read records the base-region error
string of a block in the block's `error` field whenever that string is
non-empty; and for every block with a recorded error, `settings_mmap_apply`
fails with that error in every context and state, so a resolution against the
block returns no settings struct: the error of the override pass if that pass
fails first, else "Failed to parse configuration" with the block's error (the
result is a process abort only if the override pass, which runs before the
block is looked up, aborts). -/
theorem settings_block_error_fails_resolution :
    (∀ (p : settings_read_params) (base : List Byte) (m : settings_mmap)
      (sv : Option (List CStr)),
      settings_mmap_parse p { mmap_base := base } = .ok (m, sv) →
      ∀ b ∈ m.blocks, ∃ err start,
        settings_block_read_str base start b.base_end_offset "base settings error" =
          .ok (err, b.base_start_offset) ∧
        b.error = if err = [] then none else some err) ∧
    (∀ (ctx0 : settings_apply_ctx) (mmap : settings_mmap) (block : settings_mmap_block)
      (e : CStr),
      ctx0.inst.mmap = some mmap → mmap.lookup ctx0.info.name = some block →
      block.error = some e →
      (∀ ctx st, ctx.info.name = ctx0.info.name →
        settings_mmap_apply ctx mmap st = (.error (.block_error e), st)) ∧
      (settings_instance_get ctx0).1 =
        (match (settings_instance_override (settings_instance_get_ctx ctx0)
            (settings_apply_state_init (settings_instance_get_ctx ctx0))).1 with
         | .ok _ => .error (.failed_to_parse_configuration (.block_error e))
         | .error e' => .error e'
         | .fault f => .fault f) ∧
      (settings_instance_get ctx0).1.isOk = false ∧
      ((settings_instance_override (settings_instance_get_ctx ctx0)
          (settings_apply_state_init (settings_instance_get_ctx ctx0))).1.isFault = false →
        (settings_instance_get ctx0).1.isError = true) ∧
      ∀ (env : settings_env) (event : event) (fk fv : Option CStr)
        (flags : settings_get_flags),
        settings_get_full_ctx env event fk fv ctx0.info flags = some ctx0 →
        (settings_get_full env event fk fv ctx0.info flags).1.isOk = false) := by
  constructor
  · intro p base m sv h
    refine settings_mmap_parse_inv
      (fun bs => ∀ b ∈ bs, ∃ err start,
        settings_block_read_str base start b.base_end_offset "base settings error" =
          .ok (err, b.base_start_offset) ∧
        b.error = if err = [] then none else some err) base ?_ ?_ h
    · intro mmap m1 o o' hb hall hr
      rw [settings_block_read_eq, Res.bind_eq_ok] at hr
      obtain ⟨b, hf, hend⟩ := hr
      obtain ⟨err, start, h1, h2⟩ := settings_block_read_fields_error hf
      simp only [settings_block_read_end, Res.ite_error_eq_ok, Res.ok.injEq,
        Prod.mk.injEq] at hend
      obtain ⟨_, hm1, _⟩ := hend
      rw [← hm1]
      intro x hx
      simp only [List.mem_append, List.mem_singleton] at hx
      rcases hx with hx | hx
      · exact hall x hx
      · subst hx
        rw [← hb]
        exact ⟨err, start, h1, h2⟩
    · intro b hb
      simp at hb
  · intro ctx0 mmap block e hm hl he
    have hres := settings_instance_get_block_error_result hm hl he
    have hnot : (settings_instance_get ctx0).1.isOk = false := by
      rw [hres]
      cases (settings_instance_override (settings_instance_get_ctx ctx0)
        (settings_apply_state_init (settings_instance_get_ctx ctx0))).1 <;> rfl
    refine ⟨?_, hres, hnot, ?_, ?_⟩
    · intro ctx st hn
      exact settings_mmap_apply_block_error (by rw [hn]; exact hl) he st
    · rw [hres]
      cases (settings_instance_override (settings_instance_get_ctx ctx0)
        (settings_apply_state_init (settings_instance_get_ctx ctx0))).1 with
      | ok _ => intro _; rfl
      | error _ => intro _; rfl
      | fault _ => intro hc; cases hc
    · intro env event fk fv flags hctx
      unfold settings_get_full
      split
      · rfl
      · rw [hctx]
        exact hnot

set_option maxRecDepth 100000 in
/-- The error string of the block `fs` of `error_block_blob`: the block read
records `bad config`, and resolving the schema `fs` against it returns the
error "Failed to parse configuration: bad config". -/
theorem settings_block_error_fails_resolution_witness :
    (∃ m sv, settings_mmap_parse example_read_params { mmap_base := error_block_blob } =
        .ok (m, sv) ∧
      ∀ b ∈ m.blocks, ∃ err start,
        settings_block_read_str error_block_blob start b.base_end_offset
          "base settings error" = .ok (err, b.base_start_offset) ∧
        b.error = if err = [] then none else some err) ∧
    (example_block error_block_blob (cs "fs")).error = some (cs "bad config") ∧
    (settings_instance_get error_block_ctx).1 =
      .error (.failed_to_parse_configuration (.block_error (cs "bad config"))) ∧
    (settings_get_full example_env (error_block_event []) none none fs_setting_parser_info
      {}).1 = .error (.failed_to_parse_configuration (.block_error (cs "bad config"))) :=
  ⟨⟨_, _, rfl, settings_block_error_fails_resolution.1 example_read_params error_block_blob
      _ _ rfl⟩,
   by decide,
   (settings_block_error_fails_resolution.2 error_block_ctx (example_mmap error_block_blob)
      (example_block error_block_blob (cs "fs")) (cs "bad config") rfl rfl rfl).2.1,
   by rfl⟩

set_option maxRecDepth 100000 in
/-- C18, the code at the failing input: the block `imap_login` of the file of
`error_capability_model` records the error string `bad config`, and a
resolution without overrides returns the error "Failed to parse configuration:
bad config".  With the override `imap_capability=IMAP4rev1`, whose key is the
bare name of the schema's string list, the override pass, which runs before the
block is looked up, reaches `i_unreached()`: the resolution against the block
aborts the process and returns no Error. -/
theorem settings_block_error_behind_override_abort :
    settings_override_install override_example_env {} (cs "imap_capability")
        (cs "IMAP4rev1") .SETTINGS_OVERRIDE_TYPE_CLI_PARAM =
      .ok { overrides := [bare_list_override] } ∧
    (example_block (encode_model error_capability_model) (cs "imap_login")).error =
      some (cs "bad config") ∧
    (settings_get_full override_example_env (error_capability_event []) none none
      capability_info {}).1 =
      .error (.failed_to_parse_configuration (.block_error (cs "bad config"))) ∧
    (settings_get_full override_example_env (error_capability_event [bare_list_override])
      none none capability_info {}).1 = .fault (.panic "i_unreached()") := by
  refine ⟨by decide, by rfl, by rfl, by rfl⟩

theorem settings_instance_override_one_seen {ctx : settings_apply_ctx}
    {o : settings_override} {sf sf' : Bool} {st st' : settings_apply_state}
    (h : settings_instance_override_one ctx o sf st = (.ok sf', st')) :
    sf' = (sf || settings_override_names_filter ctx o) := by
  unfold settings_instance_override_one at h
  unfold settings_override_names_filter
  by_cases hm : settings_override_matches ctx o = true
  · simp only [hm, Bool.not_true, Bool.false_eq_true, if_false, Bool.true_and] at h ⊢
    split at h
    · cases h
    · cases h
    · simp only [Prod.mk.injEq, Res.ok.injEq] at h
      exact h.1.symm
    · split at h
      · cases h
      · split at h
        · cases h
        · cases h
        · simp only [Prod.mk.injEq, Res.ok.injEq] at h
          exact h.1.symm
        · split at h
          · cases h
          · split at h
            · cases h
            · simp only [Prod.mk.injEq, Res.ok.injEq] at h
              exact h.1.symm
  · simp only [Bool.not_eq_true] at hm
    simp only [hm, Bool.not_false, if_true, Prod.mk.injEq, Res.ok.injEq,
      Bool.false_and, Bool.or_false] at h ⊢
    exact h.1.symm

theorem settings_instance_override_loop_seen {ctx : settings_apply_ctx} :
    ∀ (l : List settings_override) (sf sf' : Bool) (st st' : settings_apply_state),
      settings_instance_override_loop ctx l sf st = (.ok sf', st') →
      sf' = (sf || l.any (settings_override_names_filter ctx)) := by
  intro l
  induction l with
  | nil =>
    intro sf sf' st st' h
    simp only [settings_instance_override_loop, Prod.mk.injEq, Res.ok.injEq] at h
    simp [h.1]
  | cons o rest ih =>
    intro sf sf' st st' h
    unfold settings_instance_override_loop at h
    split at h
    · rename_i ho
      have h1 := settings_instance_override_one_seen ho
      have h2 := ih _ _ _ _ h
      rw [h2, h1]
      simp [Bool.or_assoc]
    · cases h
    · cases h

theorem array_sort_overrides_mem_iff (l : List settings_override) (o : settings_override) :
    o ∈ array_sort settings_override_cmp l ↔ o ∈ l := by
  rw [array_sort_overrides]
  simp only [List.mem_append, List.mem_filter, decide_eq_true_eq]
  constructor
  · rintro ((⟨h, _⟩ | ⟨h, _⟩) | ⟨h, _⟩) <;> exact h
  · intro h
    cases ht : o.type with
    | SETTINGS_OVERRIDE_TYPE_USERDB => exact Or.inr ⟨h, rfl⟩
    | SETTINGS_OVERRIDE_TYPE_CLI_PARAM => exact Or.inl (Or.inr ⟨h, rfl⟩)
    | SETTINGS_OVERRIDE_TYPE_CODE => exact Or.inl (Or.inl ⟨h, rfl⟩)

theorem any_eq_of_mem_iff {α : Type} (p : α → Bool) (l1 l2 : List α)
    (h : ∀ a, a ∈ l1 ↔ a ∈ l2) : l1.any p = l2.any p := by
  cases h1 : l1.any p with
  | true =>
    rw [List.any_eq_true] at h1
    obtain ⟨a, ha, hp⟩ := h1
    symm
    rw [List.any_eq_true]
    exact ⟨a, (h a).1 ha, hp⟩
  | false =>
    symm
    cases h2 : l2.any p with
    | false => rfl
    | true =>
      rw [List.any_eq_true] at h2
      obtain ⟨a, ha, hp⟩ := h2
      have : l1.any p = true := by
        rw [List.any_eq_true]
        exact ⟨a, (h a).2 ha, hp⟩
      rw [this] at h1
      cases h1

theorem settings_instance_override_seen {ctx : settings_apply_ctx} {sf : Bool}
    {st st' : settings_apply_state}
    (h : settings_instance_override ctx st = (.ok sf, st')) :
    sf = (ctx.inst.overrides ++ ctx.root.overrides).any (settings_override_names_filter ctx) := by
  unfold settings_instance_override at h
  have := settings_instance_override_loop_seen _ _ _ _ _ h
  rw [this, Bool.false_or]
  exact any_eq_of_mem_iff _ _ _ (array_sort_overrides_mem_iff _)

theorem settings_mmap_apply_filter_seen {ctx : settings_apply_ctx} {mmap : settings_mmap}
    {block : settings_mmap_block} {i : Nat} {sf sf' : Bool} {st st' : settings_apply_state}
    (h : settings_mmap_apply_filter ctx mmap block i sf st = (.ok sf', st')) :
    sf' = (sf || settings_filter_assignment_names ctx mmap block i) := by
  unfold settings_mmap_apply_filter at h
  unfold settings_filter_assignment_names
  cases hl : settings_mmap_filter_lookup mmap block i with
  | error e => rw [hl] at h; cases h
  | fault f => rw [hl] at h; cases h
  | ok ef =>
    rw [hl] at h
    simp only at h ⊢
    by_cases hm : settings_event_filter_matches ctx ef = true
    · simp only [hm, Bool.not_true, Bool.false_eq_true, if_false, Bool.true_and] at h ⊢
      split at h
      · cases h
      · cases h
      · split at h
        · simp only [Prod.mk.injEq, Res.ok.injEq] at h
          rw [← h.1]
          cases sf with
          | true => simp
          | false =>
            cases hn : ctx.filter_name with
            | none => simp [settings_filter_names]
            | some n => simp
        · cases h
        · cases h
    · simp only [Bool.not_eq_true] at hm
      simp only [hm, Bool.not_false, if_true, Prod.mk.injEq, Res.ok.injEq, Bool.false_and,
        Bool.or_false] at h ⊢
      exact h.1.symm

theorem settings_mmap_apply_filters_seen {ctx : settings_apply_ctx} {mmap : settings_mmap}
    {block : settings_mmap_block} :
    ∀ (n : Nat) (sf sf' : Bool) (st st' : settings_apply_state),
      settings_mmap_apply_filters ctx mmap block n sf st = (.ok sf', st') →
      sf' = (sf || (List.range n).any (settings_filter_assignment_names ctx mmap block)) := by
  intro n
  induction n with
  | zero =>
    intro sf sf' st st' h
    simp only [settings_mmap_apply_filters, Prod.mk.injEq, Res.ok.injEq] at h
    simp [h.1]
  | succ n ih =>
    intro sf sf' st st' h
    unfold settings_mmap_apply_filters at h
    split at h
    · rename_i hf
      have h1 := settings_mmap_apply_filter_seen hf
      have h2 := ih _ _ _ _ h
      rw [h2, h1, List.range_succ, List.any_append]
      simp only [List.any_cons, List.any_nil, Bool.or_false]
      cases sf <;> cases settings_filter_assignment_names ctx mmap block n <;> simp
    · cases h
    · cases h

theorem settings_mmap_apply_seen {ctx : settings_apply_ctx} {mmap : settings_mmap}
    {sf : Bool} {st st' : settings_apply_state}
    (h : settings_mmap_apply ctx mmap st = (.ok sf, st')) :
    ∃ block, mmap.lookup ctx.info.name = some block ∧
      sf = (List.range block.filter_count).any
        (settings_filter_assignment_names ctx mmap block) := by
  unfold settings_mmap_apply at h
  cases hl : mmap.lookup ctx.info.name with
  | none => rw [hl] at h; cases h
  | some block =>
    rw [hl] at h
    refine ⟨block, rfl, ?_⟩
    simp only at h
    split at h
    · cases h
    · split at h
      · cases h
      · cases h
      · split at h
        · cases h
        · cases h
        · rename_i hf
          have := settings_mmap_apply_filters_seen _ _ _ _ _ hf
          split at h
          · simp only [Prod.mk.injEq, Res.ok.injEq] at h
            rw [← h.1, this, Bool.false_or]
          · cases h
          · cases h

theorem settings_instance_get_merge_seen {ctx : settings_apply_ctx} {sf : Bool}
    {st st' : settings_apply_state}
    (h : settings_instance_get_merge ctx st = (.ok sf, st')) :
    sf = settings_named_filter_seen ctx := by
  unfold settings_instance_get_merge at h
  unfold settings_named_filter_seen
  split at h
  · cases h
  · cases h
  · rename_i seen1 st1 ho
    have h1 := settings_instance_override_seen ho
    cases hm : ctx.inst.mmap with
    | none =>
      rw [hm] at h
      simp only at h
      split at h
      · cases h
      · cases h
      · simp only [Prod.mk.injEq, Res.ok.injEq] at h
        rw [← h.1, h1]
        simp
    | some mmap =>
      rw [hm] at h
      simp only at h
      cases ha : settings_mmap_apply ctx mmap st1 with
      | mk r st2 =>
        rw [ha] at h
        cases r with
        | error e => simp only at h; cases h
        | fault f => simp only at h; cases h
        | ok seen2 =>
          simp only at h
          obtain ⟨block, hl, h2⟩ := settings_mmap_apply_seen ha
          split at h
          · cases h
          · cases h
          · simp only [Prod.mk.injEq, Res.ok.injEq] at h
            rw [← h.1, h1, h2]
            simp only [hl]

theorem settings_instance_get_not_found_iff (ctx0 : settings_apply_ctx) :
    (settings_instance_get ctx0).1 = .ok none ↔
      (∃ sf st, settings_instance_get_merge (settings_instance_get_ctx ctx0)
        (settings_apply_state_init (settings_instance_get_ctx ctx0)) = (.ok sf, st)) ∧
      ctx0.filter_key.isSome = true ∧ ctx0.filter_name_required = true ∧
      settings_named_filter_seen (settings_instance_get_ctx ctx0) = false := by
  have hk : (settings_instance_get_ctx ctx0).filter_key = ctx0.filter_key := rfl
  have hr : (settings_instance_get_ctx ctx0).filter_name_required =
    ctx0.filter_name_required := rfl
  have hf : (settings_instance_get_ctx ctx0).flags = ctx0.flags := rfl
  have hi : (settings_instance_get_ctx ctx0).info = ctx0.info := rfl
  unfold settings_instance_get
  simp only [hk, hr, hf, hi]
  cases hm : settings_instance_get_merge (settings_instance_get_ctx ctx0)
      (settings_apply_state_init (settings_instance_get_ctx ctx0)) with
  | mk r st =>
    cases r with
    | error e => simp
    | fault f => simp
    | ok sf =>
      have hs := settings_instance_get_merge_seen hm
      simp only
      rw [← hs]
      by_cases hc : (ctx0.filter_key.isSome && !sf && ctx0.filter_name_required) = true
      · simp only [hc, if_true, true_iff]
        simp only [Bool.and_eq_true, Bool.not_eq_true'] at hc
        exact ⟨⟨sf, st, rfl⟩, hc.1.1, hc.2, hc.1.2⟩
      · simp only [hc, Bool.false_eq_true, if_false]
        constructor
        · intro h
          exfalso
          by_cases hn : (!ctx0.flags.SETTINGS_GET_FLAG_NO_CHECK) = true
          · simp only [hn, if_true] at h
            cases hchk : settings_check ctx0.info st.parser with
            | error e => rw [hchk] at h; cases h
            | ok s => rw [hchk] at h; cases h
          · simp only [hn, Bool.false_eq_true, if_false] at h
            cases h
        · rintro ⟨_, h1, h2, h3⟩
          exfalso
          apply hc
          simp [h1, h2, h3]

theorem settings_instance_get_not_found_state {ctx0 : settings_apply_ctx}
    {st : settings_apply_state} (h : settings_instance_get ctx0 = (.ok none, st)) :
    settings_instance_get_merge (settings_instance_get_ctx ctx0)
      (settings_apply_state_init (settings_instance_get_ctx ctx0)) = (.ok false, st) := by
  unfold settings_instance_get at h
  cases hm : settings_instance_get_merge (settings_instance_get_ctx ctx0)
      (settings_apply_state_init (settings_instance_get_ctx ctx0)) with
  | mk r st1 =>
    simp only [hm] at h
    cases r with
    | error e => simp only at h; cases h
    | fault f => simp only at h; cases h
    | ok sf =>
      simp only at h
      split at h
      · rename_i hc
        simp only [Prod.mk.injEq, true_and] at h
        simp only [Bool.and_eq_true, Bool.not_eq_true'] at hc
        rw [hc.1.2, h]
      · exfalso
        split at h
        · split at h <;> cases h
        · cases h

theorem settings_get_full_fst {env : settings_env} {event : event} {fk fv : Option CStr}
    {info : setting_parser_info} {flags : settings_get_flags} {ctx : settings_apply_ctx}
    (ha : fk.isNone = fv.isNone)
    (hctx : settings_get_full_ctx env event fk fv info flags = some ctx) :
    settings_get_full env event fk fv info flags =
      ((settings_instance_get ctx).1, some (settings_instance_get ctx).2) := by
  unfold settings_get_full
  simp only [ha, ne_eq, not_true_eq_false, if_false, hctx]

/-- C19: `settings_get_full` returns 0 (NotFound) if and only if the merge
(overrides, block, defaults) completed without error, the context has a filter
key whose named filter is required, and neither an override in scope with the
requested last filter key and value nor a matching filter assignment of the
block that names the requested filter was seen; the filter is required when a
filter value was passed or the event scan found a required filter name; a
NotFound result leaves the state as the merge left it (the validation callback
has not run); `settings_try_get_filter` passes the result on and
`settings_get_filter` turns NotFound into an error. -/
theorem settings_get_full_not_found (env : settings_env) (event : event)
    (fk fv : Option CStr) (info : setting_parser_info) (flags : settings_get_flags) :
    ((settings_get_full env event fk fv info flags).1 = .ok none ↔
      fk.isNone = fv.isNone ∧
      ∃ ctx, settings_get_full_ctx env event fk fv info flags = some ctx ∧
        (∃ sf st, settings_instance_get_merge (settings_instance_get_ctx ctx)
          (settings_apply_state_init (settings_instance_get_ctx ctx)) = (.ok sf, st)) ∧
        ctx.filter_key.isSome = true ∧ ctx.filter_name_required = true ∧
        settings_named_filter_seen (settings_instance_get_ctx ctx) = false) ∧
    (∀ ctx, settings_get_full_ctx env event fk fv info flags = some ctx →
      ctx.filter_key = (settings_get_full_scan event none none fk false).2.2.1 ∧
      ctx.filter_name_required =
        ((settings_get_full_scan event none none fk false).2.2.2 || fv.isSome)) ∧
    (∀ ctx st, settings_get_full_ctx env event fk fv info flags = some ctx →
      settings_instance_get ctx = (.ok none, st) →
      settings_instance_get_merge (settings_instance_get_ctx ctx)
        (settings_apply_state_init (settings_instance_get_ctx ctx)) = (.ok false, st)) ∧
    settings_try_get_filter env event fk fv info flags =
      settings_get_full env event fk fv info flags ∧
    ((settings_get_full env event fk fv info flags).1 = .ok none →
      (settings_get_filter env event fk fv info flags).1 =
        .error (.filter_not_found fk fv)) := by
  refine ⟨?_, ?_, ?_, rfl, ?_⟩
  · constructor
    · intro h
      by_cases ha : fk.isNone = fv.isNone
      · cases hctx : settings_get_full_ctx env event fk fv info flags with
        | none =>
          unfold settings_get_full at h
          simp only [ha, ne_eq, not_true_eq_false, if_false, hctx] at h
          cases h
        | some ctx =>
          rw [settings_get_full_fst ha hctx] at h
          exact ⟨ha, ctx, rfl, (settings_instance_get_not_found_iff ctx).1 h⟩
      · unfold settings_get_full at h
        simp only [ne_eq, ha, not_false_eq_true, if_true] at h
        cases h
    · rintro ⟨ha, ctx, hctx, hrest⟩
      rw [settings_get_full_fst ha hctx]
      exact (settings_instance_get_not_found_iff ctx).2 hrest
  · intro ctx hctx
    unfold settings_get_full_ctx at hctx
    simp only at hctx
    split at hctx
    · cases hctx
    · simp only [Option.some.injEq] at hctx
      subst hctx
      exact ⟨rfl, rfl⟩
  · intro ctx st _ h
    exact settings_instance_get_not_found_state h
  · intro h
    unfold settings_get_filter
    split
    · rename_i hx; rw [hx] at h; cases h
    · rename_i hx; rw [hx] at h; cases h
    · rfl
    · rename_i hx; rw [hx] at h; cases h

set_option maxRecDepth 100000 in
/-- Witness for C19: a lookup of the named filter `namespace=inbox` of the
schema `dict` with no override and no blob returns NotFound, although the
schema's validation callback rejects every struct, and `settings_get_filter`
reports it as an error. -/
theorem settings_get_full_not_found_witness :
    (settings_get_full namespace_env (namespace_event []) (some (cs "namespace"))
      (some (cs "inbox")) dict_strict_info {}).1 = .ok none ∧
    (settings_get_filter namespace_env (namespace_event []) (some (cs "namespace"))
      (some (cs "inbox")) dict_strict_info {}).1 =
      .error (.filter_not_found (some (cs "namespace")) (some (cs "inbox"))) :=
  ⟨(settings_get_full_not_found namespace_env (namespace_event []) (some (cs "namespace"))
      (some (cs "inbox")) dict_strict_info {}).1.2
      ⟨rfl, _, rfl, ⟨_, _, rfl⟩, rfl, rfl, rfl⟩,
   (settings_get_full_not_found namespace_env (namespace_event []) (some (cs "namespace"))
      (some (cs "inbox")) dict_strict_info {}).2.2.2.2 rfl⟩
theorem settings_override_names_filter_iff (ctx : settings_apply_ctx)
    (o : settings_override) :
    settings_override_names_filter ctx o = true ↔
      settings_override_matches ctx o = true ∧
        ∃ fk, ctx.filter_key = some fk ∧ o.last_filter_key = some fk ∧
          o.last_filter_value = ctx.filter_value := by
  unfold settings_override_names_filter
  cases hk : ctx.filter_key with
  | none => simp
  | some fk =>
    cases hl : o.last_filter_key with
    | none => simp
    | some lk =>
      simp only [Bool.and_eq_true, decide_eq_true_eq, Option.some.injEq, exists_eq_left']
      constructor
      · rintro ⟨h1, h2, h3⟩
        exact ⟨h1, h2.symm, h3.symm⟩
      · rintro ⟨h1, h2, h3⟩
        exact ⟨h1, h2.symm, h3.symm⟩

set_option maxRecDepth 100000 in
/-- C20 (counterexample): the override installed with the key
`namespace/inbox/unknown_key` is scoped to the named filter `namespace=inbox`
and its key is unknown to the schema `dict` (with and without the prefix
`namespace_`); a lookup of `namespace=inbox` for `dict` returns NotFound without
the override and a settings struct with it. -/
theorem settings_override_unknown_key_prevents_not_found :
    settings_override_install namespace_env {} (cs "namespace/inbox/unknown_key") (cs "x")
        .SETTINGS_OVERRIDE_TYPE_USERDB = .ok { overrides := [unknown_key_override] } ∧
    setting_parser_info_find_key dict_example_info (cs "unknown_key") = none ∧
    setting_parser_info_find_key dict_example_info (cs "namespace_unknown_key") = none ∧
    is_not_found (settings_get_full namespace_env (namespace_event [])
      (some (cs "namespace")) (some (cs "inbox")) dict_example_info {}).1 = true ∧
    is_found (settings_get_full namespace_env (namespace_event [unknown_key_override])
      (some (cs "namespace")) (some (cs "inbox")) dict_example_info {}).1 = true := by
  refine ⟨by rfl, by decide, by decide, by rfl, by rfl⟩

/-- C20 (amended): when the override pass completes, its `seen_filter` result is
true if and only if some override of the instance or the root is in scope (its
scoping filter is absent or matches the context) and its last filter key and
value are the requested filter key and value, whether or not its key resolves
to a key of the schema; and whenever there is such an override the resolution
does not return NotFound. -/
theorem settings_instance_override_seen_filter (ctx0 : settings_apply_ctx) :
    (∀ (st st' : settings_apply_state) (sf : Bool),
      settings_instance_override (settings_instance_get_ctx ctx0) st = (.ok sf, st') →
      (sf = true ↔ ∃ o ∈ ctx0.inst.overrides ++ ctx0.root.overrides,
        settings_override_matches (settings_instance_get_ctx ctx0) o = true ∧
          ∃ fk, ctx0.filter_key = some fk ∧ o.last_filter_key = some fk ∧
            o.last_filter_value = ctx0.filter_value)) ∧
    ((∃ o ∈ ctx0.inst.overrides ++ ctx0.root.overrides,
        settings_override_matches (settings_instance_get_ctx ctx0) o = true ∧
          ∃ fk, ctx0.filter_key = some fk ∧ o.last_filter_key = some fk ∧
            o.last_filter_value = ctx0.filter_value) →
      (settings_instance_get ctx0).1 ≠ .ok none) := by
  have hany : (ctx0.inst.overrides ++ ctx0.root.overrides).any
      (settings_override_names_filter (settings_instance_get_ctx ctx0)) = true ↔
      ∃ o ∈ ctx0.inst.overrides ++ ctx0.root.overrides,
        settings_override_matches (settings_instance_get_ctx ctx0) o = true ∧
          ∃ fk, ctx0.filter_key = some fk ∧ o.last_filter_key = some fk ∧
            o.last_filter_value = ctx0.filter_value := by
    rw [List.any_eq_true]
    constructor
    · rintro ⟨o, ho, hn⟩
      exact ⟨o, ho, (settings_override_names_filter_iff _ o).1 hn⟩
    · rintro ⟨o, ho, hn⟩
      exact ⟨o, ho, (settings_override_names_filter_iff _ o).2 hn⟩
  constructor
  · intro st st' sf h
    have hs := settings_instance_override_seen h
    rw [hs]
    exact hany
  · intro hex hnf
    have := ((settings_instance_get_not_found_iff ctx0).1 hnf).2.2.2
    unfold settings_named_filter_seen at this
    rw [Bool.or_eq_false_iff] at this
    have h1 := hany.2 hex
    have h2 := this.1
    have h3 : (settings_instance_get_ctx ctx0).inst = ctx0.inst := rfl
    have h4 : (settings_instance_get_ctx ctx0).root = ctx0.root := rfl
    rw [h3, h4, h1] at h2
    cases h2

set_option maxRecDepth 100000 in
/-- Witness for C20: with the override `unknown_key_override` in the instance's
list the override pass of a lookup of `namespace=inbox` reports the filter as
seen, and the lookup does not return NotFound. -/
theorem settings_instance_override_seen_filter_witness :
    (∃ o ∈ (namespace_ctx [unknown_key_override]).inst.overrides ++
        (namespace_ctx [unknown_key_override]).root.overrides,
      settings_override_matches
          (settings_instance_get_ctx (namespace_ctx [unknown_key_override])) o = true ∧
        ∃ fk, (namespace_ctx [unknown_key_override]).filter_key = some fk ∧
          o.last_filter_key = some fk ∧
          o.last_filter_value = (namespace_ctx [unknown_key_override]).filter_value) ∧
    (settings_instance_get (namespace_ctx [unknown_key_override])).1 ≠ .ok none :=
  ⟨((settings_instance_override_seen_filter (namespace_ctx [unknown_key_override])).1
      (settings_apply_state_init
        (settings_instance_get_ctx (namespace_ctx [unknown_key_override])))
      _ true rfl).1 rfl,
   (settings_instance_override_seen_filter (namespace_ctx [unknown_key_override])).2
      ⟨unknown_key_override, List.mem_append_left _ (List.mem_singleton.2 rfl), rfl,
        cs "namespace", rfl, rfl, rfl⟩⟩

theorem key_segments_ne_nil (key : CStr) : key_segments key ≠ [] := by
  cases key with
  | nil => simp [key_segments]
  | cons b rest =>
    unfold key_segments
    split
    · simp
    · split <;> simp

theorem split_slash_none {key : CStr} (h : split_slash key = none) :
    key_segments key = [key] := by
  induction key with
  | nil => rfl
  | cons b rest ih =>
    unfold split_slash at h
    split at h
    · cases h
    · rename_i hb
      simp only [Option.map_eq_none'] at h
      simp only [key_segments, hb, if_false, ih h]

theorem split_slash_some {key seg rest : CStr} (h : split_slash key = some (seg, rest)) :
    key_segments key = seg :: key_segments rest ∧ key = seg ++ 47 :: rest := by
  induction key generalizing seg with
  | nil => simp [split_slash] at h
  | cons b tl ih =>
    unfold split_slash at h
    split at h
    · rename_i hb
      simp only [Option.some.injEq, Prod.mk.injEq] at h
      obtain ⟨h1, h2⟩ := h
      subst h1 h2 hb
      simp [key_segments]
    · rename_i hb
      simp only [Option.map_eq_some', Prod.mk.injEq] at h
      obtain ⟨⟨s1, r1⟩, h1, h2, h3⟩ := h
      simp only at h2 h3
      subst h2 h3
      obtain ⟨i1, i2⟩ := ih h1
      refine ⟨?_, by rw [i2]; simp⟩
      simp only [key_segments, hb, if_false, i1]

theorem peel_pairs_cons_cons (a b : CStr) (l : List CStr) (hl : l ≠ []) :
    peel_pairs (a :: b :: l) = ((a, b) :: (peel_pairs l).1, (peel_pairs l).2) := by
  cases l with
  | nil => exact absurd rfl hl
  | cons c r => rfl

theorem join_segments_pair (a b : CStr) : join_segments [a, b] = a ++ 47 :: b := rfl

theorem settings_override_get_filter_loop_eq (env : settings_env) :
    ∀ (fuel : Nat) (s : override_filter_state), s.key.length < fuel →
      settings_override_get_filter_loop env fuel s = override_filter_loop_end env s := by
  intro fuel
  induction fuel with
  | zero => intro s h; omega
  | succ fuel ih =>
    intro s hlen
    unfold settings_override_get_filter_loop
    cases h1 : split_slash s.key with
    | none =>
      have hs := split_slash_none h1
      simp only [override_filter_loop_end, override_key_pairs, override_key_rest, hs,
        peel_pairs, join_segments, override_clauses_text, List.getLast?_nil]
    | some r1 =>
      obtain ⟨seg, rest⟩ := r1
      obtain ⟨hs1, hk1⟩ := split_slash_some h1
      simp only
      cases h2 : split_slash rest with
      | none =>
        have hs2 := split_slash_none h2
        simp only [override_filter_loop_end, override_key_pairs, override_key_rest, hs1, hs2,
          peel_pairs, join_segments, override_clauses_text, List.getLast?_nil, ← hk1]
      | some r2 =>
        obtain ⟨val, next⟩ := r2
        obtain ⟨hs2, hk2⟩ := split_slash_some h2
        simp only
        have hnext : next.length < fuel := by
          have : s.key.length = seg.length + 1 + (val.length + 1 + next.length) := by
            rw [hk1, hk2]
            simp only [List.length_append, List.length_cons]
            omega
          omega
        rw [ih _ hnext]
        have hp : peel_pairs (key_segments s.key) =
            ((seg, val) :: (peel_pairs (key_segments next)).1,
             (peel_pairs (key_segments next)).2) := by
          rw [hs1, hs2]
          exact peel_pairs_cons_cons _ _ _ (key_segments_ne_nil next)
        simp only [override_filter_loop_end, override_key_pairs, override_key_rest, hp]
        cases hps : (peel_pairs (key_segments next)).1 with
        | nil =>
          simp only [List.getLast?_nil, List.getLast?_singleton, override_clauses_text,
            List.dropLast_single, override_filter_key, override_clause_text]
          cases hf : s.filter <;> simp [List.append_assoc]
        | cons p ps =>
          obtain ⟨q, hq⟩ : ∃ q, (p :: ps).getLast? = some q :=
            ⟨(p :: ps).getLast (by simp), List.getLast?_eq_getLast _ _⟩
          simp only [List.getLast?_cons_cons, List.dropLast_cons₂, override_clauses_text,
            override_filter_key, override_clause_text, hq]
          cases hf : s.filter <;> simp [List.append_assoc]

theorem override_clauses_text_append (env : settings_env) (p : CStr × CStr) :
    ∀ (ps : List (CStr × CStr)) (f : Option CStr),
      override_clauses_text env f (ps ++ [p]) =
        some (override_filter_text_and (override_clauses_text env f ps) ++
          override_clause_text env p) := by
  intro ps
  induction ps with
  | nil =>
    intro f
    simp only [List.nil_append, override_clauses_text, override_filter_text_and]
  | cons q qs ih =>
    intro f
    simp only [List.cons_append, override_clauses_text]
    exact ih _

theorem peel_pairs_spec :
    ∀ (n : Nat) (l : List CStr), l.length = n → l ≠ [] →
      l = ((peel_pairs l).1.flatMap (fun p => [p.1, p.2])) ++ (peel_pairs l).2 ∧
      (peel_pairs l).1.length = (l.length - 1) / 2 ∧
      (peel_pairs l).2.length = 1 + (l.length - 1) % 2 := by
  intro n
  induction n using Nat.strong_induction_on with
  | _ n ih =>
    intro l hn hne
    cases l with
    | nil => exact absurd rfl hne
    | cons a l1 =>
      cases l1 with
      | nil => simp [peel_pairs]
      | cons b l2 =>
        cases l2 with
        | nil => simp [peel_pairs]
        | cons c l3 =>
          rw [peel_pairs_cons_cons a b (c :: l3) (by simp)]
          simp only [List.length_cons] at hn
          obtain ⟨h1, h2, h3⟩ := ih (l3.length + 1) (by omega) (c :: l3) (by simp) (by simp)
          refine ⟨?_, ?_, ?_⟩
          · simp only [List.flatMap_cons, List.cons_append, List.nil_append, List.cons.injEq,
              true_and]
            exact h1
          · simp only [List.length_cons, h2]
            omega
          · simp only [List.length_cons, h3]
            omega

theorem override_key_rest_cases (key : CStr) :
    (∃ k, override_key_rest key = [k]) ∨ ∃ name k, override_key_rest key = [name, k] := by
  obtain ⟨_, _, h3⟩ := peel_pairs_spec _ (key_segments key) rfl (key_segments_ne_nil key)
  unfold override_key_rest
  generalize (peel_pairs (key_segments key)).2 = r at h3
  match r, h3 with
  | [k], _ => exact Or.inl ⟨k, rfl⟩
  | [name, k], _ => exact Or.inr ⟨name, k, rfl⟩
  | [], h => simp at h; omega
  | _ :: _ :: _ :: _, h => simp at h; omega

theorem key_segments_length (key : CStr) : (key_segments key).length = key.count 47 + 1 := by
  induction key with
  | nil => rfl
  | cons b rest ih =>
    unfold key_segments
    split
    · rename_i hb
      subst hb
      simp only [List.length_cons, ih, List.count_cons_self]
    · rename_i hb
      have hne := key_segments_ne_nil rest
      cases hs : key_segments rest with
      | nil => exact absurd hs hne
      | cons s ss =>
        rw [hs] at ih
        simp only [List.length_cons] at ih ⊢
        rw [ih, List.count_cons_of_ne]
        exact fun h => hb h.symm

theorem join_key_segments (key : CStr) : join_segments (key_segments key) = key := by
  induction key with
  | nil => rfl
  | cons b rest ih =>
    unfold key_segments
    split
    · rename_i hb
      have hne := key_segments_ne_nil rest
      cases hs : key_segments rest with
      | nil => exact absurd hs hne
      | cons s ss =>
        rw [hs] at ih
        simp only [join_segments, List.nil_append, ih, hb]
    · have hne := key_segments_ne_nil rest
      cases hs : key_segments rest with
      | nil => exact absurd hs hne
      | cons s ss =>
        rw [hs] at ih
        simp only
        cases ss with
        | nil =>
          simp only [join_segments] at ih ⊢
          rw [ih]
        | cons t ts =>
          simp only [join_segments, List.cons_append] at ih ⊢
          rw [ih]

theorem override_clauses_text_getLast (env : settings_env) (ps : List (CStr × CStr))
    (p : CStr × CStr) (h : ps.getLast? = some p) :
    override_clauses_text env none ps =
      some (override_filter_text_and (override_clauses_text env none ps.dropLast) ++
        override_clause_text env p) := by
  have hd : ps = ps.dropLast ++ [p] := by
    have hne : ps ≠ [] := by
      intro hc
      rw [hc] at h
      cases h
    have := List.dropLast_append_getLast hne
    rw [List.getLast?_eq_getLast _ hne] at h
    cases h
    exact this.symm
  conv => lhs; rw [hd]
  exact override_clauses_text_append env p _ _

theorem override_filter_pos_eq (o : Option CStr) :
    (match o with
     | none => 0
     | some f => (f ++ cs " AND ").length) = (override_filter_text_and o).length := by
  cases o <;> rfl

theorem override_getLast_none {ps : List (CStr × CStr)} (h : ps.getLast? = none) : ps = [] := by
  cases ps with
  | nil => rfl
  | cons a l =>
    rw [List.getLast?_eq_getLast (a :: l) (by simp)] at h
    cases h

theorem override_fold_text (a c t : CStr) :
    (a ++ c).take a.length ++ cs "(" ++ (a ++ c).drop a.length ++ t =
      a ++ cs "(" ++ c ++ t := by
  rw [List.take_left, List.drop_left]

theorem settings_override_get_filter_eq (env : settings_env) (set : settings_override)
    (key0 : CStr) :
    settings_override_get_filter env set key0 =
      override_parse_filter env (override_compiled env set key0).1
        (override_compiled env set key0).2 := by
  unfold settings_override_get_filter
  rw [settings_override_get_filter_loop_eq env (key0.length + 1) { key := key0 }
    (Nat.lt_succ_self _)]
  have hfold : ∀ p : CStr × CStr, (override_key_pairs key0).getLast? = some p →
      (override_filter_text_and
            (override_clauses_text env none (override_key_pairs key0).dropLast) ++
          override_clause_text env p).take
          (override_filter_text_and
            (override_clauses_text env none (override_key_pairs key0).dropLast)).length ++
        cs "(" ++
        (override_filter_text_and
            (override_clauses_text env none (override_key_pairs key0).dropLast) ++
          override_clause_text env p).drop
          (override_filter_text_and
            (override_clauses_text env none (override_key_pairs key0).dropLast)).length ++
        cs " OR " ++ SETTINGS_EVENT_FILTER_NAME ++ cs "=\"" ++ override_filter_key p.1 ++
        cs "/" ++ env.wildcard_str_escape (env.settings_section_escape p.2) ++ cs "\")" =
      override_pair_filter_text env key0 p := by
    intro p _
    rw [List.take_left, List.drop_left]
    rfl
  rcases override_key_rest_cases key0 with ⟨k, hk⟩ | ⟨name, k, hk⟩
  · cases hl : (override_key_pairs key0).getLast? with
    | none =>
      have hp := override_getLast_none hl
      simp only [override_filter_loop_end, override_compiled, override_named_filter, hk,
        override_parse_filter, join_segments, hp, override_clauses_text, List.getLast?_nil]
    | some p =>
      have ht := override_clauses_text_getLast env _ p hl
      simp only [override_filter_loop_end, override_compiled, override_named_filter, hk, hl,
        override_parse_filter, join_segments, ht, override_filter_pos_eq, hfold p hl]
  · by_cases hpl : (cs "plugin").isPrefixOf (join_segments [name, k]) = true
    · cases hl : (override_key_pairs key0).getLast? with
      | none =>
        have hp := override_getLast_none hl
        simp only [override_filter_loop_end, override_compiled, override_named_filter, hk,
          override_parse_filter, hpl, if_true, hp, override_clauses_text, List.getLast?_nil]
      | some p =>
        have ht := override_clauses_text_getLast env _ p hl
        simp only [override_filter_loop_end, override_compiled, override_named_filter, hk, hl,
          override_parse_filter, hpl, if_true, ht, override_filter_pos_eq, hfold p hl]
    · simp only [override_filter_loop_end, override_compiled, override_named_filter, hk,
        override_parse_filter, hpl, if_false, override_named_filter_text, Bool.false_eq_true]
      cases hd : override_clauses_text env none (override_key_pairs key0) <;>
        simp only [override_filter_text_and]

set_option maxRecDepth 100000 in
/-- C29, the input on which the claim fails: the key `mailbox/Trash/dict_driver`
has one peeled pair, `mailbox` with `Trash`, and no trailing name segment, yet
the recorded last filter key is `mailbox_subname`, not the segment of the
pair. -/
theorem settings_override_get_filter_renames_mailbox :
    override_key_pairs (cs "mailbox/Trash/dict_driver") = [(cs "mailbox", cs "Trash")] ∧
    override_named_filter (cs "mailbox/Trash/dict_driver") = none ∧
    settings_override_get_filter override_example_env override_example_set
        (cs "mailbox/Trash/dict_driver") =
      .ok { override_example_set with
            key := cs "dict_driver",
            filter := some (.op_or (.field_eq (cs "mailbox_subname") (cs "Trash"))
              (.field_eq SETTINGS_EVENT_FILTER_NAME (cs "mailbox_subname/Trash"))),
            last_filter_key := some (cs "mailbox_subname"),
            last_filter_value := some (cs "Trash") } := by
  decide

/-- C29 (amended): a key with n `/` characters has floor(n/2) peeled pairs, which
are its leading segments; the loop joins their clauses with ` AND `, each
clause naming the segment of its pair, with `mailbox` renamed to
`mailbox_subname`; when no trailing name segment is used the recorded last
filter key and value are the clause key and the value of the last pair, the
last clause is folded with the filter name of the pair, and the stored key is
the text behind the pairs; a key without `/` is stored as it is, with no filter
and no last filter key or value. -/
theorem settings_override_get_filter_peels (env : settings_env) (set : settings_override)
    (key0 : CStr) :
    (override_key_pairs key0).length = key0.count 47 / 2 ∧
    key_segments key0 =
      (override_key_pairs key0).flatMap (fun p => [p.1, p.2]) ++ override_key_rest key0 ∧
    (settings_override_get_filter_loop env (key0.length + 1) { key := key0 }).filter =
      override_clauses_text env none (override_key_pairs key0) ∧
    (∀ p, (override_key_pairs key0).getLast? = some p → override_named_filter key0 = none →
      settings_override_get_filter env set key0 =
        override_parse_filter env
          { set with last_filter_key := some (override_filter_key p.1),
                     last_filter_value := some p.2,
                     key := join_segments (override_key_rest key0) }
          (some (override_pair_filter_text env key0 p))) ∧
    (key0.count 47 = 0 → settings_override_get_filter env set key0 = .ok { set with key := key0 }) := by
  obtain ⟨h1, h2, _⟩ := peel_pairs_spec _ (key_segments key0) rfl (key_segments_ne_nil key0)
  have hlen : (override_key_pairs key0).length = key0.count 47 / 2 := by
    unfold override_key_pairs
    rw [h2, key_segments_length]
    simp
  refine ⟨hlen, h1, ?_, ?_, ?_⟩
  · rw [settings_override_get_filter_loop_eq env (key0.length + 1) { key := key0 }
      (Nat.lt_succ_self _)]
    rfl
  · intro p hp hn
    rw [settings_override_get_filter_eq]
    simp only [override_compiled, hn, hp]
  · intro h0
    have hp : override_key_pairs key0 = [] := by
      rw [h0] at hlen
      exact List.length_eq_zero.mp hlen
    have hr : override_key_rest key0 = key_segments key0 := by
      have := h1
      unfold override_key_pairs at hp
      rw [hp] at this
      simpa [override_key_rest] using this.symm
    have hseg : key_segments key0 = [key0] := by
      have hl := key_segments_length key0
      rw [h0] at hl
      have hj := join_key_segments key0
      match hs : key_segments key0, hl with
      | [s], _ =>
        rw [hs] at hj
        simp only [join_segments] at hj
        rw [hj]
    rw [settings_override_get_filter_eq]
    simp only [override_compiled, override_named_filter, hr, hseg, hp, List.getLast?_nil,
      join_segments, override_parse_filter]

set_option maxRecDepth 100000 in
/-- C29, checked on the key of test-dict-sql.c: two peeled pairs, the clauses
`dict_map=1` and `dict_map_key_field=a`, and the stored key `value`. -/
theorem settings_override_get_filter_peels_witness :
    (override_key_pairs (cs "dict_map/1/dict_map_key_field/a/value")).getLast? =
      some (cs "dict_map_key_field", cs "a") ∧
    override_named_filter (cs "dict_map/1/dict_map_key_field/a/value") = none ∧
    override_key_pairs (cs "dict_map/1/dict_map_key_field/a/value") =
      [(cs "dict_map", cs "1"), (cs "dict_map_key_field", cs "a")] ∧
    settings_override_get_filter override_example_env override_example_set
        (cs "dict_map/1/dict_map_key_field/a/value") =
      .ok { override_example_set with
            key := cs "value",
            filter := some (.op_and (.field_eq (cs "dict_map") (cs "1"))
              (.op_or (.field_eq (cs "dict_map_key_field") (cs "a"))
                (.field_eq SETTINGS_EVENT_FILTER_NAME (cs "dict_map_key_field/a")))),
            last_filter_key := some (cs "dict_map_key_field"),
            last_filter_value := some (cs "a") } :=
  ⟨by decide, by decide, by decide,
   ((settings_override_get_filter_peels override_example_env override_example_set
      (cs "dict_map/1/dict_map_key_field/a/value")).2.2.2.1
      (cs "dict_map_key_field", cs "a") (by decide) (by decide)).trans (by decide)⟩
set_option maxRecDepth 100000 in
/-- C30, the input on which the claim fails: for the key
`namespace/inbox/mail_attribute_dict/dict_driver` the filter text joins the
peeled clause and the named filter with ` AND `, so the override matches
neither an event that only has `namespace=inbox` nor one that only has the
filter name `mail_attribute_dict`; it matches an event that has both. -/
theorem settings_override_get_filter_named_is_conjunction :
    override_named_filter_text override_example_env
        (cs "namespace/inbox/mail_attribute_dict/dict_driver") (cs "mail_attribute_dict") =
      cs "\"namespace\"=\"inbox\" AND settings_filter_name=\"mail_attribute_dict\"" ∧
    settings_override_get_filter override_example_env override_example_set
        (cs "namespace/inbox/mail_attribute_dict/dict_driver") = .ok named_dict_override ∧
    settings_override_matches (dict_fields_ctx [(cs "namespace", cs "inbox")])
      named_dict_override = false ∧
    settings_override_matches
      (dict_fields_ctx [(SETTINGS_EVENT_FILTER_NAME, cs "mail_attribute_dict")])
      named_dict_override = false ∧
    settings_override_matches
      (dict_fields_ctx [(cs "namespace", cs "inbox"),
        (SETTINGS_EVENT_FILTER_NAME, cs "mail_attribute_dict")])
      named_dict_override = true := by
  decide

/-- C30 (amended): for a key that ends in `name/k` after the peeled pairs, with
`name/k` not starting with `plugin`, the override records the named filter
`name`, no last filter value and the key `k`, and its filter text is the
conjunction of the peeled clauses and `settings_filter_name="name"`; when
`name/k` starts with `plugin` the stored key is `name/k` and the record is that
of the last peeled pair, folded into an OR-clause with the pair's filter name,
or the bare record if there is no pair. -/
theorem settings_override_get_filter_named (env : settings_env) (set : settings_override)
    (key0 name k : CStr) (hrest : override_key_rest key0 = [name, k]) :
    ((cs "plugin").isPrefixOf (name ++ cs "/" ++ k) = false →
      settings_override_get_filter env set key0 =
        override_parse_filter env
          { set with last_filter_key := some name, last_filter_value := none, key := k }
          (some (override_filter_text_and
              (override_clauses_text env none (override_key_pairs key0)) ++
            SETTINGS_EVENT_FILTER_NAME ++ cs "=\"" ++ env.wildcard_str_escape name ++
            cs "\""))) ∧
    ((cs "plugin").isPrefixOf (name ++ cs "/" ++ k) = true →
      settings_override_get_filter env set key0 =
        match (override_key_pairs key0).getLast? with
        | some p =>
          override_parse_filter env
            { set with last_filter_key := some (override_filter_key p.1),
                       last_filter_value := some p.2,
                       key := name ++ cs "/" ++ k }
            (some (override_pair_filter_text env key0 p))
        | none => .ok { set with key := name ++ cs "/" ++ k }) := by
  have hj : join_segments [name, k] = name ++ cs "/" ++ k := by
    have hs : cs "/" = [47] := by decide
    simp [join_segments, hs]
  constructor
  · intro hp
    rw [← hj] at hp
    rw [settings_override_get_filter_eq]
    simp only [override_compiled, override_named_filter, hrest, hp, Bool.false_eq_true,
      if_false, override_named_filter_text]
  · intro hp
    rw [← hj] at hp
    rw [settings_override_get_filter_eq]
    simp only [override_compiled, override_named_filter, hrest, hp, if_true]
    cases (override_key_pairs key0).getLast? with
    | none => simp only [override_parse_filter, hj]
    | some p => simp only [hj]

set_option maxRecDepth 100000 in
/-- C30, checked on `namespace/inbox/mail_attribute_dict/dict_driver`. -/
theorem settings_override_get_filter_named_witness :
    override_key_rest (cs "namespace/inbox/mail_attribute_dict/dict_driver") =
      [cs "mail_attribute_dict", cs "dict_driver"] ∧
    (cs "plugin").isPrefixOf (cs "mail_attribute_dict" ++ cs "/" ++ cs "dict_driver") = false ∧
    settings_override_get_filter override_example_env override_example_set
        (cs "namespace/inbox/mail_attribute_dict/dict_driver") = .ok named_dict_override :=
  ⟨by decide, by decide,
   ((settings_override_get_filter_named override_example_env override_example_set
      (cs "namespace/inbox/mail_attribute_dict/dict_driver") (cs "mail_attribute_dict")
      (cs "dict_driver") (by decide)).1 (by decide)).trans (by decide)⟩

theorem override_parse_filter_ok {env : settings_env} {r o : settings_override}
    {t : Option CStr} (h : override_parse_filter env r t = .ok o) :
    o.key = r.key ∧ o.last_filter_key = r.last_filter_key ∧
      o.last_filter_value = r.last_filter_value ∧ o.type = r.type ∧ o.append = r.append ∧
      o.value = r.value ∧
      o.filter = (match t with
        | none => r.filter
        | some text =>
          match env.event_filter_parse_case_sensitive text with
          | .ok f => some f
          | .error _ => none) := by
  unfold override_parse_filter at h
  cases t with
  | none =>
    simp only at h
    cases h
    exact ⟨rfl, rfl, rfl, rfl, rfl, rfl, rfl⟩
  | some text =>
    simp only at h ⊢
    cases hp : env.event_filter_parse_case_sensitive text with
    | ok f =>
      rw [hp] at h
      simp only at h
      cases h
      exact ⟨rfl, rfl, rfl, rfl, rfl, rfl, rfl⟩
    | error e =>
      rw [hp] at h
      cases h

theorem override_key_start_eq (seg : CStr) :
    (if override_filter_key seg = SETTINGS_EVENT_MAILBOX_NAME_WITHOUT_PREFIX then
        SETTINGS_EVENT_MAILBOX_NAME_WITH_PREFIX
      else override_filter_key seg) = override_key_start seg := by
  unfold override_filter_key override_key_start
  by_cases h1 : seg = SETTINGS_EVENT_MAILBOX_NAME_WITH_PREFIX
  · subst h1
    simp only [if_true]
    have : SETTINGS_EVENT_MAILBOX_NAME_WITH_PREFIX ≠ SETTINGS_EVENT_MAILBOX_NAME_WITHOUT_PREFIX := by
      decide
    simp only [this, if_false]
  · simp only [h1, if_false]

set_option maxRecDepth 100000 in
/-- C21, the input on which the claim fails: the override installed with the key
`inet_listener/ssl` records the named filter `inet_listener` and the key `ssl`;
the schema `listener` defines `inet_listener_ssl`, yet the key lookup gives the
bare key `ssl`, and a resolution under the filter name `inet_listener` sets
`ssl` and leaves `inet_listener_ssl` at its default. -/
theorem settings_key_part_find_named_segment_bare :
    settings_override_install override_example_env {} (cs "inet_listener/ssl")
        (cs "required") .SETTINGS_OVERRIDE_TYPE_CODE =
      .ok { overrides := [listener_segment_override] } ∧
    setting_parser_info_find_key listener_info (cs "inet_listener_ssl") = some 1 ∧
    settings_key_part_find listener_ctx (cs "ssl") (some (cs "inet_listener")) none =
      .ok (some (0, cs "ssl")) ∧
    resolved_value (settings_get_full override_example_env
      (override_example_event [] (some (cs "inet_listener")) [listener_segment_override])
      none none listener_info {}).1 0 = some (cs "required") ∧
    resolved_value (settings_get_full override_example_env
      (override_example_event [] (some (cs "inet_listener")) [listener_segment_override])
      none none listener_info {}).1 1 = some (cs "no") := by
  refine ⟨by decide, by decide, by decide, by rfl, by rfl⟩

/-- C21 (amended): an override compiled from a key whose last peeled pair has
the segment F records the last filter key and value of that pair, and its key
k is looked up as `F_k` first (`mailbox_k` for the segment `mailbox_subname`)
and as the bare key k only if the schema does not define `F_k`; an override
compiled from a trailing `F/` segment records F without a value, and its key k
is looked up as the bare key only. -/
theorem settings_key_part_find_compiled (env : settings_env) (set o : settings_override)
    (key0 : CStr) (ctx : settings_apply_ctx)
    (h : settings_override_get_filter env set key0 = .ok o) :
    (∀ p, override_named_filter key0 = none → (override_key_pairs key0).getLast? = some p →
      o.last_filter_key = some (override_filter_key p.1) ∧ o.last_filter_value = some p.2 ∧
      settings_key_part_find ctx o.key o.last_filter_key o.last_filter_value =
        .ok (match setting_parser_info_find_key ctx.info
                (override_key_start p.1 ++ cs "_" ++ o.key) with
             | some i => some (i, override_key_start p.1 ++ cs "_" ++ o.key)
             | none => (setting_parser_info_find_key ctx.info o.key).map (fun i => (i, o.key)))) ∧
    (∀ name k, override_named_filter key0 = some (name, k) →
      o.last_filter_key = some name ∧ o.last_filter_value = none ∧ o.key = k ∧
      settings_key_part_find ctx o.key o.last_filter_key o.last_filter_value =
        .ok ((setting_parser_info_find_key ctx.info k).map (fun i => (i, k)))) := by
  rw [settings_override_get_filter_eq] at h
  obtain ⟨hk, hlk, hlv, _⟩ := override_parse_filter_ok h
  constructor
  · intro p hn hp
    simp only [override_compiled, hn, hp] at hk hlk hlv
    refine ⟨hlk, hlv, ?_⟩
    rw [hlk, hlv]
    simp only [settings_key_part_find, override_key_start_eq]
    cases setting_parser_info_find_key ctx.info (override_key_start p.1 ++ cs "_" ++ o.key) <;>
      rfl
  · intro name k hn
    simp only [override_compiled, hn] at hk hlk hlv
    refine ⟨hlk, hlv, hk, ?_⟩
    rw [hlk, hlv, hk]
    rfl

set_option maxRecDepth 100000 in
/-- C21, checked on the key `inet_listener/imap/ssl`: the lookup gives
`inet_listener_ssl`, and a resolution for an event with `inet_listener=imap`
sets that key and leaves `ssl` at its default. -/
theorem settings_key_part_find_compiled_witness :
    settings_override_get_filter override_example_env
        { type := .SETTINGS_OVERRIDE_TYPE_CODE, key := [], value := cs "required" }
        (cs "inet_listener/imap/ssl") = .ok listener_pair_override ∧
    settings_key_part_find listener_ctx (cs "ssl") (some (cs "inet_listener"))
        (some (cs "imap")) = .ok (some (1, cs "inet_listener_ssl")) ∧
    resolved_value (settings_get_full override_example_env
      (override_example_event [(cs "inet_listener", cs "imap")] none [listener_pair_override])
      none none listener_info {}).1 0 = some (cs "no") ∧
    resolved_value (settings_get_full override_example_env
      (override_example_event [(cs "inet_listener", cs "imap")] none [listener_pair_override])
      none none listener_info {}).1 1 = some (cs "required") :=
  ⟨by decide,
   (((settings_key_part_find_compiled override_example_env
      { type := .SETTINGS_OVERRIDE_TYPE_CODE, key := [], value := cs "required" }
      listener_pair_override (cs "inet_listener/imap/ssl") listener_ctx (by decide)).1
      (cs "inet_listener", cs "imap") (by decide) (by decide)).2.2).trans (by decide),
   by rfl, by rfl⟩

set_option maxRecDepth 100000 in
/-- C22, the code at the failing input: the override that imap-login installs
with the key `imap_capability/IMAP4rev2` is stored with the key `IMAP4rev2`
under the named filter `imap_capability`; a resolution of a schema with the
string list `imap_capability` without a filter name returns a struct whose
list has no entry, whereas an override record with the key
`imap_capability/IMAP4rev2` and no filter would add the entry. -/
theorem settings_override_list_key_becomes_named_filter :
    settings_override_install override_example_env {} (cs "imap_capability/IMAP4rev2")
        (cs "no") .SETTINGS_OVERRIDE_TYPE_CODE = .ok { overrides := [capability_override] } ∧
    is_found (settings_get_full override_example_env
      (override_example_event [] none [capability_override]) none none capability_info {}).1
      = true ∧
    resolved_strlists (settings_get_full override_example_env
      (override_example_event [] none [capability_override]) none none capability_info {}).1
      = [] ∧
    resolved_strlists (settings_get_full override_example_env
      (override_example_event [] none
        [{ type := .SETTINGS_OVERRIDE_TYPE_CODE, key := cs "imap_capability/IMAP4rev2",
           value := cs "no" }]) none none capability_info {}).1
      = [(0, cs "IMAP4rev2", cs "no")] := by
  refine ⟨by decide, by rfl, by rfl, by rfl⟩

theorem settings_override_get_value_append {ctx : settings_apply_ctx} {o : settings_override}
    {st0 : settings_apply_state} {key v : CStr} {idx : Nat}
    (h : settings_override_get_value ctx { o with append := false } st0 =
      .ok (some (key, idx, v))) :
    v = o.value ∧ ∃ d, ctx.info.defines[idx]? = some d ∧
      (d.type ≠ .SET_STR → ∀ st,
        settings_override_get_value ctx { o with append := true } st =
          .error (.append_not_string key)) ∧
      (d.type = .SET_STR → ∀ st str, st.parser.values idx = some str →
        settings_override_get_value ctx { o with append := true } st =
          .ok (some (key, idx, str ++ o.value))) := by
  unfold settings_override_get_value at h ⊢
  simp only at h ⊢
  cases hk : settings_key_part_find ctx o.key o.last_filter_key o.last_filter_value with
  | error e => rw [hk] at h; cases h
  | fault f => rw [hk] at h; cases h
  | ok found =>
    rw [hk] at h
    simp only [Res.bind_ok] at h ⊢
    split at h
    · cases h
    · rename_i key_idx hidx
      split at h
      · cases h
      · rename_i d hd
        simp only [Bool.not_false, if_true, Res.ok.injEq, Option.some.injEq,
          Prod.mk.injEq] at h
        obtain ⟨h1, h2, h3⟩ := h
        subst h2
        refine ⟨h3.symm, d, hd, ?_, ?_⟩
        · intro hne st
          simp only [hidx, hd, Bool.not_true, Bool.false_eq_true, if_false, h1, ne_eq, hne,
            not_false_eq_true, if_true]
        · intro heq st str hv
          simp only [hidx, hd, Bool.not_true, Bool.false_eq_true, if_false, h1, ne_eq, heq,
            not_true_eq_false, hv]

theorem settings_instance_override_one_error {ctx : settings_apply_ctx}
    {o : settings_override} {e : settings_error} (sf : Bool) (st : settings_apply_state)
    (hm : settings_override_matches ctx o = true)
    (hg : settings_override_get_value ctx o st = .error e) :
    settings_instance_override_one ctx o sf st = (.error e, st) := by
  unfold settings_instance_override_one
  simp only [hm, Bool.not_true, Bool.false_eq_true, if_false, hg]

theorem settings_instance_override_loop_not_ok {ctx : settings_apply_ctx}
    {o : settings_override}
    (ho : ∀ sf st, (settings_instance_override_one ctx o sf st).1.isOk = false) :
    ∀ (l : List settings_override) (sf : Bool) (st : settings_apply_state), o ∈ l →
      (settings_instance_override_loop ctx l sf st).1.isOk = false := by
  intro l
  induction l with
  | nil => intro sf st h; cases h
  | cons a rest ih =>
    intro sf st hmem
    unfold settings_instance_override_loop
    rcases List.mem_cons.mp hmem with rfl | hr
    · have := ho sf st
      split
      · rename_i h1
        rw [h1] at this
        cases this
      · rfl
      · rfl
    · split
      · exact ih _ _ hr
      · rfl
      · rfl

theorem settings_instance_override_not_ok {ctx : settings_apply_ctx} {o : settings_override}
    (ho : ∀ sf st, (settings_instance_override_one ctx o sf st).1.isOk = false)
    (hmem : o ∈ ctx.inst.overrides ++ ctx.root.overrides) (st : settings_apply_state) :
    (settings_instance_override ctx st).1.isOk = false := by
  unfold settings_instance_override
  exact settings_instance_override_loop_not_ok ho _ _ _
    ((array_sort_overrides_mem_iff _ _).mpr hmem)

theorem settings_instance_get_override_not_ok {ctx0 : settings_apply_ctx}
    (h : (settings_instance_override (settings_instance_get_ctx ctx0)
      (settings_apply_state_init (settings_instance_get_ctx ctx0))).1.isOk = false) :
    (settings_instance_get ctx0).1 =
      (match (settings_instance_override (settings_instance_get_ctx ctx0)
          (settings_apply_state_init (settings_instance_get_ctx ctx0))).1 with
       | .ok _ => .fault .out_of_fuel
       | .error e => .error e
       | .fault f => .fault f) := by
  unfold settings_instance_get settings_instance_get_merge
  simp only
  generalize settings_instance_override (settings_instance_get_ctx ctx0)
    (settings_apply_state_init (settings_instance_get_ctx ctx0)) = r at h
  obtain ⟨r1, st⟩ := r
  cases r1 with
  | ok sf => cases h
  | error e => rfl
  | fault f => rfl

theorem settings_instance_override_one_assign {ctx : settings_apply_ctx}
    {o : settings_override} {key value : CStr} {idx : Nat} {d : setting_define}
    (sf : Bool) (st : settings_apply_state)
    (hm : settings_override_matches ctx o = true)
    (hg : settings_override_get_value ctx o st = .ok (some (key, idx, value)))
    (hd : ctx.info.defines[idx]? = some d) (ht : d.type = .SET_STR)
    (hs : st.set_seen idx = false) :
    (settings_instance_override_one ctx o sf st).2.parser.calls =
        st.parser.calls ++ [(idx, key, value)] ∧
      (settings_instance_override_one ctx o sf st).2.parser.values idx = some value := by
  unfold settings_instance_override_one
  simp only [hm, Bool.not_true, Bool.false_eq_true, if_false, hg, hd, ht, hs,
    settings_parse_keyidx_value_nodup, settings_parse_assign, settings_apply_state.mark,
    reduceCtorEq, ne_eq, not_false_eq_true, if_true]
  split <;> simp

/-- The value of an append-form override: take an append-form override that is
in scope and whose key resolves (as the key of the same override without the
append flag does) to the schema key `idx` named `key`.  If that key is not a
string, the value lookup fails with "not a string - can't use '+'", so does
the override's iteration, and every resolution that has the override in its
lists returns no settings struct: an Error, unless the override pass aborts
the process first.  If the key is a string with the current value `cur`, the
value is `cur` followed by the override's value, and that is what the parser
is called with when the key was not set before. -/
theorem settings_override_append_value (ctx0 : settings_apply_ctx) (o : settings_override)
    (key : CStr) (idx : Nat) (d : setting_define)
    (happ : o.append = true)
    (hm : settings_override_matches (settings_instance_get_ctx ctx0) o = true)
    (hres : settings_override_get_value (settings_instance_get_ctx ctx0)
      { o with append := false } (settings_apply_state_init (settings_instance_get_ctx ctx0)) =
        .ok (some (key, idx, o.value)))
    (hd : ctx0.info.defines[idx]? = some d) :
    (d.type ≠ .SET_STR →
      (∀ st, settings_override_get_value (settings_instance_get_ctx ctx0) o st =
        .error (.append_not_string key)) ∧
      (∀ sf st, settings_instance_override_one (settings_instance_get_ctx ctx0) o sf st =
        (.error (.append_not_string key), st)) ∧
      (o ∈ ctx0.inst.overrides ++ ctx0.root.overrides →
        (settings_instance_get ctx0).1.isOk = false ∧
        ((settings_instance_override (settings_instance_get_ctx ctx0)
            (settings_apply_state_init (settings_instance_get_ctx ctx0))).1.isFault = false →
          (settings_instance_get ctx0).1.isError = true) ∧
        ∀ (env : settings_env) (event : event) (fk fv : Option CStr)
          (flags : settings_get_flags),
          settings_get_full_ctx env event fk fv ctx0.info flags = some ctx0 →
          (settings_get_full env event fk fv ctx0.info flags).1.isOk = false)) ∧
    (d.type = .SET_STR → ∀ st cur, st.parser.values idx = some cur →
      settings_override_get_value (settings_instance_get_ctx ctx0) o st =
        .ok (some (key, idx, cur ++ o.value)) ∧
      (st.set_seen idx = false → ∀ sf,
        (settings_instance_override_one (settings_instance_get_ctx ctx0) o sf st).2.parser.calls =
          st.parser.calls ++ [(idx, key, cur ++ o.value)] ∧
        (settings_instance_override_one (settings_instance_get_ctx ctx0) o sf st).2.parser.values
          idx = some (cur ++ o.value))) := by
  have ho : ({ o with append := true } : settings_override) = o := by
    cases o
    simp only at happ
    subst happ
    rfl
  obtain ⟨_, d', hd', hne, heq⟩ := settings_override_get_value_append hres
  rw [ho] at hne heq
  have hdd : d' = d := by
    have : (settings_instance_get_ctx ctx0).info = ctx0.info := rfl
    rw [this, hd] at hd'
    cases hd'
    rfl
  subst hdd
  constructor
  · intro ht
    have hone : ∀ sf st,
        settings_instance_override_one (settings_instance_get_ctx ctx0) o sf st =
          (.error (.append_not_string key), st) :=
      fun sf st => settings_instance_override_one_error sf st hm (hne ht st)
    refine ⟨hne ht, hone, ?_⟩
    intro hmem
    have hnot := @settings_instance_override_not_ok (settings_instance_get_ctx ctx0) o
      (fun sf st => by rw [hone sf st]; rfl) hmem
      (settings_apply_state_init (settings_instance_get_ctx ctx0))
    have hget := settings_instance_get_override_not_ok hnot
    have hok : (settings_instance_get ctx0).1.isOk = false := by
      rw [hget]
      cases (settings_instance_override (settings_instance_get_ctx ctx0)
        (settings_apply_state_init (settings_instance_get_ctx ctx0))).1 <;> rfl
    refine ⟨hok, ?_, ?_⟩
    · intro hf
      rw [hget]
      cases hr : (settings_instance_override (settings_instance_get_ctx ctx0)
        (settings_apply_state_init (settings_instance_get_ctx ctx0))).1 with
      | ok a => rw [hr] at hnot; cases hnot
      | error e => rfl
      | fault f => rw [hr] at hf; cases hf
    · intro env event fk fv flags hctx
      unfold settings_get_full
      split
      · rfl
      · rw [hctx]
        exact hok
  · intro ht st cur hv
    refine ⟨heq ht st cur hv, ?_⟩
    intro hs sf
    exact settings_instance_override_one_assign sf st hm (heq ht st cur hv) hd' ht hs

set_option maxRecDepth 100000 in
/-- The append-form overrides of the schema `pop3c`: the override
`pop3c_port+=0` makes the resolution fail with "pop3c_port setting is not a string - can't use '+'", and
the override `pop3c_host+=.example.com` makes the parser receive
`mail.example.com`, the default followed by the override's value. -/
theorem settings_override_append_value_witness :
    settings_override_install override_example_env {} (cs "pop3c_port+") (cs "0")
        .SETTINGS_OVERRIDE_TYPE_CODE = .ok { overrides := [port_append_override] } ∧
    (settings_instance_get (pop3c_example_ctx [port_append_override])).1 =
      .error (.append_not_string (cs "pop3c_port")) ∧
    (settings_instance_get (pop3c_example_ctx [port_append_override])).1.isOk = false ∧
    settings_override_get_value
        (settings_instance_get_ctx (pop3c_example_ctx [host_append_override]))
        host_append_override
        (settings_apply_state_init
          (settings_instance_get_ctx (pop3c_example_ctx [host_append_override]))) =
      .ok (some (cs "pop3c_host", 0, cs "mail" ++ cs ".example.com")) ∧
    resolved_value (settings_instance_get (pop3c_example_ctx [host_append_override])).1 0 =
      some (cs "mail.example.com") :=
  ⟨by decide, by rfl,
   ((settings_override_append_value (pop3c_example_ctx [port_append_override])
      port_append_override (cs "pop3c_port") 1 ⟨.SET_IN_PORT, cs "pop3c_port"⟩ rfl
      (by decide) (by decide) (by decide)).1 (by decide)).2.2
      (by decide) |>.1,
   ((settings_override_append_value (pop3c_example_ctx [host_append_override])
      host_append_override (cs "pop3c_host") 0 ⟨.SET_STR, cs "pop3c_host"⟩ rfl
      (by decide) (by decide) (by decide)).2 rfl _ (cs "mail") rfl).1,
   by rfl⟩

set_option maxRecDepth 100000 in
/-- C23, the code at the failing input: the append-form override
`imap_literal_minus+=yes` has no scoping filter and its key resolves to the
boolean `imap_literal_minus`; alone it makes the resolution return the error
"imap_literal_minus setting is not a string - can't use '+'".  Together with
the override `imap_capability=IMAP4rev1` of a higher class, whose key is the
bare name of the schema's string list and which the sorted override pass
handles first, the resolution reaches `i_unreached()`: it aborts the process
and returns no Error. -/
theorem settings_override_append_behind_abort :
    settings_override_install override_example_env {} (cs "imap_literal_minus+") (cs "yes")
        .SETTINGS_OVERRIDE_TYPE_USERDB = .ok { overrides := [literal_append_override] } ∧
    (settings_get_full override_example_env
      (override_example_event [] none [literal_append_override]) none none
      login_example_info {}).1 = .error (.append_not_string (cs "imap_literal_minus")) ∧
    array_sort settings_override_cmp [literal_append_override, bare_list_override] =
      [bare_list_override, literal_append_override] ∧
    (settings_get_full override_example_env
      (override_example_event [] none [literal_append_override, bare_list_override])
      none none login_example_info {}).1 = .fault (.panic "i_unreached()") := by
  refine ⟨by decide, by rfl, by decide, by rfl⟩

/-- C24: when `SETTINGS_GET_FLAG_NO_CHECK` is not set and the merge completed
without error and the result is not NotFound, the resolution returns an Error
if and only if the validation callback of the schema rejects the merged
struct; the error is then "Invalid <schema> settings: <message>" with the
message of the callback, and otherwise the result is the struct as the callback
left it.  After an Error or NotFound result of any resolution `*set_r` is
NULL. -/
theorem settings_instance_get_check (ctx0 : settings_apply_ctx) (sf : Bool)
    (st : settings_apply_state)
    (hflag : ctx0.flags.SETTINGS_GET_FLAG_NO_CHECK = false)
    (hmerge : settings_instance_get_merge (settings_instance_get_ctx ctx0)
      (settings_apply_state_init (settings_instance_get_ctx ctx0)) = (.ok sf, st))
    (hfound : is_not_found (settings_instance_get ctx0).1 = false) :
    ((settings_instance_get ctx0).1.isError = true ↔
      ∃ f msg, ctx0.info.check_func = some f ∧ f st.parser = .error msg) ∧
    (∀ f msg, ctx0.info.check_func = some f → f st.parser = .error msg →
      (settings_instance_get ctx0).1 = .error (.invalid_settings ctx0.info.name msg)) ∧
    (∀ s, settings_check ctx0.info st.parser = .ok s →
      (settings_instance_get ctx0).1 = .ok (some s)) ∧
    (∀ ctx : settings_apply_ctx,
      (settings_instance_get ctx).1.isError = true ∨
        is_not_found (settings_instance_get ctx).1 = true →
      settings_get_set_r (settings_instance_get ctx).1 = none) := by
  have hk : (settings_instance_get_ctx ctx0).filter_key = ctx0.filter_key := rfl
  have hr : (settings_instance_get_ctx ctx0).filter_name_required =
    ctx0.filter_name_required := rfl
  have hf : (settings_instance_get_ctx ctx0).flags = ctx0.flags := rfl
  have hi : (settings_instance_get_ctx ctx0).info = ctx0.info := rfl
  have hget : (settings_instance_get ctx0).1 =
      (match settings_check ctx0.info st.parser with
       | .error error => .error (.invalid_settings ctx0.info.name error)
       | .ok set_struct => .ok (some set_struct)) := by
    unfold settings_instance_get at hfound ⊢
    simp only [hmerge, hk, hr, hf, hi, hflag] at hfound ⊢
    by_cases hc : (ctx0.filter_key.isSome && !sf && ctx0.filter_name_required) = true
    · simp only [hc, if_true] at hfound
      cases hfound
    · simp only [hc, if_false, Bool.not_false, if_true]
      cases settings_check ctx0.info st.parser <;> rfl
  have hcheck : ∀ msg, settings_check ctx0.info st.parser = .error msg ↔
      ∃ f, ctx0.info.check_func = some f ∧ f st.parser = .error msg := by
    intro msg
    unfold settings_check
    cases hcf : ctx0.info.check_func with
    | none => simp
    | some f =>
      simp only [Option.some.injEq, exists_eq_left']
      cases f st.parser <;> simp
  refine ⟨?_, ?_, ?_, ?_⟩
  · rw [hget]
    constructor
    · intro h
      cases hc : settings_check ctx0.info st.parser with
      | ok s => rw [hc] at h; cases h
      | error msg =>
        obtain ⟨f, h1, h2⟩ := (hcheck msg).mp hc
        exact ⟨f, msg, h1, h2⟩
    · rintro ⟨f, msg, h1, h2⟩
      rw [(hcheck msg).mpr ⟨f, h1, h2⟩]
      rfl
  · intro f msg h1 h2
    rw [hget, (hcheck msg).mpr ⟨f, h1, h2⟩]
  · intro s hs
    rw [hget, hs]
  · intro ctx h
    rcases h with h | h
    · cases hr : (settings_instance_get ctx).1 with
      | ok a => rw [hr] at h; cases h
      | error e => rfl
      | fault f => rfl
    · cases hr : (settings_instance_get ctx).1 with
      | ok a =>
        rw [hr] at h
        cases a with
        | none => rfl
        | some s => cases h
      | error e => rfl
      | fault f => rfl

set_option maxRecDepth 100000 in
/-- C24, checked on the schema `dict` with a validation callback that rejects
every struct: the resolution returns "Invalid dict settings: rejected". -/
theorem settings_instance_get_check_witness :
    is_not_found (settings_instance_get dict_strict_ctx).1 = false ∧
    (settings_instance_get dict_strict_ctx).1 =
      .error (.invalid_settings (cs "dict") (cs "rejected")) ∧
    settings_get_set_r (settings_instance_get dict_strict_ctx).1 = none :=
  ⟨by rfl,
   (settings_instance_get_check dict_strict_ctx false
      (settings_instance_get_merge (settings_instance_get_ctx dict_strict_ctx)
        (settings_apply_state_init (settings_instance_get_ctx dict_strict_ctx))).2
      rfl rfl (by rfl)).2.1 (fun _ => .error (cs "rejected")) (cs "rejected") rfl rfl,
   (settings_instance_get_check dict_strict_ctx false
      (settings_instance_get_merge (settings_instance_get_ctx dict_strict_ctx)
        (settings_apply_state_init (settings_instance_get_ctx dict_strict_ctx))).2
      rfl rfl (by rfl)).2.2.2 dict_strict_ctx (Or.inl rfl)⟩

theorem settings_mmap_parse_eq (p : settings_read_params) (mmap : settings_mmap) :
    settings_mmap_parse p mmap =
      (settings_mmap_parse_head p mmap).bind (fun r =>
        (settings_mmap_parse_blocks (mmap.mmap_size + 1) r.1 r.2.1).bind (fun m =>
          .ok (m, if r.2.2 = [] then none else some r.2.2))) := by
  unfold settings_mmap_parse settings_mmap_parse_head
  simp only
  cases memchr 10 mmap.mmap_base with
  | none => rfl
  | some eol =>
    simp only [Res.bind_assoc, Res.bind_ite_error]

theorem settings_read_filters_base {p : settings_read_params} {mmap m : settings_mmap}
    {offset o : Nat} {protocols pr : List CStr}
    (h : settings_read_filters p mmap offset protocols = .ok (m, o, pr)) :
    m.mmap_base = mmap.mmap_base ∧ m.blocks = mmap.blocks := by
  simp only [settings_read_filters, Res.bind_eq_ok, Res.ok.injEq, Prod.mk.injEq] at h
  obtain ⟨r, _, l, _, hm, _⟩ := h
  rw [← hm]
  exact ⟨rfl, rfl⟩

theorem settings_mmap_parse_head_base {p : settings_read_params} {base : List Byte}
    {m : settings_mmap} {o : Nat} {pr : List CStr}
    (h : settings_mmap_parse_head p { mmap_base := base } = .ok (m, o, pr)) :
    m.mmap_base = base ∧ m.blocks = [] := by
  unfold settings_mmap_parse_head at h
  simp only at h
  split at h
  · cases h
  · simp only [Res.bind_eq_ok, Res.ite_error_eq_ok] at h
    obtain ⟨_, c1, _, _, c2, _, _, size, _, _, hf⟩ := h
    exact settings_read_filters_base hf

theorem settings_block_read_fields_congr {base : List Byte} {mmap : settings_mmap}
    {offset : Nat} {b : settings_mmap_block}
    (hb : mmap.mmap_base = base) (hl : mmap.lookup b.name = none)
    (h : settings_block_read_fields { mmap_base := base } offset = .ok b) :
    settings_block_read_fields mmap offset = .ok b := by
  simp only [settings_block_read_fields, Res.bind_eq_ok, Res.ite_error_eq_ok] at h
  obtain ⟨r1, h1, last, h2, hlast, rn, h3, hdup, rc, h4, o4, h5, rb, h6, re, h7, rf, h8,
    o8, h9, hres⟩ := h
  simp only [settings_mmap.mmap_size] at h1
  have hname : b.name = rn.1 := by
    simp only [Res.ok.injEq] at hres
    rw [← hres]
  rw [hname] at hl
  simp only [settings_block_read_fields, settings_mmap.mmap_size, hb, h1, Res.bind_ok, h2,
    hlast, h3, hl, h4, h5, h6, h7, h8, h9, hres, ne_eq, not_true_eq_false, if_false,
    Option.isSome_none, Bool.false_eq_true]

theorem settings_block_read_congr {base : List Byte} {mmap : settings_mmap}
    {offset : Nat} {b : settings_mmap_block}
    (hb : mmap.mmap_base = base) (hl : mmap.lookup b.name = none)
    (h : settings_block_read { mmap_base := base } offset =
      .ok ({ mmap_base := base, blocks := [b] }, b.block_end_offset)) :
    settings_block_read mmap offset =
      .ok ({ mmap with blocks := mmap.blocks ++ [b] }, b.block_end_offset) := by
  rw [settings_block_read_eq, Res.bind_eq_ok] at h
  obtain ⟨b', hf, he⟩ := h
  simp only [settings_block_read_end, Res.ite_error_eq_ok, Res.ok.injEq, Prod.mk.injEq,
    settings_mmap.mk.injEq, List.nil_append, List.cons.injEq, and_true, true_and] at he
  obtain ⟨hne, hbb, hend⟩ := he
  subst hbb
  rw [settings_block_read_eq, settings_block_read_fields_congr hb hl hf, Res.bind_ok]
  simp only [settings_block_read_end, hend, ne_eq, not_true_eq_false, if_false]

theorem blocks_tile_length {base : List Byte} (hv : valid_mmap_size base) :
    ∀ (bs : List settings_mmap_block) (offset : Nat), blocks_tile base offset bs →
      offset + 8 * bs.length ≤ base.length := by
  intro bs
  induction bs with
  | nil =>
    intro offset h
    simp only [blocks_tile] at h
    simp [h]
  | cons b rest ih =>
    intro offset h
    obtain ⟨h1, h2⟩ := h
    obtain ⟨b', _, _, he, h8, _⟩ := @settings_block_read_ok { mmap_base := base } _ offset _ hv h1
    have := ih _ h2
    simp only [List.length_cons]
    omega

theorem settings_mmap_parse_blocks_tile {base : List Byte} (hv : valid_mmap_size base) :
    ∀ (bs : List settings_mmap_block) (fuel : Nat) (mmap : settings_mmap) (offset : Nat)
      (b : settings_mmap_block),
      mmap.mmap_base = base → blocks_tile base offset (b :: bs) →
      ((mmap.blocks ++ b :: bs).map (fun x => x.name)).Nodup → bs.length < fuel →
      settings_mmap_parse_blocks fuel mmap offset =
        .ok { mmap with blocks := mmap.blocks ++ b :: bs } := by
  intro bs
  induction bs with
  | nil =>
    intro fuel mmap offset b hb ht hnd hfuel
    obtain ⟨h1, h2⟩ := ht
    simp only [blocks_tile] at h2
    cases fuel with
    | zero => omega
    | succ fuel =>
      have hl : mmap.lookup b.name = none := by
        unfold settings_mmap.lookup
        rw [List.find?_eq_none]
        intro x hx hxn
        simp only [decide_eq_true_eq] at hxn
        simp only [List.map_append, List.map_cons, List.map_nil] at hnd
        have := (List.nodup_append.mp hnd).2.2
        exact this (List.mem_map.mpr ⟨x, hx, rfl⟩) (by simp [hxn])
      unfold settings_mmap_parse_blocks
      rw [settings_block_read_congr hb hl h1, Res.bind_ok]
      have hsz : mmap.mmap_size = base.length := by rw [settings_mmap.mmap_size, hb]
      simp only [hsz, h2, Nat.lt_irrefl, if_false]
  | cons c rest ih =>
    intro fuel mmap offset b hb ht hnd hfuel
    obtain ⟨h1, h2⟩ := ht
    cases fuel with
    | zero => simp at hfuel
    | succ fuel =>
      have hl : mmap.lookup b.name = none := by
        unfold settings_mmap.lookup
        rw [List.find?_eq_none]
        intro x hx hxn
        simp only [decide_eq_true_eq] at hxn
        simp only [List.map_append, List.map_cons] at hnd
        have := (List.nodup_append.mp hnd).2.2
        exact this (List.mem_map.mpr ⟨x, hx, rfl⟩) (by simp [hxn])
      have hlt : b.block_end_offset < base.length := by
        have := blocks_tile_length hv _ _ h2
        simp only [List.length_cons] at this
        omega
      unfold settings_mmap_parse_blocks
      rw [settings_block_read_congr hb hl h1, Res.bind_ok]
      have hsz : mmap.mmap_size = base.length := by rw [settings_mmap.mmap_size, hb]
      simp only [hsz, hlt, if_true]
      have := ih fuel { mmap with blocks := mmap.blocks ++ [b] } b.block_end_offset c hb h2
        (by simpa using hnd) (by simpa using hfuel)
      rw [this]
      simp

set_option maxRecDepth 100000 in
/-- C28, the input on which the claim fails: `no_block_blob` has a valid header,
the matching total size 4 and an empty filter table that ends at the end of
the buffer, so zero blocks fill the rest; the parse does not succeed, the block
loop runs once and fails with "Area too small when reading size of 'block
size'". -/
theorem settings_mmap_parse_rejects_zero_blocks :
    settings_mmap_parse_head example_read_params { mmap_base := no_block_blob } =
      .ok ({ mmap_base := no_block_blob }, 31, []) ∧
    blocks_tile no_block_blob 31 [] ∧
    settings_mmap_parse example_read_params { mmap_base := no_block_blob } =
      .error (.area_too_small_size "block size" 31 31 31) := by
  refine ⟨by decide, by unfold blocks_tile; decide, by decide⟩

/-- C28 (amended): for every blob whose header, total size and filter table are
accepted and are followed by k >= 1 well-formed blocks with distinct names that
exactly fill the rest of the buffer, `settings_mmap_parse` succeeds and the
block index holds exactly those k blocks, in their order; with k = 0, when the
filter table ends at the end of the buffer, the parse fails with "Area too small
when reading size of 'block size'". -/
theorem settings_mmap_parse_tiled (p : settings_read_params) (base : List Byte)
    (m1 : settings_mmap) (o1 : Nat) (pr : List CStr) (bs : List settings_mmap_block)
    (hv : valid_mmap_size base)
    (hhead : settings_mmap_parse_head p { mmap_base := base } = .ok (m1, o1, pr))
    (htile : blocks_tile base o1 bs)
    (hnd : (bs.map (fun b => b.name)).Nodup) :
    (bs ≠ [] →
      settings_mmap_parse p { mmap_base := base } =
        .ok ({ m1 with blocks := bs }, if pr = [] then none else some pr)) ∧
    (bs = [] →
      settings_mmap_parse p { mmap_base := base } =
        .error (.area_too_small_size "block size" o1 base.length base.length)) := by
  obtain ⟨hb1, hb2⟩ := settings_mmap_parse_head_base hhead
  constructor
  · intro hne
    cases bs with
    | nil => exact absurd rfl hne
    | cons b rest =>
      have hlen := blocks_tile_length hv _ _ htile
      simp only [List.length_cons] at hlen
      have hloop := settings_mmap_parse_blocks_tile hv rest (base.length + 1) m1 o1 b hb1 htile
        (by rw [hb2]; exact hnd) (by omega)
      rw [settings_mmap_parse_eq, hhead, Res.bind_ok]
      simp only [settings_mmap.mmap_size]
      rw [hloop, Res.bind_ok, hb2]
      rfl
  · intro he
    subst he
    simp only [blocks_tile] at htile
    subst htile
    rw [settings_mmap_parse_eq, hhead, Res.bind_ok]
    simp only [settings_mmap.mmap_size]
    unfold settings_mmap_parse_blocks settings_block_read settings_block_read_size
    unfold valid_mmap_size at hv
    have hw : wrap64 (base.length + 8) = base.length + 8 := wrap64_of_lt (by omega)
    simp only [settings_mmap.mmap_size, hb1, hw]
    simp only [gt_iff_lt, Nat.lt_add_right_iff_pos, Nat.zero_lt_succ, if_true]
    rfl

set_option maxRecDepth 100000 in
/-- C28, checked on `two_blocks_blob`: the blocks `a` and `b` fill the buffer
behind the filter table, and the parse returns an index with these two
blocks. -/
theorem settings_mmap_parse_tiled_witness :
    valid_mmap_size two_blocks_blob ∧
    settings_mmap_parse_head example_read_params { mmap_base := two_blocks_blob } =
      .ok ({ mmap_base := two_blocks_blob }, 31, []) ∧
    blocks_tile two_blocks_blob 31 two_blocks ∧
    (two_blocks.map (fun b => b.name)).Nodup ∧
    settings_mmap_parse example_read_params { mmap_base := two_blocks_blob } =
      .ok ({ mmap_base := two_blocks_blob, blocks := two_blocks }, none) :=
  ⟨by unfold valid_mmap_size; decide, by decide,
   ⟨by decide, by decide, by unfold blocks_tile; decide⟩, by decide,
   (settings_mmap_parse_tiled example_read_params two_blocks_blob
      { mmap_base := two_blocks_blob } 31 [] two_blocks (by unfold valid_mmap_size; decide)
      (by decide) ⟨by decide, by decide, by unfold blocks_tile; decide⟩ (by decide)).1
      (by decide)⟩

theorem settings_mmap_apply_key_frame (ctx : settings_apply_ctx) (i' : settings_instance)
    (r' : settings_root) (m' : Option settings_mmap) (key_idx : Nat)
    (strlist_key : Option CStr) (value : CStr) (st : settings_apply_state) :
    settings_mmap_apply_key { ctx with inst := i', root := r' } key_idx strlist_key value
        { st with mmap := m' } =
      ((settings_mmap_apply_key ctx key_idx strlist_key value st).1,
       { (settings_mmap_apply_key ctx key_idx strlist_key value st).2 with mmap := m' }) := by
  unfold settings_mmap_apply_key
  simp only
  cases ctx.info.define_at key_idx with
  | none => rfl
  | some d =>
    simp only
    split
    · rfl
    · have he : settings_mmap_apply_key_expand { ctx with inst := i', root := r' } d strlist_key
          (settings_mmap_apply_key_name d strlist_key) value =
          settings_mmap_apply_key_expand ctx d strlist_key
          (settings_mmap_apply_key_name d strlist_key) value := rfl
      rw [he]
      cases settings_mmap_apply_key_expand ctx d strlist_key
          (settings_mmap_apply_key_name d strlist_key) value with
      | error e => rfl
      | fault f => rfl
      | ok v =>
        simp only
        split <;> rfl

theorem settings_mmap_apply_defaults_loop_frame (ctx : settings_apply_ctx)
    (i' : settings_instance) (r' : settings_root) (m' : Option settings_mmap) :
    ∀ (ds : List setting_define) (key_idx : Nat) (st : settings_apply_state),
      settings_mmap_apply_defaults_loop { ctx with inst := i', root := r' } ds key_idx
          { st with mmap := m' } =
        ((settings_mmap_apply_defaults_loop ctx ds key_idx st).1,
         { (settings_mmap_apply_defaults_loop ctx ds key_idx st).2 with mmap := m' }) := by
  intro ds
  induction ds with
  | nil => intro key_idx st; rfl
  | cons d ds ih =>
    intro key_idx st
    unfold settings_mmap_apply_defaults_loop
    simp only
    split
    · exact ih _ _
    · split
      · exact ih _ _
      · split
        · exact ih _ _
        · split
          · rfl
          · split
            · split
              · rfl
              · split
                · split
                  · exact ih (key_idx + 1) ⟨_, st.set_seen, st.mmap⟩
                  · rfl
                · exact ih _ _
            · exact ih _ _

theorem settings_mmap_apply_defaults_frame (ctx : settings_apply_ctx)
    (i' : settings_instance) (r' : settings_root) (m' : Option settings_mmap)
    (st : settings_apply_state) :
    settings_mmap_apply_defaults { ctx with inst := i', root := r' } { st with mmap := m' } =
      ((settings_mmap_apply_defaults ctx st).1,
       { (settings_mmap_apply_defaults ctx st).2 with mmap := m' }) :=
  settings_mmap_apply_defaults_loop_frame ctx i' r' m' _ _ _

theorem settings_mmap_apply_blob_gate_frame (base : List Byte) (d : setting_define)
    (key_idx offset : Nat) (m' : Option settings_mmap) (st : settings_apply_state) :
    settings_mmap_apply_blob_gate base d key_idx offset { st with mmap := m' } =
      ((settings_mmap_apply_blob_gate base d key_idx offset st).1,
       { (settings_mmap_apply_blob_gate base d key_idx offset st).2 with mmap := m' }) := by
  unfold settings_mmap_apply_blob_gate
  simp only
  split
  · cases c_str_at base offset <;> rfl
  · split
    · rfl
    · split <;> rfl

theorem settings_mmap_apply_blob_value_frame (ctx : settings_apply_ctx)
    (i' : settings_instance) (r' : settings_root) (m' : Option settings_mmap)
    (base : List Byte) (end_offset key_idx : Nat) (strlist_key : Option CStr) (offset : Nat)
    (set_apply : Bool) (st : settings_apply_state) :
    settings_mmap_apply_blob_value { ctx with inst := i', root := r' } base end_offset key_idx
        strlist_key offset set_apply { st with mmap := m' } =
      ((settings_mmap_apply_blob_value ctx base end_offset key_idx strlist_key offset
          set_apply st).1,
       { (settings_mmap_apply_blob_value ctx base end_offset key_idx strlist_key offset
          set_apply st).2 with mmap := m' }) := by
  unfold settings_mmap_apply_blob_value
  simp only
  split
  · rfl
  · cases c_str_at base offset with
    | error e => rfl
    | fault f => rfl
    | ok value =>
      simp only
      split
      · rfl
      · split
        · rfl
        · rw [settings_mmap_apply_key_frame]
          rcases settings_mmap_apply_key ctx key_idx strlist_key value st with ⟨r, st2⟩
          cases r <;> rfl

theorem settings_mmap_apply_blob_pair_frame (ctx : settings_apply_ctx)
    (i' : settings_instance) (r' : settings_root) (m' : Option settings_mmap)
    (base : List Byte) (block : settings_mmap_block) (v : Bool) (end_offset offset : Nat)
    (st : settings_apply_state) :
    settings_mmap_apply_blob_pair { ctx with inst := i', root := r' } base
        { block with settings_validated := v } end_offset offset { st with mmap := m' } =
      ((settings_mmap_apply_blob_pair ctx base block end_offset offset st).1,
       { (settings_mmap_apply_blob_pair ctx base block end_offset offset st).2 with
         mmap := m' }) := by
  unfold settings_mmap_apply_blob_pair
  simp only
  cases be32_to_cpu_unaligned base offset with
  | error e => rfl
  | fault f => rfl
  | ok key_idx =>
    simp only
    split
    · rfl
    · cases ctx.info.define_at key_idx with
      | none => rfl
      | some d =>
        simp only
        rw [settings_mmap_apply_blob_gate_frame]
        rcases settings_mmap_apply_blob_gate base d key_idx (offset + 4) st with ⟨r, st2⟩
        cases r with
        | error e => rfl
        | fault f => rfl
        | ok a =>
          obtain ⟨sk, off, sa⟩ := a
          exact settings_mmap_apply_blob_value_frame ctx i' r' m' base end_offset key_idx sk
            off sa st2

theorem settings_mmap_apply_blob_loop_frame (ctx : settings_apply_ctx)
    (i' : settings_instance) (r' : settings_root) (m' : Option settings_mmap)
    (base : List Byte) (block : settings_mmap_block) (v : Bool) (end_offset : Nat) :
    ∀ (fuel offset : Nat) (st : settings_apply_state),
      settings_mmap_apply_blob_loop { ctx with inst := i', root := r' } base
          { block with settings_validated := v } end_offset fuel offset
          { st with mmap := m' } =
        ((settings_mmap_apply_blob_loop ctx base block end_offset fuel offset st).1,
         { (settings_mmap_apply_blob_loop ctx base block end_offset fuel offset st).2 with
           mmap := m' }) := by
  intro fuel
  induction fuel with
  | zero => intro offset st; rfl
  | succ fuel ih =>
    intro offset st
    unfold settings_mmap_apply_blob_loop
    split
    · rfl
    · rw [settings_mmap_apply_blob_pair_frame]
      rcases settings_mmap_apply_blob_pair ctx base block end_offset offset st with ⟨r, st2⟩
      cases r with
      | error e => rfl
      | fault f => rfl
      | ok o => exact ih o st2

theorem settings_mmap_apply_blob_frame (ctx : settings_apply_ctx)
    (i' : settings_instance) (r' : settings_root) (m' : Option settings_mmap)
    (base : List Byte) (block : settings_mmap_block) (v : Bool)
    (start_offset end_offset : Nat) (st : settings_apply_state) :
    settings_mmap_apply_blob { ctx with inst := i', root := r' } base
        { block with settings_validated := v } start_offset end_offset
        { st with mmap := m' } =
      ((settings_mmap_apply_blob ctx base block start_offset end_offset st).1,
       { (settings_mmap_apply_blob ctx base block start_offset end_offset st).2 with
         mmap := m' }) :=
  settings_mmap_apply_blob_loop_frame ctx i' r' m' base block v end_offset _ _ _

theorem settings_mmap_apply_filter_frame (ctx : settings_apply_ctx)
    (i' : settings_instance) (r' : settings_root) (m' : Option settings_mmap)
    (mmap : settings_mmap) (bl' : List settings_mmap_block) (block : settings_mmap_block)
    (v : Bool) (i : Nat) (seen_filter : Bool) (st : settings_apply_state) :
    settings_mmap_apply_filter { ctx with inst := i', root := r' } { mmap with blocks := bl' }
        { block with settings_validated := v } i seen_filter { st with mmap := m' } =
      ((settings_mmap_apply_filter ctx mmap block i seen_filter st).1,
       { (settings_mmap_apply_filter ctx mmap block i seen_filter st).2 with mmap := m' }) := by
  unfold settings_mmap_apply_filter
  have hl : settings_mmap_filter_lookup { mmap with blocks := bl' }
      { block with settings_validated := v } i = settings_mmap_filter_lookup mmap block i := rfl
  rw [hl]
  cases settings_mmap_filter_lookup mmap block i with
  | error e => rfl
  | fault f => rfl
  | ok ef =>
    simp only
    have hm : settings_event_filter_matches { ctx with inst := i', root := r' } ef =
        settings_event_filter_matches ctx ef := by
      cases ef <;> rfl
    rw [hm]
    split
    · rfl
    · have hr : settings_mmap_filter_region mmap.mmap_base
          { block with settings_validated := v } i =
          settings_mmap_filter_region mmap.mmap_base block i := rfl
      rw [hr]
      cases settings_mmap_filter_region mmap.mmap_base block i with
      | error e => rfl
      | fault f => rfl
      | ok o =>
        obtain ⟨o1, o2⟩ := o
        simp only
        rw [settings_mmap_apply_blob_frame]
        rcases settings_mmap_apply_blob ctx mmap.mmap_base block o1 o2 st with ⟨r, st2⟩
        cases r <;> rfl

theorem settings_mmap_apply_filters_frame (ctx : settings_apply_ctx)
    (i' : settings_instance) (r' : settings_root) (m' : Option settings_mmap)
    (mmap : settings_mmap) (bl' : List settings_mmap_block) (block : settings_mmap_block)
    (v : Bool) :
    ∀ (i : Nat) (seen_filter : Bool) (st : settings_apply_state),
      settings_mmap_apply_filters { ctx with inst := i', root := r' }
          { mmap with blocks := bl' } { block with settings_validated := v } i seen_filter
          { st with mmap := m' } =
        ((settings_mmap_apply_filters ctx mmap block i seen_filter st).1,
         { (settings_mmap_apply_filters ctx mmap block i seen_filter st).2 with
           mmap := m' }) := by
  intro i
  induction i with
  | zero => intro sf st; rfl
  | succ i ih =>
    intro sf st
    unfold settings_mmap_apply_filters
    rw [settings_mmap_apply_filter_frame]
    rcases settings_mmap_apply_filter ctx mmap block i sf st with ⟨r, st2⟩
    cases r with
    | error e => rfl
    | fault f => rfl
    | ok sf2 => exact ih sf2 st2

theorem settings_instance_override_one_frame (ctx : settings_apply_ctx)
    (i' : settings_instance) (r' : settings_root) (m' : Option settings_mmap)
    (set : settings_override) (seen_filter : Bool) (st : settings_apply_state) :
    settings_instance_override_one { ctx with inst := i', root := r' } set seen_filter
        { st with mmap := m' } =
      ((settings_instance_override_one ctx set seen_filter st).1,
       { (settings_instance_override_one ctx set seen_filter st).2 with mmap := m' }) := by
  unfold settings_instance_override_one
  have hm : settings_override_matches { ctx with inst := i', root := r' } set =
      settings_override_matches ctx set := rfl
  have hg : settings_override_get_value { ctx with inst := i', root := r' } set
      { st with mmap := m' } = settings_override_get_value ctx set st := rfl
  rw [hm, hg]
  simp only
  split
  · rfl
  · cases settings_override_get_value ctx set st with
    | error e => rfl
    | fault f => rfl
    | ok a =>
      cases a with
      | none => rfl
      | some a =>
        obtain ⟨key, key_idx, value⟩ := a
        simp only
        cases ctx.info.defines[key_idx]? with
        | none => rfl
        | some d =>
          simp only
          by_cases h1 : d.type = .SET_STRLIST
          · simp only [h1, if_true]
            cases (d.key ++ cs "/").isPrefixOf key with
            | false => rfl
            | true =>
              cases settings_parse_strlist_has_key st.parser key_idx
                  (key.drop (d.key.length + 1)) with
              | true => rfl
              | false =>
                simp only [Bool.not_true, Bool.false_eq_true, if_false]
                split
                · rfl
                · split <;> rfl
          · simp only [h1, if_false]
            by_cases h4 : d.type = .SET_FILTER_ARRAY
            · simp only [h4, ne_eq, not_true_eq_false, if_false]
              split
              · rfl
              · split <;> rfl
            · simp only [ne_eq, h4, not_false_eq_true, if_true]
              cases st.set_seen key_idx with
              | true => rfl
              | false =>
                simp only [Bool.false_eq_true, if_false, settings_apply_state.mark]
                split
                · rfl
                · split <;> rfl

theorem settings_instance_override_loop_frame (ctx : settings_apply_ctx)
    (i' : settings_instance) (r' : settings_root) (m' : Option settings_mmap) :
    ∀ (l : List settings_override) (seen_filter : Bool) (st : settings_apply_state),
      settings_instance_override_loop { ctx with inst := i', root := r' } l seen_filter
          { st with mmap := m' } =
        ((settings_instance_override_loop ctx l seen_filter st).1,
         { (settings_instance_override_loop ctx l seen_filter st).2 with mmap := m' }) := by
  intro l
  induction l with
  | nil => intro sf st; rfl
  | cons a rest ih =>
    intro sf st
    unfold settings_instance_override_loop
    rw [settings_instance_override_one_frame]
    rcases settings_instance_override_one ctx a sf st with ⟨r, st2⟩
    cases r with
    | error e => rfl
    | fault f => rfl
    | ok sf2 => exact ih sf2 st2

theorem settings_mmap_apply_filters_mmap (ctx : settings_apply_ctx) (mmap : settings_mmap)
    (block : settings_mmap_block) (i : Nat) (seen_filter : Bool) (st : settings_apply_state)
    (m' : Option settings_mmap) :
    settings_mmap_apply_filters ctx mmap block i seen_filter { st with mmap := m' } =
      ((settings_mmap_apply_filters ctx mmap block i seen_filter st).1,
       { (settings_mmap_apply_filters ctx mmap block i seen_filter st).2 with mmap := m' }) :=
  settings_mmap_apply_filters_frame ctx ctx.inst ctx.root m' mmap mmap.blocks block
    block.settings_validated i seen_filter st

theorem settings_mmap_apply_blob_mmap (ctx : settings_apply_ctx) (base : List Byte)
    (block : settings_mmap_block) (start_offset end_offset : Nat) (st : settings_apply_state)
    (m' : Option settings_mmap) :
    settings_mmap_apply_blob ctx base block start_offset end_offset { st with mmap := m' } =
      ((settings_mmap_apply_blob ctx base block start_offset end_offset st).1,
       { (settings_mmap_apply_blob ctx base block start_offset end_offset st).2 with
         mmap := m' }) :=
  settings_mmap_apply_blob_frame ctx ctx.inst ctx.root m' base block block.settings_validated
    start_offset end_offset st

theorem settings_mmap_apply_after_validation (ctx : settings_apply_ctx)
    (i' : settings_instance) (r' : settings_root) (m1 m2 : Option settings_mmap)
    (mmap : settings_mmap) (bl' : List settings_mmap_block) (block : settings_mmap_block)
    (v : Bool) (st : settings_apply_state) :
    ∃ (r : Res Bool) (p : setting_parser_context) (seen : Nat → Bool),
      (match settings_mmap_apply_filters { ctx with inst := i', root := r' }
            { mmap with blocks := bl' } { block with settings_validated := v }
            block.filter_count false { st with mmap := m2 } with
        | (.error e, st) => (Res.error e, st)
        | (.fault f, st) => (.fault f, st)
        | (.ok seen_filter, st) =>
          match settings_mmap_apply_blob { ctx with inst := i', root := r' } mmap.mmap_base
              { block with settings_validated := v } block.base_start_offset
              block.base_end_offset st with
          | (.ok _, st) => (.ok seen_filter, st)
          | (.error e, st) => (.error e, st)
          | (.fault f, st) => (.fault f, st)) = (r, { parser := p, set_seen := seen, mmap := m2 }) ∧
      (match settings_mmap_apply_filters ctx mmap block block.filter_count false
            { st with mmap := m1 } with
        | (.error e, st) => (Res.error e, st)
        | (.fault f, st) => (.fault f, st)
        | (.ok seen_filter, st) =>
          match settings_mmap_apply_blob ctx mmap.mmap_base block block.base_start_offset
              block.base_end_offset st with
          | (.ok _, st) => (.ok seen_filter, st)
          | (.error e, st) => (.error e, st)
          | (.fault f, st) => (.fault f, st)) = (r, { parser := p, set_seen := seen, mmap := m1 }) := by
  rw [settings_mmap_apply_filters_frame ctx i' r' m2 mmap bl' block v block.filter_count false st,
    settings_mmap_apply_filters_mmap ctx mmap block block.filter_count false st m1]
  rcases settings_mmap_apply_filters ctx mmap block block.filter_count false st with ⟨r, st2⟩
  cases r with
  | error e => exact ⟨_, _, _, rfl, rfl⟩
  | fault f => exact ⟨_, _, _, rfl, rfl⟩
  | ok sf =>
    simp only
    have h1 := settings_mmap_apply_blob_frame ctx i' r' m2 mmap.mmap_base block v
      block.base_start_offset block.base_end_offset st2
    have h2 := settings_mmap_apply_blob_mmap ctx mmap.mmap_base block
      block.base_start_offset block.base_end_offset st2 m1
    rw [h1, h2]
    rcases settings_mmap_apply_blob ctx mmap.mmap_base block block.base_start_offset
      block.base_end_offset st2 with ⟨r, st3⟩
    cases r with
    | error e => exact ⟨_, _, _, rfl, rfl⟩
    | fault f => exact ⟨_, _, _, rfl, rfl⟩
    | ok u => exact ⟨_, _, _, rfl, rfl⟩

theorem settings_mmap_validate_loop_block (base : List Byte) (block : settings_mmap_block)
    (v : Bool) (info_name : CStr) :
    ∀ (ds : List setting_define) (i offset : Nat),
      settings_mmap_validate_loop base { block with settings_validated := v } info_name ds i
          offset = settings_mmap_validate_loop base block info_name ds i offset := by
  intro ds
  induction ds with
  | nil => intro i offset; rfl
  | cons d ds ih =>
    intro i offset
    unfold settings_mmap_validate_loop
    simp only [ih]

theorem settings_mmap_validate_block (mmap : settings_mmap) (bl' : List settings_mmap_block)
    (block : settings_mmap_block) (v : Bool) (info : setting_parser_info) :
    settings_mmap_validate { mmap with blocks := bl' } { block with settings_validated := v }
        info = settings_mmap_validate mmap block info := by
  unfold settings_mmap_validate
  simp only [settings_mmap_validate_loop_block]

theorem apply_state_agree_of_eq {A B : Res Bool × settings_apply_state} {r : Res Bool}
    {p : setting_parser_context} {seen : Nat → Bool} {m1 m2 : Option settings_mmap}
    (e2 : A = (r, { parser := p, set_seen := seen, mmap := m2 }))
    (e1 : B = (r, { parser := p, set_seen := seen, mmap := m1 })) :
    A.1 = B.1 ∧ A.2.parser = B.2.parser ∧ A.2.set_seen = B.2.set_seen := by
  subst e2 e1
  exact ⟨rfl, rfl, rfl⟩

theorem settings_mmap_apply_agree (ctx : settings_apply_ctx) (i' : settings_instance)
    (r' : settings_root) (m' : Option settings_mmap) (mmap mmap' : settings_mmap)
    (st : settings_apply_state)
    (h : settings_mmap_revalidated ctx.info ctx.flags mmap mmap') :
    (settings_mmap_apply { ctx with inst := i', root := r' } mmap' { st with mmap := m' }).1 =
        (settings_mmap_apply ctx mmap st).1 ∧
      (settings_mmap_apply { ctx with inst := i', root := r' } mmap'
          { st with mmap := m' }).2.parser = (settings_mmap_apply ctx mmap st).2.parser ∧
      (settings_mmap_apply { ctx with inst := i', root := r' } mmap'
          { st with mmap := m' }).2.set_seen = (settings_mmap_apply ctx mmap st).2.set_seen := by
  obtain ⟨hb, hf, hc, hl⟩ := h
  obtain ⟨base', ef', efc', bl'⟩ := mmap'
  simp only at hb hf hc
  subst hb hf hc
  unfold settings_mmap_apply
  simp only
  cases hlk : mmap.lookup ctx.info.name with
  | none =>
    rw [hlk] at hl
    simp only at hl
    rw [hl]
    exact ⟨rfl, rfl, rfl⟩
  | some block =>
    rw [hlk] at hl
    obtain ⟨v, hl', hv⟩ := hl
    rw [hl']
    obtain ⟨bname, beo, berr, bbs, bbe, bfc, bfi, bfo, bsc, bsk, bv⟩ := block
    simp only
    cases berr with
    | some e => exact ⟨rfl, rfl, rfl⟩
    | none =>
      simp only at hv ⊢
      have hval := settings_mmap_validate_block mmap bl'
        ⟨bname, beo, none, bbs, bbe, bfc, bfi, bfo, bsc, bsk, bv⟩ v ctx.info
      simp only at hval
      rw [hval]
      have key : ∀ (m1 m2 : Option settings_mmap), _ :=
        fun m1 m2 => settings_mmap_apply_after_validation ctx i' r' m1 m2 mmap bl'
          ⟨bname, beo, none, bbs, bbe, bfc, bfi, bfo, bsc, bsk, bv⟩ v st
      simp only at key
      cases bv with
      | true =>
        -- the block was validated before
        have hv' : v = true := by
          rcases hv with hv | ⟨hv, _⟩ <;> exact hv
        subst hv'
        simp only [Bool.not_true, Bool.false_and, Bool.false_eq_true, if_false]
        obtain ⟨r, p, seen, e2, e1⟩ := key st.mmap m'
        exact apply_state_agree_of_eq e2 e1
      | false =>
        cases hfl : ctx.flags.SETTINGS_GET_NO_KEY_VALIDATION with
        | true =>
          simp only [Bool.not_true, Bool.and_false, Bool.false_eq_true, if_false]
          obtain ⟨r, p, seen, e2, e1⟩ := key st.mmap m'
          exact apply_state_agree_of_eq e2 e1
        | false =>
          rw [hfl] at hv
          simp only [Bool.not_false, Bool.and_true, Bool.and_self, if_true]
          cases v with
          | false =>
            simp only [Bool.not_false, if_true]
            cases hvr : settings_mmap_validate mmap
                ⟨bname, beo, none, bbs, bbe, bfc, bfi, bfo, bsc, bsk, false⟩ ctx.info with
            | error e => exact ⟨rfl, rfl, rfl⟩
            | fault f => exact ⟨rfl, rfl, rfl⟩
            | ok u =>
              simp only [Res.bind_ok]
              obtain ⟨r, p, seen, e2, e1⟩ := key
                (some (mmap.set_validated bname))
                (some (settings_mmap.set_validated
                  { mmap_base := mmap.mmap_base, event_filters := mmap.event_filters,
                    event_filters_count := mmap.event_filters_count, blocks := bl' } bname))
              exact apply_state_agree_of_eq e2 e1
          | true =>
            have hvr : settings_mmap_validate mmap
                ⟨bname, beo, none, bbs, bbe, bfc, bfi, bfo, bsc, bsk, false⟩ ctx.info =
                .ok () := by
              rcases hv with hv | ⟨_, hv | hv⟩
              · cases hv
              · cases hv
              · exact hv
            simp only [Bool.not_true, Bool.false_eq_true, if_false, hvr, Res.bind_ok]
            obtain ⟨r, p, seen, e2, e1⟩ := key (some (mmap.set_validated bname)) m'
            exact apply_state_agree_of_eq e2 e1

theorem settings_instance_override_loop_filter (ctx : settings_apply_ctx) :
    ∀ (l : List settings_override) (seen_filter : Bool) (st : settings_apply_state),
      settings_instance_override_loop ctx (l.filter (settings_override_matches ctx))
          seen_filter st = settings_instance_override_loop ctx l seen_filter st := by
  intro l
  induction l with
  | nil => intro sf st; rfl
  | cons a rest ih =>
    intro sf st
    cases hm : settings_override_matches ctx a with
    | true =>
      rw [List.filter_cons_of_pos hm]
      unfold settings_instance_override_loop
      rcases settings_instance_override_one ctx a sf st with ⟨r, st2⟩
      cases r with
      | error e => rfl
      | fault f => rfl
      | ok sf2 => exact ih sf2 st2
    | false =>
      rw [List.filter_cons_of_neg (by simp [hm])]
      have hone : settings_instance_override_one ctx a sf st = (.ok sf, st) := by
        unfold settings_instance_override_one
        simp only [hm, Bool.not_false, if_true]
      conv => rhs; unfold settings_instance_override_loop
      simp only [hone]
      exact ih sf st

theorem array_sort_overrides_filter (P : settings_override → Bool)
    (l : List settings_override) :
    (array_sort settings_override_cmp l).filter P =
      array_sort settings_override_cmp (l.filter P) := by
  simp only [array_sort_overrides, List.filter_append, List.filter_filter, Bool.and_comm]

theorem settings_instance_override_congr (ctx : settings_apply_ctx) (i' : settings_instance)
    (r' : settings_root) (m' : Option settings_mmap) (st : settings_apply_state)
    (h : (i'.overrides ++ r'.overrides).filter (settings_override_matches ctx) =
      (ctx.inst.overrides ++ ctx.root.overrides).filter (settings_override_matches ctx)) :
    settings_instance_override { ctx with inst := i', root := r' } { st with mmap := m' } =
      ((settings_instance_override ctx st).1,
       { (settings_instance_override ctx st).2 with mmap := m' }) := by
  unfold settings_instance_override
  simp only
  rw [settings_instance_override_loop_frame,
    ← settings_instance_override_loop_filter ctx
      (array_sort settings_override_cmp (i'.overrides ++ r'.overrides)),
    ← settings_instance_override_loop_filter ctx
      (array_sort settings_override_cmp (ctx.inst.overrides ++ ctx.root.overrides)),
    array_sort_overrides_filter, array_sort_overrides_filter, h]

theorem settings_instance_get_merge_agree (ctx : settings_apply_ctx) (i' : settings_instance)
    (r' : settings_root) (m' : Option settings_mmap) (st : settings_apply_state)
    (h : (i'.overrides ++ r'.overrides).filter (settings_override_matches ctx) =
      (ctx.inst.overrides ++ ctx.root.overrides).filter (settings_override_matches ctx))
    (hm : settings_mmap_revalidated_opt ctx.info ctx.flags ctx.inst.mmap i'.mmap) :
    (settings_instance_get_merge { ctx with inst := i', root := r' } { st with mmap := m' }).1 =
        (settings_instance_get_merge ctx st).1 ∧
      (settings_instance_get_merge { ctx with inst := i', root := r' }
          { st with mmap := m' }).2.parser = (settings_instance_get_merge ctx st).2.parser ∧
      (settings_instance_get_merge { ctx with inst := i', root := r' }
          { st with mmap := m' }).2.set_seen =
        (settings_instance_get_merge ctx st).2.set_seen := by
  unfold settings_instance_get_merge
  rw [settings_instance_override_congr ctx i' r' m' st h]
  rcases settings_instance_override ctx st with ⟨ro, sto⟩
  cases ro with
  | error e => exact ⟨rfl, rfl, rfl⟩
  | fault f => exact ⟨rfl, rfl, rfl⟩
  | ok seen1 =>
    simp only
    cases h1 : ctx.inst.mmap with
    | none =>
      cases h2 : i'.mmap with
      | some x => rw [h1, h2] at hm; exact hm.elim
      | none =>
        simp only
        rw [settings_mmap_apply_defaults_frame ctx i' r' m' sto]
        rcases settings_mmap_apply_defaults ctx sto with ⟨rd, std⟩
        cases rd <;> exact ⟨rfl, rfl, rfl⟩
    | some mmap =>
      cases h2 : i'.mmap with
      | none => rw [h1, h2] at hm; exact hm.elim
      | some mmap' =>
        rw [h1, h2] at hm
        simp only
        obtain ⟨a1, a2, a3⟩ := settings_mmap_apply_agree ctx i' r' m' mmap mmap' sto hm
        rcases hx : settings_mmap_apply ctx mmap sto with ⟨ra, sta⟩
        rcases hy : settings_mmap_apply { ctx with inst := i', root := r' } mmap'
          { sto with mmap := m' } with ⟨ra', sta'⟩
        rw [hx, hy] at a1 a2 a3
        simp only at a1 a2 a3
        subst a1
        have hsta : sta' = { sta with mmap := sta'.mmap } := by
          cases sta'
          simp only at a2 a3
          subst a2 a3
          rfl
        cases ra' with
        | error e => exact ⟨rfl, a2, a3⟩
        | fault f => exact ⟨rfl, a2, a3⟩
        | ok seen2 =>
          simp only
          rw [hsta, settings_mmap_apply_defaults_frame ctx i' r' sta'.mmap sta]
          rcases settings_mmap_apply_defaults ctx sta with ⟨rd, std⟩
          cases rd <;> exact ⟨rfl, rfl, rfl⟩

theorem settings_instance_get_congr (ctx0 : settings_apply_ctx) (i' : settings_instance)
    (r' : settings_root)
    (hp : r'.protocol_name = ctx0.root.protocol_name)
    (h : (i'.overrides ++ r'.overrides).filter
        (settings_override_matches (settings_instance_get_ctx ctx0)) =
      (ctx0.inst.overrides ++ ctx0.root.overrides).filter
        (settings_override_matches (settings_instance_get_ctx ctx0)))
    (hm : settings_mmap_revalidated_opt ctx0.info ctx0.flags ctx0.inst.mmap i'.mmap) :
    (settings_instance_get { ctx0 with inst := i', root := r' }).1 =
      (settings_instance_get ctx0).1 := by
  have hctx : settings_instance_get_ctx { ctx0 with inst := i', root := r' } =
      { settings_instance_get_ctx ctx0 with inst := i', root := r' } := by
    unfold settings_instance_get_ctx
    simp only [hp]
  have hinit : settings_apply_state_init
      { settings_instance_get_ctx ctx0 with inst := i', root := r' } =
      { settings_apply_state_init (settings_instance_get_ctx ctx0) with mmap := i'.mmap } := rfl
  obtain ⟨a1, a2, a3⟩ := settings_instance_get_merge_agree (settings_instance_get_ctx ctx0)
    i' r' i'.mmap (settings_apply_state_init (settings_instance_get_ctx ctx0)) h hm
  unfold settings_instance_get
  simp only
  rw [hctx, hinit]
  rcases hx : settings_instance_get_merge (settings_instance_get_ctx ctx0)
    (settings_apply_state_init (settings_instance_get_ctx ctx0)) with ⟨ra, sta⟩
  rcases hy : settings_instance_get_merge
    { settings_instance_get_ctx ctx0 with inst := i', root := r' }
    { settings_apply_state_init (settings_instance_get_ctx ctx0) with mmap := i'.mmap }
    with ⟨ra', sta'⟩
  rw [hx, hy] at a1 a2 a3
  simp only at a1 a2 a3
  subst a1
  cases ra' with
  | error e => rfl
  | fault f => rfl
  | ok sf =>
    simp only
    split
    · rfl
    · split
      · rw [a2]
        cases settings_check (settings_instance_get_ctx ctx0).info sta.parser <;> rfl
      · rw [a2]

theorem key_segments_no_slash :
    ∀ (s : CStr), (47 : Byte) ∉ s → key_segments s = [s] := by
  intro s
  induction s with
  | nil => intro _; rfl
  | cons b rest ih =>
    intro h
    simp only [List.mem_cons, not_or] at h
    have hb : ¬ b = 47 := fun hc => h.1 hc.symm
    simp only [key_segments, hb, if_false, ih h.2]

theorem key_segments_append (b : CStr) :
    ∀ (a : CStr), (47 : Byte) ∉ a → key_segments (a ++ 47 :: b) = a :: key_segments b := by
  intro a
  induction a with
  | nil => intro _; simp [key_segments]
  | cons c rest ih =>
    intro h
    simp only [List.mem_cons, not_or] at h
    have hc : ¬ c = 47 := fun hx => h.1 hx.symm
    show key_segments (c :: (rest ++ 47 :: b)) = _
    simp only [key_segments, hc, if_false, ih h.2]

theorem find_filter_ne (k key : CStr) (hne : k ≠ key) (l : List (CStr × CStr)) :
    (l.filter (fun f => f.1 ≠ key)).find? (fun f => f.1 = k) =
      l.find? (fun f => f.1 = k) := by
  rw [List.find?_filter]
  congr 1
  funext a
  by_cases h1 : a.1 = k
  · have h2 : ¬ k = key := hne
    simp [h1, h2]
  · simp [h1]

theorem event_find_field_add_str (ev : event) (key value k : CStr) (hne : k ≠ key) :
    event_find_field_recursive (event_add_str ev key value) k =
      event_find_field_recursive ev k := by
  cases ev with
  | nil =>
    have hk : ¬ key = k := fun hc => hne hc.symm
    simp [event_add_str, event_find_field_recursive, hk]
  | cons n parents =>
    simp only [event_add_str, event_find_field_recursive]
    have hk : ¬ key = k := fun hc => hne hc.symm
    simp only [List.find?_cons, hk, decide_False, find_filter_ne k key hne]

theorem settings_instance_get_ctx_find_field (ctx0 : settings_apply_ctx) (k : CStr)
    (hne : k ≠ cs "protocol") :
    event_find_field_recursive (settings_instance_get_ctx ctx0).event k =
      event_find_field_recursive ctx0.event k := by
  unfold settings_instance_get_ctx
  simp only
  split
  · exact event_find_field_add_str _ _ _ _ hne
  · rfl

theorem settings_mmap_revalidated_refl (info : setting_parser_info)
    (flags : settings_get_flags) (m : Option settings_mmap) :
    settings_mmap_revalidated_opt info flags m m := by
  cases m with
  | none => trivial
  | some m =>
    refine ⟨rfl, rfl, rfl, ?_⟩
    cases hl : m.lookup info.name with
    | none => rfl
    | some b => exact ⟨b.settings_validated, rfl, Or.inl rfl⟩

/-- C25: an override installed with the key `ns/k` (no further `/`, not
starting with `plugin`) whose filter text `settings_filter_name="ns"` the
event filter parser reads as the test of the filter name for `ns` is stored
with that filter, the named filter `ns` and the key `k`; in every context
whose event does not carry the filter name `ns` the override is out of scope,
and resolving any schema with the override in the instance's or the root's
list, at any position, gives the same result (status and settings struct) as
resolving without it. -/
theorem settings_override_scope_isolation (env : settings_env) (set : settings_override)
    (ns k : CStr) (ctx0 : settings_apply_ctx)
    (hns : (47 : Byte) ∉ ns) (hk : (47 : Byte) ∉ k)
    (hpl : (cs "plugin").isPrefixOf (ns ++ 47 :: k) = false)
    (hparse : env.event_filter_parse_case_sensitive
      (SETTINGS_EVENT_FILTER_NAME ++ cs "=\"" ++ env.wildcard_str_escape ns ++ cs "\"") =
        .ok (.field_eq SETTINGS_EVENT_FILTER_NAME ns))
    (hname : event_find_field_recursive ctx0.event SETTINGS_EVENT_FILTER_NAME ≠ some ns) :
    settings_override_get_filter env set (ns ++ 47 :: k) =
      .ok { set with key := k, filter := some (.field_eq SETTINGS_EVENT_FILTER_NAME ns),
                     last_filter_key := some ns, last_filter_value := none } ∧
    ∀ o : settings_override, o.filter = some (.field_eq SETTINGS_EVENT_FILTER_NAME ns) →
      settings_override_matches (settings_instance_get_ctx ctx0) o = false ∧
      ∀ l1 l2 : List settings_override,
        (settings_instance_get
            { ctx0 with inst := { ctx0.inst with overrides := l1 ++ o :: l2 } }).1 =
          (settings_instance_get
            { ctx0 with inst := { ctx0.inst with overrides := l1 ++ l2 } }).1 ∧
        (settings_instance_get
            { ctx0 with root := { ctx0.root with overrides := l1 ++ o :: l2 } }).1 =
          (settings_instance_get
            { ctx0 with root := { ctx0.root with overrides := l1 ++ l2 } }).1 := by
  constructor
  · have hseg : key_segments (ns ++ 47 :: k) = [ns, k] := by
      rw [key_segments_append k ns hns, key_segments_no_slash k hk]
    have hj : join_segments [ns, k] = ns ++ 47 :: k := rfl
    rw [settings_override_get_filter_eq]
    simp only [override_compiled, override_named_filter, override_key_rest, override_key_pairs,
      hseg, peel_pairs, hj, hpl, Bool.false_eq_true, if_false, override_named_filter_text,
      override_clauses_text, override_filter_text_and, override_parse_filter,
      List.nil_append, hparse]
  · intro o ho
    have hfalse : settings_override_matches (settings_instance_get_ctx ctx0) o = false := by
      unfold settings_override_matches
      rw [ho]
      simp only [event_filter_match]
      rw [settings_instance_get_ctx_find_field ctx0 _ (by decide)]
      simpa using hname
    refine ⟨hfalse, ?_⟩
    intro l1 l2
    constructor
    · have := settings_instance_get_congr
        { ctx0 with inst := { ctx0.inst with overrides := l1 ++ l2 } }
        { ctx0.inst with overrides := l1 ++ o :: l2 } ctx0.root rfl
        (by
          have hm : settings_override_matches (settings_instance_get_ctx
              { ctx0 with inst := { ctx0.inst with overrides := l1 ++ l2 } }) o = false := hfalse
          simp only [List.filter_append, List.filter_cons, hm, Bool.false_eq_true, if_false])
        (settings_mmap_revalidated_refl _ _ _)
      exact this
    · have := settings_instance_get_congr
        { ctx0 with root := { ctx0.root with overrides := l1 ++ l2 } }
        ctx0.inst { ctx0.root with overrides := l1 ++ o :: l2 } rfl
        (by
          have hm : settings_override_matches (settings_instance_get_ctx
              { ctx0 with root := { ctx0.root with overrides := l1 ++ l2 } }) o = false := hfalse
          simp only [List.filter_append, List.filter_cons, hm, Bool.false_eq_true, if_false])
        (settings_mmap_revalidated_refl _ _ _)
      exact this

set_option maxRecDepth 100000 in
/-- C25, checked on the override `mail_attribute_dict/dict_driver=file` and the
schema `dict`: for an event without filter name the resolution with the override
equals the one without it and `dict_driver` keeps its default, whereas for an
event with the filter name `mail_attribute_dict` the override sets
`dict_driver`. -/
theorem settings_override_scope_isolation_witness :
    settings_override_get_filter override_example_env override_example_set
        (cs "mail_attribute_dict" ++ 47 :: cs "dict_driver") = .ok mail_attribute_override ∧
    (settings_instance_get
        { dict_fields_ctx [] with inst := { overrides := [mail_attribute_override] } }).1 =
      (settings_instance_get (dict_fields_ctx [])).1 ∧
    resolved_value (settings_instance_get
        { dict_fields_ctx [] with inst := { overrides := [mail_attribute_override] } }).1 1 =
      some [] ∧
    resolved_value (settings_instance_get
        { dict_fields_ctx [(SETTINGS_EVENT_FILTER_NAME, cs "mail_attribute_dict")] with
          inst := { overrides := [mail_attribute_override] } }).1 1 = some (cs "file") :=
  ⟨(settings_override_scope_isolation override_example_env override_example_set
      (cs "mail_attribute_dict") (cs "dict_driver") (dict_fields_ctx []) (by decide)
      (by decide) (by decide) (by rfl) (by decide)).1,
   ((settings_override_scope_isolation override_example_env override_example_set
      (cs "mail_attribute_dict") (cs "dict_driver") (dict_fields_ctx []) (by decide)
      (by decide) (by decide) (by rfl) (by decide)).2 mail_attribute_override rfl).2
      [] [] |>.1,
   by rfl, by rfl⟩

theorem settings_mmap_set_validated_lookup {mmap : settings_mmap} {name : CStr}
    {block : settings_mmap_block} (h : mmap.lookup name = some block) :
    (mmap.set_validated block.name).lookup name =
      some { block with settings_validated := true } := by
  unfold settings_mmap.lookup settings_mmap.set_validated at *
  simp only
  rw [List.find?_map]
  have hp : ((fun b : settings_mmap_block => decide (b.name = name)) ∘
      fun b => if b.name = block.name then { b with settings_validated := true } else b) =
      fun b => decide (b.name = name) := by
    funext b
    simp only [Function.comp]
    split <;> rfl
  rw [hp, h]
  simp

theorem settings_mmap_revalidated_set_validated {info : setting_parser_info}
    {flags : settings_get_flags} {mmap : settings_mmap} {block : settings_mmap_block}
    (h : mmap.lookup info.name = some block)
    (hv : settings_mmap_validate mmap block info = .ok ()) :
    settings_mmap_revalidated info flags mmap (mmap.set_validated block.name) := by
  refine ⟨rfl, rfl, rfl, ?_⟩
  rw [h]
  exact ⟨true, settings_mmap_set_validated_lookup h, Or.inr ⟨rfl, Or.inr hv⟩⟩

theorem settings_mmap_apply_mmap (ctx : settings_apply_ctx) (mmap : settings_mmap)
    (st : settings_apply_state) :
    (settings_mmap_apply ctx mmap st).2.mmap = st.mmap ∨
      ∃ block, mmap.lookup ctx.info.name = some block ∧
        settings_mmap_validate mmap block ctx.info = .ok () ∧
        (settings_mmap_apply ctx mmap st).2.mmap = some (mmap.set_validated block.name) := by
  unfold settings_mmap_apply
  cases hlk : mmap.lookup ctx.info.name with
  | none => exact Or.inl rfl
  | some block =>
    obtain ⟨bname, beo, berr, bbs, bbe, bfc, bfi, bfo, bsc, bsk, bv⟩ := block
    simp only
    cases berr with
    | some e => exact Or.inl rfl
    | none =>
      simp only
      have key : ∀ (m1 : Option settings_mmap), _ :=
        fun m1 => settings_mmap_apply_after_validation ctx ctx.inst ctx.root m1 m1 mmap
          mmap.blocks ⟨bname, beo, none, bbs, bbe, bfc, bfi, bfo, bsc, bsk, bv⟩ bv st
      by_cases hcond : (!bv && !ctx.flags.SETTINGS_GET_NO_KEY_VALIDATION) = true
      · simp only [hcond, if_true]
        cases hvr : settings_mmap_validate mmap
            ⟨bname, beo, none, bbs, bbe, bfc, bfi, bfo, bsc, bsk, bv⟩ ctx.info with
        | error e => exact Or.inl rfl
        | fault f => exact Or.inl rfl
        | ok u =>
          simp only [Res.bind_ok]
          obtain ⟨r, p, seen, _, e1⟩ := key (some (mmap.set_validated bname))
          exact Or.inr ⟨_, rfl, hvr, congrArg (fun x => x.2.mmap) e1⟩
      · simp only [hcond, if_false]
        obtain ⟨r, p, seen, _, e1⟩ := key st.mmap
        exact Or.inl (congrArg (fun x => x.2.mmap) e1)

theorem settings_instance_get_merge_mmap (ctx : settings_apply_ctx)
    (st : settings_apply_state) (hst : st.mmap = ctx.inst.mmap) :
    settings_mmap_revalidated_opt ctx.info ctx.flags ctx.inst.mmap
      (settings_instance_get_merge ctx st).2.mmap := by
  unfold settings_instance_get_merge
  have ho := settings_instance_override_congr ctx ctx.inst ctx.root st.mmap st rfl
  have ho2 : (settings_instance_override ctx st).2.mmap = st.mmap :=
    congrArg (fun x => x.2.mmap) ho
  rcases hov : settings_instance_override ctx st with ⟨ro, sto⟩
  rw [hov] at ho2
  simp only at ho2
  cases ro with
  | error e =>
    simp only
    rw [ho2, hst]
    exact settings_mmap_revalidated_refl _ _ _
  | fault f =>
    simp only
    rw [ho2, hst]
    exact settings_mmap_revalidated_refl _ _ _
  | ok seen1 =>
    simp only
    have hd : ∀ s : settings_apply_state,
        (settings_mmap_apply_defaults ctx s).2.mmap = s.mmap := fun s =>
      congrArg (fun x => x.2.mmap)
        (settings_mmap_apply_defaults_frame ctx ctx.inst ctx.root s.mmap s)
    cases hm : ctx.inst.mmap with
    | none =>
      simp only
      have := hd sto
      rcases hdd : settings_mmap_apply_defaults ctx sto with ⟨rd, std⟩
      rw [hdd] at this
      simp only at this
      have hfin : std.mmap = none := by rw [this, ho2, hst, hm]
      cases rd <;> simp only [hfin] <;> trivial
    | some mmap =>
      simp only
      have ha := settings_mmap_apply_mmap ctx mmap sto
      rcases hap : settings_mmap_apply ctx mmap sto with ⟨ra, sta⟩
      rw [hap] at ha
      simp only at ha
      have hsta : settings_mmap_revalidated_opt ctx.info ctx.flags (some mmap) sta.mmap := by
        rcases ha with ha | ⟨block, h1, h2, h3⟩
        · rw [ha, ho2, hst, hm]
          exact settings_mmap_revalidated_refl _ _ _
        · rw [h3]
          exact settings_mmap_revalidated_set_validated h1 h2
      cases ra with
      | error e => exact hsta
      | fault f => exact hsta
      | ok seen2 =>
        simp only
        have := hd sta
        rcases hdd : settings_mmap_apply_defaults ctx sta with ⟨rd, std⟩
        rw [hdd] at this
        simp only at this
        cases rd <;> simp only [this] <;> exact hsta

theorem settings_instance_get_mmap (ctx0 : settings_apply_ctx) :
    settings_mmap_revalidated_opt ctx0.info ctx0.flags ctx0.inst.mmap
      (settings_instance_get ctx0).2.mmap := by
  have h := settings_instance_get_merge_mmap (settings_instance_get_ctx ctx0)
    (settings_apply_state_init (settings_instance_get_ctx ctx0)) rfl
  have hi : (settings_instance_get_ctx ctx0).info = ctx0.info := rfl
  have hf : (settings_instance_get_ctx ctx0).flags = ctx0.flags := rfl
  have hm : (settings_instance_get_ctx ctx0).inst = ctx0.inst := rfl
  rw [hi, hf, hm] at h
  unfold settings_instance_get
  simp only
  rcases hx : settings_instance_get_merge (settings_instance_get_ctx ctx0)
    (settings_apply_state_init (settings_instance_get_ctx ctx0)) with ⟨r, st⟩
  rw [hx] at h
  simp only at h
  cases r with
  | error e => exact h
  | fault f => exact h
  | ok sf =>
    simp only
    split
    · exact h
    · split
      · cases settings_check (settings_instance_get_ctx ctx0).info st.parser <;> exact h
      · exact h

/-- C26: a resolution is a function of the blob, the override lists, the
context, the schema and the flags, so equal inputs give equal results; the
blob that a resolution leaves is the blob it found, with at most the
`settings_validated` flag of the schema's block set after a successful key
validation; and a second resolution in the same context on the blob as the
first one left it, which skips that validation, returns the same status and
the same settings struct as the first one, also as the result of
`settings_get_full`. -/
theorem settings_get_full_repeatable (ctx0 : settings_apply_ctx) :
    settings_mmap_revalidated_opt ctx0.info ctx0.flags ctx0.inst.mmap
      (settings_instance_get ctx0).2.mmap ∧
    (settings_instance_get
        { ctx0 with inst := { ctx0.inst with mmap := (settings_instance_get ctx0).2.mmap } }).1 =
      (settings_instance_get ctx0).1 ∧
    ∀ (env : settings_env) (ev : event) (fk fv : Option CStr) (flags : settings_get_flags),
      fk.isNone = fv.isNone →
      settings_get_full_ctx env ev fk fv ctx0.info flags = some ctx0 →
      (settings_get_full env ev fk fv ctx0.info flags).1 = (settings_instance_get ctx0).1 ∧
      (settings_instance_get
          { ctx0 with
            inst := { ctx0.inst with
                      mmap := (settings_get_full env ev fk fv ctx0.info flags).2.bind
                        (fun st => st.mmap) } }).1 =
        (settings_get_full env ev fk fv ctx0.info flags).1 := by
  have h1 := settings_instance_get_mmap ctx0
  have h2 : (settings_instance_get
      { ctx0 with inst := { ctx0.inst with mmap := (settings_instance_get ctx0).2.mmap } }).1 =
      (settings_instance_get ctx0).1 :=
    settings_instance_get_congr ctx0
      { ctx0.inst with mmap := (settings_instance_get ctx0).2.mmap } ctx0.root rfl rfl h1
  refine ⟨h1, h2, ?_⟩
  intro env ev fk fv flags ha hc
  rw [settings_get_full_fst ha hc]
  exact ⟨rfl, h2⟩

set_option maxRecDepth 100000 in
/-- C26, checked on the schema `fs` and `fs_blob`: the block `fs` is not
validated before the first resolution and validated after it, and the second
resolution, on the blob the first one left, returns the same result. -/
theorem settings_get_full_repeatable_witness :
    ((fs_example_ctx (cs "imap") [] []).inst.mmap.bind
        (fun m => m.lookup (cs "fs"))).map (fun b => b.settings_validated) = some false ∧
    ((settings_instance_get (fs_example_ctx (cs "imap") [] [])).2.mmap.bind
        (fun m => m.lookup (cs "fs"))).map (fun b => b.settings_validated) = some true ∧
    is_found (settings_instance_get (fs_example_ctx (cs "imap") [] [])).1 = true ∧
    (settings_instance_get
        { fs_example_ctx (cs "imap") [] [] with
          inst := { (fs_example_ctx (cs "imap") [] []).inst with
                    mmap := (settings_instance_get (fs_example_ctx (cs "imap") [] [])).2.mmap } }).1 =
      (settings_instance_get (fs_example_ctx (cs "imap") [] [])).1 ∧
    settings_get_full_ctx example_env (fs_example_event (cs "imap") [] []) none none
      fs_setting_parser_info {} = some fs_example_full_ctx ∧
    (settings_instance_get
        { fs_example_full_ctx with
          inst := { fs_example_full_ctx.inst with
                    mmap := (settings_get_full example_env (fs_example_event (cs "imap") [] [])
                      none none fs_setting_parser_info {}).2.bind (fun st => st.mmap) } }).1 =
      (settings_get_full example_env (fs_example_event (cs "imap") [] []) none none
        fs_setting_parser_info {}).1 :=
  ⟨by decide, by decide, by rfl,
   (settings_get_full_repeatable (fs_example_ctx (cs "imap") [] [])).2.1,
   rfl,
   ((settings_get_full_repeatable fs_example_full_ctx).2.2 example_env
      (fs_example_event (cs "imap") [] []) none none {} rfl rfl).2⟩

theorem bytes_at_append_left {base : List Byte} {offset : Nat} {x y : List Byte}
    (h : bytes_at base offset (x ++ y)) : bytes_at base offset x := by
  obtain ⟨t, ht⟩ := h
  exact ⟨y ++ t, by rw [← ht, List.append_assoc]⟩

theorem bytes_at_append_right {base : List Byte} {offset : Nat} {x y : List Byte}
    (h : bytes_at base offset (x ++ y)) : bytes_at base (offset + x.length) y := by
  obtain ⟨t, ht⟩ := h
  refine ⟨t, ?_⟩
  rw [← List.drop_drop, ← ht, List.append_assoc, List.drop_left]

theorem bytes_at_length {base : List Byte} {offset : Nat} {x : List Byte}
    (h : bytes_at base offset x) (hx : x ≠ []) : offset + x.length ≤ base.length := by
  obtain ⟨t, ht⟩ := h
  have hl := congrArg List.length ht
  simp only [List.length_append, List.length_drop] at hl
  have : 0 < x.length := List.length_pos.mpr hx
  omega

theorem bytes_at_take {base : List Byte} {offset : Nat} {x : List Byte}
    (h : bytes_at base offset x) : (base.drop offset).take x.length = x := by
  obtain ⟨t, ht⟩ := h
  rw [← ht, List.take_left]

theorem be_bytes_length : ∀ (n v : Nat), (be_bytes n v).length = n := by
  intro n
  induction n with
  | zero => intro v; rfl
  | succ n ih => intro v; simp [be_bytes, ih]

theorem be_value_append (a : List Byte) (b : Byte) :
    be_value (a ++ [b]) = be_value a * 256 + b.val := by
  simp [be_value, List.foldl_append]

theorem be_value_be_bytes : ∀ (n v : Nat), v < 256 ^ n → be_value (be_bytes n v) = v := by
  intro n
  induction n with
  | zero =>
    intro v hv
    simp at hv
    subst hv
    rfl
  | succ n ih =>
    intro v hv
    rw [be_bytes, be_value_append, ih (v / 256)]
    · have : (Fin.ofNat (v % 256) : Byte).val = v % 256 := by
        show (v % 256) % 256 = v % 256
        omega
      rw [this]
      omega
    · rw [Nat.pow_succ] at hv
      omega

theorem read_bytes_at {base : List Byte} {offset : Nat} {x : List Byte}
    (h : bytes_at base offset x) (hx : x ≠ []) : read_bytes base offset x.length = .ok x := by
  unfold read_bytes
  rw [if_pos (bytes_at_length h hx), bytes_at_take h]

theorem be32_at {base : List Byte} {offset v : Nat}
    (h : bytes_at base offset (be_bytes 4 v)) (hv : v < 4294967296) :
    be32_to_cpu_unaligned base offset = .ok v := by
  have hne : be_bytes 4 v ≠ [] := by
    intro hc
    have := be_bytes_length 4 v
    rw [hc] at this
    cases this
  have := read_bytes_at h hne
  rw [be_bytes_length] at this
  unfold be32_to_cpu_unaligned
  rw [this, Res.bind_ok, be_value_be_bytes 4 v (by norm_num; exact hv)]

theorem be64_at {base : List Byte} {offset v : Nat}
    (h : bytes_at base offset (be_bytes 8 v)) (hv : v < 18446744073709551616) :
    be64_to_cpu_unaligned base offset = .ok v := by
  have hne : be_bytes 8 v ≠ [] := by
    intro hc
    have := be_bytes_length 8 v
    rw [hc] at this
    cases this
  have := read_bytes_at h hne
  rw [be_bytes_length] at this
  unfold be64_to_cpu_unaligned
  rw [this, Res.bind_ok, be_value_be_bytes 8 v (by norm_num; exact hv)]

theorem c_str_nul_free : ∀ (s : CStr) (t : List Byte), nul_free s →
    c_str (s ++ 0 :: t) = some s := by
  intro s
  induction s with
  | nil => intro t _; simp [c_str]
  | cons b rest ih =>
    intro t h
    unfold nul_free at h
    simp only [List.mem_cons, not_or] at h
    have hb : ¬ b = 0 := fun hc => h.1 hc.symm
    show c_str (b :: (rest ++ 0 :: t)) = _
    simp only [c_str, hb, if_false, ih t h.2, Option.map_some']

theorem c_str_at_nul_free {base : List Byte} {offset : Nat} {s : CStr}
    (h : bytes_at base offset (encode_str s)) (hs : nul_free s) :
    c_str_at base offset = .ok s := by
  obtain ⟨t, ht⟩ := h
  unfold c_str_at
  rw [← ht]
  unfold encode_str
  rw [List.append_assoc]
  simp only [List.singleton_append, c_str_nul_free s t hs]

theorem read_byte_at {base : List Byte} {offset : Nat} {b : Byte}
    (h : bytes_at base offset [b]) : read_byte base offset = .ok b := by
  obtain ⟨t, ht⟩ := h
  unfold read_byte
  rw [← ht]
  rfl

theorem be_bytes_ne_nil (n v : Nat) : be_bytes (n + 1) v ≠ [] := by
  intro hc
  have := be_bytes_length (n + 1) v
  rw [hc] at this
  cases this

theorem settings_block_read_uint32_at {base : List Byte} {offset end_offset v : Nat}
    (name : String) (hv : valid_mmap_size base)
    (h : bytes_at base offset (be_bytes 4 v)) (hlt : v < 4294967296)
    (hend : offset + 4 ≤ end_offset) :
    settings_block_read_uint32 base offset end_offset name = .ok (v, offset + 4) := by
  have hl := bytes_at_length h (be_bytes_ne_nil 3 v)
  rw [be_bytes_length] at hl
  unfold valid_mmap_size at hv
  have hw : wrap64 (offset + 4) = offset + 4 := wrap64_of_lt (by omega)
  unfold settings_block_read_uint32
  rw [hw, if_neg (by omega), be32_at h hlt, Res.bind_ok]

theorem settings_block_read_size_at {base : List Byte} {offset end_offset v : Nat}
    (name : String) (hv : valid_mmap_size base)
    (h : bytes_at base offset (be_bytes 8 v)) (hend : offset + 8 + v ≤ end_offset)
    (hlt : v < 18446744073709551616) :
    settings_block_read_size base offset end_offset name = .ok (v, offset + 8) := by
  have hl := bytes_at_length h (be_bytes_ne_nil 7 v)
  rw [be_bytes_length] at hl
  unfold valid_mmap_size at hv
  have hw : wrap64 (offset + 8) = offset + 8 := wrap64_of_lt (by omega)
  unfold settings_block_read_size
  rw [hw, if_neg (by omega), be64_at h hlt, Res.bind_ok, if_neg (by omega)]

theorem settings_block_read_str_at {base : List Byte} {offset end_offset : Nat} {s : CStr}
    (name : String) (hv : valid_mmap_size base)
    (h : bytes_at base offset (encode_str s)) (hs : nul_free s)
    (hend : offset + (s.length + 1) ≤ end_offset) :
    settings_block_read_str base offset end_offset name = .ok (s, offset + (s.length + 1)) := by
  have hl := bytes_at_length h (by simp [encode_str])
  simp only [encode_str, List.length_append, List.length_singleton] at hl
  unfold valid_mmap_size at hv
  have hw : wrap64 (offset + (s.length + 1)) = offset + (s.length + 1) :=
    wrap64_of_lt (by omega)
  unfold settings_block_read_str
  rw [c_str_at_nul_free h hs, Res.bind_ok]
  simp only [hw]
  rw [if_neg (by omega)]

theorem encode_str_length (s : CStr) : (encode_str s).length = s.length + 1 := by
  simp [encode_str]

theorem encode_sized_length (r : List Byte) : (encode_sized r).length = 8 + r.length := by
  simp [encode_sized, be_bytes_length]

theorem encode_region_length (error : CStr) (pairs : List blob_pair) :
    (encode_region error pairs).length =
      error.length + 1 + (pairs.flatMap encode_pair).length := by
  simp only [encode_region, encode_str, List.length_append, List.length_singleton]

theorem settings_block_read_keys_at {base : List Byte} {end_offset : Nat}
    (hv : valid_mmap_size base) :
    ∀ (ks : List CStr) (offset offset' : Nat),
      bytes_at base offset (encode_keys ks) → (∀ k ∈ ks, nul_free k) →
      offset' = offset + (encode_keys ks).length → offset' ≤ end_offset →
      settings_block_read_keys base end_offset ks.length offset = .ok offset' := by
  intro ks
  induction ks with
  | nil =>
    intro offset offset' _ _ ho _
    simp only [encode_keys, List.length_nil, Nat.add_zero] at ho
    subst ho
    rfl
  | cons k ks ih =>
    intro offset offset' hb hn ho hend
    simp only [encode_keys, List.length_append, encode_str_length] at ho
    have h1 := bytes_at_append_left hb
    have h2 := bytes_at_append_right hb
    rw [encode_str_length] at h2
    simp only [List.length_cons, settings_block_read_keys]
    rw [settings_block_read_str_at "setting key" hv h1 (hn k (List.mem_cons_self _ _))
      (by omega), Res.bind_ok]
    exact ih _ _ h2 (fun x hx => hn x (List.mem_cons_of_mem _ hx)) (by omega) hend

theorem settings_block_read_filters_at {base : List Byte} {end_offset : Nat}
    (hv : valid_mmap_size base) :
    ∀ (fs : List blob_filter) (offset offset' : Nat),
      bytes_at base offset (encode_filters fs) → (∀ f ∈ fs, nul_free f.error) →
      offset' = offset + (encode_filters fs).length → offset' ≤ end_offset →
      settings_block_read_filters base end_offset fs.length offset = .ok offset' := by
  intro fs
  induction fs with
  | nil =>
    intro offset offset' _ _ ho _
    simp only [encode_filters, List.length_nil, Nat.add_zero] at ho
    subst ho
    rfl
  | cons f fs ih =>
    intro offset offset' hb hn ho hend
    simp only [encode_filters, List.length_append, encode_sized_length] at ho
    have h1 := bytes_at_append_left hb
    have h2 := bytes_at_append_right hb
    rw [encode_sized_length] at h2
    have h3 : bytes_at base offset (be_bytes 8 (encode_region f.error f.pairs).length) :=
      bytes_at_append_left h1
    have h4 : bytes_at base (offset + 8) (encode_region f.error f.pairs) := by
      have := bytes_at_append_right h1
      rwa [be_bytes_length] at this
    have h5 : bytes_at base (offset + 8) (encode_str f.error) := bytes_at_append_left h4
    have hlen := encode_region_length f.error f.pairs
    have hbl := bytes_at_length h4 (by simp [encode_region, encode_str])
    unfold valid_mmap_size at hv
    simp only [List.length_cons, settings_block_read_filters]
    rw [settings_block_read_size_at "filter settings size" hv h3 (by omega) (by omega),
      Res.bind_ok]
    simp only
    rw [settings_block_read_str_at "filter error string" hv h5
      (hn f (List.mem_cons_self _ _)) (by omega), Res.bind_ok]
    exact ih _ _ (by rwa [Nat.add_assoc]) (fun x hx => hn x (List.mem_cons_of_mem _ hx))
      (by omega) hend

theorem filter_offsets_length : ∀ (fs : List blob_filter) (start : Nat),
    (filter_offsets start fs).length = fs.length := by
  intro fs
  induction fs with
  | nil => intro start; rfl
  | cons f fs ih => intro start; simp [filter_offsets, ih]

theorem flatMap_be_bytes_length {α : Type} (n : Nat) (g : α → Nat) :
    ∀ (l : List α), (l.flatMap (fun a => be_bytes n (g a))).length = n * l.length := by
  intro l
  induction l with
  | nil => rfl
  | cons a l ih =>
    simp only [List.flatMap_cons, List.length_append, be_bytes_length, ih, List.length_cons]
    rw [Nat.mul_succ]
    omega

theorem encode_block_body_length (start : Nat) (b : blob_block) :
    (encode_block_body start b).length =
      (b.name.length + 1) + 4 + (encode_keys b.keys).length +
        (8 + (encode_region b.error b.pairs).length) + 4 + (encode_filters b.filters).length +
        (4 * b.filters.length + 8 * b.filters.length) + 1 := by
  have h1 := flatMap_be_bytes_length 4 (fun f : blob_filter => f.filter_idx) b.filters
  have h2 := flatMap_be_bytes_length 8 (fun x : Nat => x)
    (filter_offsets (start + 8 + (b.name.length + 1) + 4 + (encode_keys b.keys).length +
      (8 + (encode_region b.error b.pairs).length) + 4) b.filters)
  rw [filter_offsets_length] at h2
  simp only [encode_block_body, List.length_append, encode_str_length, be_bytes_length,
    encode_sized_length, h1, h2, List.length_singleton]
  omega

theorem settings_block_read_at {base : List Byte} (hv : valid_mmap_size base) (start : Nat)
    (b : blob_block) (hb : bytes_at base start (encode_block start b))
    (hvb : valid_block b) :
    settings_block_read { mmap_base := base } start =
      .ok ({ mmap_base := base, blocks := [block_index start b] },
           (block_index start b).block_end_offset) := by
  obtain ⟨hn1, hn2, hn3, hn4, hc1, hc2⟩ := hvb
  have hL := encode_block_body_length start b
  have hlen := bytes_at_length hb (by simp [encode_block, encode_sized, be_bytes])
  rw [encode_block, encode_sized_length] at hlen
  have hvv := hv
  unfold valid_mmap_size at hvv
  -- the fields of the block
  have hsz : bytes_at base start (be_bytes 8 (encode_block_body start b).length) :=
    bytes_at_append_left hb
  have hbody : bytes_at base (start + 8) (encode_block_body start b) := by
    have := bytes_at_append_right hb
    rwa [be_bytes_length] at this
  unfold encode_block_body at hbody
  have hname := bytes_at_append_left hbody
  have r1 := bytes_at_append_right hbody
  rw [encode_str_length] at r1
  have hcount := bytes_at_append_left r1
  have r2 := bytes_at_append_right r1
  rw [be_bytes_length] at r2
  have hkeys := bytes_at_append_left r2
  have r3 := bytes_at_append_right r2
  have hbase := bytes_at_append_left r3
  have r4 := bytes_at_append_right r3
  rw [encode_sized_length] at r4
  have hbsz : bytes_at base
      (start + 8 + (b.name.length + 1) + 4 + (encode_keys b.keys).length)
      (be_bytes 8 (encode_region b.error b.pairs).length) := bytes_at_append_left hbase
  have hreg : bytes_at base
      (start + 8 + (b.name.length + 1) + 4 + (encode_keys b.keys).length + 8)
      (encode_region b.error b.pairs) := by
    have := bytes_at_append_right hbase
    rwa [be_bytes_length] at this
  have herr := bytes_at_append_left hreg
  have hfc := bytes_at_append_left r4
  have r5 := bytes_at_append_right r4
  rw [be_bytes_length] at r5
  have hfil := bytes_at_append_left r5
  have r6 := bytes_at_append_right r5
  have hnul := bytes_at_append_right r6
  have hrl := encode_region_length b.error b.pairs
  have h1 := flatMap_be_bytes_length 4 (fun f : blob_filter => f.filter_idx) b.filters
  have h2 := flatMap_be_bytes_length 8 (fun x : Nat => x)
    (filter_offsets (start + 8 + (b.name.length + 1) + 4 + (encode_keys b.keys).length +
      (8 + (encode_region b.error b.pairs).length) + 4) b.filters)
  rw [filter_offsets_length] at h2
  simp only [List.length_append, h1, h2] at hnul
  -- the reads
  have e1 := settings_block_read_size_at "block size" hv hsz
    (show start + 8 + (encode_block_body start b).length ≤ base.length by omega) (by omega)
  have e2 : read_byte base (start + 8 + (encode_block_body start b).length - 1) = .ok 0 := by
    apply read_byte_at
    have : start + 8 + (encode_block_body start b).length - 1 =
        start + 8 + (b.name.length + 1) + 4 + (encode_keys b.keys).length +
          (8 + (encode_region b.error b.pairs).length) + 4 +
          (encode_filters b.filters).length +
          (4 * b.filters.length + 8 * b.filters.length) := by omega
    rw [this]
    exact hnul
  have e3 := @settings_block_read_str_at base (start + 8)
    (start + 8 + (encode_block_body start b).length) b.name "block name" hv hname hn1
    (by omega)
  have e4 := @settings_block_read_uint32_at base (start + 8 + (b.name.length + 1))
    (start + 8 + (encode_block_body start b).length) b.keys.length "settings count" hv hcount
    hc1 (by omega)
  have e5 := @settings_block_read_keys_at base
    (start + 8 + (encode_block_body start b).length) hv b.keys
    (start + 8 + (b.name.length + 1) + 4)
    (start + 8 + (b.name.length + 1) + 4 + (encode_keys b.keys).length) hkeys hn2 rfl
    (by omega)
  have e6 := @settings_block_read_size_at base
    (start + 8 + (b.name.length + 1) + 4 + (encode_keys b.keys).length)
    (start + 8 + (encode_block_body start b).length) (encode_region b.error b.pairs).length
    "base settings size" hv hbsz (by omega) (by omega)
  have e7 := @settings_block_read_str_at base
    (start + 8 + (b.name.length + 1) + 4 + (encode_keys b.keys).length + 8)
    (start + 8 + (b.name.length + 1) + 4 + (encode_keys b.keys).length + 8 +
      (encode_region b.error b.pairs).length) b.error "base settings error" hv herr hn3
    (by omega)
  have e8 := @settings_block_read_uint32_at base
    (start + 8 + (b.name.length + 1) + 4 + (encode_keys b.keys).length + 8 +
      (encode_region b.error b.pairs).length)
    (start + 8 + (encode_block_body start b).length) b.filters.length "filter count" hv
    (by rwa [Nat.add_assoc _ 8] ) hc2 (by omega)
  have e9 := @settings_block_read_filters_at base
    (start + 8 + (encode_block_body start b).length) hv b.filters
    (start + 8 + (b.name.length + 1) + 4 + (encode_keys b.keys).length + 8 +
      (encode_region b.error b.pairs).length + 4)
    (start + 8 + (b.name.length + 1) + 4 + (encode_keys b.keys).length + 8 +
      (encode_region b.error b.pairs).length + 4 + (encode_filters b.filters).length)
    (by
      have : start + 8 + (b.name.length + 1) + 4 + (encode_keys b.keys).length + 8 +
          (encode_region b.error b.pairs).length + 4 =
          start + 8 + (b.name.length + 1) + 4 + (encode_keys b.keys).length +
          (8 + (encode_region b.error b.pairs).length) + 4 := by omega
      rw [this]
      exact hfil) hn4 rfl (by omega)
  have w1 : wrap64 (start + 8 + (b.name.length + 1) + 4 + (encode_keys b.keys).length + 8 +
      (encode_region b.error b.pairs).length + 4 + (encode_filters b.filters).length +
      4 * b.filters.length) = start + 8 + (b.name.length + 1) + 4 +
      (encode_keys b.keys).length + 8 + (encode_region b.error b.pairs).length + 4 +
      (encode_filters b.filters).length + 4 * b.filters.length := wrap64_of_lt (by omega)
  have w2 : wrap64 (start + 8 + (b.name.length + 1) + 4 + (encode_keys b.keys).length + 8 +
      (encode_region b.error b.pairs).length + 4 + (encode_filters b.filters).length +
      4 * b.filters.length + 8 * b.filters.length) = start + 8 + (b.name.length + 1) + 4 +
      (encode_keys b.keys).length + 8 + (encode_region b.error b.pairs).length + 4 +
      (encode_filters b.filters).length + 4 * b.filters.length + 8 * b.filters.length :=
    wrap64_of_lt (by omega)
  have w3 : wrap64 (start + 8 + (b.name.length + 1) + 4 + (encode_keys b.keys).length + 8 +
      (encode_region b.error b.pairs).length + 4 + (encode_filters b.filters).length +
      4 * b.filters.length + 8 * b.filters.length + 1) =
      start + 8 + (encode_block_body start b).length := by
    rw [wrap64_of_lt (by omega)]
    omega
  simp only [settings_block_read, settings_mmap.mmap_size, e1, Res.bind_ok, e2, e3, e4, e5,
    e6, e7, e8, e9, w1, w2, w3, settings_mmap.lookup, List.find?_nil, Option.isSome_none,
    ne_eq, not_true_eq_false, if_false, Bool.false_eq_true, List.nil_append, block_index]

theorem encode_block_length (start : Nat) (b : blob_block) :
    (encode_block start b).length = 8 + (encode_block_body start b).length := by
  rw [encode_block, encode_sized_length]

theorem blocks_tile_encode_blocks {base : List Byte} (hv : valid_mmap_size base) :
    ∀ (bs : List blob_block) (start : Nat),
      bytes_at base start (encode_blocks start bs) →
      start + (encode_blocks start bs).length = base.length →
      (∀ b ∈ bs, valid_block b) → blocks_tile base start (blocks_index start bs) := by
  intro bs
  induction bs with
  | nil =>
    intro start _ hl _
    simp only [encode_blocks, List.length_nil, Nat.add_zero] at hl
    exact hl
  | cons b bs ih =>
    intro start hb hl hvb
    simp only [encode_blocks, List.length_append] at hl
    have h1 := bytes_at_append_left hb
    have h2 := bytes_at_append_right hb
    refine ⟨settings_block_read_at hv start b h1 (hvb b (List.mem_cons_self _ _)), ?_⟩
    have he : (block_index start b).block_end_offset = start + (encode_block start b).length := by
      rw [encode_block_length]
      simp only [block_index]
      omega
    rw [he]
    exact ih _ h2 (by omega) (fun x hx => hvb x (List.mem_cons_of_mem _ hx))

theorem blocks_index_names : ∀ (bs : List blob_block) (start : Nat),
    (blocks_index start bs).map (fun b => b.name) = bs.map (fun b => b.name) := by
  intro bs
  induction bs with
  | nil => intro start; rfl
  | cons b bs ih =>
    intro start
    simp only [blocks_index, List.map_cons, ih]
    rfl

theorem settings_read_filters_loop_at (p : settings_read_params) {base : List Byte}
    (hv : valid_mmap_size base) :
    ∀ (fs : List CStr) (i offset offset' : Nat) (filters entries : List mmap_event_filter)
      (protocols protocols' : List CStr),
      bytes_at base offset (encode_keys fs) → (∀ s ∈ fs, nul_free s) →
      filter_entries p fs protocols = some (entries, protocols') →
      offset' = offset + (encode_keys fs).length → offset' ≤ base.length →
      settings_read_filters_loop p base fs.length i offset filters protocols =
        .ok (filters ++ entries, offset', protocols') := by
  intro fs
  induction fs with
  | nil =>
    intro i offset offset' filters entries protocols protocols' _ _ he ho _
    simp only [filter_entries, Option.some.injEq, Prod.mk.injEq] at he
    simp only [encode_keys, List.length_nil, Nat.add_zero] at ho
    obtain ⟨he1, he2⟩ := he
    subst he1 he2 ho
    simp [settings_read_filters_loop]
  | cons s fs ih =>
    intro i offset offset' filters entries protocols protocols' hb hn he ho hend
    simp only [encode_keys, List.length_append, encode_str_length] at ho
    have h1 := bytes_at_append_left hb
    have h2 := bytes_at_append_right hb
    rw [encode_str_length] at h2
    simp only [List.length_cons, settings_read_filters_loop]
    rw [settings_block_read_str_at "filter string" hv h1 (hn s (List.mem_cons_self _ _))
      (by omega), Res.bind_ok]
    simp only
    unfold filter_entries at he
    by_cases hs : s = []
    · simp only [hs, if_true, Option.map_eq_some', Prod.mk.injEq] at he ⊢
      obtain ⟨⟨e1, p1⟩, hfe, hx1, hx2⟩ := he
      simp only at hx1 hx2
      subst hx1 hx2
      have := ih (i + 1) _ offset' (filters ++ [.EVENT_FILTER_MATCH_ALWAYS]) e1 protocols p1
        (by rw [hs] at h2; exact h2) (fun x hx => hn x (List.mem_cons_of_mem _ hx)) hfe
        (by rw [hs] at ho; omega) hend
      simp only [List.append_assoc, List.singleton_append] at this ⊢
      exact this
    · simp only [hs, if_false] at he ⊢
      cases hp : p.event_filter_parse s with
      | error e => rw [hp] at he; cases he
      | ok tmp =>
        rw [hp] at he
        simp only [Option.map_eq_some', Prod.mk.injEq] at he ⊢
        obtain ⟨⟨e1, p1⟩, hfe, hx1, hx2⟩ := he
        simp only at hx1 hx2
        subst hx1 hx2
        have := ih (i + 1) _ offset'
          (filters ++ [(settings_read_filter_entry p tmp protocols).1]) e1 _ p1 h2
          (fun x hx => hn x (List.mem_cons_of_mem _ hx)) hfe (by omega) hend
        simp only [List.append_assoc, List.singleton_append] at this ⊢
        exact this

theorem header_only_blob_eq :
    header_only_blob =
      [68, 79, 86, 69, 67, 79, 84, 45, 67, 79, 78, 70, 73, 71, 9, 49, 46, 48, 10] := by
  decide

theorem header_memchr (rest : List Byte) : memchr 10 (header_only_blob ++ rest) = some 18 := by
  rw [header_only_blob_eq]
  rfl

theorem header_take (rest : List Byte) :
    (header_only_blob ++ rest).take magic_header.length = magic_header := by
  rw [header_only_blob_eq]
  have : magic_header = [68, 79, 86, 69, 67, 79, 84, 45, 67, 79, 78, 70, 73, 71, 9] := by
    decide
  rw [this]
  rfl

theorem header_version (rest : List Byte) :
    read_byte (header_only_blob ++ rest) magic_header.length = .ok 49 ∧
      read_byte (header_only_blob ++ rest) (magic_header.length + 1) = .ok 46 := by
  rw [header_only_blob_eq]
  have : magic_header.length = 15 := by decide
  rw [this]
  exact ⟨rfl, rfl⟩

theorem header_bytes_at (rest : List Byte) : bytes_at (header_only_blob ++ rest) 19 rest := by
  rw [header_only_blob_eq]
  exact ⟨[], by simp⟩

theorem header_length (rest : List Byte) :
    (header_only_blob ++ rest).length = 19 + rest.length := by
  rw [header_only_blob_eq, List.length_append]
  rfl

theorem settings_mmap_parse_head_encode (p : settings_read_params) (m : blob_model)
    (entries : List mmap_event_filter) (pr : List CStr)
    (hn : ∀ s ∈ m.filters, nul_free s)
    (hfe : filter_entries p m.filters [] = some (entries, pr))
    (hc : m.filters.length < 4294967296) (hv : valid_mmap_size (encode_model m)) :
    settings_mmap_parse_head p { mmap_base := encode_model m } =
      .ok ({ mmap_base := encode_model m, event_filters := entries,
             event_filters_count := m.filters.length },
           27 + (encode_filter_table m.filters).length, pr) := by
  have hvv := hv
  unfold valid_mmap_size at hvv
  generalize hbase : encode_model m = base at hv hvv ⊢
  unfold encode_model at hbase
  have hlen : base.length = 19 + (encode_sized (encode_filter_table m.filters ++
      encode_blocks (27 + (encode_filter_table m.filters).length) m.blocks)).length := by
    rw [← hbase, header_length]
  rw [encode_sized_length, List.length_append] at hlen
  have hrest : bytes_at base 19 (encode_sized (encode_filter_table m.filters ++
      encode_blocks (27 + (encode_filter_table m.filters).length) m.blocks)) := by
    rw [← hbase]
    exact header_bytes_at _
  have hsz := bytes_at_append_left hrest
  have hr2 := bytes_at_append_right hrest
  rw [be_bytes_length] at hr2
  have htab : bytes_at base 27 (encode_filter_table m.filters) := bytes_at_append_left hr2
  have hcnt : bytes_at base 27 (be_bytes 4 m.filters.length) := bytes_at_append_left htab
  have hstr : bytes_at base 31 (encode_keys m.filters) := by
    have := bytes_at_append_right htab
    rwa [be_bytes_length] at this
  have htl : (encode_filter_table m.filters).length = 4 + (encode_keys m.filters).length := by
    simp [encode_filter_table, be_bytes_length]
  have e1 : memchr 10 base = some 18 := by rw [← hbase]; exact header_memchr _
  have e2 : base.take magic_header.length = magic_header := by
    rw [← hbase]; exact header_take _
  have e3 : read_byte base magic_header.length = .ok 49 := by
    rw [← hbase]; exact (header_version _).1
  have e4 : read_byte base (magic_header.length + 1) = .ok 46 := by
    rw [← hbase]; exact (header_version _).2
  have e5 := be64_at hsz (show (encode_filter_table m.filters ++
    encode_blocks (27 + (encode_filter_table m.filters).length) m.blocks).length <
      18446744073709551616 by rw [List.length_append]; omega)
  have hml : magic_header.length = 15 := by decide
  have e6 : wrap64 (18 + 1 + 8 + (encode_filter_table m.filters ++
      encode_blocks (27 + (encode_filter_table m.filters).length) m.blocks).length) =
      base.length := by
    rw [wrap64_of_lt (by rw [List.length_append]; omega), List.length_append]
    omega
  have e7 : wrap64 (18 + 1 + 8) = 27 := by decide
  have e8 := @settings_block_read_uint32_at base 27 base.length m.filters.length
    "filters count" hv hcnt hc (by omega)
  have e9 := settings_read_filters_loop_at p hv m.filters 0 (27 + 4)
    (27 + 4 + (encode_keys m.filters).length) [] entries [] pr hstr hn hfe rfl (by omega)
  have hlt : ¬ base.length < 15 := by omega
  rw [hml] at e2 e3 e4
  simp only [settings_mmap_parse_head, settings_mmap.mmap_size, e1, hml, hlt, e2, e3, e4, e5,
    e7, Res.bind_ok, settings_read_filters, e8, e9, decide_False, Bool.false_or,
    ne_eq, not_true_eq_false, decide_False, Bool.false_eq_true, if_false, List.nil_append]
  split
  · rename_i hne
    exfalso
    apply hne
    rw [wrap64_of_lt (by simp only [List.length_append]; omega)]
    simp only [List.length_append]
    omega
  · rw [htl, Nat.add_assoc]

theorem block_regions_at {base : List Byte} (start : Nat) (b : blob_block)
    (hb : bytes_at base start (encode_block start b)) : block_regions base start b := by
  have hbody : bytes_at base (start + 8) (encode_block_body start b) := by
    have := bytes_at_append_right hb
    rwa [be_bytes_length] at this
  unfold encode_block_body at hbody
  have r1 := bytes_at_append_right hbody
  rw [encode_str_length] at r1
  have r2 := bytes_at_append_right r1
  rw [be_bytes_length] at r2
  have hkeys := bytes_at_append_left r2
  have r3 := bytes_at_append_right r2
  have hbase := bytes_at_append_left r3
  have r4 := bytes_at_append_right r3
  rw [encode_sized_length] at r4
  have hreg : bytes_at base
      (start + 8 + (b.name.length + 1) + 4 + (encode_keys b.keys).length + 8)
      (encode_region b.error b.pairs) := by
    have := bytes_at_append_right hbase
    rwa [be_bytes_length] at this
  have hpairs := bytes_at_append_right hreg
  rw [encode_str_length] at hpairs
  have r5 := bytes_at_append_right r4
  rw [be_bytes_length] at r5
  have hfil := bytes_at_append_left r5
  have r6 := bytes_at_append_right r5
  have harr := bytes_at_append_left r6
  have hidx := bytes_at_append_left harr
  have hoff := bytes_at_append_right harr
  rw [flatMap_be_bytes_length 4 (fun f : blob_filter => f.filter_idx)] at hoff
  have hrl := encode_region_length b.error b.pairs
  have a1 : start + 8 + (b.name.length + 1) + 4 + (encode_keys b.keys).length + 8 +
      (encode_region b.error b.pairs).length + 4 =
      start + 8 + (b.name.length + 1) + 4 + (encode_keys b.keys).length +
      (8 + (encode_region b.error b.pairs).length) + 4 := by omega
  refine ⟨rfl, rfl, rfl, hkeys, hpairs, ?_, ?_, ?_, ?_⟩
  · simp only [block_index]
    omega
  · simp only [block_index]
    rw [a1]
    exact hfil
  · simp only [block_index]
    rw [a1]
    exact hidx
  · simp only [block_index]
    rw [a1]
    exact hoff

theorem blocks_regions_encode_blocks {base : List Byte} :
    ∀ (bs : List blob_block) (start : Nat),
      bytes_at base start (encode_blocks start bs) → blocks_regions base start bs := by
  intro bs
  induction bs with
  | nil => intro start _; trivial
  | cons b bs ih =>
    intro start hb
    exact ⟨block_regions_at start b (bytes_at_append_left hb),
      ih _ (bytes_at_append_right hb)⟩

theorem blocks_index_ne_nil {bs : List blob_block} (h : bs ≠ []) (start : Nat) :
    ∃ b rest, blocks_index start bs = b :: rest := by
  cases bs with
  | nil => exact absurd rfl h
  | cons b bs => exact ⟨_, _, rfl⟩

/-- C27: for every valid model (at least one block, distinct block names,
NUL-free names, keys, error strings and filter strings, filter strings that the
event filter parser accepts, counts that fit their fields, a size that fits an
`off_t`), parsing the encoding of section 4.1 with `settings_mmap_parse`
succeeds; the filter table holds, in order, the entry of each filter string;
the block index holds, in order, one entry per block with the block's name,
schema-key count and filter count; and the regions that each entry points to
(schema keys, base pairs, filter regions, filter-index array, filter-offset
array) hold the encoded data of the model. -/
theorem settings_mmap_parse_encode_model (p : settings_read_params) (m : blob_model)
    (hvalid : valid_model p m) :
    ∃ entries pr, filter_entries p m.filters [] = some (entries, pr) ∧
      settings_mmap_parse p { mmap_base := encode_model m } =
        .ok ({ mmap_base := encode_model m, event_filters := entries,
               event_filters_count := m.filters.length,
               blocks := blocks_index (27 + (encode_filter_table m.filters).length) m.blocks },
             if pr = [] then none else some pr) ∧
      (blocks_index (27 + (encode_filter_table m.filters).length) m.blocks).map
          (fun b => b.name) = m.blocks.map (fun b => b.name) ∧
      blocks_regions (encode_model m) (27 + (encode_filter_table m.filters).length)
        m.blocks := by
  obtain ⟨hne, hnd, hvb, hnf, hfe, hfc, hv⟩ := hvalid
  cases hfe' : filter_entries p m.filters [] with
  | none => rw [hfe'] at hfe; cases hfe
  | some r =>
    obtain ⟨entries, pr⟩ := r
    refine ⟨entries, pr, rfl, ?_⟩
    have hhead := settings_mmap_parse_head_encode p m entries pr hnf hfe' hfc hv
    have hvv := hv
    unfold valid_mmap_size at hvv
    have hblocks : bytes_at (encode_model m) (27 + (encode_filter_table m.filters).length)
        (encode_blocks (27 + (encode_filter_table m.filters).length) m.blocks) := by
      have h0 : bytes_at (encode_model m) 19 _ := header_bytes_at _
      have h1 := bytes_at_append_right h0
      rw [be_bytes_length] at h1
      exact bytes_at_append_right h1
    have hlen : 27 + (encode_filter_table m.filters).length +
        (encode_blocks (27 + (encode_filter_table m.filters).length) m.blocks).length =
        (encode_model m).length := by
      unfold encode_model
      rw [header_length, encode_sized_length, List.length_append]
      omega
    have htile := blocks_tile_encode_blocks hv m.blocks _ hblocks hlen hvb
    have hnames := blocks_index_names m.blocks (27 + (encode_filter_table m.filters).length)
    refine ⟨?_, hnames, blocks_regions_encode_blocks m.blocks _ hblocks⟩
    obtain ⟨b, rest, hbr⟩ := blocks_index_ne_nil hne (27 + (encode_filter_table m.filters).length)
    rw [hbr] at htile hnames ⊢
    have hfuel := blocks_tile_length hv _ _ htile
    simp only [List.length_cons] at hfuel
    have hloop := settings_mmap_parse_blocks_tile hv rest ((encode_model m).length + 1)
      { mmap_base := encode_model m, event_filters := entries,
        event_filters_count := m.filters.length }
      (27 + (encode_filter_table m.filters).length) b rfl htile
      (by rw [List.nil_append, hnames]; exact hnd) (by omega)
    rw [settings_mmap_parse_eq, hhead, Res.bind_ok]
    simp only [settings_mmap.mmap_size]
    rw [hloop, Res.bind_ok]
    rfl

set_option maxRecDepth 100000 in
/-- C27, checked on `fs_model`: the model is valid, its encoding is `fs_blob`,
and the parse of the encoding returns the filter table and the block index of
the model. -/
theorem settings_mmap_parse_encode_model_witness :
    valid_model example_read_params fs_model ∧ encode_model fs_model = fs_blob ∧
    ∃ entries pr, filter_entries example_read_params fs_model.filters [] = some (entries, pr) ∧
      settings_mmap_parse example_read_params { mmap_base := encode_model fs_model } =
        .ok ({ mmap_base := encode_model fs_model, event_filters := entries,
               event_filters_count := fs_model.filters.length,
               blocks := blocks_index (27 + (encode_filter_table fs_model.filters).length)
                 fs_model.blocks },
             if pr = [] then none else some pr) ∧
      (blocks_index (27 + (encode_filter_table fs_model.filters).length) fs_model.blocks).map
          (fun b => b.name) = fs_model.blocks.map (fun b => b.name) ∧
      blocks_regions (encode_model fs_model) (27 + (encode_filter_table fs_model.filters).length)
        fs_model.blocks :=
  ⟨by unfold valid_model valid_block nul_free valid_mmap_size; decide, by decide,
   settings_mmap_parse_encode_model example_read_params fs_model
     (by unfold valid_model valid_block nul_free valid_mmap_size; decide)⟩


set_option maxRecDepth 100000 in
/-- C34, the code at the failing input: `settings_mmap_parse` accepts
`far_filter_offset_blob` (it does not look at the contents of the filter-offset
array); for an event with `service=lda` the filter of the block `fs` matches and
`settings_mmap_apply` reads the size field at the offset 65536 found in the
array, outside the 132-byte buffer, with no check against the block; for an
event with `service=imap` the filter does not match and the offset is not
used. -/
theorem settings_mmap_apply_reads_unchecked_filter_offset :
    far_filter_offset_blob.length = 132 ∧
    (settings_mmap_parse example_read_params { mmap_base := far_filter_offset_blob }).isOk =
      true ∧
    ((example_mmap far_filter_offset_blob).lookup (cs "fs")).map
        (fun b => (b.block_end_offset, b.filter_count, b.filter_offsets_start_offset)) =
      some (132, 1, 123) ∧
    settings_mmap_filter_region far_filter_offset_blob
        (example_block far_filter_offset_blob (cs "fs")) 0 = .fault (.mmap_read 65536) ∧
    (settings_instance_get (far_filter_offset_ctx (cs "lda"))).1 =
      .fault (.mmap_read 65536) ∧
    resolved_value (settings_instance_get (far_filter_offset_ctx (cs "imap"))).1 1 =
      some (cs "posix") := by
  refine ⟨by decide, by decide, by decide, by decide, by rfl, by rfl⟩

theorem settings_mmap_parse_blocks_base :
    ∀ (fuel : Nat) (mmap m : settings_mmap) (offset : Nat),
      settings_mmap_parse_blocks fuel mmap offset = .ok m → m.mmap_base = mmap.mmap_base := by
  intro fuel
  induction fuel with
  | zero =>
    intro mmap m offset h
    simp [settings_mmap_parse_blocks] at h
  | succ fuel ih =>
    intro mmap m offset h
    simp only [settings_mmap_parse_blocks, Res.bind_eq_ok] at h
    obtain ⟨⟨m1, o1⟩, h1, h2⟩ := h
    simp only at h2
    obtain ⟨b, hm1, _⟩ := settings_block_read_append h1
    have hb1 : m1.mmap_base = mmap.mmap_base := by rw [hm1]
    split at h2
    · rw [ih m1 m o1 h2, hb1]
    · simp only [Res.ok.injEq] at h2
      rw [← h2, hb1]

theorem settings_mmap_parse_base {p : settings_read_params} {base : List Byte}
    {m : settings_mmap} {sv : Option (List CStr)}
    (h : settings_mmap_parse p { mmap_base := base } = .ok (m, sv)) : m.mmap_base = base := by
  rw [settings_mmap_parse_eq] at h
  simp only [Res.bind_eq_ok] at h
  obtain ⟨⟨m1, o1, pr⟩, hh, m2, hb, hres⟩ := h
  simp only [Res.ok.injEq, Prod.mk.injEq] at hres
  rw [← hres.1, settings_mmap_parse_blocks_base _ _ _ _ hb]
  exact (settings_mmap_parse_head_base hh).1

set_option maxRecDepth 100000 in
/-- C35, the input on which the claim fails: the root points to the blob parsed
from `fs_blob`, which has the reference count 2; `settings_read` on a buffer
that is not a configuration file returns the error of the parse, and
afterwards the root points to the new buffer and the previous blob has the
reference count 1. -/
theorem settings_read_replaces_before_parse :
    (settings_read example_read_params { mmap := fs_mmap } 2 (some not_a_config_blob)).bind
        (fun out => .ok (out.ret, out.root.mmap, out.old_refcount)) =
      .ok (.error .header_no_magic, some { mmap_base := not_a_config_blob }, some 1) ∧
    fs_mmap ≠ some { mmap_base := not_a_config_blob } := by
  refine ⟨by rfl, by decide⟩

/-- C35 (amended): `settings_read` on a non-empty buffer drops the root's
reference to the previous blob and makes the root point to the new buffer
before it parses: unless the process aborts, the call returns an outcome,
whether the parse succeeded or failed, in which the root's blob is the mmap of
the new buffer, the root's protocol name is the new one, and the previous blob,
if there was one, has lost one reference (it is destroyed when that was the
last one). -/
theorem settings_read_replaces (p : settings_read_params) (root : settings_root)
    (old_refcount : Nat) (mmap_base : List Byte) (hsize : mmap_base ≠ [])
    (href : root.mmap.isSome = true → 0 < old_refcount) :
    (∃ f, settings_read p root old_refcount (some mmap_base) = .fault f ∧
      settings_mmap_parse p { mmap_base := mmap_base } = .fault f) ∨
    ∃ out, settings_read p root old_refcount (some mmap_base) = .ok out ∧
      (∃ m, out.root.mmap = some m ∧ m.mmap_base = mmap_base) ∧
      out.root.protocol_name = p.protocol_name ∧
      out.root.overrides = root.overrides ∧
      out.old_refcount =
        (if root.mmap.isSome ∧ 1 < old_refcount then some (old_refcount - 1) else none) ∧
      (match settings_mmap_parse p { mmap_base := mmap_base } with
       | .ok r => out.ret = .ok r.2 ∧ out.root.mmap = some r.1
       | .error e => out.ret = .error e
       | .fault _ => False) := by
  have hlen : mmap_base.length ≠ 0 := by
    intro h; exact hsize (List.length_eq_zero.mp h)
  have hunref : (match root.mmap with
      | none => (.ok none : Res (Option Nat))
      | some _ => settings_mmap_unref old_refcount) =
      .ok (if root.mmap.isSome ∧ 1 < old_refcount then some (old_refcount - 1) else none) := by
    cases hm : root.mmap with
    | none => simp
    | some m0 =>
      have hpos := href (by rw [hm]; rfl)
      simp only [settings_mmap_unref, Option.isSome_some, true_and]
      have h0 : old_refcount ≠ 0 := by omega
      simp only [h0, if_false]
      by_cases h1 : 1 < old_refcount
      · have : old_refcount - 1 > 0 := by omega
        simp only [this, if_true, h1]
      · have : ¬ old_refcount - 1 > 0 := by omega
        simp only [this, if_false, h1]
  simp only [settings_read, hlen, if_false, hunref, Res.bind_ok]
  cases hp : settings_mmap_parse p { mmap_base := mmap_base } with
  | fault f => exact Or.inl ⟨f, rfl, rfl⟩
  | error e =>
    right
    exact ⟨_, rfl, ⟨_, rfl, rfl⟩, rfl, rfl, rfl, rfl⟩
  | ok r =>
    right
    obtain ⟨m, sv⟩ := r
    exact ⟨_, rfl, ⟨_, rfl, settings_mmap_parse_base hp⟩, rfl, rfl, rfl, rfl, rfl⟩

set_option maxRecDepth 100000 in
/-- C35 (amended), checked on the root that points to the blob of `fs_blob` with
reference count 2 and the buffer `not_a_config_blob`. -/
theorem settings_read_replaces_witness :
    not_a_config_blob ≠ [] ∧
    ((∃ f, settings_read example_read_params { mmap := fs_mmap } 2
        (some not_a_config_blob) = .fault f ∧
      settings_mmap_parse example_read_params { mmap_base := not_a_config_blob } = .fault f) ∨
    ∃ out, settings_read example_read_params { mmap := fs_mmap } 2
        (some not_a_config_blob) = .ok out ∧
      (∃ m, out.root.mmap = some m ∧ m.mmap_base = not_a_config_blob) ∧
      out.root.protocol_name = example_read_params.protocol_name ∧
      out.root.overrides = ({ mmap := fs_mmap } : settings_root).overrides ∧
      out.old_refcount =
        (if ({ mmap := fs_mmap } : settings_root).mmap.isSome ∧ 1 < 2 then some (2 - 1)
         else none) ∧
      (match settings_mmap_parse example_read_params { mmap_base := not_a_config_blob } with
       | .ok r => out.ret = .ok r.2 ∧ out.root.mmap = some r.1
       | .error e => out.ret = .error e
       | .fault _ => False)) :=
  ⟨by decide, settings_read_replaces example_read_params { mmap := fs_mmap } 2
    not_a_config_blob (by decide) (by intro _; decide)⟩

/-- An instance whose overrides carry no scoping filter and no last filter key
or value is duplicated as it is. -/
theorem settings_instance_dup_unscoped (src : settings_instance)
    (h : ∀ o ∈ src.overrides,
      o.filter = none ∧ o.last_filter_key = none ∧ o.last_filter_value = none) :
    settings_instance_dup src = src := by
  obtain ⟨mmap, overrides⟩ := src
  simp only [settings_instance_dup, settings_instance.mk.injEq, true_and]
  induction overrides with
  | nil => rfl
  | cons o os ih =>
    obtain ⟨h1, h2, h3⟩ := h o (List.mem_cons_self _ _)
    rw [List.map_cons, ih (fun o' ho' => h o' (List.mem_cons_of_mem _ ho'))]
    congr 1
    obtain ⟨t, a, k, v, f, lk, lv⟩ := o
    simp only at h1 h2 h3
    subst h1 h2 h3
    rfl

set_option maxRecDepth 100000 in
/-- C36, the code at the failing input: the instance holds the override that
`settings_override(instance, "mail_attribute_dict/dict_driver", "file",
SETTINGS_OVERRIDE_TYPE_CODE)` appends, scoped to the named filter
`mail_attribute_dict`.  Its duplicate holds the override without scoping filter
and without last filter key.  For an event without filter name the resolution
of the schema `dict` against the instance leaves `dict_driver` at its default,
the resolution against the duplicate sets it to `file`. -/
theorem settings_instance_dup_drops_filter :
    settings_override_install override_example_env {}
        (cs "mail_attribute_dict/dict_driver") (cs "file") .SETTINGS_OVERRIDE_TYPE_CODE =
      .ok { overrides := [mail_attribute_override] } ∧
    settings_instance_dup { overrides := [mail_attribute_override] } =
      { overrides := [{ type := .SETTINGS_OVERRIDE_TYPE_CODE, append := false,
                        key := cs "dict_driver", value := cs "file", filter := none,
                        last_filter_key := none, last_filter_value := none }] } ∧
    resolved_value (settings_get_full override_example_env
      (instance_example_event { overrides := [mail_attribute_override] })
      none none dict_example_info {}).1 1 = some [] ∧
    resolved_value (settings_get_full override_example_env
      (instance_example_event (settings_instance_dup { overrides := [mail_attribute_override] }))
      none none dict_example_info {}).1 1 = some (cs "file") := by
  refine ⟨by decide, by decide, by rfl, by rfl⟩

/-- For a key that does not end in `+`, `settings_root_override` and
`settings_override` append the same record. -/
theorem settings_root_override_eq_install (env : settings_env) (key value : CStr)
    (type : settings_override_type) (hk : key.getLast? ≠ some 43) :
    (settings_override_install env {} key value type).bind (fun i => .ok i.overrides) =
      (settings_root_override env {} key value type).bind (fun r => .ok r.overrides) := by
  have hd : decide (key.getLast? = some 43) = false := by simpa using hk
  simp only [settings_override_install, settings_root_override, hd, Bool.false_eq_true,
    if_false]
  cases settings_override_get_filter env
    { type := type, append := false, key := [], value := value } key <;> rfl

set_option maxRecDepth 100000 in
/-- C37, the code at the failing input: `settings_override` stores the key
`dict_driver+` as the key `dict_driver` with the append flag set, while
`settings_root_override` stores it as the key `dict_driver+` without the append
flag. -/
theorem settings_root_override_keeps_plus :
    settings_override_install example_env {} (cs "dict_driver+") (cs "x")
        .SETTINGS_OVERRIDE_TYPE_USERDB =
      .ok { overrides := [{ type := .SETTINGS_OVERRIDE_TYPE_USERDB, append := true,
                            key := cs "dict_driver", value := cs "x" }] } ∧
    settings_root_override example_env {} (cs "dict_driver+") (cs "x")
        .SETTINGS_OVERRIDE_TYPE_USERDB =
      .ok { overrides := [{ type := .SETTINGS_OVERRIDE_TYPE_USERDB, append := false,
                            key := cs "dict_driver+", value := cs "x" }] } := by
  refine ⟨by decide, by decide⟩

/-- When the scan of the event and its ancestors finds no required filter name,
`settings_get_full` without filter key and value does not return 0. -/
theorem settings_get_full_found_without_required (env : settings_env) (event : event)
    (info : setting_parser_info) (flags : settings_get_flags)
    (h : (settings_get_full_scan event none none none false).2.2.2 = false) :
    (settings_get_full env event none none info flags).1 ≠ .ok none := by
  intro hn
  cases hctx : settings_get_full_ctx env event none none info flags with
  | none =>
    unfold settings_get_full at hn
    simp only [hctx] at hn
    simp at hn
  | some ctx =>
    rw [settings_get_full_fst rfl hctx] at hn
    have hreq : ctx.filter_name_required = false := by
      unfold settings_get_full_ctx at hctx
      simp only at hctx
      split at hctx
      · cases hctx
      · simp only [Option.some.injEq] at hctx
        rw [← hctx]
        simp only [h, Option.isSome_none, Bool.or_false]
    have := (settings_instance_get_not_found_iff ctx).1 hn
    rw [hreq] at this
    simp at this

set_option maxRecDepth 100000 in
/-- C38, the code at the failing input: the parent of the event carries the
required filter name `mail_attribute_dict`, there is no blob and no override,
so nothing names that filter; `settings_get_full` without filter key and value
returns 0 and the assertion `ret != 0` of `settings_get` fails. -/
theorem settings_get_assert_fails :
    (settings_get_full_scan required_filter_event none none none false).2.2 =
      (some (cs "mail_attribute_dict"), true) ∧
    is_not_found (settings_get_full example_env required_filter_event none none
      dict_example_info {}).1 = true ∧
    (settings_get example_env required_filter_event dict_example_info {}).1 =
      .fault (.panic "i_assert(ret != 0)") := by
  refine ⟨by decide, by rfl, by rfl⟩

set_option maxRecDepth 100000 in
/-- C39, the code at the failing input: the override installed with the key
`imap_capability`, the bare name of a string list of the schema, is stored with
that key and no filter; `settings_override_get_value` resolves it to the list's
key index with the effective key `imap_capability`, which has no `/` behind the
list key, and `settings_instance_override` reaches `i_unreached()`. -/
theorem settings_instance_override_bare_list_key :
    settings_override_install override_example_env {} (cs "imap_capability")
        (cs "IMAP4rev1") .SETTINGS_OVERRIDE_TYPE_CLI_PARAM =
      .ok { overrides := [{ type := .SETTINGS_OVERRIDE_TYPE_CLI_PARAM,
                            key := cs "imap_capability", value := cs "IMAP4rev1" }] } ∧
    settings_override_get_value
        { env := override_example_env, event := [{}], root := {}, inst := {},
          info := capability_info }
        { type := .SETTINGS_OVERRIDE_TYPE_CLI_PARAM, key := cs "imap_capability",
          value := cs "IMAP4rev1" }
        { parser := settings_parser_init capability_info } =
      .ok (some (cs "imap_capability", 0, cs "IMAP4rev1")) ∧
    (settings_get_full override_example_env
      (override_example_event [] none
        [{ type := .SETTINGS_OVERRIDE_TYPE_CLI_PARAM, key := cs "imap_capability",
           value := cs "IMAP4rev1" }]) none none capability_info {}).1 =
      .fault (.panic "i_unreached()") := by
  refine ⟨by decide, by decide, by rfl⟩

theorem fault_is_read_ok {α : Type} (a : α) : fault_is_read (Res.ok a) := by
  intro f h; cases h

theorem fault_is_read_error {α : Type} (e : settings_error) :
    fault_is_read (Res.error e : Res α) := by
  intro f h; cases h

theorem fault_is_read_bind {α β : Type} {x : Res α} {g : α → Res β}
    (hx : fault_is_read x) (hg : ∀ a, fault_is_read (g a)) : fault_is_read (x.bind g) := by
  intro f h
  cases x with
  | ok a => exact hg a f h
  | error e => cases h
  | fault f' =>
    simp only [Res.bind, Res.fault.injEq] at h
    subst h
    exact hx f' rfl

theorem fault_is_read_ite {α : Type} {c : Prop} [Decidable c] {x y : Res α}
    (hx : fault_is_read x) (hy : fault_is_read y) : fault_is_read (if c then x else y) := by
  split
  · exact hx
  · exact hy

theorem fault_is_read_be32 (base : List Byte) (offset : Nat) :
    fault_is_read (be32_to_cpu_unaligned base offset) := fun _ h => be32_fault h

theorem fault_is_read_be64 (base : List Byte) (offset : Nat) :
    fault_is_read (be64_to_cpu_unaligned base offset) := fun _ h => be64_fault h

theorem fault_is_read_byte (base : List Byte) (offset : Nat) :
    fault_is_read (read_byte base offset) := fun _ h => read_byte_fault h

theorem fault_is_read_str (base : List Byte) (offset end_offset : Nat) (name : String) :
    fault_is_read (settings_block_read_str base offset end_offset name) :=
  fun _ h => settings_block_read_str_fault h

theorem fault_is_read_uint32 (base : List Byte) (offset end_offset : Nat) (name : String) :
    fault_is_read (settings_block_read_uint32 base offset end_offset name) := by
  unfold settings_block_read_uint32
  exact fault_is_read_ite (fault_is_read_error _)
    (fault_is_read_bind (fault_is_read_be32 _ _) (fun _ => fault_is_read_ok _))

theorem fault_is_read_size (base : List Byte) (offset end_offset : Nat) (name : String) :
    fault_is_read (settings_block_read_size base offset end_offset name) := by
  unfold settings_block_read_size
  exact fault_is_read_ite (fault_is_read_error _)
    (fault_is_read_bind (fault_is_read_be64 _ _)
      (fun _ => fault_is_read_ite (fault_is_read_error _) (fault_is_read_ok _)))

theorem fault_is_read_keys (base : List Byte) (block_end_offset : Nat) :
    ∀ (n offset : Nat), fault_is_read (settings_block_read_keys base block_end_offset n offset) := by
  intro n
  induction n with
  | zero => intro offset; exact fault_is_read_ok _
  | succ n ih =>
    intro offset
    unfold settings_block_read_keys
    exact fault_is_read_bind (fault_is_read_str _ _ _ _) (fun r => ih _)

theorem fault_is_read_filters (base : List Byte) (block_end_offset : Nat) :
    ∀ (n offset : Nat),
      fault_is_read (settings_block_read_filters base block_end_offset n offset) := by
  intro n
  induction n with
  | zero => intro offset; exact fault_is_read_ok _
  | succ n ih =>
    intro offset
    unfold settings_block_read_filters
    exact fault_is_read_bind (fault_is_read_size _ _ _ _)
      (fun r => fault_is_read_bind (fault_is_read_str _ _ _ _) (fun _ => ih _))

theorem fault_is_read_block (mmap : settings_mmap) (offset0 : Nat) :
    fault_is_read (settings_block_read mmap offset0) := by
  unfold settings_block_read
  refine fault_is_read_bind (fault_is_read_size _ _ _ _) (fun r1 => ?_)
  refine fault_is_read_bind (fault_is_read_byte _ _) (fun last => ?_)
  refine fault_is_read_ite (fault_is_read_error _) ?_
  refine fault_is_read_bind (fault_is_read_str _ _ _ _) (fun r2 => ?_)
  refine fault_is_read_ite (fault_is_read_error _) ?_
  refine fault_is_read_bind (fault_is_read_uint32 _ _ _ _) (fun r3 => ?_)
  refine fault_is_read_bind (fault_is_read_keys _ _ _ _) (fun o4 => ?_)
  refine fault_is_read_bind (fault_is_read_size _ _ _ _) (fun r5 => ?_)
  refine fault_is_read_bind (fault_is_read_str _ _ _ _) (fun r6 => ?_)
  refine fault_is_read_bind (fault_is_read_uint32 _ _ _ _) (fun r7 => ?_)
  refine fault_is_read_bind (fault_is_read_filters _ _ _ _) (fun o8 => ?_)
  exact fault_is_read_ite (fault_is_read_error _) (fault_is_read_ok _)

theorem fault_is_read_filters_loop (p : settings_read_params) (base : List Byte) :
    ∀ (n i offset : Nat) (filters : List mmap_event_filter) (protocols : List CStr),
      fault_is_read (settings_read_filters_loop p base n i offset filters protocols) := by
  intro n
  induction n with
  | zero => intro i offset filters protocols; exact fault_is_read_ok _
  | succ n ih =>
    intro i offset filters protocols
    unfold settings_read_filters_loop
    refine fault_is_read_bind (fault_is_read_str _ _ _ _) (fun r => ?_)
    refine fault_is_read_ite (ih _ _ _ _) ?_
    split
    · exact fault_is_read_error _
    · exact ih _ _ _ _

theorem fault_is_read_head (p : settings_read_params) (mmap : settings_mmap) :
    fault_is_read (settings_mmap_parse_head p mmap) := by
  unfold settings_mmap_parse_head
  simp only
  split
  · exact fault_is_read_error _
  · refine fault_is_read_ite (fault_is_read_error _) ?_
    refine fault_is_read_bind (fault_is_read_byte _ _) (fun c1 => ?_)
    refine fault_is_read_ite (fault_is_read_error _) ?_
    refine fault_is_read_bind (fault_is_read_byte _ _) (fun c2 => ?_)
    refine fault_is_read_ite (fault_is_read_error _) ?_
    refine fault_is_read_bind (fault_is_read_be64 _ _) (fun sz => ?_)
    refine fault_is_read_ite (fault_is_read_error _) ?_
    unfold settings_read_filters
    refine fault_is_read_bind (fault_is_read_uint32 _ _ _ _) (fun r => ?_)
    exact fault_is_read_bind (fault_is_read_filters_loop _ _ _ _ _ _ _)
      (fun _ => fault_is_read_ok _)

theorem fault_is_read_blocks {base : List Byte} (hv : valid_mmap_size base) :
    ∀ (fuel : Nat) (mmap : settings_mmap) (offset : Nat),
      mmap.mmap_base = base → 0 < fuel → (offset ≤ base.length → base.length < offset + fuel) →
      fault_is_read (settings_mmap_parse_blocks fuel mmap offset) := by
  intro fuel
  induction fuel with
  | zero => intro mmap offset _ h0 _; omega
  | succ fuel ih =>
    intro mmap offset hb _ hfuel
    unfold settings_mmap_parse_blocks
    intro f hf
    cases hr : settings_block_read mmap offset with
    | error e => rw [hr] at hf; cases hf
    | fault f' =>
      rw [hr] at hf
      simp only [Res.bind, Res.fault.injEq] at hf
      subst hf
      exact fault_is_read_block mmap offset f' hr
    | ok r =>
      obtain ⟨m1, o1⟩ := r
      rw [hr, Res.bind_ok] at hf
      simp only at hf
      obtain ⟨b, hm, hfit, ho, hadv, _⟩ := settings_block_read_ok (by rw [hb]; exact hv) hr
      have hle : o1 ≤ base.length := by
        rw [ho, ← hb]; exact hfit.1
      have hb1 : m1.mmap_base = base := by rw [hm]; exact hb
      split at hf
      · rename_i hlt
        simp only [settings_mmap.mmap_size, hb] at hlt
        exact ih m1 o1 hb1 (by omega) (by intro _; omega) f hf
      · cases hf

/-- C40: on a buffer whose size fits an `off_t`, whenever `settings_block_read`
succeeds from the offset `offset0` it adds one block to the index, the
returned offset is the block's end offset, it is greater than `offset0` and at
most the buffer size, and the recorded offsets are ordered:
`settings_keys_offset <= base_start_offset <= base_end_offset <=
filter_indexes_start_offset <= filter_offsets_start_offset < block_end_offset`.
Hence the block loop ends within `size + 1` iterations from every start offset:
the loop and `settings_mmap_parse` never run out of the loop bound, a fault
of theirs is an out-of-bounds read. -/
theorem settings_block_read_advances (base : List Byte) (hv : valid_mmap_size base) :
    (∀ (mmap m : settings_mmap) (offset0 offset' : Nat), mmap.mmap_base = base →
      settings_block_read mmap offset0 = .ok (m, offset') →
      ∃ b, m = { mmap with blocks := mmap.blocks ++ [b] } ∧ offset' = b.block_end_offset ∧
        offset0 < offset' ∧ offset' ≤ base.length ∧
        b.settings_keys_offset ≤ b.base_start_offset ∧
        b.base_start_offset ≤ b.base_end_offset ∧
        b.base_end_offset ≤ b.filter_indexes_start_offset ∧
        b.filter_indexes_start_offset ≤ b.filter_offsets_start_offset ∧
        b.filter_offsets_start_offset < b.block_end_offset) ∧
    (∀ (mmap : settings_mmap) (offset : Nat), mmap.mmap_base = base →
      settings_mmap_parse_blocks (base.length + 1) mmap offset ≠ .fault .out_of_fuel) ∧
    (∀ (p : settings_read_params),
      settings_mmap_parse p { mmap_base := base } ≠ .fault .out_of_fuel ∧
      fault_is_read (settings_mmap_parse p { mmap_base := base })) := by
  have hloop : ∀ (mmap : settings_mmap) (offset : Nat), mmap.mmap_base = base →
      fault_is_read (settings_mmap_parse_blocks (base.length + 1) mmap offset) :=
    fun mmap offset hb =>
      fault_is_read_blocks hv _ mmap offset hb (by omega) (by intro _; omega)
  have hparse : ∀ (p : settings_read_params),
      fault_is_read (settings_mmap_parse p { mmap_base := base }) := by
    intro p
    rw [settings_mmap_parse_eq]
    intro f hf
    cases hh : settings_mmap_parse_head p { mmap_base := base } with
    | error e => rw [hh] at hf; cases hf
    | fault f' =>
      rw [hh] at hf
      simp only [Res.bind, Res.fault.injEq] at hf
      subst hf
      exact fault_is_read_head p _ f' hh
    | ok r =>
      obtain ⟨m1, o1, pr⟩ := r
      rw [hh, Res.bind_ok] at hf
      simp only [settings_mmap.mmap_size] at hf
      exact fault_is_read_bind (hloop m1 o1 (settings_mmap_parse_head_base hh).1)
        (fun _ => fault_is_read_ok _) f hf
  refine ⟨?_, ?_, ?_⟩
  · intro mmap m offset0 offset' hb h
    obtain ⟨b, hm, hfit, ho, hadv, _, _, h1, h2, h3, h4⟩ :=
      settings_block_read_ok (by rw [hb]; exact hv) h
    obtain ⟨f1, f2, f3, _⟩ := hfit
    rw [hb] at f1
    refine ⟨b, hm, ho, by omega, by omega, h1, f2, by omega, by omega, by omega⟩
  · intro mmap offset hb hc
    obtain ⟨idx, hidx⟩ := hloop mmap offset hb _ hc
    cases hidx
  · intro p
    refine ⟨?_, hparse p⟩
    intro hc
    obtain ⟨idx, hidx⟩ := hparse p _ hc
    cases hidx

set_option maxRecDepth 100000 in
/-- C40, checked on `fs_blob`: the block `fs` is read from the offset 43 and
ends at the offset 132, the end of the buffer. -/
theorem settings_block_read_advances_witness :
    valid_mmap_size fs_blob ∧
    settings_block_read { mmap_base := fs_blob } 43 =
      .ok ({ mmap_base := fs_blob, blocks := [example_block fs_blob (cs "fs")] }, 132) ∧
    (∃ b, ({ mmap_base := fs_blob, blocks := [example_block fs_blob (cs "fs")] } :
          settings_mmap) =
        { ({ mmap_base := fs_blob } : settings_mmap) with
          blocks := ({ mmap_base := fs_blob } : settings_mmap).blocks ++ [b] } ∧
      132 = b.block_end_offset ∧ 43 < 132 ∧ 132 ≤ fs_blob.length ∧
      b.settings_keys_offset ≤ b.base_start_offset ∧
      b.base_start_offset ≤ b.base_end_offset ∧
      b.base_end_offset ≤ b.filter_indexes_start_offset ∧
      b.filter_indexes_start_offset ≤ b.filter_offsets_start_offset ∧
      b.filter_offsets_start_offset < b.block_end_offset) ∧
    settings_mmap_parse example_read_params { mmap_base := fs_blob } ≠ .fault .out_of_fuel :=
  ⟨by unfold valid_mmap_size; decide, by decide,
   (settings_block_read_advances fs_blob (by unfold valid_mmap_size; decide)).1
     { mmap_base := fs_blob } _ 43 132 rfl (by decide),
   ((settings_block_read_advances fs_blob (by unfold valid_mmap_size; decide)).2.2
     example_read_params).1⟩


/-- `settings_override_get_filter` aborts exactly when the event filter parser
rejects the filter text generated for the key. -/
theorem settings_override_get_filter_fault_iff (env : settings_env) (set : settings_override)
    (key0 : CStr) (f : settings_fault) :
    settings_override_get_filter env set key0 = .fault f ↔
      f = .panic "BUG: Failed to create event filter filter" ∧
      ∃ text error, (override_compiled env set key0).2 = some text ∧
        env.event_filter_parse_case_sensitive text = .error error := by
  rw [settings_override_get_filter_eq]
  unfold override_parse_filter
  cases ht : (override_compiled env set key0).2 with
  | none => simp
  | some text =>
    cases hp : env.event_filter_parse_case_sensitive text with
    | ok flt => simp [hp]
    | error e =>
      simp only [Res.fault.injEq, Option.some.injEq, exists_and_left, exists_eq_left', hp]
      constructor
      · intro h
        exact ⟨h.symm, e, rfl⟩
      · intro h
        exact h.1.symm

/-- C31, the code at the failing input: for the key `a"b/c/k` the loop peels the
pair `a"b`, `c` and writes the clause with the escaped segment; no named
filter follows, so the `OR` clause on the filter name is added, into which the
segment goes as it is, without `wildcard_str_escape`.  For every event filter
parser that rejects the resulting text, in which the quoted string behind
`settings_filter_name=` ends at the quote of the segment,
`settings_override_get_filter` reaches its panic. -/
theorem settings_override_get_filter_raw_key_panics (env : settings_env)
    (set : settings_override) (error : CStr)
    (hkey : env.wildcard_str_escape (cs "a\"b") = cs "a\\\"b")
    (hvalue : env.str_escape (cs "c") = cs "c")
    (hname : env.wildcard_str_escape (env.settings_section_escape (cs "c")) = cs "c")
    (hparse : env.event_filter_parse_case_sensitive
      (cs "(\"a\\\"b\"=\"c\" OR settings_filter_name=\"a\"b/c\")") = .error error) :
    (override_compiled env set (cs "a\"b/c/k")).2 =
      some (cs "(\"a\\\"b\"=\"c\" OR settings_filter_name=\"a\"b/c\")") ∧
    settings_override_get_filter env set (cs "a\"b/c/k") =
      .fault (.panic "BUG: Failed to create event filter filter") := by
  have hn : override_named_filter (cs "a\"b/c/k") = none := by decide
  have hp : override_key_pairs (cs "a\"b/c/k") = [(cs "a\"b", cs "c")] := by decide
  have hk : override_filter_key (cs "a\"b") = cs "a\"b" := by decide
  have htext : (override_compiled env set (cs "a\"b/c/k")).2 =
      some (cs "(\"a\\\"b\"=\"c\" OR settings_filter_name=\"a\"b/c\")") := by
    simp only [override_compiled, hn, hp, List.getLast?_singleton, override_pair_filter_text,
      List.dropLast_single, override_clauses_text, override_filter_text_and,
      override_clause_text, hk, hkey, hvalue, hname, Option.some.injEq]
    decide
  refine ⟨htext, ?_⟩
  rw [settings_override_get_filter_eq, htext]
  simp only [override_parse_filter, hparse]

set_option maxRecDepth 100000 in
/-- C31, checked on `quoting_example_env`, whose escape functions put a
backslash before a quote and whose parser rejects a text with an unclosed
quoted string. -/
theorem settings_override_get_filter_raw_key_panics_witness :
    quoting_example_env.wildcard_str_escape (cs "a\"b") = cs "a\\\"b" ∧
    quote_scan .outside (cs "(\"a\\\"b\"=\"c\" OR settings_filter_name=\"a\"b/c\")") =
      .inside ∧
    (override_compiled quoting_example_env override_example_set (cs "a\"b/c/k")).2 =
      some (cs "(\"a\\\"b\"=\"c\" OR settings_filter_name=\"a\"b/c\")") ∧
    settings_override_get_filter quoting_example_env override_example_set
        (cs "a\"b/c/k") =
      .fault (.panic "BUG: Failed to create event filter filter") :=
  ⟨by decide, by decide,
   (settings_override_get_filter_raw_key_panics quoting_example_env override_example_set
     (cs "syntax error") (by decide) (by decide) (by decide) (by rfl)).1,
   (settings_override_get_filter_raw_key_panics quoting_example_env override_example_set
     (cs "syntax error") (by decide) (by decide) (by decide) (by rfl)).2⟩

theorem settings_mmap_apply_defaults_loop_value {ctx : settings_apply_ctx} :
    ∀ (ds : List setting_define) (key_idx : Nat) (st st' : settings_apply_state) (u : Unit),
      (∀ j d, ds[j]? = some d → ctx.info.defines[key_idx + j]? = some d) →
      settings_mmap_apply_defaults_loop ctx ds key_idx st = (.ok u, st') →
      st'.set_seen = st.set_seen ∧
      (∀ k d v, key_idx ≤ k → k < key_idx + ds.length → ctx.info.defines[k]? = some d →
        d.type = .SET_STR → st.set_seen k = false → ctx.info.defaults k = some v →
        st.parser.values k = some v →
        st'.parser.values k = some (settings_default_value ctx v)) ∧
      (∀ k, (k < key_idx ∨ key_idx + ds.length ≤ k ∨ st.set_seen k = true ∨
          (∀ d, ctx.info.defines[k]? = some d → d.type ≠ .SET_STR) ∨
          ctx.info.defaults k = none) →
        st'.parser.values k = st.parser.values k) := by
  intro ds
  induction ds with
  | nil =>
    intro key_idx st st' u _ h
    simp only [settings_mmap_apply_defaults_loop, Prod.mk.injEq] at h
    rw [← h.2]
    refine ⟨rfl, ?_, fun _ _ => rfl⟩
    intro k d v h1 h2
    simp only [List.length_nil, Nat.add_zero] at h2
    omega
  | cons d ds ih =>
    intro key_idx st st' u hds h
    have hd : ctx.info.defines[key_idx]? = some d := by
      have := hds 0 d (by simp)
      simpa using this
    have hds' : ∀ j d', ds[j]? = some d' → ctx.info.defines[key_idx + 1 + j]? = some d' := by
      intro j d' hj
      have := hds (j + 1) d' (by simpa using hj)
      rw [← this]
      congr 1
      omega
    -- the loop goes on with an unchanged state: key_idx keeps its value
    have hskip : settings_mmap_apply_defaults_loop ctx ds (key_idx + 1) st = (.ok u, st') →
        (st.set_seen key_idx = false → d.type = .SET_STR →
          ∀ v, ctx.info.defaults key_idx = some v → settings_default_value ctx v = v) →
        st'.set_seen = st.set_seen ∧
        (∀ k d v, key_idx ≤ k → k < key_idx + (d :: ds).length →
          ctx.info.defines[k]? = some d →
          d.type = .SET_STR → st.set_seen k = false → ctx.info.defaults k = some v →
          st.parser.values k = some v →
          st'.parser.values k = some (settings_default_value ctx v)) ∧
        (∀ k, (k < key_idx ∨ key_idx + (d :: ds).length ≤ k ∨ st.set_seen k = true ∨
            (∀ d, ctx.info.defines[k]? = some d → d.type ≠ .SET_STR) ∨
            ctx.info.defaults k = none) →
          st'.parser.values k = st.parser.values k) := by
      intro h' hsame
      obtain ⟨i1, i2, i3⟩ := ih _ _ _ _ hds' h'
      refine ⟨i1, ?_, ?_⟩
      · intro k d' v h1 h2 h3 h4 h5 h6 h7
        simp only [List.length_cons] at h2
        by_cases e : k = key_idx
        · subst e
          rw [hd] at h3
          simp only [Option.some.injEq] at h3
          subst h3
          rw [hsame h5 h4 v h6, i3 k (Or.inl (by omega)), h7]
        · exact i2 k d' v (by omega) (by omega) h3 h4 h5 h6 h7
      · intro k hk
        simp only [List.length_cons] at hk
        by_cases e : k = key_idx
        · subst e
          exact i3 k (Or.inl (by omega))
        · apply i3 k
          rcases hk with hk | hk | hk | hk | hk
          · exact Or.inl (by omega)
          · exact Or.inr (Or.inl (by omega))
          · exact Or.inr (Or.inr (Or.inl hk))
          · exact Or.inr (Or.inr (Or.inr (Or.inl hk)))
          · exact Or.inr (Or.inr (Or.inr (Or.inr hk)))
    unfold settings_mmap_apply_defaults_loop at h
    split at h
    · rename_i hseen
      exact hskip h (fun hc => by rw [hseen] at hc; cases hc)
    · rename_i hseen
      split at h
      · rename_i htype
        exact hskip h (fun _ hc => absurd hc htype)
      · rename_i htype
        split at h
        · rename_i hnone
          exact hskip h (fun _ _ v hv => by rw [hnone] at hv; cases hv)
        · rename_i valuep hsome
          simp only [] at h
          split at h
          · simp only [Prod.mk.injEq] at h; cases h.1
          · split at h
            · rename_i hne
              have hne' : ctx.flags.SETTINGS_GET_FLAG_NO_EXPAND = false := by simpa using hne
              split at h
              · simp only [Prod.mk.injEq] at h; cases h.1
              · split at h
                · rename_i hdiff
                  split at h
                  · rename_i hacc
                    obtain ⟨i1, i2, i3⟩ := ih _ _ _ _ hds' h
                    have htype' : d.type = .SET_STR := by simpa using htype
                    have hval := settings_parse_assign_values_ok ctx.info st.parser key_idx d
                      d.key (ctx.env.var_expand_with_funcs ctx.table ctx.func_table
                        ctx.func_context valuep).1 hd (by rw [htype']; decide)
                      (by rw [htype']; decide) hacc
                    refine ⟨i1, ?_, ?_⟩
                    · intro k d' v h1 h2 h3 h4 h5 h6 h7
                      simp only [List.length_cons] at h2
                      by_cases e : k = key_idx
                      · subst e
                        rw [hsome] at h6
                        simp only [Option.some.injEq] at h6
                        subst h6
                        rw [i3 k (Or.inl (by omega))]
                        simp only [settings_default_value, hne', Bool.false_eq_true, if_false]
                        exact hval
                      · refine i2 k d' v (by omega) (by omega) h3 h4 h5 h6 ?_
                        simp only [settings_parse_keyidx_value]
                        rw [settings_parse_assign_values_ne _ _ _ _ _ _ e]
                        exact h7
                    · intro k hk
                      simp only [List.length_cons] at hk
                      have e : k ≠ key_idx := by
                        intro e
                        subst e
                        rcases hk with hk | hk | hk | hk | hk
                        · omega
                        · omega
                        · rw [hk] at hseen; exact hseen rfl
                        · exact hk d hd htype'
                        · rw [hk] at hsome; cases hsome
                      have hv1 : (settings_parse_keyidx_value ctx.info st.parser key_idx d.key
                          (ctx.env.var_expand_with_funcs ctx.table ctx.func_table
                            ctx.func_context valuep).1).2.values k = st.parser.values k := by
                        simp only [settings_parse_keyidx_value]
                        exact settings_parse_assign_values_ne _ _ _ _ _ _ e
                      rw [← hv1]
                      apply i3 k
                      rcases hk with hk | hk | hk | hk | hk
                      · exact Or.inl (by omega)
                      · exact Or.inr (Or.inl (by omega))
                      · exact Or.inr (Or.inr (Or.inl hk))
                      · exact Or.inr (Or.inr (Or.inr (Or.inl hk)))
                      · exact Or.inr (Or.inr (Or.inr (Or.inr hk)))
                  · simp only [Prod.mk.injEq] at h; cases h.1
                · rename_i hsame
                  refine hskip h (fun _ _ v hv => ?_)
                  rw [hsome] at hv
                  simp only [Option.some.injEq] at hv
                  subst hv
                  simp only [settings_default_value, hne', Bool.false_eq_true, if_false]
                  have : valuep = (ctx.env.var_expand_with_funcs ctx.table ctx.func_table
                      ctx.func_context valuep).1 := by simpa using hsame
                  exact this.symm
            · rename_i hne
              refine hskip h (fun _ _ v hv => ?_)
              have hne' : ctx.flags.SETTINGS_GET_FLAG_NO_EXPAND = true := by simpa using hne
              simp only [settings_default_value, hne', if_true]

theorem settings_instance_get_merge_parts {ctx : settings_apply_ctx}
    {st st' : settings_apply_state} {sf : Bool}
    (h : settings_instance_get_merge ctx st = (.ok sf, st')) :
    ∃ sf1 st1 st2, settings_instance_override ctx st = (.ok sf1, st1) ∧
      (match ctx.inst.mmap with
       | none => st2 = st1
       | some mmap => ∃ sf2, settings_mmap_apply ctx mmap st1 = (.ok sf2, st2)) ∧
      settings_mmap_apply_defaults ctx st2 = (.ok (), st') := by
  unfold settings_instance_get_merge at h
  cases ho : settings_instance_override ctx st with
  | mk ro st1 =>
    rw [ho] at h
    cases ro with
    | error e => cases h
    | fault f => cases h
    | ok sf1 =>
      simp only at h
      cases hm : ctx.inst.mmap with
      | none =>
        rw [hm] at h
        simp only at h
        cases hdf : settings_mmap_apply_defaults ctx st1 with
        | mk rd st3 =>
          rw [hdf] at h
          cases rd with
          | error e => cases h
          | fault f => cases h
          | ok u =>
            simp only [Prod.mk.injEq] at h
            refine ⟨sf1, st1, st1, rfl, rfl, ?_⟩
            rw [hdf, h.2]
      | some mmap =>
        rw [hm] at h
        simp only at h
        cases ha : settings_mmap_apply ctx mmap st1 with
        | mk ra st2 =>
          rw [ha] at h
          cases ra with
          | error e => cases h
          | fault f => cases h
          | ok sf2 =>
            simp only at h
            cases hdf : settings_mmap_apply_defaults ctx st2 with
            | mk rd st3 =>
              rw [hdf] at h
              cases rd with
              | error e => cases h
              | fault f => cases h
              | ok u =>
                simp only [Prod.mk.injEq] at h
                refine ⟨sf1, st1, st2, rfl, ⟨sf2, ha⟩, ?_⟩
                rw [hdf, h.2]

/-- After a merge that no override and no pair of the block took part in for
the string key `k`, the key is not marked as seen and holds the text that the
defaults pass makes of its compiled default. -/
theorem settings_instance_get_merge_default {ctx : settings_apply_ctx} {k : Nat}
    {d : setting_define} {v : CStr} {sf : Bool} {st' : settings_apply_state}
    (hd : ctx.info.defines[k]? = some d) (ht : d.type = .SET_STR)
    (hdef : ctx.info.defaults k = some v)
    (hover : ∀ o ∈ ctx.inst.overrides ++ ctx.root.overrides, override_misses ctx o k)
    (hblock : ∀ mmap block, ctx.inst.mmap = some mmap →
      mmap.lookup ctx.info.name = some block → settings_block_value ctx mmap block k = none)
    (h : settings_instance_get_merge ctx (settings_apply_state_init ctx) = (.ok sf, st')) :
    st'.set_seen k = false ∧ st'.parser.values k = some (settings_default_value ctx v) := by
  obtain ⟨sf1, st1, st2, ho, ha, hdf⟩ := settings_instance_get_merge_parts h
  have hk : scalar_key ctx.info k := ⟨d, hd, by rw [ht]; decide, by rw [ht]; decide⟩
  unfold settings_instance_override at ho
  simp only [] at ho
  obtain ⟨a1, a2⟩ := @settings_instance_override_loop_misses ctx k
    _ _ _ _ _ (fun o ho' => hover o (array_sort_mem ho')) ho
  have hu1 : st1.set_seen k = false := by rw [a1]; rfl
  have hv1 : st1.parser.values k = some v := by rw [a2]; exact hdef
  have h2 : st2.set_seen k = false ∧ st2.parser.values k = some v := by
    cases hm : ctx.inst.mmap with
    | none =>
      rw [hm] at ha
      simp only at ha
      rw [ha]
      exact ⟨hu1, hv1⟩
    | some mmap =>
      rw [hm] at ha
      obtain ⟨sf2, ha⟩ := ha
      obtain ⟨block, hb, hval⟩ := @settings_mmap_apply_value ctx mmap st1 st2 sf2 k hk hu1 ha
      rw [hblock mmap block hm hb] at hval
      simp only at hval
      exact ⟨hval.1, by rw [hval.2, hv1]⟩
  unfold settings_mmap_apply_defaults at hdf
  obtain ⟨d1, d2, d3⟩ := settings_mmap_apply_defaults_loop_value ctx.info.defines 0 st2 st' ()
    (by intro j d' hj; simpa using hj) hdf
  have hlt : k < ctx.info.defines.length := by
    rcases Nat.lt_or_ge k ctx.info.defines.length with hlt | hge
    · exact hlt
    · rw [List.getElem?_eq_none hge] at hd
      cases hd
  refine ⟨by rw [d1]; exact h2.1, ?_⟩
  exact d2 k d v (Nat.zero_le _) (by omega) hd ht h2.1 hdef h2.2

set_option maxRecDepth 100000 in
/-- C33, the code at the failing input: with a variable expansion that makes
`alice` of `%u` and without `SETTINGS_GET_FLAG_NO_EXPAND`, the text `%u`
resolves to `alice` when it is the compiled default of `user_name`
(`settings_mmap_apply_defaults`) and when it is the value of the base pair of
`user_shell` (`settings_mmap_apply_key`), but the override `user_name=%u`
resolves to `%u`: `settings_instance_override` does not expand the value. -/
theorem settings_override_value_not_expanded :
    (expand_example_env.var_expand_with_funcs .empty none none (cs "%u")).1 = cs "alice" ∧
    (expand_example_ctx []).flags.SETTINGS_GET_FLAG_NO_EXPAND = false ∧
    resolved_value (settings_instance_get (expand_example_ctx [])).1 0 = some (cs "alice") ∧
    resolved_value (settings_instance_get (expand_example_ctx [])).1 1 = some (cs "alice") ∧
    resolved_value (settings_instance_get (expand_example_ctx [expand_example_override])).1 0 =
      some (cs "%u") := by
  refine ⟨by decide, rfl, by rfl, by rfl, by rfl⟩

/-- The resolved value of a string-typed key `k` by its source, when
`SETTINGS_GET_FLAG_NO_EXPAND` is not set: it is the variable expansion of the
winning raw value when that value comes from the block (a matching filter
assignment or the base region) or from the compiled default; when it comes from
an override (the first override of the sorted merge list that is in scope and
resolves to `k`) it is the override's value as it is, without expansion.  Each
part holds when the validation callback keeps the value. -/
theorem settings_instance_get_expands_blob_and_default (ctx0 : settings_apply_ctx) (k : Nat)
    (d : setting_define) (s : setting_parser_context) (st : settings_apply_state)
    (hd : ctx0.info.defines[k]? = some d) (ht : d.type = .SET_STR)
    (hflag : ctx0.flags.SETTINGS_GET_FLAG_NO_EXPAND = false)
    (hres : settings_instance_get ctx0 = (.ok (some s), st)) :
    (∀ (o : settings_override) (pre post : List settings_override),
      array_sort settings_override_cmp (ctx0.inst.overrides ++ ctx0.root.overrides) =
        pre ++ o :: post →
      (∀ o' ∈ pre, override_misses (settings_instance_get_ctx ctx0) o' k) →
      override_targets (settings_instance_get_ctx ctx0) o k →
      check_keeps ctx0.info k o.value →
      s.values k = some o.value) ∧
    (∀ (mmap : settings_mmap) (block : settings_mmap_block) (v : CStr),
      ctx0.inst.mmap = some mmap → mmap.lookup ctx0.info.name = some block →
      (∀ o ∈ ctx0.inst.overrides ++ ctx0.root.overrides,
        override_misses (settings_instance_get_ctx ctx0) o k) →
      settings_block_value (settings_instance_get_ctx ctx0) mmap block k = some v →
      check_keeps ctx0.info k
        ((settings_instance_get_ctx ctx0).env.var_expand_with_funcs
          (settings_instance_get_ctx ctx0).table (settings_instance_get_ctx ctx0).func_table
          (settings_instance_get_ctx ctx0).func_context v).1 →
      s.values k = some
        ((settings_instance_get_ctx ctx0).env.var_expand_with_funcs
          (settings_instance_get_ctx ctx0).table (settings_instance_get_ctx ctx0).func_table
          (settings_instance_get_ctx ctx0).func_context v).1) ∧
    (∀ (v : CStr), ctx0.info.defaults k = some v →
      (∀ o ∈ ctx0.inst.overrides ++ ctx0.root.overrides,
        override_misses (settings_instance_get_ctx ctx0) o k) →
      (∀ mmap block, ctx0.inst.mmap = some mmap → mmap.lookup ctx0.info.name = some block →
        settings_block_value (settings_instance_get_ctx ctx0) mmap block k = none) →
      check_keeps ctx0.info k
        ((settings_instance_get_ctx ctx0).env.var_expand_with_funcs
          (settings_instance_get_ctx ctx0).table (settings_instance_get_ctx ctx0).func_table
          (settings_instance_get_ctx ctx0).func_context v).1 →
      s.values k = some
        ((settings_instance_get_ctx ctx0).env.var_expand_with_funcs
          (settings_instance_get_ctx ctx0).table (settings_instance_get_ctx ctx0).func_table
          (settings_instance_get_ctx ctx0).func_context v).1) := by
  have hk : scalar_key ctx0.info k := ⟨d, hd, by rw [ht]; decide, by rw [ht]; decide⟩
  have hflag' : (settings_instance_get_ctx ctx0).flags.SETTINGS_GET_FLAG_NO_EXPAND = false :=
    hflag
  refine ⟨?_, ?_, ?_⟩
  · intro o pre post hsort hpre htarget hcheck
    exact settings_instance_get_first_override ctx0 k o pre post s st hk hsort hpre htarget
      hcheck hres
  · intro mmap block v hm hb hover hv hcheck
    obtain ⟨d', v', hd', he, hval⟩ := settings_instance_get_block_value hm hb hk hover hv hres
    rw [hd] at hd'
    simp only [Option.some.injEq] at hd'
    subst hd'
    have := settings_mmap_apply_key_expand_str ht hflag' he
    subst this
    exact hval hcheck
  · intro v hdef hover hblock hcheck
    obtain ⟨sf, st1, hmg, hs⟩ := settings_instance_get_ok hres
    obtain ⟨_, hv⟩ := @settings_instance_get_merge_default (settings_instance_get_ctx ctx0) k d v
      sf st1 hd ht hdef hover hblock hmg
    simp only [settings_default_value, hflag', Bool.false_eq_true, if_false] at hv
    rcases hs with hs | hs
    · rw [hs]; exact hv
    · exact hcheck _ _ hs hv

set_option maxRecDepth 100000 in
/-- The values by source on the schema `user` with the override `user_name=%u`:
the resolved `user_name` is `%u`, the override's value as it is, and the
resolved `user_shell` is `alice`, the expansion of the value `%u` of the base
pair. -/
theorem settings_instance_get_expands_blob_and_default_witness :
    ∃ s st, settings_instance_get (expand_example_ctx [expand_example_override]) =
        (.ok (some s), st) ∧
      s.values 0 = some (cs "%u") ∧ s.values 1 = some (cs "alice") :=
  ⟨_, _, rfl,
   (settings_instance_get_expands_blob_and_default
      (expand_example_ctx [expand_example_override]) 0 ⟨.SET_STR, cs "user_name"⟩ _ _
      rfl rfl rfl rfl).1 expand_example_override [] [] rfl (by simp)
      ⟨rfl, fun _ => ⟨_, rfl⟩⟩ (check_keeps_none _ _ _ rfl),
   (settings_instance_get_expands_blob_and_default
      (expand_example_ctx [expand_example_override]) 1 ⟨.SET_STR, cs "user_shell"⟩ _ _
      rfl rfl rfl rfl).2.1 (example_mmap (encode_model expand_example_model))
      (example_block (encode_model expand_example_model) (cs "user")) (cs "%u") rfl (by rfl)
      (by
        intro o ho
        have ho' : o ∈ [expand_example_override] := ho
        simp only [List.mem_singleton] at ho'
        subst ho'
        exact Or.inr (fun _ => Or.inr ⟨cs "user_name", 0, cs "%u", rfl, by decide⟩))
      (by decide) (check_keeps_none _ _ _ rfl)⟩

theorem memchr_append_right {c : Byte} {a b : List Byte} (h : memchr c a = none) :
    memchr c (a ++ b) = (memchr c b).map (fun i => i + a.length) := by
  induction a with
  | nil => simp
  | cons x xs ih =>
    have hx : ¬ x = c := by
      intro e
      simp [memchr, e] at h
    have hxs : memchr c xs = none := by
      cases hm : memchr c xs with
      | none => rfl
      | some i => simp [memchr, hx, hm] at h
    have e : memchr c (x :: xs ++ b) =
        if x = c then some 0 else (memchr c (xs ++ b)).map (fun i => i + 1) := rfl
    rw [e, if_neg hx, ih hxs]
    cases memchr c b with
    | none => rfl
    | some i =>
      simp only [Option.map_some', List.length_cons, Option.some.injEq]
      omega

theorem memchr_replicate_ne {c x : Byte} (n : Nat) (h : x ≠ c) :
    memchr c (List.replicate n x) = none := by
  rw [memchr_none_iff]
  intro hc
  exact h (List.eq_of_mem_replicate hc).symm

/-- The start of `settings_mmap_parse` with a mapping that has no zero fill is
`settings_mmap_parse_full_size` on the buffer itself: a read that leaves the
mapping there leaves the buffer here. -/
theorem settings_mmap_parse_full_size_fault {p : settings_read_params} {base : List Byte}
    {f : settings_fault}
    (h : settings_mmap_parse_full_size base base.length = .fault f) :
    settings_mmap_parse p { mmap_base := base } = .fault f := by
  unfold settings_mmap_parse
  unfold settings_mmap_parse_full_size at h
  simp only [List.take_length, settings_mmap.mmap_size] at h ⊢
  cases hm : memchr 10 base with
  | none => rw [hm] at h; cases h
  | some eol =>
    rw [hm] at h
    simp only at h ⊢
    split at h
    · cases h
    · rename_i hc
      rw [if_neg hc]
      cases h1 : read_byte base magic_header.length with
      | error e => rw [h1] at h; cases h
      | fault f1 =>
        rw [h1] at h
        simp only [Res.bind, Res.fault.injEq] at h ⊢
        exact h
      | ok c1 =>
        rw [h1] at h
        simp only [Res.bind_ok] at h ⊢
        split at h
        · cases h
        · rename_i hc1
          rw [if_neg hc1]
          cases h2 : read_byte base (magic_header.length + 1) with
          | error e => rw [h2] at h; cases h
          | fault f2 =>
            rw [h2] at h
            simp only [Res.bind, Res.fault.injEq] at h ⊢
            exact h
          | ok c2 =>
            rw [h2] at h
            simp only [Res.bind_ok] at h ⊢
            split at h
            · cases h
            · rename_i hc2
              rw [if_neg hc2]
              cases h3 : be64_to_cpu_unaligned base (eol + 1) with
              | error e => rw [h3] at h; cases h
              | fault f3 =>
                rw [h3] at h
                simp only [Res.bind, Res.fault.injEq] at h ⊢
                exact h
              | ok v =>
                rw [h3] at h
                simp only [Res.bind_ok] at h
                split at h <;> cases h

theorem page_header_blob_length : page_header_blob.length = 4096 := by
  have h : (cs "DOVECOT-CONFIG\t1.0").length = 18 := by decide
  simp only [page_header_blob, List.length_append, List.length_replicate, h,
    List.length_singleton]

theorem page_header_blob_eol : memchr 10 page_header_blob = some 4095 := by
  have h : (cs "DOVECOT-CONFIG\t1.0").length = 18 := by decide
  have hn : memchr 10 (cs "DOVECOT-CONFIG\t1.0" ++ List.replicate 4077 120) = none := by
    rw [memchr_append_right (by decide), memchr_replicate_ne 4077 (by decide)]
    rfl
  unfold page_header_blob
  rw [memchr_append_right hn]
  simp only [List.length_append, List.length_replicate, h]
  rfl

theorem page_header_blob_pages : mmap_ro_file_pages page_header_blob = page_header_blob := by
  unfold mmap_ro_file_pages
  rw [page_header_blob_length]
  simp

theorem page_header_blob_full_size :
    settings_mmap_parse_full_size page_header_blob 4096 = .fault (.mmap_read 4096) := by
  have hl := page_header_blob_length
  have ht : page_header_blob.take 4096 = page_header_blob := by
    rw [← hl]; exact List.take_length _
  have hpre : page_header_blob =
      [68, 79, 86, 69, 67, 79, 84, 45, 67, 79, 78, 70, 73, 71, 9, 49, 46] ++
        ([48] ++ List.replicate 4077 120 ++ [10]) := by
    have h : cs "DOVECOT-CONFIG\t1.0" =
        [68, 79, 86, 69, 67, 79, 84, 45, 67, 79, 78, 70, 73, 71, 9, 49, 46] ++ [48] := by decide
    unfold page_header_blob
    rw [h]
    simp only [List.append_assoc]
  have h15 : page_header_blob.take magic_header.length = magic_header := by
    rw [hpre]
    decide
  have hb1 : read_byte page_header_blob magic_header.length = .ok 49 := by
    rw [hpre]
    rfl
  have hb2 : read_byte page_header_blob (magic_header.length + 1) = .ok 46 := by
    rw [hpre]
    rfl
  have hb3 : be64_to_cpu_unaligned page_header_blob (4095 + 1) = .fault (.mmap_read 4096) := by
    unfold be64_to_cpu_unaligned read_bytes
    rw [hl]
    rfl
  unfold settings_mmap_parse_full_size
  simp only [ht, page_header_blob_eol, h15, hb1, hb2, hb3]
  decide

theorem truncated_size_blob_full_size :
    settings_mmap_parse_full_size (mmap_ro_file_pages truncated_size_blob) 22 =
      .error (.full_size_mismatch 19 8 0 22) := by
  have hp : mmap_ro_file_pages truncated_size_blob =
      truncated_size_blob ++ List.replicate 4074 0 := by
    unfold mmap_ro_file_pages
    have : truncated_size_blob.length = 22 := by decide
    rw [this]
  have hl : truncated_size_blob.length = 22 := by decide
  have ht : (truncated_size_blob ++ List.replicate 4074 0).take 22 = truncated_size_blob := by
    rw [← hl]; exact List.take_left _ _
  have hpre : truncated_size_blob ++ List.replicate 4074 0 =
      [68, 79, 86, 69, 67, 79, 84, 45, 67, 79, 78, 70, 73, 71, 9, 49, 46, 48, 10] ++
        ([0, 0, 0, 0, 0, 0, 0, 0] ++ List.replicate 4069 0) := by
    have h : truncated_size_blob =
        [68, 79, 86, 69, 67, 79, 84, 45, 67, 79, 78, 70, 73, 71, 9, 49, 46, 48, 10] ++
          [0, 0, 0] := by decide
    have hr : List.replicate 4074 (0 : Byte) = [0, 0, 0, 0, 0] ++ List.replicate 4069 0 := by
      rw [show (4074 : Nat) = 5 + 4069 from rfl, List.replicate_add]
      rfl
    rw [h, hr]
    simp only [List.append_assoc, List.cons_append, List.nil_append]
  have h15 : (truncated_size_blob ++ List.replicate 4074 0).take magic_header.length =
      magic_header := by
    rw [hpre]
    decide
  have hb1 : read_byte (truncated_size_blob ++ List.replicate 4074 0) magic_header.length =
      .ok 49 := by
    rw [hpre]
    rfl
  have hb2 : read_byte (truncated_size_blob ++ List.replicate 4074 0)
      (magic_header.length + 1) = .ok 46 := by
    rw [hpre]
    rfl
  have hb3 : be64_to_cpu_unaligned (truncated_size_blob ++ List.replicate 4074 0) (18 + 1) =
      .ok 0 := by
    unfold be64_to_cpu_unaligned read_bytes
    have hlen : (truncated_size_blob ++ List.replicate 4074 0).length = 4096 := by
      rw [List.length_append, List.length_replicate, hl]
    rw [hlen, hpre]
    rfl
  have hm : memchr 10 truncated_size_blob = some 18 := by decide
  rw [hp]
  unfold settings_mmap_parse_full_size
  simp only [ht, hm, h15, hb1, hb2, hb3]
  decide

/-- C11 (code at the failing input): the file `page_header_blob` fills one page
of 4096 bytes with a valid header line of length 4096, so the buffer is shorter
than the header line and the size field together, and its mapping has no zero
fill.  `settings_mmap_parse` reads the 8-byte total size at offset 4096, behind
the mapped page, and returns no error.  (On the 22-byte file
`truncated_size_blob` the same read gets the zero fill of the page, and the
result is the error "Full size mismatch".) -/
theorem settings_mmap_parse_size_field_behind_page :
    page_header_blob.length = 4096 ∧
    memchr 10 page_header_blob = some 4095 ∧
    mmap_ro_file_pages page_header_blob = page_header_blob ∧
    settings_mmap_parse_full_size (mmap_ro_file_pages page_header_blob)
      page_header_blob.length = .fault (.mmap_read 4096) ∧
    settings_mmap_parse example_read_params { mmap_base := page_header_blob } =
      .fault (.mmap_read 4096) ∧
    settings_mmap_parse_full_size (mmap_ro_file_pages truncated_size_blob)
      truncated_size_blob.length = .error (.full_size_mismatch 19 8 0 22) := by
  have hl : truncated_size_blob.length = 22 := by decide
  refine ⟨page_header_blob_length, page_header_blob_eol, page_header_blob_pages, ?_, ?_, ?_⟩
  · rw [page_header_blob_pages, page_header_blob_length]
    exact page_header_blob_full_size
  · apply settings_mmap_parse_full_size_fault
    rw [page_header_blob_length]
    exact page_header_blob_full_size
  · rw [hl]
    exact truncated_size_blob_full_size

end Settings
